import Mathlib

/-!
# Composite decomposition over the dot graph primitives

A shallow embedding of `dotx/composite.go` and `node.go`.

Go values that are shared by reference (`*dot.Graph`, and the Go map held by an
`AttributesMap`) live in an explicit heap, the `World`; a reference is an index into
that heap.  An operation that mutates the heap takes the world and returns the new one;
an operation that would dereference an invalid reference returns `none`.
-/

namespace dot

/-! ## Attribute values and attribute maps -/

/-- The values stored in an attribute map: Go `interface{}` restricted to the
dynamic types the code stores (`nil`, strings, integers, booleans). -/
inductive Value where
  | nil
  | str (s : String)
  | int (i : Int)
  | bool (b : Bool)
deriving DecidableEq, Repr

/-- The content of one Go `map[string]interface{}`: at most one entry per key. -/
abbrev Attrs := List (String × Value)

/-- Go `m[k] = v`: replaces the entry of `k` or adds one. -/
def Attrs.set : Attrs → String → Value → Attrs
  | [], k, v => [(k, v)]
  | (k', v') :: rest, k, v =>
    if k' = k then (k, v) :: rest else (k', v') :: Attrs.set rest k v

/-- Go `m[k]`: the stored value, `nil` when the key is missing. -/
def Attrs.get (m : Attrs) (k : String) : Value :=
  match m.lookup k with
  | some v => v
  | none => Value.nil

/-- A reference to a Go map in the heap. -/
abbrev AttrRef := Nat

/-- A reference to a `dot.Graph` in the heap (Go `*dot.Graph`). -/
abbrev GraphRef := Nat

/-- Go `dot.AttributesMap`: a struct whose only field `attributes` is a Go map, so
copies of the struct share the map (`attr_test.go` reads `g.attributes["l"]`,
`node.go` reads `n.attributes[name]`). -/
structure AttributesMap where
  attributes : AttrRef
deriving DecidableEq, Repr

/-- Go `dot.Node` (`node.go`): `AttributesMap`, `graph *Graph`, `id string`, `seq int`. -/
structure Node extends AttributesMap where
  graph : GraphRef
  id : String
  seq : Nat
deriving DecidableEq, Repr

/-- Modelled from the spec: `dot.Edge` (`edge.go` is not among the sources).  An ordered
pair of nodes, each endpoint optionally annotated with a compass port, with its own
attribute mapping and the graph that holds it. -/
structure Edge extends AttributesMap where
  graph : GraphRef
  fromNode : Node
  toNode : Node
  fromPort : String
  toPort : String
deriving DecidableEq, Repr

/-- Modelled from the spec: the configuration items accepted by graph construction
(`dot.Directed`, `dot.ClusterOption{}`, ...; `graph.go` is not among the sources). -/
inductive GraphOption where
  | Directed
  | Undirected
  | ClusterOption
deriving DecidableEq, Repr

/-- Modelled from the spec: `dot.Graph` (`graph.go` is not among the sources).  A graph
owns a node set keyed by id, an append-only edge list and nested subgraphs registered
under an id, and has its own attribute mapping; `options` records the configuration the
graph was built with. -/
structure Graph extends AttributesMap where
  options : List GraphOption
  nodes : List Node
  edges : List Edge
  subgraphs : List (String × GraphRef)
deriving DecidableEq, Repr

/-- The heap: every graph and every attribute map created so far, and the counter
that numbers the nodes. -/
structure World where
  graphs : List Graph
  attrs : List Attrs
  seq : Nat
deriving DecidableEq, Repr

/-- The world before anything is created. -/
def World.empty : World := { graphs := [], attrs := [], seq := 0 }

/-- The content of the map behind an `AttributesMap`. -/
def World.attrsOf (W : World) (a : AttributesMap) : Attrs :=
  (W.attrs[a.attributes]?).getD []

/-- Modelled from the spec: `AttributesMap.SetAttribute` (`attr.go` is not among the
sources).  Stores `label = value` in the map; an empty label or a nil value is skipped
(`TestAttributesMap_EmptyKey_NilValue`).  Writing into a map that does not exist fails. -/
def AttributesMap.SetAttribute (a : AttributesMap) (label : String) (value : Value)
    (W : World) : Option World :=
  if label = "" ∨ value = Value.nil then some W
  else
    match W.attrs[a.attributes]? with
    | none => none
    | some m => some { W with attrs := W.attrs.set a.attributes (m.set label value) }

/-- Modelled from the spec: `AttributesMap.Value`, the stored value or nil. -/
def AttributesMap.Value (a : AttributesMap) (label : String) (W : World) : Value :=
  (W.attrsOf a).get label

/-! ## Graph primitives -/

/-- Whether the graph is flagged as a cluster. -/
def Graph.isCluster (G : Graph) : Bool := G.options.contains GraphOption.ClusterOption

/-- Whether the graph was built with the directedness flag. -/
def Graph.isDirected (G : Graph) : Bool := G.options.contains GraphOption.Directed

/-- Modelled from the spec: `dot.NewGraph(options...)` (`graph.go` is not among the
sources).  A freshly constructed graph with no nodes, no edges and no subgraphs. -/
def NewGraph (options : List GraphOption) (W : World) : GraphRef × World :=
  (W.graphs.length,
    { W with
      graphs := W.graphs ++
        [{ attributes := W.attrs.length, options := options, nodes := [], edges := [],
           subgraphs := [] }]
      attrs := W.attrs ++ [[]] })

/-- Modelled from the spec: `(*Graph).Subgraph(id, options...)` (`graph.go` is not
among the sources).  The subgraph registered under `id`, created inside `g` when absent. -/
def Graph.Subgraph (g : GraphRef) (id : String) (options : List GraphOption) (W : World) :
    Option (GraphRef × World) :=
  match W.graphs[g]? with
  | none => none
  | some G =>
    match G.subgraphs.lookup id with
    | some r => some (r, W)
    | none =>
      some (W.graphs.length,
        { W with
          graphs := W.graphs.set g { G with subgraphs := G.subgraphs ++ [(id, W.graphs.length)] } ++
            [{ attributes := W.attrs.length, options := options, nodes := [], edges := [],
               subgraphs := [] }]
          attrs := W.attrs ++ [[]] })

/-- Modelled from the spec: `(*Graph).Node(id)` (`graph.go` is not among the sources).
Idempotent lookup-or-create in the node set of `g`, keyed by id. -/
def Graph.Node (g : GraphRef) (id : String) (W : World) : Option (dot.Node × World) :=
  match W.graphs[g]? with
  | none => none
  | some G =>
    match G.nodes.find? (fun n => n.id = id) with
    | some n => some (n, W)
    | none =>
      some ({ attributes := W.attrs.length, graph := g, id := id, seq := W.seq + 1 },
        { graphs := W.graphs.set g
            { G with nodes := G.nodes ++
                [{ attributes := W.attrs.length, graph := g, id := id, seq := W.seq + 1 }] }
          attrs := W.attrs ++ [[]]
          seq := W.seq + 1 })

/-- Modelled from the spec: `(*Graph).HasNode(n)` (`graph.go` is not among the sources).
The membership test "does this graph contain this node". -/
def Graph.HasNode (g : GraphRef) (n : dot.Node) (W : World) : Option Bool :=
  match W.graphs[g]? with
  | none => none
  | some G => some (decide (n ∈ G.nodes))

/-- Modelled from the spec: `(*Graph).EdgeWithPorts(from, to, fromPort, toPort, labels...)`
(`graph.go` is not among the sources).  Appends a new edge to the edge list of `g`, also
when an equal edge exists; given labels become the `label` attribute. -/
def Graph.EdgeWithPorts (g : GraphRef) (fromNode toNode : dot.Node) (fromPort toPort : String)
    (labels : List String) (W : World) : Option (Edge × World) :=
  match W.graphs[g]? with
  | none => none
  | some G =>
    some ({ attributes := W.attrs.length, graph := g, fromNode := fromNode, toNode := toNode,
            fromPort := fromPort, toPort := toPort },
      { W with
        graphs := W.graphs.set g
          { G with edges := G.edges ++
              [{ attributes := W.attrs.length, graph := g, fromNode := fromNode,
                 toNode := toNode, fromPort := fromPort, toPort := toPort }] }
        attrs := W.attrs ++
          [if labels = [] then [] else [("label", Value.str (",".intercalate labels))]] })

/-- Modelled from the spec: `(*Graph).Edge(from, to, labels...)` (`graph.go` is not among
the sources): an edge without endpoint ports. -/
def Graph.Edge (g : GraphRef) (fromNode toNode : dot.Node) (labels : List String) (W : World) :
    Option (dot.Edge × World) :=
  Graph.EdgeWithPorts g fromNode toNode "" "" labels W

/-! ## Edge methods -/

/-- Modelled from the spec: `Edge.SetAttribute` (`edge.go` is not among the sources);
sets the attribute and returns the edge for chaining. -/
def Edge.SetAttribute (e : Edge) (label : String) (value : Value) (W : World) :
    Option (Edge × World) :=
  match e.toAttributesMap.SetAttribute label value W with
  | none => none
  | some W' => some (e, W')

/-- Modelled from the spec: `Edge.Label` (`edge.go` is not among the sources); sets the
attribute `label`. -/
def Edge.Label (e : Edge) (label : String) (W : World) : Option (Edge × World) :=
  e.SetAttribute "label" (Value.str label) W

/-- Modelled from the spec: `Edge.From` (`edge.go` is not among the sources). -/
def Edge.From (e : Edge) : Node := e.fromNode

/-- Modelled from the spec: `Edge.To` (`edge.go` is not among the sources). -/
def Edge.To (e : Edge) : Node := e.toNode

/-- Modelled from the spec: `Edge.Attribute` (`edge.go` is not among the sources), the
value stored by a name, nil if missing. -/
def Edge.Attribute (e : Edge) (name : String) (W : World) : Value :=
  (W.attrsOf e.toAttributesMap).get name

/-! ## Node methods (`node.go`) -/

/-- Go `func (n Node) ID() string`. -/
def Node.ID (n : Node) : String := n.id

/-- Go `func (n Node) SetAttribute(label string, value interface{}) Node`. -/
def Node.SetAttribute (n : Node) (label : String) (value : Value) (W : World) :
    Option (Node × World) :=
  match n.toAttributesMap.SetAttribute label value W with
  | none => none
  | some W' => some (n, W')

/-- Go `func (n Node) Label(label string) Node`. -/
def Node.Label (n : Node) (label : String) (W : World) : Option (Node × World) :=
  n.SetAttribute "label" (Value.str label) W

/-- Go `func (n Node) Box() Node`. -/
def Node.Box (n : Node) (W : World) : Option (Node × World) :=
  n.SetAttribute "shape" (Value.str "box") W

/-- Go `func (n Node) Edge(toNode Node, labels ...string) Edge`. -/
def Node.Edge (n : Node) (toNode : Node) (labels : List String) (W : World) :
    Option (dot.Edge × World) :=
  Graph.Edge n.graph n toNode labels W

/-- Go `func (n Node) Attribute(name string) interface{}`. -/
def Node.Attribute (n : Node) (name : String) (W : World) : Value :=
  (W.attrsOf n.toAttributesMap).get name

/-- Go `func (n Node) ReverseEdge(fromNode Node, labels ...string) Edge`. -/
def Node.ReverseEdge (n : Node) (fromNode : Node) (labels : List String) (W : World) :
    Option (dot.Edge × World) :=
  Graph.Edge n.graph fromNode n labels W

/-- Go `func (n Node) Graph() *Graph`. -/
def Node.Graph (n : Node) : GraphRef := n.graph

end dot

namespace dotx

open dot

/-! ## Composite (`dotx/composite.go`) -/

/-- Go `type compositeGraphKind int`. -/
abbrev compositeGraphKind := Int

/-- SameGraph means that the composite graph will be a cluster within the graph. -/
def SameGraph : compositeGraphKind := 0

/-- ExternalGraph means the composite graph will be exported on its own, linked by the
node within the graph. -/
def ExternalGraph : compositeGraphKind := 1

/-- Go `type Composite struct`: the embedded `*dot.Graph` (the inner graph), `outerNode`,
`outerGraph`, `dotFilename`, `kind`.  A `*Composite` is threaded through the operations
that assign to its fields. -/
structure Composite where
  Graph : GraphRef
  outerNode : dot.Node
  outerGraph : GraphRef
  dotFilename : String
  kind : compositeGraphKind
deriving DecidableEq, Repr

/-- Connectable is a dot.Node or a *dotx.Composite (the comment on the Go interface);
these are the two dynamic types `Input` and `Output` test for, and the only ones modelled. -/
inductive Connectable where
  | node (n : dot.Node)
  | composite (c : Composite)
deriving DecidableEq, Repr

/-- Go `strings.ReplaceAll(name, " ", "_")`: both strings are one character long, so the
replacement acts character by character. -/
def replaceSpaces (name : String) : String :=
  String.mk (name.data.map fun c => if c = ' ' then '_' else c)

/-- Go `func (s *Composite) ExportFilename() string`. -/
def Composite.ExportFilename (s : Composite) : String := s.dotFilename

/-- Go `func (s *Composite) SetAttribute(label string, value interface{}) dot.Node`. -/
def Composite.SetAttribute (s : Composite) (label : String) (value : Value) (W : World) :
    Option (dot.Node × World) :=
  s.outerNode.SetAttribute label value W

/-- Go `func (s *Composite) ExportName(dotPath, name string)`. -/
def Composite.ExportName (s : Composite) (dotPath name : String) (W : World) :
    Option (Composite × World) :=
  let hrefFile := replaceSpaces name ++ ".svg"
  let dotFile := replaceSpaces name ++ ".dot"
  match s.outerNode.SetAttribute "href" (Value.str hrefFile) W with
  | none => none
  | some (_, W1) => some ({ s with dotFilename := dotPath ++ dotFile }, W1)

/-- Go `func NewComposite(dotPath, id string, g *dot.Graph, kind compositeGraphKind) *Composite`. -/
def NewComposite (dotPath id : String) (g : GraphRef) (kind : compositeGraphKind) (W : World) :
    Option (Composite × World) :=
  match (if kind = SameGraph then Graph.Subgraph g id [GraphOption.ClusterOption] W
         else some (NewGraph [GraphOption.Directed] W)) with
  | none => none
  | some (innerGraph, W1) =>
    match Graph.Node g id W1 with
    | none => none
    | some (n, W2) =>
      match n.SetAttribute "shape" (Value.str "box3d") W2 with
      | none => none
      | some (outer, W3) =>
        Composite.ExportName
          { Graph := innerGraph, outerNode := outer, outerGraph := g, dotFilename := "",
            kind := kind }
          dotPath id W3

/-- Go `func (s *Composite) connect(portName string, isInput bool, inner dot.Node) dot.Edge`. -/
def Composite.connect (s : Composite) (portName : String) (isInput : Bool) (inner : dot.Node)
    (W : World) : Option (Edge × World) :=
  match Graph.Node s.Graph portName W with
  | none => none
  | some (p, W1) =>
    match p.SetAttribute "shape" (Value.str "point") W1 with
    | none => none
    | some (port, W2) =>
      if isInput then
        match Graph.EdgeWithPorts s.Graph port inner "s" "n" [] W2 with
        | none => none
        | some (e, W3) => e.SetAttribute "taillabel" (Value.str portName) W3
      else
        match Graph.EdgeWithPorts s.Graph inner port "s" "n" [] W2 with
        | none => none
        | some (e, W3) => e.SetAttribute "headlabel" (Value.str portName) W3

/-- The node a Connectable resolves to: the node itself, or the composite's outer node. -/
def Connectable.resolve : Connectable → dot.Node
  | Connectable.node n => n
  | Connectable.composite c => c.outerNode

/-- Go `func (s *Composite) Input(id string, from Connectable) dot.Edge`. -/
def Composite.Input (s : Composite) (id : String) (frm : Connectable) (W : World) :
    Option (Edge × World) :=
  let fromNode := frm.resolve
  match Graph.HasNode s.Graph fromNode W with
  | none => none
  | some true => s.connect id true fromNode W
  | some false =>
    match Graph.Node s.Graph id W with
    | none => none
    | some (p, W1) =>
      match p.SetAttribute "shape" (Value.str "point") W1 with
      | none => none
      | some (_, W2) =>
        match fromNode.Edge s.outerNode [] W2 with
        | none => none
        | some (e, W3) => e.Label id W3

/-- Go `func (s *Composite) Output(id string, to Connectable) dot.Edge`. -/
def Composite.Output (s : Composite) (id : String) (target : Connectable) (W : World) :
    Option (Edge × World) :=
  let toNode := target.resolve
  match Graph.HasNode s.Graph toNode W with
  | none => none
  | some true => s.connect id false toNode W
  | some false =>
    match Graph.Node s.Graph id W with
    | none => none
    | some (p, W1) =>
      match p.SetAttribute "shape" (Value.str "point") W1 with
      | none => none
      | some (_, W2) =>
        match s.outerNode.Edge toNode [] W2 with
        | none => none
        | some (e, W3) => e.Label id W3

/-- Go `func (c *Composite) OuterNode() *dot.Node`. -/
def Composite.OuterNode (c : Composite) : dot.Node := c.outerNode

/-! ## Export -/

/-- A Go `error` value: `none` is the nil error. -/
abbrev GoError := Option String

/-- The operating system as seen by `ExportFile`: whether `os.MkdirAll` and `os.WriteFile`
fail for given arguments. -/
structure OS where
  MkdirAll : String → GoError
  WriteFile : String → String → GoError

/-- The file-system calls a function performed, oldest first. -/
inductive FsCall where
  | mkdirAll (path : String)
  | writeFile (path : String) (data : String)
deriving DecidableEq, Repr

/-- Go `filepath.Split(path)`, first component: the path up to and including the final
slash. -/
def splitDir (path : String) : String :=
  String.mk (path.data.reverse.dropWhile fun c => c ≠ '/').reverse

/-- Go `func (s *Composite) ExportFile() error`, with the calls made to the file system.
`render` is `(*dot.Graph).String()`, which is not among the sources. -/
def Composite.ExportFile (os : OS) (render : World → GraphRef → String) (s : Composite)
    (W : World) : GoError × List FsCall :=
  if s.kind ≠ ExternalGraph then
    (some "ExportFile is only applicable to a ExternalGraph Composite", [])
  else
    let path := s.ExportFilename
    let dirPath := splitDir path
    match os.MkdirAll dirPath with
    | some err => (some err, [FsCall.mkdirAll dirPath])
    | none =>
      (os.WriteFile path (render W s.Graph),
        [FsCall.mkdirAll dirPath, FsCall.writeFile path (render W s.Graph)])

/-- Go `func (s *Composite) Export(build func(g *dot.Graph)) *Composite`; the warning
written to the log on failure is returned next to the composite. -/
def Composite.Export (os : OS) (render : World → GraphRef → String)
    (build : GraphRef → World → Option World) (s : Composite) (W : World) :
    Option (Composite × World × List FsCall × Option String) :=
  match build s.Graph W with
  | none => none
  | some W1 =>
    match Composite.ExportFile os render s W1 with
    | (some err, calls) =>
      some (s, W1, calls, some ("WARN: dotx.Composite.Export failed " ++ err))
    | (none, calls) => some (s, W1, calls, none)

end dotx

/-! ## Reading the heap -/

namespace dot

/-- The nodes of graph `g`, in creation order. -/
def World.nodesOf (W : World) (g : GraphRef) : List Node :=
  match W.graphs[g]? with
  | some G => G.nodes
  | none => []

/-- The edge list of graph `g`. -/
def World.edgesOf (W : World) (g : GraphRef) : List Edge :=
  match W.graphs[g]? with
  | some G => G.edges
  | none => []

/-- The subgraphs registered in graph `g`. -/
def World.subgraphsOf (W : World) (g : GraphRef) : List (String × GraphRef) :=
  match W.graphs[g]? with
  | some G => G.subgraphs
  | none => []

/-- The number of edges held by all graphs together. -/
def World.edgeCount (W : World) : Nat :=
  (W.graphs.map fun G => G.edges.length).sum

/-! ## Well-formed heaps -/

/-- The attribute maps a graph refers to: its own, those of its nodes, those of its edges. -/
def Graph.refs (G : Graph) : List AttrRef :=
  G.attributes :: (G.nodes.map (fun n => n.attributes) ++ G.edges.map (fun e => e.attributes))

/-- Graph `G`, stored at index `i`, is well formed: its maps exist and are pairwise
distinct, its nodes point back to it and have pairwise distinct ids, and its subgraphs
exist and were created after it. -/
def Graph.WF (W : World) (i : GraphRef) (G : Graph) : Prop :=
  (∀ r ∈ G.refs, r < W.attrs.length) ∧
  G.refs.Nodup ∧
  (∀ n ∈ G.nodes, n.graph = i) ∧
  (G.nodes.map fun n => n.id).Nodup ∧
  (∀ p ∈ G.subgraphs, i < p.2 ∧ p.2 < W.graphs.length)

/-- Every graph of the heap is well formed and no attribute map is shared between two
graphs.  Every heap built by the operations of the library is well formed. -/
def World.WF (W : World) : Prop :=
  (∀ (i : GraphRef) (G : Graph), W.graphs[i]? = some G → G.WF W i) ∧
  (∀ (i j : GraphRef) (Gi Gj : Graph), W.graphs[i]? = some Gi → W.graphs[j]? = some Gj → i ≠ j →
    ∀ r ∈ Gi.refs, r ∉ Gj.refs)

/-- The node handle `n` was issued by its graph: it is in the node set of `n.graph`. -/
def NodeIn (W : World) (n : Node) : Prop := n ∈ W.nodesOf n.graph

end dot

namespace dotx

open dot

/-- A composite of the heap: its outer node is a node of its outer graph, and its inner
graph exists and is not the outer graph (what `NewComposite` constructs). -/
def Composite.WF (W : World) (s : Composite) : Prop :=
  s.outerNode ∈ W.nodesOf s.outerGraph ∧ s.Graph < W.graphs.length ∧ s.Graph ≠ s.outerGraph

/-- A Connectable of the heap: a node issued by a graph, or a composite of the heap. -/
def Connectable.WF (W : World) : Connectable → Prop
  | Connectable.node n => NodeIn W n
  | Connectable.composite c => c.WF W

end dotx

namespace dot

/-- The heap `W'` has all graphs and all nodes of `W`. -/
def World.Le (W W' : World) : Prop :=
  W.graphs.length ≤ W'.graphs.length ∧ ∀ (i : GraphRef) (n : Node), n ∈ W.nodesOf i → n ∈ W'.nodesOf i

/-- What holds after `Graph.Node g id` took `W` to `W'` and returned `n`. -/
structure Graph.NodePost (g : GraphRef) (id : String) (W : World) (n : dot.Node) (W' : World) :
    Prop where
  wf : W'.WF
  id_eq : n.id = id
  graph_eq : n.graph = g
  mem : n ∈ W'.nodesOf g
  attr_lt : n.attributes < W'.attrs.length
  graphs_len : W'.graphs.length = W.graphs.length
  attrs_le : W.attrs.length ≤ W'.attrs.length
  attrs_keep : ∀ a : AttributesMap, a.attributes < W.attrs.length → W'.attrsOf a = W.attrsOf a
  edges : ∀ i : GraphRef, W'.edgesOf i = W.edgesOf i
  subs : ∀ i : GraphRef, W'.subgraphsOf i = W.subgraphsOf i
  graphs_ne : ∀ i : GraphRef, i ≠ g → W'.graphs[i]? = W.graphs[i]?
  nodes_ne : ∀ i : GraphRef, i ≠ g → W'.nodesOf i = W.nodesOf i
  nodes_old : (∃ m ∈ W.nodesOf g, m.id = id) → W'.nodesOf g = W.nodesOf g ∧ W' = W
  nodes_new : (¬ ∃ m ∈ W.nodesOf g, m.id = id) →
    W'.nodesOf g = W.nodesOf g ++ [n] ∧ n.attributes = W.attrs.length
  edgeCount_eq : W'.edgeCount = W.edgeCount

/-- What holds after `Graph.EdgeWithPorts g f t fp tp []` took `W` to `W'` and returned `e`. -/
structure Graph.EdgePost (g : GraphRef) (f t : dot.Node) (fp tp : String) (W : World)
    (e : dot.Edge) (W' : World) : Prop where
  wf : W'.WF
  edge_eq : e = { attributes := W.attrs.length, graph := g, fromNode := f, toNode := t,
                  fromPort := fp, toPort := tp }
  graphs_len : W'.graphs.length = W.graphs.length
  attrs_len : W'.attrs.length = W.attrs.length + 1
  attrs_keep : ∀ a : AttributesMap, a.attributes < W.attrs.length → W'.attrsOf a = W.attrsOf a
  nodes : ∀ i : GraphRef, W'.nodesOf i = W.nodesOf i
  subs : ∀ i : GraphRef, W'.subgraphsOf i = W.subgraphsOf i
  graphs_ne : ∀ i : GraphRef, i ≠ g → W'.graphs[i]? = W.graphs[i]?
  edges_ne : ∀ i : GraphRef, i ≠ g → W'.edgesOf i = W.edgesOf i
  edges_g : W'.edgesOf g = W.edgesOf g ++ [e]
  edgeCount_eq : W'.edgeCount = W.edgeCount + 1

end dot

namespace dotx

open dot

/-- What holds after `Input` or `Output` of port `p` on the composite `s` took `W` to `W'`:
`g` is the graph that received the new edge `e`, `port` is the inner node named `p`. -/
structure PortPost (s : Composite) (p : String) (W : World) (g : GraphRef) (port : dot.Node)
    (e : dot.Edge) (W' : World) : Prop where
  wf : W'.WF
  graphs_len : W'.graphs.length = W.graphs.length
  edge_graph : e.graph = g
  edge_fresh : W.attrs.length ≤ e.attributes
  edges_g : W'.edgesOf g = W.edgesOf g ++ [e]
  edges_ne : ∀ i : GraphRef, i ≠ g → W'.edgesOf i = W.edgesOf i
  edgeCount_eq : W'.edgeCount = W.edgeCount + 1
  subs : ∀ i : GraphRef, W'.subgraphsOf i = W.subgraphsOf i
  nodes_ne : ∀ i : GraphRef, i ≠ s.Graph → W'.nodesOf i = W.nodesOf i
  port_mem : port ∈ W'.nodesOf s.Graph
  port_id : port.id = p
  port_shape : port.Attribute "shape" W' = Value.str "point"
  nodes_old : (∃ m ∈ W.nodesOf s.Graph, m.id = p) → W'.nodesOf s.Graph = W.nodesOf s.Graph
  nodes_new : (¬ ∃ m ∈ W.nodesOf s.Graph, m.id = p) →
    W'.nodesOf s.Graph = W.nodesOf s.Graph ++ [port]
  attrs_keep : ∀ a : AttributesMap, a.attributes < W.attrs.length →
    a.attributes ≠ port.attributes → W'.attrsOf a = W.attrsOf a
  port_keep : ∀ k : String, k ≠ "shape" → port.attributes < W.attrs.length →
    (W'.attrsOf port.toAttributesMap).get k = (W.attrsOf port.toAttributesMap).get k

end dotx

namespace dot

/-- What holds after `Graph.Subgraph g id options` took `W` to `W'` and returned `r`. -/
structure Graph.SubgraphPost (g : GraphRef) (id : String) (options : List GraphOption)
    (W : World) (r : GraphRef) (W' : World) : Prop where
  wf : W'.WF
  lt : g < r
  valid : r < W'.graphs.length
  registered : (W'.subgraphsOf g).lookup id = some r
  graphs_le : W.graphs.length ≤ W'.graphs.length
  attrs_le : W.attrs.length ≤ W'.attrs.length
  attrs_keep : ∀ a : AttributesMap, a.attributes < W.attrs.length → W'.attrsOf a = W.attrsOf a
  nodes : ∀ i : GraphRef, i < W.graphs.length → W'.nodesOf i = W.nodesOf i
  edges : ∀ i : GraphRef, i < W.graphs.length → W'.edgesOf i = W.edgesOf i
  subs_ne : ∀ i : GraphRef, i < W.graphs.length → i ≠ g → W'.subgraphsOf i = W.subgraphsOf i
  old : (W.subgraphsOf g).lookup id ≠ none → W' = W
  new : (W.subgraphsOf g).lookup id = none →
    r = W.graphs.length ∧ W'.subgraphsOf g = W.subgraphsOf g ++ [(id, r)] ∧
    W'.graphs[r]? = some { attributes := W.attrs.length, options := options, nodes := [],
                           edges := [], subgraphs := [] }
  edgeCount_eq : W'.edgeCount = W.edgeCount

/-- What holds after `NewGraph options` took `W` to `W'` and returned `r`. -/
structure NewGraphPost (options : List GraphOption) (W : World) (r : GraphRef) (W' : World) :
    Prop where
  wf : W'.WF
  ref_eq : r = W.graphs.length
  graphs_len : W'.graphs.length = W.graphs.length + 1
  graph_eq : W'.graphs[r]? = some { attributes := W.attrs.length, options := options,
                                    nodes := [], edges := [], subgraphs := [] }
  attrs_le : W.attrs.length ≤ W'.attrs.length
  attrs_keep : ∀ a : AttributesMap, a.attributes < W.attrs.length → W'.attrsOf a = W.attrsOf a
  nodes : ∀ i : GraphRef, i < W.graphs.length → W'.nodesOf i = W.nodesOf i
  edges : ∀ i : GraphRef, i < W.graphs.length → W'.edgesOf i = W.edgesOf i
  subs : ∀ i : GraphRef, i < W.graphs.length → W'.subgraphsOf i = W.subgraphsOf i
  edgeCount_eq : W'.edgeCount = W.edgeCount

end dot

namespace dotx

open dot

/-- What holds after `NewComposite d id g kind` took `W` to `W'` and returned `s`. -/
structure NewCompositePost (d id : String) (g : GraphRef) (kind : compositeGraphKind)
    (W : World) (s : Composite) (W' : World) : Prop where
  wf : W'.WF
  swf : s.WF W'
  outerGraph_eq : s.outerGraph = g
  kind_eq : s.kind = kind
  filename : s.dotFilename = d ++ (replaceSpaces id ++ ".dot")
  outer_id : s.outerNode.id = id
  outer_mem : s.outerNode ∈ W'.nodesOf g
  shape : s.outerNode.Attribute "shape" W' = Value.str "box3d"
  href : s.outerNode.Attribute "href" W' = Value.str (replaceSpaces id ++ ".svg")
  graphs_le : W.graphs.length ≤ W'.graphs.length
  nodes_ne : ∀ i : GraphRef, i < W.graphs.length → i ≠ g → W'.nodesOf i = W.nodesOf i
  nodes_g : ∀ n : dot.Node, n ∈ W.nodesOf g → n ∈ W'.nodesOf g
  edges : ∀ i : GraphRef, i < W.graphs.length → W'.edgesOf i = W.edgesOf i
  same : kind = SameGraph →
    (W'.subgraphsOf g).lookup id = some s.Graph ∧
    Graph.Subgraph g id [GraphOption.ClusterOption] W' = some (s.Graph, W') ∧
    ((W.subgraphsOf g).lookup id = none →
      W'.graphs[s.Graph]? = some { attributes := W.attrs.length,
                                   options := [GraphOption.ClusterOption], nodes := [],
                                   edges := [], subgraphs := [] })
  ext : kind ≠ SameGraph →
    s.Graph = W.graphs.length ∧
    W'.graphs[s.Graph]? = some { attributes := W.attrs.length,
                                 options := [GraphOption.Directed], nodes := [], edges := [],
                                 subgraphs := [] } ∧
    ∀ (i : GraphRef) (q : String × GraphRef), q ∈ W'.subgraphsOf i → q.2 ≠ s.Graph

end dotx

namespace dot

/-! ## A decision procedure for well-formedness -/

/-- The executable form of `Graph.WF`. -/
def Graph.check (W : World) (i : GraphRef) (G : Graph) : Bool :=
  G.refs.all (fun r => decide (r < W.attrs.length)) &&
  decide G.refs.Nodup &&
  G.nodes.all (fun n => decide (n.graph = i)) &&
  decide (G.nodes.map fun n => n.id).Nodup &&
  G.subgraphs.all (fun p => decide (i < p.2) && decide (p.2 < W.graphs.length))

/-- The executable form of `World.WF`. -/
def World.check (W : World) : Bool :=
  (List.range W.graphs.length).all fun i =>
    match W.graphs[i]? with
    | none => true
    | some Gi =>
      Gi.check W i &&
      (List.range W.graphs.length).all fun j =>
        match W.graphs[j]? with
        | none => true
        | some Gj => decide (i = j) || Gi.refs.all fun r => !(Gj.refs.contains r)

instance (W : World) (n : Node) : Decidable (NodeIn W n) :=
  inferInstanceAs (Decidable (n ∈ W.nodesOf n.graph))

end dot

namespace dotx

open dot

instance (W : World) (s : Composite) : Decidable (s.WF W) :=
  inferInstanceAs (Decidable
    (s.outerNode ∈ W.nodesOf s.outerGraph ∧ s.Graph < W.graphs.length ∧ s.Graph ≠ s.outerGraph))

instance (W : World) (x : Connectable) : Decidable (x.WF W) :=
  match x with
  | Connectable.node n => inferInstanceAs (Decidable (NodeIn W n))
  | Connectable.composite c => inferInstanceAs (Decidable (c.WF W))

end dotx

namespace dotx

open dot

/-! ## Sequences of port calls -/

/-- One call of the port protocol on a composite. -/
inductive PortCall where
  | input (id : String) (frm : Connectable)
  | output (id : String) (target : Connectable)
deriving DecidableEq, Repr

/-- The Connectable a call is made with. -/
def PortCall.target : PortCall → Connectable
  | PortCall.input _ x => x
  | PortCall.output _ x => x

/-- Performs one call: `s.Input(id, from)` or `s.Output(id, to)`. -/
def Composite.call (s : Composite) : PortCall → World → Option (Edge × World)
  | PortCall.input id x, W => s.Input id x W
  | PortCall.output id x, W => s.Output id x W

/-- Performs the calls one after the other, dropping the returned edges. -/
def Composite.calls (s : Composite) : List PortCall → World → Option World
  | [], W => some W
  | c :: cs, W =>
    match s.call c W with
    | none => none
    | some (_, W1) => s.calls cs W1

/-! ## The heap of `TestExampleSubsystemSameGraph`

`g := dot.NewGraph(dot.Directed)`, `c1 := g.Node("component")`,
`sub := NewComposite("testing/", "subsystem", g, SameGraph)`,
`sc1 := sub.Node("subcomponent 1")`. -/

/-- The node `c1` of the parent graph. -/
def exComponent : dot.Node := { attributes := 1, graph := 0, id := "component", seq := 1 }

/-- The composite `sub`. -/
def exSub : Composite :=
  { Graph := 1
    outerNode := { attributes := 3, graph := 0, id := "subsystem", seq := 2 }
    outerGraph := 0
    dotFilename := "testing/subsystem.dot"
    kind := SameGraph }

/-- The node `sc1` of the inner graph. -/
def exInner : dot.Node := { attributes := 4, graph := 1, id := "subcomponent 1", seq := 3 }

/-- The heap after the four statements. -/
def exWorld : World :=
  { graphs :=
      [{ attributes := 0, options := [GraphOption.Directed],
         nodes := [exComponent, exSub.outerNode], edges := [], subgraphs := [("subsystem", 1)] },
       { attributes := 2, options := [GraphOption.ClusterOption],
         nodes := [exInner], edges := [], subgraphs := [] }]
    attrs := [[], [], [],
      [("shape", Value.str "box3d"), ("href", Value.str "subsystem.svg")], []]
    seq := 3 }

/-- The four statements, run from the empty heap. -/
def exBuild : Option (dot.Node × Composite × dot.Node × World) :=
  match NewGraph [GraphOption.Directed] World.empty with
  | (g, W0) =>
    match Graph.Node g "component" W0 with
    | none => none
    | some (c1, W1) =>
      match NewComposite "testing/" "subsystem" g SameGraph W1 with
      | none => none
      | some (sub, W2) =>
        match Graph.Node sub.Graph "subcomponent 1" W2 with
        | none => none
        | some (sc1, W3) => some (c1, sub, sc1, W3)

/-! ## The heap of two nested composites

`g := dot.NewGraph()`, `c1 := NewComposite("testing/", "c1", g, SameGraph)`,
`c2 := NewComposite("testing/", "c2", c1.Graph, SameGraph)`. -/

/-- The two nested composites and their heap, built from the empty heap. -/
def exNested : Option (Composite × Composite × World) :=
  match NewGraph [] World.empty with
  | (g, W0) =>
    match NewComposite "testing/" "c1" g SameGraph W0 with
    | none => none
    | some (c1, W1) =>
      match NewComposite "testing/" "c2" c1.Graph SameGraph W1 with
      | none => none
      | some (c2, W2) => some (c1, c2, W2)

/-- The composite `c1`, a cluster of the root graph. -/
def exC1 : Composite :=
  { Graph := 1
    outerNode := { attributes := 2, graph := 0, id := "c1", seq := 1 }
    outerGraph := 0
    dotFilename := "testing/c1.dot"
    kind := SameGraph }

/-- The composite `c2`, a cluster of the inner graph of `c1`. -/
def exC2 : Composite :=
  { Graph := 2
    outerNode := { attributes := 4, graph := 1, id := "c2", seq := 2 }
    outerGraph := 1
    dotFilename := "testing/c2.dot"
    kind := SameGraph }

/-- The heap holding `c1` and `c2`. -/
def exNestedWorld : World :=
  { graphs :=
      [{ attributes := 0, options := [], nodes := [exC1.outerNode], edges := [],
         subgraphs := [("c1", 1)] },
       { attributes := 1, options := [GraphOption.ClusterOption], nodes := [exC2.outerNode],
         edges := [], subgraphs := [("c2", 2)] },
       { attributes := 3, options := [GraphOption.ClusterOption], nodes := [], edges := [],
         subgraphs := [] }]
    attrs := [[], [],
      [("shape", Value.str "box3d"), ("href", Value.str "c1.svg")], [],
      [("shape", Value.str "box3d"), ("href", Value.str "c2.svg")]]
    seq := 2 }

/-- A heap with one empty directed graph, as `dot.NewGraph(dot.Directed)` leaves it. -/
def exRoot : World := (NewGraph [GraphOption.Directed] World.empty).2

end dotx

namespace dotx

/-- The port id a call is made with. -/
def PortCall.id : PortCall → String
  | PortCall.input p _ => p
  | PortCall.output p _ => p

end dotx

namespace dotx

open dot

/-! ## The heap of one composite named `my example` -/

/-- The composite `NewComposite("testing/", "my example", g, SameGraph)` on the graph of
`exRoot`. -/
def exMy : Composite :=
  { Graph := 1
    outerNode := { attributes := 2, graph := 0, id := "my example", seq := 1 }
    outerGraph := 0
    dotFilename := "testing/my_example.dot"
    kind := SameGraph }

/-- The heap after that call. -/
def exMyWorld : World :=
  { graphs :=
      [{ attributes := 0, options := [GraphOption.Directed], nodes := [exMy.outerNode],
         edges := [], subgraphs := [("my example", 1)] },
       { attributes := 1, options := [GraphOption.ClusterOption], nodes := [], edges := [],
         subgraphs := [] }]
    attrs := [[], [], [("shape", Value.str "box3d"), ("href", Value.str "my_example.svg")]]
    seq := 1 }

/-- An operating system on which every call succeeds. -/
def exOS : OS := { MkdirAll := fun _ => none, WriteFile := fun _ _ => none }

/-- A serialisation standing for `(*dot.Graph).String()`. -/
def exRender : World → GraphRef → String := fun _ _ => "digraph {}"

end dotx

namespace dotx

open dot

/-! ## Sequences of calls on one composite -/

/-- One call on a composite: `SetAttribute`, `Input`, `Output`, `ExportName`, `Export` (with
its build function) or `ExportFile`. -/
inductive CompositeOp where
  | setAttribute (label : String) (value : Value)
  | input (id : String) (frm : Connectable)
  | output (id : String) (target : Connectable)
  | exportName (dotPath name : String)
  | exportBuild (build : GraphRef → World → Option World)
  | exportFile

/-- Performs one call on the composite `s`; the composite comes back because `ExportName`
assigns to its `dotFilename`. -/
def Composite.step (os : OS) (render : World → GraphRef → String) (s : Composite) :
    CompositeOp → World → Option (Composite × World)
  | CompositeOp.setAttribute l v, W =>
    match s.SetAttribute l v W with
    | none => none
    | some (_, W1) => some (s, W1)
  | CompositeOp.input p x, W =>
    match s.Input p x W with
    | none => none
    | some (_, W1) => some (s, W1)
  | CompositeOp.output p x, W =>
    match s.Output p x W with
    | none => none
    | some (_, W1) => some (s, W1)
  | CompositeOp.exportName d name, W => s.ExportName d name W
  | CompositeOp.exportBuild build, W =>
    match Composite.Export os render build s W with
    | none => none
    | some (s1, W1, _, _) => some (s1, W1)
  | CompositeOp.exportFile, W => some (s, W)

/-- Performs the calls one after the other. -/
def Composite.run (os : OS) (render : World → GraphRef → String) (s : Composite) :
    List CompositeOp → World → Option (Composite × World)
  | [], W => some (s, W)
  | op :: ops, W =>
    match s.step os render op W with
    | none => none
    | some (s1, W1) => Composite.run os render s1 ops W1

/-- The build function of `TestWarninOnExport`, `func(g *dot.Graph) {}`. -/
def exNoBuild : GraphRef → World → Option World := fun _ W => some W

end dotx

namespace dottwin

open dot dotx

/-! ## The twin layer (`dottwin/`) -/

/-- Go `type GraphTwin struct { in *dot.Graph; ex *dot.Graph }`. -/
structure GraphTwin where
  in_ : GraphRef
  ex : GraphRef
deriving DecidableEq, Repr

/-- Go `type NodeTwin struct { in dot.Node; ex dot.Node }`. -/
structure NodeTwin where
  in_ : dot.Node
  ex : dot.Node
deriving DecidableEq, Repr

/-- Modelled from the spec: `EdgeTwin` (its declaration is not among the sources), a pair of
edges, built in `compositetwin.go` as `EdgeTwin{in: ..., ex: ...}`. -/
structure EdgeTwin where
  in_ : dot.Edge
  ex : dot.Edge
deriving DecidableEq, Repr

/-- Go `type CompositeTwin struct { in dotx.Composite; ex dotx.Composite }`. -/
structure CompositeTwin where
  in_ : Composite
  ex : Composite
deriving DecidableEq, Repr

/-- Go `func NewGraphTwin(options ...dot.GraphOption) *GraphTwin`. -/
def NewGraphTwin (options : List GraphOption) (W : World) : GraphTwin × World :=
  match NewGraph options W with
  | (a, W1) =>
    match NewGraph options W1 with
    | (b, W2) => ({ in_ := a, ex := b }, W2)

/-- Go `func (g *GraphTwin) NodeTwin(id string) NodeTwin`. -/
def GraphTwin.NodeTwin (g : GraphTwin) (id : String) (W : World) : Option (NodeTwin × World) :=
  match Graph.Node g.in_ id W with
  | none => none
  | some (a, W1) =>
    match Graph.Node g.ex id W1 with
    | none => none
    | some (b, W2) => some ({ in_ := a, ex := b }, W2)

/-- Go `func NewCompositeTwin(dotPath, id string, g *GraphTwin) *CompositeTwin`. -/
def NewCompositeTwin (dotPath id : String) (g : GraphTwin) (W : World) :
    Option (CompositeTwin × World) :=
  match NewComposite dotPath id g.in_ SameGraph W with
  | none => none
  | some (a, W1) =>
    match NewComposite dotPath id g.ex ExternalGraph W1 with
    | none => none
    | some (b, W2) => some ({ in_ := a, ex := b }, W2)

/-- Go `func (c *CompositeTwin) Input(id string, from dotx.Connectable) dot.Edge`. -/
def CompositeTwin.Input (c : CompositeTwin) (id : String) (frm : Connectable) (W : World) :
    Option (Edge × World) :=
  c.in_.Input id frm W

/-- Go `func (c *CompositeTwin) Output(id string, to dotx.Connectable) dot.Edge`. -/
def CompositeTwin.Output (c : CompositeTwin) (id : String) (target : Connectable) (W : World) :
    Option (Edge × World) :=
  c.in_.Output id target W

/-- Go `func (c *CompositeTwin) InputTwin(id string, from NodeTwin) EdgeTwin`. -/
def CompositeTwin.InputTwin (c : CompositeTwin) (id : String) (frm : NodeTwin) (W : World) :
    Option (EdgeTwin × World) :=
  match c.in_.Input id (Connectable.node frm.in_) W with
  | none => none
  | some (a, W1) =>
    match c.ex.Input id (Connectable.node frm.ex) W1 with
    | none => none
    | some (b, W2) => some ({ in_ := a, ex := b }, W2)

/-- Go `func (c *CompositeTwin) OutputTwin(id string, from NodeTwin) EdgeTwin`. -/
def CompositeTwin.OutputTwin (c : CompositeTwin) (id : String) (frm : NodeTwin) (W : World) :
    Option (EdgeTwin × World) :=
  match c.in_.Output id (Connectable.node frm.in_) W with
  | none => none
  | some (a, W1) =>
    match c.ex.Output id (Connectable.node frm.ex) W1 with
    | none => none
    | some (b, W2) => some ({ in_ := a, ex := b }, W2)

/-- Go `func (c *CompositeTwin) NodeTwin(id string) NodeTwin`. -/
def CompositeTwin.NodeTwin (c : CompositeTwin) (id : String) (W : World) :
    Option (NodeTwin × World) :=
  match Graph.Node c.in_.Graph id W with
  | none => none
  | some (a, W1) =>
    match Graph.Node c.ex.Graph id W1 with
    | none => none
    | some (b, W2) => some ({ in_ := a, ex := b }, W2)

/-- The GraphTwin a CompositeTwin was built on: the outer graphs of its two members. -/
def CompositeTwin.parent (c : CompositeTwin) : GraphTwin :=
  { in_ := c.in_.outerGraph, ex := c.ex.outerGraph }

/-- A CompositeTwin of the heap, as `NewCompositeTwin` builds it on a GraphTwin of two
different graphs: both members are composites of the heap, their outer nodes have the same
id, and the graphs of the embedded member are not graphs of the external member. -/
def CompositeTwin.WF (W : World) (c : CompositeTwin) : Prop :=
  c.in_.WF W ∧ c.ex.WF W ∧ c.in_.outerNode.id = c.ex.outerNode.id ∧
  c.in_.Graph ≠ c.ex.Graph ∧ c.in_.Graph ≠ c.ex.outerGraph ∧
  c.in_.outerGraph ≠ c.ex.Graph ∧ c.in_.outerGraph ≠ c.ex.outerGraph

instance (W : World) (c : CompositeTwin) : Decidable (c.WF W) :=
  inferInstanceAs (Decidable
    (c.in_.WF W ∧ c.ex.WF W ∧ c.in_.outerNode.id = c.ex.outerNode.id ∧
     c.in_.Graph ≠ c.ex.Graph ∧ c.in_.Graph ≠ c.ex.outerGraph ∧
     c.in_.outerGraph ≠ c.ex.Graph ∧ c.in_.outerGraph ≠ c.ex.outerGraph))

/-- The first statements of `TestExampleSubsystemTwinGraph`, run from the empty heap:
`g := NewGraphTwin(dot.Directed)`, `c1 := g.NodeTwin("component")`,
`twinsub := NewCompositeTwin("testing/", "subsystem", g)`. -/
def exTwinBuild : Option (GraphTwin × NodeTwin × CompositeTwin × World) :=
  match NewGraphTwin [GraphOption.Directed] World.empty with
  | (g, W0) =>
    match g.NodeTwin "component" W0 with
    | none => none
    | some (c1, W1) =>
      match NewCompositeTwin "testing/" "subsystem" g W1 with
      | none => none
      | some (c, W2) => some (g, c1, c, W2)

end dottwin

namespace dottwin

open dot dotx

/-- The GraphTwin `g` of `exTwinBuild`. -/
def exTwinGraph : GraphTwin := { in_ := 0, ex := 1 }

/-- The NodeTwin `c1` of `exTwinBuild`. -/
def exTwinComponent : NodeTwin :=
  { in_ := { attributes := 2, graph := 0, id := "component", seq := 1 }
    ex := { attributes := 3, graph := 1, id := "component", seq := 2 } }

/-- The CompositeTwin `twinsub` of `exTwinBuild`. -/
def exTwin : CompositeTwin :=
  { in_ := { Graph := 2
             outerNode := { attributes := 5, graph := 0, id := "subsystem", seq := 3 }
             outerGraph := 0
             dotFilename := "testing/subsystem.dot"
             kind := SameGraph }
    ex := { Graph := 3
            outerNode := { attributes := 7, graph := 1, id := "subsystem", seq := 4 }
            outerGraph := 1
            dotFilename := "testing/subsystem.dot"
            kind := ExternalGraph } }

/-- The heap of `exTwinBuild`. -/
def exTwinWorld : World :=
  { graphs :=
      [{ attributes := 0, options := [GraphOption.Directed],
         nodes := [exTwinComponent.in_, exTwin.in_.outerNode], edges := [],
         subgraphs := [("subsystem", 2)] },
       { attributes := 1, options := [GraphOption.Directed],
         nodes := [exTwinComponent.ex, exTwin.ex.outerNode], edges := [], subgraphs := [] },
       { attributes := 4, options := [GraphOption.ClusterOption], nodes := [], edges := [],
         subgraphs := [] },
       { attributes := 6, options := [GraphOption.Directed], nodes := [], edges := [],
         subgraphs := [] }]
    attrs := [[], [], [], [], [],
      [("shape", Value.str "box3d"), ("href", Value.str "subsystem.svg")], [],
      [("shape", Value.str "box3d"), ("href", Value.str "subsystem.svg")]]
    seq := 4 }

end dottwin

namespace dot

/-! ## Enumeration and search (for the conversion) -/

/-- Modelled from the spec: `(*Graph).FindNodes()` (`graph.go` is not among the sources),
the full enumeration of the node set of the graph. -/
def Graph.FindNodes (g : GraphRef) (W : World) : Option (List dot.Node) :=
  match W.graphs[g]? with
  | none => none
  | some G => some G.nodes

/-- Modelled from the spec: `(*Graph).FindEdges(from, to)` (`graph.go` is not among the
sources), the direction-aware search of the edges of the graph between two nodes. -/
def Graph.FindEdges (g : GraphRef) (fromNode toNode : dot.Node) (W : World) :
    Option (List dot.Edge) :=
  match W.graphs[g]? with
  | none => none
  | some G => some (G.edges.filter fun e => decide (e.fromNode = fromNode ∧ e.toNode = toNode))

/-- Modelled from the spec: `AttributesMap.Attributes()` (`attr.go` is not among the
sources), the attribute mapping itself. -/
def AttributesMap.Attributes (a : AttributesMap) (W : World) : Attrs := W.attrsOf a

/-- Go `g.SetAttribute(label, value)` on a `*dot.Graph`, which embeds `AttributesMap`. -/
def Graph.SetAttribute (g : GraphRef) (label : String) (value : dot.Value) (W : World) :
    Option World :=
  match W.graphs[g]? with
  | none => none
  | some G => G.toAttributesMap.SetAttribute label value W

end dot

namespace dotx

open dot

/-! ## Conversion of an external hierarchy (`ConvertExternalToSameGraph`) -/

/-- The dynamic types `copyAttributes` switches on: a `dot.Node` or a `dot.Edge`. -/
inductive Element where
  | node (n : dot.Node)
  | edge (e : dot.Edge)
deriving DecidableEq, Repr

/-- Go `for key, value := range src.Attributes() { dst.SetAttribute(key, value) }`. -/
def setAll (dst : AttributesMap) : Attrs → World → Option World
  | [], W => some W
  | (key, value) :: rest, W =>
    match dst.SetAttribute key value W with
    | none => none
    | some W1 => setAll dst rest W1

/-- Go `func copyAttributes(from interface{}, to interface{})`. -/
def copyAttributes (src dst : Element) (W : World) : Option World :=
  match src, dst with
  | Element.node s, Element.node d =>
    setAll d.toAttributesMap (s.toAttributesMap.Attributes W) W
  | Element.edge s, Element.edge d =>
    setAll d.toAttributesMap (s.toAttributesMap.Attributes W) W
  | _, _ => some W

/-- Go `map[string]dot.Node`; the first entry of a key is the current one. -/
abbrev NodeMap := List (String × dot.Node)

/-- Go `for _, node := range nodes { newNode := target.Node(node.ID());
copyAttributes(node, newNode); nodeMap[node.ID()] = newNode }`. -/
def copyNodes (target : GraphRef) : List dot.Node → NodeMap → World → Option (NodeMap × World)
  | [], nodeMap, W => some (nodeMap, W)
  | node :: rest, nodeMap, W =>
    match Graph.Node target node.ID W with
    | none => none
    | some (newNode, W1) =>
      match copyAttributes (Element.node node) (Element.node newNode) W1 with
      | none => none
      | some W2 => copyNodes target rest ((node.ID, newNode) :: nodeMap) W2

/-- Go `for _, edge := range edges { newEdge := target.Edge(nodeMap[edge.From().ID()],
nodeMap[edge.To().ID()]); copyAttributes(edge, newEdge) }`.  A key missing from the map
would give the zero Node in Go; the keys looked up are ids of enumerated nodes, which were
all stored, and the model stops on a missing key. -/
def copyEdgeList (target : GraphRef) (nodeMap : NodeMap) : List dot.Edge → World → Option World
  | [], W => some W
  | edge :: rest, W =>
    match nodeMap.lookup edge.From.ID, nodeMap.lookup edge.To.ID with
    | some a, some b =>
      match Graph.Edge target a b [] W with
      | none => none
      | some (newEdge, W1) =>
        match copyAttributes (Element.edge edge) (Element.edge newEdge) W1 with
        | none => none
        | some W2 => copyEdgeList target nodeMap rest W2
    | _, _ => none

/-- The inner loop `for _, toNode := range nodes[i+1:]`: the edges from `fromNode` to
`toNode`, then the edges in the reverse direction. -/
def copyEdgePairs (source target : GraphRef) (nodeMap : NodeMap) (fromNode : dot.Node) :
    List dot.Node → World → Option World
  | [], W => some W
  | toNode :: rest, W =>
    match Graph.FindEdges source fromNode toNode W with
    | none => none
    | some edges =>
      match copyEdgeList target nodeMap edges W with
      | none => none
      | some W1 =>
        match Graph.FindEdges source toNode fromNode W1 with
        | none => none
        | some back =>
          match copyEdgeList target nodeMap back W1 with
          | none => none
          | some W2 => copyEdgePairs source target nodeMap fromNode rest W2

/-- The outer loop `for i, fromNode := range nodes`. -/
def copyEdges (source target : GraphRef) (nodeMap : NodeMap) :
    List dot.Node → World → Option World
  | [], W => some W
  | fromNode :: rest, W =>
    match copyEdgePairs source target nodeMap fromNode rest W with
    | none => none
    | some W1 => copyEdges source target nodeMap rest W1

end dotx

namespace dotx

open dot

/-- The test of `findChildComposites`: `href, ok := attrs["href"].(string)` with `ok` and
`href != ""`. -/
def hasHref (W : World) (node : dot.Node) : Bool :=
  match (node.toAttributesMap.Attributes W).get "href" with
  | Value.str href => decide (href ≠ "")
  | _ => false

/-- The loop of `findChildComposites` over the enumerated nodes. -/
def findChildrenLoop (comp : Composite) :
    List dot.Node → List Composite → World → Option (List Composite × World)
  | [], children, W => some (children, W)
  | node :: rest, children, W =>
    if hasHref W node then
      match NewComposite comp.dotFilename node.ID comp.Graph SameGraph W with
      | none => none
      | some (child, W1) => findChildrenLoop comp rest (children ++ [child]) W1
    else findChildrenLoop comp rest children W

/-- Go `func findChildComposites(comp *Composite) []*Composite`. -/
def findChildComposites (comp : Composite) (W : World) : Option (List Composite × World) :=
  match Graph.FindNodes comp.Graph W with
  | none => none
  | some nodes => findChildrenLoop comp nodes [] W

/-- Go `for _, child := range children { f(child) }`. -/
def forEachChild (f : Composite → World → Option World) : List Composite → World → Option World
  | [], W => some W
  | child :: rest, W =>
    match f child W with
    | none => none
    | some W1 => forEachChild f rest W1

/-- The closure `processComposite` of `ConvertExternalToSameGraph`.  The recursion of the Go
closure is bounded here by `fuel`, the number of nested calls allowed. -/
def processComposite : Nat → Composite → GraphRef → NodeMap → World → Option World
  | 0, _, _, _, _ => none
  | fuel + 1, comp, parentGraph, _, W =>
    match Graph.Subgraph parentGraph comp.outerNode.ID [GraphOption.ClusterOption] W with
    | none => none
    | some (cluster, W1) =>
      match Graph.SetAttribute cluster "label" (Value.str comp.outerNode.ID) W1 with
      | none => none
      | some W2 =>
        match Graph.SetAttribute cluster "fillcolor" (Value.str "white") W2 with
        | none => none
        | some W3 =>
          match Graph.FindNodes comp.Graph W3 with
          | none => none
          | some nodes =>
            match copyNodes cluster nodes [] W3 with
            | none => none
            | some (clusterNodeMap, W4) =>
              match Graph.FindNodes comp.Graph W4 with
              | none => none
              | some compNodes =>
                match copyEdges comp.Graph cluster clusterNodeMap compNodes W4 with
                | none => none
                | some W5 =>
                  match findChildComposites comp W5 with
                  | none => none
                  | some (children, W6) =>
                    forEachChild
                      (fun child W => processComposite fuel child cluster clusterNodeMap W)
                      children W6

/-- Go `func ConvertExternalToSameGraph(root *Composite) *dot.Graph`, with the bound on the
nesting of `processComposite`. -/
def ConvertExternalToSameGraph (fuel : Nat) (root : Composite) (W : World) :
    Option (GraphRef × World) :=
  match NewGraph [GraphOption.Directed] W with
  | (newGraph, W0) =>
    match Graph.FindNodes root.outerGraph W0 with
    | none => none
    | some found =>
      match copyNodes newGraph found [] W0 with
      | none => none
      | some (nodeMap, W1) =>
        match Graph.FindNodes root.outerGraph W1 with
        | none => none
        | some nodes =>
          match copyEdges root.outerGraph newGraph nodeMap nodes W1 with
          | none => none
          | some W2 =>
            match processComposite fuel root newGraph nodeMap W2 with
            | none => none
            | some W3 => some (newGraph, W3)

end dotx

namespace dot

/-! ## Invariants and frames of the conversion -/

/-- An attribute map as `SetAttribute` builds it: one entry per name, no empty name. -/
def Attrs.WF (m : Attrs) : Prop :=
  (m.map Prod.fst).Nodup ∧ "" ∉ m.map Prod.fst

instance (m : Attrs) : Decidable m.WF :=
  inferInstanceAs (Decidable ((m.map Prod.fst).Nodup ∧ "" ∉ m.map Prod.fst))

/-- Every attribute map of the heap is as `SetAttribute` builds it. -/
def World.AttrsWF (W : World) : Prop := ∀ m ∈ W.attrs, Attrs.WF m

instance (W : World) : Decidable W.AttrsWF :=
  inferInstanceAs (Decidable (∀ m ∈ W.attrs, Attrs.WF m))

/-- The attribute handle and the options of graph `g`, which no operation changes. -/
def World.headOf (W : World) (g : GraphRef) : Option (AttributesMap × List GraphOption) :=
  match W.graphs[g]? with
  | some G => some (G.toAttributesMap, G.options)
  | none => none

/-- The heap `W'` is `W` after nodes and edges were appended to graph `t` only, with new
attribute maps; every map of `W` has kept its content. -/
structure Grow (t : GraphRef) (W W' : World) : Prop where
  wf : W'.WF
  graphs_len : W'.graphs.length = W.graphs.length
  graphs_ne : ∀ i : GraphRef, i ≠ t → W'.graphs[i]? = W.graphs[i]?
  nodes_t : W.nodesOf t <+: W'.nodesOf t
  edges_t : W.edgesOf t <+: W'.edgesOf t
  subs_t : W'.subgraphsOf t = W.subgraphsOf t
  head_t : W'.headOf t = W.headOf t
  attrs_le : W.attrs.length ≤ W'.attrs.length
  attrs_keep : ∀ a : AttributesMap, a.attributes < W.attrs.length → W'.attrsOf a = W.attrsOf a

end dot

namespace dotx

open dot

/-- The edge `e` has a copy in graph `t` of `W'`: an edge between the copies that the node
map holds for the endpoints of `e`, with the attributes `e` has in `W0`. -/
def EdgeCopy (t : GraphRef) (m : NodeMap) (W0 W' : World) (e : dot.Edge) : Prop :=
  ∃ e' ∈ W'.edgesOf t, m.lookup e.fromNode.id = some e'.fromNode ∧
    m.lookup e.toNode.id = some e'.toNode ∧
    (Attrs.WF (W0.attrsOf e.toAttributesMap) → ∀ k, e'.Attribute k W' = e.Attribute k W0)

end dotx

namespace dot

/-- Graph `g` of the heap refers to the attribute map `a`: as its own map, as the map of
one of its nodes, or as the map of one of its edges. -/
def World.Owns (W : World) (g : GraphRef) (a : AttributesMap) : Prop :=
  (∃ o, W.headOf g = some (a, o)) ∨ (∃ n ∈ W.nodesOf g, n.toAttributesMap = a) ∨
    (∃ e ∈ W.edgesOf g, e.toAttributesMap = a)

end dot

namespace dotx

open dot

/-- The invariant of a conversion whose input is the first `N0` graphs: a subgraph that was
registered in an input graph during the conversion has no node. -/
def Inv (N0 : Nat) (W : World) : Prop :=
  ∀ i : GraphRef, i < N0 → ∀ p ∈ W.subgraphsOf i, N0 ≤ p.2 → W.nodesOf p.2 = []

/-- What a part of the conversion leaves alone, `N0` being the number of input graphs, `B`
a number of graphs that existed before the part, and `P` the graph it registers a cluster
in: the graphs below `B` keep their nodes, edges and options; subgraphs are only added, and
none to a graph from `N0` on other than `P`; the attribute maps of the graphs from `N0` on
keep their content. -/
structure Frame (N0 B : Nat) (P : GraphRef) (W W' : World) : Prop where
  wf : W'.WF
  graphs_le : W.graphs.length ≤ W'.graphs.length
  attrs_le : W.attrs.length ≤ W'.attrs.length
  head : ∀ g : GraphRef, g < B → W'.headOf g = W.headOf g
  nodes : ∀ g : GraphRef, g < B → W'.nodesOf g = W.nodesOf g
  edges : ∀ g : GraphRef, g < B → W'.edgesOf g = W.edgesOf g
  subs_mono : ∀ g : GraphRef, W.subgraphsOf g <+: W'.subgraphsOf g
  subs_res : ∀ g : GraphRef, N0 ≤ g → g < B → g ≠ P → W'.subgraphsOf g = W.subgraphsOf g
  cells : ∀ g : GraphRef, N0 ≤ g → g < B → ∀ a : AttributesMap, W.Owns g a →
    W'.attrsOf a = W.attrsOf a
  inv : Inv N0 W → Inv N0 W'

/-- A number of nested calls of `processComposite` that suffices for the inner graph `r`
when the input is the first `N0` graphs: a subgraph has a larger index than its parent. -/
def depthBound (N0 : Nat) (r : GraphRef) : Nat := if r < N0 then N0 - r + 1 else 1

end dotx

namespace dotx

open dot

/-- What holds of a child wrapper that `findChildComposites` built on the input graph `r`
while taking `W` to `W'`: its inner graph is the subgraph of `r` registered under the id of
its outer node, the one that was registered in `W` if any, a new cluster otherwise. -/
structure ChildPost (r : GraphRef) (W W' : World) (c : Composite) : Prop where
  outerGraph_eq : c.outerGraph = r
  kind_eq : c.kind = SameGraph
  registered : (W'.subgraphsOf r).lookup c.outerNode.id = some c.Graph
  fresh : (W.subgraphsOf r).lookup c.outerNode.id = none → W.graphs.length ≤ c.Graph
  found : ∀ K, (W.subgraphsOf r).lookup c.outerNode.id = some K → c.Graph = K
  cluster : (W.subgraphsOf r).lookup c.outerNode.id = none →
    ∃ a : AttributesMap, W'.headOf c.Graph = some (a, [GraphOption.ClusterOption])
  empty : (W.subgraphsOf r).lookup c.outerNode.id = none →
    W'.nodesOf c.Graph = [] ∧ W'.edgesOf c.Graph = [] ∧ W'.subgraphsOf c.Graph = []

end dotx

namespace dotx

open dot

/-- What holds after `processComposite` on `comp` with the parent `P` took `W` to `W'`,
the input being the first `N0` graphs; the new cluster is the graph of index
`W.graphs.length`. -/
structure CallPost (N0 : Nat) (comp : Composite) (P : GraphRef) (W W' : World) : Prop where
  frame : Frame N0 W.graphs.length P W W'
  reg : W'.subgraphsOf P = W.subgraphsOf P ++ [(comp.outerNode.id, W.graphs.length)]
  c_head : W'.headOf W.graphs.length =
    some ({ attributes := W.attrs.length }, [GraphOption.ClusterOption])
  c_label : (W'.attrsOf { attributes := W.attrs.length }).get "label" =
    Value.str comp.outerNode.id
  c_fill : (W'.attrsOf { attributes := W.attrs.length }).get "fillcolor" = Value.str "white"
  c_ids : ((W'.nodesOf W.graphs.length).map fun n => n.id) =
    ((W.nodesOf comp.Graph).map fun n => n.id)
  c_nodes : ∀ n ∈ W.nodesOf comp.Graph, ∃ c ∈ W'.nodesOf W.graphs.length, c.id = n.id ∧
    (Attrs.WF (W.attrsOf n.toAttributesMap) → ∀ k, c.Attribute k W' = n.Attribute k W)
  c_edges : ∀ e ∈ W.edgesOf comp.Graph, e.fromNode ∈ W.nodesOf comp.Graph →
    e.toNode ∈ W.nodesOf comp.Graph → e.fromNode ≠ e.toNode →
    ∃ e' ∈ W'.edgesOf W.graphs.length,
      e'.fromNode ∈ W'.nodesOf W.graphs.length ∧ e'.fromNode.id = e.fromNode.id ∧
      e'.toNode ∈ W'.nodesOf W.graphs.length ∧ e'.toNode.id = e.toNode.id ∧
      (Attrs.WF (W.attrsOf e.toAttributesMap) → ∀ k, e'.Attribute k W' = e.Attribute k W)
  c_subs : (W'.subgraphsOf W.graphs.length).map Prod.fst =
    ((W.nodesOf comp.Graph).filter (hasHref W)).map fun n => n.id
  c_fresh : ∀ q ∈ W'.subgraphsOf W.graphs.length,
    (W.subgraphsOf comp.Graph).lookup q.1 = none → W'.nodesOf q.2 = []
  c_found : ∀ q ∈ W'.subgraphsOf W.graphs.length, ∀ K,
    (W.subgraphsOf comp.Graph).lookup q.1 = some K →
    ((W'.nodesOf q.2).map fun n => n.id) = ((W.nodesOf K).map fun n => n.id)
  c_nested : ∀ q ∈ W'.subgraphsOf W.graphs.length, ∃ a : AttributesMap,
    W'.headOf q.2 = some (a, [GraphOption.ClusterOption]) ∧
    (W'.attrsOf a).get "label" = Value.str q.1
  c_leaf : ∀ q ∈ W'.subgraphsOf W.graphs.length,
    (W.subgraphsOf comp.Graph).lookup q.1 = none → W'.subgraphsOf q.2 = []
  attrs : ∀ b : AttributesMap, b.attributes < W.attrs.length →
    (∀ g : GraphRef, comp.Graph ≤ g → g < N0 → ∀ n ∈ W.nodesOf g,
      b.attributes ≠ n.attributes) → W'.attrsOf b = W.attrsOf b
  in_reg : ∀ n ∈ W.nodesOf comp.Graph, hasHref W n = true →
    ∃ r : GraphRef, (W'.subgraphsOf comp.Graph).lookup n.id = some r ∧
      (∀ K, (W.subgraphsOf comp.Graph).lookup n.id = some K → r = K) ∧
      ((W.subgraphsOf comp.Graph).lookup n.id = none → W.graphs.length ≤ r ∧
        ∃ a : AttributesMap, W'.headOf r = some (a, [GraphOption.ClusterOption]))
  in_marks : ∀ n ∈ W.nodesOf comp.Graph, hasHref W n = true →
    n.Attribute "shape" W' = Value.str "box3d" ∧
    n.Attribute "href" W' = Value.str (replaceSpaces n.id ++ ".svg")
  in_same : (∀ n ∈ W.nodesOf comp.Graph, hasHref W n = false) →
    (∀ b : AttributesMap, b.attributes < W.attrs.length → W'.attrsOf b = W.attrsOf b) ∧
    ∀ g : GraphRef, g < W.graphs.length → g ≠ P → W'.subgraphsOf g = W.subgraphsOf g

end dotx

namespace dotx

open dot

/-- What holds after `ConvertExternalToSameGraph(root)` took `W` to `W'`: the returned graph
is the graph of index `W.graphs.length`, the cluster of the root the next one. -/
structure ConvertPost (root : Composite) (W W' : World) : Prop where
  wf : W'.WF
  old_nodes : ∀ g : GraphRef, g < W.graphs.length → W'.nodesOf g = W.nodesOf g
  old_edges : ∀ g : GraphRef, g < W.graphs.length → W'.edgesOf g = W.edgesOf g
  t_head : W'.headOf W.graphs.length =
    some ({ attributes := W.attrs.length }, [GraphOption.Directed])
  t_ids : ((W'.nodesOf W.graphs.length).map fun n => n.id) =
    ((W.nodesOf root.outerGraph).map fun n => n.id)
  t_nodes : ∀ n ∈ W.nodesOf root.outerGraph, ∃ c ∈ W'.nodesOf W.graphs.length, c.id = n.id ∧
    (Attrs.WF (W.attrsOf n.toAttributesMap) → ∀ k, c.Attribute k W' = n.Attribute k W)
  t_edges : ∀ e ∈ W.edgesOf root.outerGraph, e.fromNode ∈ W.nodesOf root.outerGraph →
    e.toNode ∈ W.nodesOf root.outerGraph → e.fromNode ≠ e.toNode →
    ∃ e' ∈ W'.edgesOf W.graphs.length,
      e'.fromNode ∈ W'.nodesOf W.graphs.length ∧ e'.fromNode.id = e.fromNode.id ∧
      e'.toNode ∈ W'.nodesOf W.graphs.length ∧ e'.toNode.id = e.toNode.id ∧
      (Attrs.WF (W.attrsOf e.toAttributesMap) → ∀ k, e'.Attribute k W' = e.Attribute k W)
  t_subs : W'.subgraphsOf W.graphs.length = [(root.outerNode.id, W.graphs.length + 1)]
  c_head : ∃ a : AttributesMap,
    W'.headOf (W.graphs.length + 1) = some (a, [GraphOption.ClusterOption]) ∧
    (W'.attrsOf a).get "label" = Value.str root.outerNode.id ∧
    (W'.attrsOf a).get "fillcolor" = Value.str "white"
  c_ids : ((W'.nodesOf (W.graphs.length + 1)).map fun n => n.id) =
    ((W.nodesOf root.Graph).map fun n => n.id)
  c_nodes : ∀ n ∈ W.nodesOf root.Graph, ∃ c ∈ W'.nodesOf (W.graphs.length + 1), c.id = n.id ∧
    (Attrs.WF (W.attrsOf n.toAttributesMap) → ∀ k, c.Attribute k W' = n.Attribute k W)
  c_edges : ∀ e ∈ W.edgesOf root.Graph, e.fromNode ∈ W.nodesOf root.Graph →
    e.toNode ∈ W.nodesOf root.Graph → e.fromNode ≠ e.toNode →
    ∃ e' ∈ W'.edgesOf (W.graphs.length + 1),
      e'.fromNode ∈ W'.nodesOf (W.graphs.length + 1) ∧ e'.fromNode.id = e.fromNode.id ∧
      e'.toNode ∈ W'.nodesOf (W.graphs.length + 1) ∧ e'.toNode.id = e.toNode.id ∧
      (Attrs.WF (W.attrsOf e.toAttributesMap) → ∀ k, e'.Attribute k W' = e.Attribute k W)
  c_subs : (W'.subgraphsOf (W.graphs.length + 1)).map Prod.fst =
    ((W.nodesOf root.Graph).filter (hasHref W)).map fun n => n.id
  c_fresh : ∀ q ∈ W'.subgraphsOf (W.graphs.length + 1),
    (W.subgraphsOf root.Graph).lookup q.1 = none → W'.nodesOf q.2 = []
  c_found : ∀ q ∈ W'.subgraphsOf (W.graphs.length + 1), ∀ K,
    (W.subgraphsOf root.Graph).lookup q.1 = some K →
    ((W'.nodesOf q.2).map fun n => n.id) = ((W.nodesOf K).map fun n => n.id)
  c_nested : ∀ q ∈ W'.subgraphsOf (W.graphs.length + 1), ∃ a : AttributesMap,
    W'.headOf q.2 = some (a, [GraphOption.ClusterOption]) ∧
    (W'.attrsOf a).get "label" = Value.str q.1
  old_head : ∀ g : GraphRef, g < W.graphs.length → W'.headOf g = W.headOf g
  c_leaf : ∀ q ∈ W'.subgraphsOf (W.graphs.length + 1),
    (W.subgraphsOf root.Graph).lookup q.1 = none → W'.subgraphsOf q.2 = []
  in_reg : ∀ n ∈ W.nodesOf root.Graph, hasHref W n = true →
    ∃ r : GraphRef, (W'.subgraphsOf root.Graph).lookup n.id = some r ∧
      (∀ K, (W.subgraphsOf root.Graph).lookup n.id = some K → r = K) ∧
      ((W.subgraphsOf root.Graph).lookup n.id = none → W.graphs.length ≤ r ∧
        ∃ a : AttributesMap, W'.headOf r = some (a, [GraphOption.ClusterOption]))
  in_marks : ∀ n ∈ W.nodesOf root.Graph, hasHref W n = true →
    n.Attribute "shape" W' = Value.str "box3d" ∧
    n.Attribute "href" W' = Value.str (replaceSpaces n.id ++ ".svg")
  in_same : (∀ n ∈ W.nodesOf root.Graph, hasHref W n = false) →
    (∀ b : AttributesMap, b.attributes < W.attrs.length → W'.attrsOf b = W.attrsOf b) ∧
    ∀ g : GraphRef, g < W.graphs.length → W'.subgraphsOf g = W.subgraphsOf g

end dotx

namespace dot

/-- The number of nodes of graph `g` and of its subgraphs, down to `depth` levels. -/
def World.countNodes (W : World) : Nat → GraphRef → Nat
  | 0, _ => 0
  | depth + 1, g =>
    (W.nodesOf g).length + ((W.subgraphsOf g).map fun p => World.countNodes W depth p.2).sum

/-- The number of edges of graph `g` and of its subgraphs, down to `depth` levels. -/
def World.countEdges (W : World) : Nat → GraphRef → Nat
  | 0, _ => 0
  | depth + 1, g =>
    (W.edgesOf g).length + ((W.subgraphsOf g).map fun p => World.countEdges W depth p.2).sum

end dot

namespace dotx

open dot

/-! ## Example heaps of the conversion -/

/-- The external half of `TestExampleSubsystemExternalGraphToSameGraph`, shortened: a parent
graph with the node `component`, the ExternalGraph composite `subsystem` with one input
wired to it, two inner nodes joined by an edge, and inside `subsystem` the ExternalGraph
composite `subsystem2` with one inner node. -/
def exConvBuild : Option (Composite × Composite × World) :=
  match NewGraph [GraphOption.Directed] World.empty with
  | (g, W0) =>
    match Graph.Node g "component" W0 with
    | none => none
    | some (c, W1) =>
      match NewComposite "testing/" "subsystem" g ExternalGraph W1 with
      | none => none
      | some (root, W2) =>
        match root.Input "in1" (Connectable.node c) W2 with
        | none => none
        | some (_, W3) =>
          match Graph.Node root.Graph "subcomponent 1" W3 with
          | none => none
          | some (sc1, W4) =>
            match Graph.Node root.Graph "subcomponent 2" W4 with
            | none => none
            | some (sc2, W5) =>
              match sc1.Edge sc2 [] W5 with
              | none => none
              | some (_, W6) =>
                match NewComposite "testing/" "subsystem2" root.Graph ExternalGraph W6 with
                | none => none
                | some (child, W7) =>
                  match Graph.Node child.Graph "subcomponent 3" W7 with
                  | none => none
                  | some (_, W8) => some (root, child, W8)

/-- The composite `subsystem` of `exConvBuild`. -/
def exConvRoot : Composite :=
  { Graph := 1
    outerNode := { attributes := 3, graph := 0, id := "subsystem", seq := 2 }
    outerGraph := 0
    dotFilename := "testing/subsystem.dot"
    kind := ExternalGraph }

/-- The composite `subsystem2` of `exConvBuild`. -/
def exConvChild : Composite :=
  { Graph := 2
    outerNode := { attributes := 10, graph := 1, id := "subsystem2", seq := 6 }
    outerGraph := 1
    dotFilename := "testing/subsystem2.dot"
    kind := ExternalGraph }

/-- The heap `exConvBuild` ends in: the parent graph, the inner graph of `subsystem` and
the inner graph of `subsystem2`. -/
def exConvWorld : World :=
  { graphs :=
      [{ attributes := 0, options := [GraphOption.Directed],
         nodes := [{ attributes := 1, graph := 0, id := "component", seq := 1 },
                   { attributes := 3, graph := 0, id := "subsystem", seq := 2 }],
         edges := [{ attributes := 5, graph := 0,
                     fromNode := { attributes := 1, graph := 0, id := "component", seq := 1 },
                     toNode := { attributes := 3, graph := 0, id := "subsystem", seq := 2 },
                     fromPort := "", toPort := "" }],
         subgraphs := [] },
       { attributes := 2, options := [GraphOption.Directed],
         nodes := [{ attributes := 4, graph := 1, id := "in1", seq := 3 },
                   { attributes := 6, graph := 1, id := "subcomponent 1", seq := 4 },
                   { attributes := 7, graph := 1, id := "subcomponent 2", seq := 5 },
                   { attributes := 10, graph := 1, id := "subsystem2", seq := 6 }],
         edges := [{ attributes := 8, graph := 1,
                     fromNode := { attributes := 6, graph := 1, id := "subcomponent 1", seq := 4 },
                     toNode := { attributes := 7, graph := 1, id := "subcomponent 2", seq := 5 },
                     fromPort := "", toPort := "" }],
         subgraphs := [] },
       { attributes := 9, options := [GraphOption.Directed],
         nodes := [{ attributes := 11, graph := 2, id := "subcomponent 3", seq := 7 }],
         edges := [], subgraphs := [] }]
    attrs :=
      [[], [], [],
       [("shape", Value.str "box3d"), ("href", Value.str "subsystem.svg")],
       [("shape", Value.str "point")],
       [("label", Value.str "in1")],
       [], [], [], [],
       [("shape", Value.str "box3d"), ("href", Value.str "subsystem2.svg")],
       []]
    seq := 7 }

/-- A parent graph whose node `a` has an edge to itself, and the ExternalGraph composite
`root` on it. -/
def exLoopBuild : Option (Composite × World) :=
  match NewGraph [GraphOption.Directed] World.empty with
  | (g, W0) =>
    match Graph.Node g "a" W0 with
    | none => none
    | some (a, W1) =>
      match a.Edge a [] W1 with
      | none => none
      | some (_, W2) => NewComposite "testing/" "root" g ExternalGraph W2

/-- The composite `root` of `exLoopBuild`. -/
def exLoopRoot : Composite :=
  { Graph := 1
    outerNode := { attributes := 4, graph := 0, id := "root", seq := 2 }
    outerGraph := 0
    dotFilename := "testing/root.dot"
    kind := ExternalGraph }

/-- The heap `exLoopBuild` ends in. -/
def exLoopWorld : World :=
  { graphs :=
      [{ attributes := 0, options := [GraphOption.Directed],
         nodes := [{ attributes := 1, graph := 0, id := "a", seq := 1 },
                   { attributes := 4, graph := 0, id := "root", seq := 2 }],
         edges := [{ attributes := 2, graph := 0,
                     fromNode := { attributes := 1, graph := 0, id := "a", seq := 1 },
                     toNode := { attributes := 1, graph := 0, id := "a", seq := 1 },
                     fromPort := "", toPort := "" }],
         subgraphs := [] },
       { attributes := 3, options := [GraphOption.Directed], nodes := [], edges := [],
         subgraphs := [] }]
    attrs := [[], [], [], [], [("shape", Value.str "box3d"), ("href", Value.str "root.svg")]]
    seq := 2 }

/-- One side of the round trip on a parent graph whose node `component` has an edge to
itself: the composite `subsystem` of the given kind with the input `in1` wired to
`component`.  Returns the parent graph, the composite and the heap. -/
def exTripBuild (kind : compositeGraphKind) : Option (GraphRef × Composite × World) :=
  match NewGraph [GraphOption.Directed] World.empty with
  | (g, W0) =>
    match Graph.Node g "component" W0 with
    | none => none
    | some (c, W1) =>
      match c.Edge c [] W1 with
      | none => none
      | some (_, W2) =>
        match NewComposite "testing/" "subsystem" g kind W2 with
        | none => none
        | some (s, W3) =>
          match s.Input "in1" (Connectable.node c) W3 with
          | none => none
          | some (_, W4) => some (g, s, W4)

end dotx

namespace dottwin

open dot dotx

/-! ## Export and attributes of twins -/

/-- Go `func (c *CompositeTwin) Export(build func(g *dot.Graph)) *CompositeTwin`; the
warning written to the log on failure is returned next to the twin. -/
def CompositeTwin.Export (os : OS) (render : World → GraphRef → String)
    (build : GraphRef → World → Option World) (c : CompositeTwin) (W : World) :
    Option (CompositeTwin × World × List FsCall × Option String) :=
  match build c.ex.Graph W with
  | none => none
  | some W1 =>
    match Composite.ExportFile os render c.ex W1 with
    | (some err, calls) =>
      some (c, W1, calls, some ("WARN: dotx.Composite.Export failed " ++ err))
    | (none, calls) => some (c, W1, calls, none)

/-- Go `func (n NodeTwin) SetAttribute(label string, value interface{}) NodeTwin`. -/
def NodeTwin.SetAttribute (n : NodeTwin) (label : String) (value : Value) (W : World) :
    Option (NodeTwin × World) :=
  match n.in_.toAttributesMap.SetAttribute label value W with
  | none => none
  | some W1 =>
    match n.ex.toAttributesMap.SetAttribute label value W1 with
    | none => none
    | some W2 => some (n, W2)

/-- Go `func (n NodeTwin) Edge(toNodeTwin NodeTwin, labels ...string) EdgeTwin`. -/
def NodeTwin.Edge (n : NodeTwin) (toNodeTwin : NodeTwin) (labels : List String) (W : World) :
    Option (EdgeTwin × World) :=
  match Graph.Edge n.in_.Graph n.in_ toNodeTwin.in_ labels W with
  | none => none
  | some (a, W1) =>
    match Graph.Edge n.ex.Graph n.ex toNodeTwin.ex labels W1 with
    | none => none
    | some (b, W2) => some ({ in_ := a, ex := b }, W2)

/-- Go `func (c *CompositeTwin) SetAttribute(label string, value interface{}) NodeTwin`. -/
def CompositeTwin.SetAttribute (c : CompositeTwin) (label : String) (value : Value)
    (W : World) : Option (dottwin.NodeTwin × World) :=
  match c.in_.OuterNode.SetAttribute label value W with
  | none => none
  | some (a, W1) =>
    match c.ex.OuterNode.SetAttribute label value W1 with
    | none => none
    | some (b, W2) => some ({ in_ := a, ex := b }, W2)

end dottwin

namespace dottwin

open dot dotx

/-- The GraphTwin `g := NewGraphTwin(dot.Directed)` and its heap. -/
def exTwinStart : GraphTwin × World := NewGraphTwin [GraphOption.Directed] World.empty

end dottwin

namespace dot

/-! ## The bulk attribute call -/

/-- The loop of `SetAttributes` over the arguments, taken two at a time: a name, which has
to be a string, and its value. -/
def AttributesMap.setPairs (a : AttributesMap) : List dot.Value → World → Option World
  | [], W => some W
  | dot.Value.str label :: value :: rest, W =>
    match a.SetAttribute label value W with
    | none => none
    | some W1 => AttributesMap.setPairs a rest W1
  | _, _ => none

/-- Modelled from the spec: `AttributesMap.SetAttributes(labelvalues...)` (`attr.go` is not
among the sources; `attr_test.go` calls it).  The bulk attribute call: an odd count of
arguments aborts the call (the Go panic is `none`) before anything is set; otherwise the
arguments are alternating names and values and each pair is set as by `SetAttribute`. -/
def AttributesMap.SetAttributes (a : AttributesMap) (labelvalues : List dot.Value)
    (W : World) :
    Option World :=
  if labelvalues.length % 2 ≠ 0 then none else a.setPairs labelvalues W

/-- Go `g.SetAttributes(labelvalues...)` on a `*dot.Graph`, which embeds `AttributesMap`. -/
def Graph.SetAttributes (g : GraphRef) (labelvalues : List dot.Value) (W : World) :
    Option World :=
  match W.graphs[g]? with
  | none => none
  | some G => G.toAttributesMap.SetAttributes labelvalues W

/-- Go `g.Value(label)` on a `*dot.Graph`, which embeds `AttributesMap`. -/
def Graph.Value (g : GraphRef) (label : String) (W : World) : Option dot.Value :=
  match W.graphs[g]? with
  | none => none
  | some G => some (G.toAttributesMap.Value label W)

/-- An argument list of alternating names and values, from the list of its pairs. -/
def alternate : List (String × Value) → List Value
  | [] => []
  | (label, value) :: rest => Value.str label :: value :: alternate rest

/-- What the name `l` maps to after the pairs were declared in order, `init` being what it
mapped to before: the value of the last pair that declares `l` with a value other than nil,
`l` not being the empty name. -/
def pairedValue (pairs : List (String × Value)) (l : String) (init : Value) : Value :=
  pairs.foldl (fun acc p => if p.1 = l ∧ p.1 ≠ "" ∧ p.2 ≠ Value.nil then p.2 else acc) init

end dot

namespace html

/-- The double quote character. -/
def dquote : Char := Char.ofNat 34

/-- The apostrophe character. -/
def apostrophe : Char := Char.ofNat 39

/-- The replacement of one character by Go `html.EscapeString` (standard library): the five
characters `<`, `>`, `&`, apostrophe and double quote become entities. -/
def escapeChar (c : Char) : List Char :=
  if c = '&' then "&amp;".data
  else if c = apostrophe then "&#39;".data
  else if c = '<' then "&lt;".data
  else if c = '>' then "&gt;".data
  else if c = dquote then "&#34;".data
  else [c]

/-- Go `html.EscapeString` (standard library). -/
def EscapeString (s : String) : String :=
  String.mk ((s.data.map escapeChar).flatten)

end html

namespace htmlike

/-! ## HTML-like labels (`htmlike/htmlike.go`) -/

/-- The text `"` as a string. -/
def quote : String := String.singleton html.dquote

/-- Go `type HtmLikeAlign string`. -/
abbrev HtmLikeAlign := String

/-- Go `type HtmLikeValign string`. -/
abbrev HtmLikeValign := String

/-- Go `type HtmLikeImgScale string`. -/
abbrev HtmLikeImgScale := String

/-- Go `func writeAttrString(w io.Writer, name string, value string) error`, on the content
of the buffer `w`; writing to a `bytes.Buffer` does not fail, the error is always nil. -/
def writeAttrString (w : String) (name : String) (value : String) : String :=
  if value = "" then w
  else w ++ (" " ++ name ++ "=" ++ quote ++ html.EscapeString value ++ quote)

/-- Go `func writeAttrIntPtr(w io.Writer, name string, value *int) error`. -/
def writeAttrIntPtr (w : String) (name : String) (value : Option Int) : String :=
  match value with
  | none => w
  | some v => w ++ (" " ++ name ++ "=" ++ quote ++ toString v ++ quote)

/-- Go `func writeAttrUintPtr(w io.Writer, name string, value *uint) error`. -/
def writeAttrUintPtr (w : String) (name : String) (value : Option Nat) : String :=
  match value with
  | none => w
  | some v => w ++ (" " ++ name ++ "=" ++ quote ++ toString v ++ quote)

/-- Go `func writeAttrBoolPtr(w io.Writer, name string, value *bool) error`. -/
def writeAttrBoolPtr (w : String) (name : String) (value : Option Bool) : String :=
  match value with
  | none => w
  | some v => w ++ (" " ++ name ++ "=" ++ quote ++ (if v then "TRUE" else "FALSE") ++ quote)

/-- Go `func writeAttrHtmLikeAlign(w io.Writer, name string, value HtmLikeAlign) error`. -/
def writeAttrHtmLikeAlign (w : String) (name : String) (value : HtmLikeAlign) : String :=
  if value = "" then w else w ++ (" " ++ name ++ "=" ++ quote ++ value ++ quote)

/-- Go `func writeAttrHtmLikeValign(w io.Writer, name string, value HtmLikeValign) error`. -/
def writeAttrHtmLikeValign (w : String) (name : String) (value : HtmLikeValign) : String :=
  if value = "" then w else w ++ (" " ++ name ++ "=" ++ quote ++ value ++ quote)

/-- Go `func writeAttrHtmLikeImgScale(w io.Writer, name string, value HtmLikeImgScale)
error`. -/
def writeAttrHtmLikeImgScale (w : String) (name : String) (value : HtmLikeImgScale) : String :=
  if value = "" then w else w ++ (" " ++ name ++ "=" ++ quote ++ value ++ quote)

/-- The attribute fields of Go `type Table struct`; a `*uint`, `*int` or `*bool` that is nil
is `none`.  The field `Children` is carried by the constructor `HtmLikeElement.table`. -/
structure Table where
  Align : HtmLikeAlign := ""
  BGColor : String := ""
  Border : Option Nat := none
  CellBorder : Option Nat := none
  CellPadding : Option Nat := none
  CellSpacing : Option Nat := none
  Color : String := ""
  Columns : String := ""
  FixedSize : Option Bool := none
  GradientAngle : Option Int := none
  Height : Option Nat := none
  HREF : String := ""
  ID : String := ""
  Port : String := ""
  Rows : String := ""
  Sides : String := ""
  Style : String := ""
  Target : String := ""
  Title : String := ""
  Tooltip : String := ""
  Valign : HtmLikeValign := ""
  Width : Option Nat := none
deriving DecidableEq, Repr

/-- The attribute fields of Go `type TD struct`. -/
structure TD where
  Align : HtmLikeAlign := ""
  BAlign : HtmLikeAlign := ""
  BGColor : String := ""
  Border : Option Nat := none
  CellPadding : Option Nat := none
  CellSpacing : Option Nat := none
  Color : String := ""
  Colspan : Option Nat := none
  FixedSize : Option Bool := none
  GradientAngle : Option Int := none
  Height : Option Nat := none
  HREF : String := ""
  ID : String := ""
  Port : String := ""
  Rowspan : Option Nat := none
  Sides : String := ""
  Style : String := ""
  Target : String := ""
  Title : String := ""
  Tooltip : String := ""
  Valign : HtmLikeValign := ""
  Width : Option Nat := none
deriving DecidableEq, Repr

/-- The attribute fields of Go `type FONT struct`. -/
structure FONT where
  Color : String := ""
  Face : String := ""
  PointSize : Option Int := none
deriving DecidableEq, Repr

/-- Go `type HtmLikeElement interface { WriteDOT(w io.Writer) error }` with its
implementations: `Text`, `*Table`, `*TR`, `*TD`, `*FONT`, `*BR`, `*IMG`, `*StyleElement` and
`*RuleElement`. -/
inductive HtmLikeElement where
  | text (t : String)
  | table (t : Table) (Children : List HtmLikeElement)
  | tr (Children : List HtmLikeElement)
  | td (td : TD) (Children : List HtmLikeElement)
  | font (f : FONT) (Children : List HtmLikeElement)
  | br (Align : HtmLikeAlign)
  | img (Scale : HtmLikeImgScale) (Src : String)
  | style (Tag : String) (Children : List HtmLikeElement)
  | rule (Tag : String)

/-- Go `type HtmLike struct { Elements []HtmLikeElement }`. -/
structure HtmLike where
  Elements : List HtmLikeElement

/-- The attribute writes of `(*Table).WriteDOT`, in the order of the source. -/
def Table.writeAttrs (t : Table) (w : String) : String :=
  let w := writeAttrHtmLikeAlign w "ALIGN" t.Align
  let w := writeAttrString w "BGCOLOR" t.BGColor
  let w := writeAttrUintPtr w "BORDER" t.Border
  let w := writeAttrUintPtr w "CELLBORDER" t.CellBorder
  let w := writeAttrUintPtr w "CELLPADDING" t.CellPadding
  let w := writeAttrUintPtr w "CELLSPACING" t.CellSpacing
  let w := writeAttrString w "COLOR" t.Color
  let w := writeAttrString w "COLUMNS" t.Columns
  let w := writeAttrBoolPtr w "FIXEDSIZE" t.FixedSize
  let w := writeAttrIntPtr w "GRADIENTANGLE" t.GradientAngle
  let w := writeAttrUintPtr w "HEIGHT" t.Height
  let w := writeAttrString w "HREF" t.HREF
  let w := writeAttrString w "ID" t.ID
  let w := writeAttrString w "PORT" t.Port
  let w := writeAttrString w "ROWS" t.Rows
  let w := writeAttrString w "SIDES" t.Sides
  let w := writeAttrString w "STYLE" t.Style
  let w := writeAttrString w "TARGET" t.Target
  let tooltipVal := if t.Tooltip = "" ∧ t.Title ≠ "" then t.Title else t.Tooltip
  let w := writeAttrString w "TOOLTIP" tooltipVal
  let w := writeAttrHtmLikeValign w "VALIGN" t.Valign
  writeAttrUintPtr w "WIDTH" t.Width

/-- The attribute writes of `(*TD).WriteDOT`, in the order of the source. -/
def TD.writeAttrs (td : TD) (w : String) : String :=
  let w := writeAttrHtmLikeAlign w "ALIGN" td.Align
  let w := writeAttrHtmLikeAlign w "BALIGN" td.BAlign
  let w := writeAttrString w "BGCOLOR" td.BGColor
  let w := writeAttrUintPtr w "BORDER" td.Border
  let w := writeAttrUintPtr w "CELLPADDING" td.CellPadding
  let w := writeAttrString w "COLOR" td.Color
  let w := writeAttrUintPtr w "COLSPAN" td.Colspan
  let w := writeAttrBoolPtr w "FIXEDSIZE" td.FixedSize
  let w := writeAttrIntPtr w "GRADIENTANGLE" td.GradientAngle
  let w := writeAttrUintPtr w "HEIGHT" td.Height
  let w := writeAttrString w "HREF" td.HREF
  let w := writeAttrString w "ID" td.ID
  let w := writeAttrString w "PORT" td.Port
  let w := writeAttrUintPtr w "ROWSPAN" td.Rowspan
  let w := writeAttrString w "SIDES" td.Sides
  let w := writeAttrString w "STYLE" td.Style
  let w := writeAttrString w "TARGET" td.Target
  let tooltipVal := if td.Tooltip = "" ∧ td.Title ≠ "" then td.Title else td.Tooltip
  let w := writeAttrString w "TOOLTIP" tooltipVal
  let w := writeAttrHtmLikeValign w "VALIGN" td.Valign
  writeAttrUintPtr w "WIDTH" td.Width

/-- The attribute writes of `(*FONT).WriteDOT`, in the order of the source. -/
def FONT.writeAttrs (f : FONT) (w : String) : String :=
  let w := writeAttrString w "COLOR" f.Color
  let w := writeAttrString w "FACE" f.Face
  writeAttrIntPtr w "POINT-SIZE" f.PointSize

mutual
/-- Go `WriteDOT(w io.Writer) error` of the nine element types, on the content of the buffer
`w`: the result is the content after the call and the error (`none` for nil).  What was
written before an error stays in the buffer. -/
def HtmLikeElement.WriteDOT : HtmLikeElement → String → String × Option String
  | .text t, w => (w ++ html.EscapeString t, none)
  | .table t Children, w =>
    let w := w ++ "\n<TABLE"
    let w := t.writeAttrs w
    let w := w ++ ">"
    let r := writeChildren Children w
    match r.2 with
    | some err => (r.1, some err)
    | none => (r.1 ++ "\n</TABLE>", none)
  | .tr Children, w =>
    let w := w ++ "\n<TR>"
    let r := writeChildren Children w
    match r.2 with
    | some err => (r.1, some err)
    | none => (r.1 ++ "</TR>", none)
  | .td td Children, w =>
    let w := w ++ "<TD"
    let w := td.writeAttrs w
    let w := w ++ ">"
    let r := writeChildren Children w
    match r.2 with
    | some err => (r.1, some err)
    | none => (r.1 ++ "</TD>", none)
  | .font f Children, w =>
    let w := w ++ "<FONT"
    let w := f.writeAttrs w
    let w := w ++ ">"
    let r := writeChildren Children w
    match r.2 with
    | some err => (r.1, some err)
    | none => (r.1 ++ "</FONT>", none)
  | .br Align, w =>
    let w := w ++ "<BR"
    let w := writeAttrHtmLikeAlign w "ALIGN" Align
    (w ++ "/>", none)
  | .img Scale Src, w =>
    let w := w ++ "<IMG"
    if Src = "" then (w, some "IMG element requires SRC attribute")
    else
      let w := writeAttrString w "SRC" Src
      let w := writeAttrHtmLikeImgScale w "SCALE" Scale
      (w ++ "/>", none)
  | .style Tag Children, w =>
    let w := w ++ ("<" ++ Tag ++ ">")
    let r := writeChildren Children w
    match r.2 with
    | some err => (r.1, some err)
    | none => (r.1 ++ ("</" ++ Tag ++ ">"), none)
  | .rule Tag, w => (w ++ ("<" ++ Tag ++ "/>"), none)
/-- The loop `for _, child := range Children { if err := child.WriteDOT(w); err != nil
{ return err } }` shared by the container elements and by `HtmLike.String`. -/
def writeChildren : List HtmLikeElement → String → String × Option String
  | [], w => (w, none)
  | child :: rest, w =>
    let r := child.WriteDOT w
    match r.2 with
    | some err => (r.1, some err)
    | none => writeChildren rest r.1
end

/-- Go `func NewHtmLike(elements ...HtmLikeElement) *HtmLike`. -/
def NewHtmLike (elements : List HtmLikeElement) : HtmLike := ⟨elements⟩

/-- Go `func (h *HtmLike) String() string`.  The writes of the opening `<` and of the
closing `>` are commented out in the source and are not part of the function. -/
def HtmLike.String (h : HtmLike) : String :=
  if h.Elements.length = 0 then "<>"
  else
    let r := writeChildren h.Elements ""
    match r.2 with
    | some err => "Error writing element: " ++ err
    | none => r.1

mutual
/-- Whether the element is, or contains at any depth, an `IMG` whose `Src` is empty. -/
def HtmLikeElement.hasEmptySrc : HtmLikeElement → Bool
  | .text _ => false
  | .table _ Children => anyEmptySrc Children
  | .tr Children => anyEmptySrc Children
  | .td _ Children => anyEmptySrc Children
  | .font _ Children => anyEmptySrc Children
  | .br _ => false
  | .img _ Src => decide (Src = "")
  | .style _ Children => anyEmptySrc Children
  | .rule _ => false
/-- Whether one of the elements has an `IMG` with empty `Src`. -/
def anyEmptySrc : List HtmLikeElement → Bool
  | [] => false
  | child :: rest => child.hasEmptySrc || anyEmptySrc rest
end

/-- The serialisation of one element: what `WriteDOT` writes into an empty buffer. -/
def HtmLikeElement.serialise (e : HtmLikeElement) : String := (e.WriteDOT "").1

/-- The concatenated serialisation of a list of elements. -/
def serialiseAll (es : List HtmLikeElement) : String :=
  es.foldl (fun acc e => acc ++ e.serialise) ""

/-- A two-cell table with a line break, used as a concrete label. -/
def exLabel : HtmLike :=
  NewHtmLike [.table { Border := some 0, BGColor := "a<b" }
    [.tr [.td { Port := "here" } [.text "x & y", .br ""], .rule "VR",
      .td {} [.img "" "pic.png", .style "B" [.text "z"]]]]]

/-- A label with an image without source below a table cell. -/
def exBadLabel : HtmLike :=
  NewHtmLike [.text "a", .table {} [.tr [.td {} [.img "" ""]]], .text "b"]

end htmlike

namespace html

/-- The five entities that `EscapeString` produces. -/
def entities : List (List Char) :=
  ["&amp;".data, "&#39;".data, "&lt;".data, "&gt;".data, "&#34;".data]

/-- Every `&` of the text is the first character of one of the five entities. -/
def AmpersandsStartEntities (l : List Char) : Prop :=
  ∀ i : Nat, l[i]? = some '&' → ∃ e ∈ entities, e <+: l.drop i

/-- The text has no raw `<`, `>` or double quote. -/
def NoRawMarkup (l : List Char) : Prop :=
  '<' ∉ l ∧ '>' ∉ l ∧ dquote ∉ l

end html

namespace dottwin

open dot dotx

/-! ## Sequences of twin operations -/

/-- One call of a twin-typed operation.  A NodeTwin or CompositeTwin argument is named by
its position among the values returned so far. -/
inductive TwinOp where
  | graphNodeTwin (id : String)
  | newCompositeTwin (dotPath id : String)
  | compositeNodeTwin (c : Nat) (id : String)
  | inputTwin (c : Nat) (id : String) (frm : Nat)
  | outputTwin (c : Nat) (id : String) (frm : Nat)
  | nodeEdge (n toNodeTwin : Nat) (labels : List String)
  | nodeSetAttribute (n : Nat) (label : String) (value : Value)
  | compositeSetAttribute (c : Nat) (label : String) (value : Value)
deriving DecidableEq, Repr

/-- The state of a program over one GraphTwin: the heap, the GraphTwin and the NodeTwin and
CompositeTwin values returned so far. -/
structure TwinState where
  W : World
  g : GraphTwin
  nodes : List NodeTwin
  composites : List CompositeTwin
deriving DecidableEq, Repr

/-- The state after `g := NewGraphTwin(options...)` on the empty heap. -/
def TwinState.start (options : List GraphOption) : TwinState :=
  { W := (NewGraphTwin options World.empty).2, g := (NewGraphTwin options World.empty).1,
    nodes := [], composites := [] }

/-- Performs one operation; `none` when an argument names no value, or when the call
panics. -/
def TwinOp.step (S : TwinState) : TwinOp → Option TwinState
  | .graphNodeTwin id =>
    match S.g.NodeTwin id S.W with
    | none => none
    | some (n, W) => some { S with W := W, nodes := S.nodes ++ [n] }
  | .newCompositeTwin dotPath id =>
    match NewCompositeTwin dotPath id S.g S.W with
    | none => none
    | some (c, W) => some { S with W := W, composites := S.composites ++ [c] }
  | .compositeNodeTwin c id =>
    match S.composites[c]? with
    | none => none
    | some c =>
      match c.NodeTwin id S.W with
      | none => none
      | some (n, W) => some { S with W := W, nodes := S.nodes ++ [n] }
  | .inputTwin c id frm =>
    match S.composites[c]?, S.nodes[frm]? with
    | some c, some frm =>
      match c.InputTwin id frm S.W with
      | none => none
      | some (_, W) => some { S with W := W }
    | _, _ => none
  | .outputTwin c id frm =>
    match S.composites[c]?, S.nodes[frm]? with
    | some c, some frm =>
      match c.OutputTwin id frm S.W with
      | none => none
      | some (_, W) => some { S with W := W }
    | _, _ => none
  | .nodeEdge n toNodeTwin labels =>
    match S.nodes[n]?, S.nodes[toNodeTwin]? with
    | some n, some toNodeTwin =>
      match n.Edge toNodeTwin labels S.W with
      | none => none
      | some (_, W) => some { S with W := W }
    | _, _ => none
  | .nodeSetAttribute n label value =>
    match S.nodes[n]? with
    | none => none
    | some n =>
      match n.SetAttribute label value S.W with
      | none => none
      | some (m, W) => some { S with W := W, nodes := S.nodes ++ [m] }
  | .compositeSetAttribute c label value =>
    match S.composites[c]? with
    | none => none
    | some c =>
      match c.SetAttribute label value S.W with
      | none => none
      | some (m, W) => some { S with W := W, nodes := S.nodes ++ [m] }

/-- Performs the operations one after the other. -/
def runOps : List TwinOp → TwinState → Option TwinState
  | [], S => some S
  | op :: ops, S =>
    match op.step S with
    | none => none
    | some S1 => runOps ops S1

/-- Whether the arguments of the operation name values, when `nn` NodeTwin and `nc`
CompositeTwin values were returned so far. -/
def TwinOp.closed (nn nc : Nat) : TwinOp → Bool
  | .graphNodeTwin _ => true
  | .newCompositeTwin _ _ => true
  | .compositeNodeTwin c _ => decide (c < nc)
  | .inputTwin c _ frm => decide (c < nc) && decide (frm < nn)
  | .outputTwin c _ frm => decide (c < nc) && decide (frm < nn)
  | .nodeEdge n toNodeTwin _ => decide (n < nn) && decide (toNodeTwin < nn)
  | .nodeSetAttribute n _ _ => decide (n < nn)
  | .compositeSetAttribute c _ _ => decide (c < nc)

/-- The number of NodeTwin values the operation returns. -/
def TwinOp.newNodes : TwinOp → Nat
  | .graphNodeTwin _ => 1
  | .compositeNodeTwin _ _ => 1
  | .nodeSetAttribute _ _ _ => 1
  | .compositeSetAttribute _ _ _ => 1
  | _ => 0

/-- The number of CompositeTwin values the operation returns. -/
def TwinOp.newComposites : TwinOp → Nat
  | .newCompositeTwin _ _ => 1
  | _ => 0

/-- Whether every operation of the sequence is applied to values returned before it. -/
def closedOps : Nat → Nat → List TwinOp → Bool
  | _, _, [] => true
  | nn, nc, op :: ops =>
    op.closed nn nc && closedOps (nn + op.newNodes) (nc + op.newComposites) ops

/-- The ids given to `NewCompositeTwin` by the sequence. -/
def compositeIds : List TwinOp → List String
  | [] => []
  | .newCompositeTwin _ id :: ops => id :: compositeIds ops
  | _ :: ops => compositeIds ops

/-- The graph `g` and the graphs nested in it through subgraphs, down to `depth` levels. -/
def hierarchy (W : World) : Nat → GraphRef → List GraphRef
  | 0, _ => []
  | depth + 1, g => g :: ((W.subgraphsOf g).map fun p => hierarchy W depth p.2).flatten

/-- The node ids of graph `i`, in creation order. -/
def idsOf (W : World) (i : GraphRef) : List String := (W.nodesOf i).map fun n => n.id

/-- The graphs of the in side: the in graph and its nested subgraphs. -/
def TwinState.inGraphs (S : TwinState) : List GraphRef :=
  hierarchy S.W S.W.graphs.length S.g.in_

/-- The graphs of the ex side: the ex parent graph and the inner graphs of the external
members. -/
def TwinState.exGraphs (S : TwinState) : List GraphRef :=
  S.g.ex :: S.composites.map fun c => c.ex.Graph

/-- The number of edges held by the given graphs together. -/
def edgeTotal (W : World) (gs : List GraphRef) : Nat :=
  (gs.map fun i => (W.edgesOf i).length).sum

/-- The node ids of the given graphs, with repetitions. -/
def idTotal (W : World) (gs : List GraphRef) : Multiset String :=
  ((gs.map fun i => idsOf W i).flatten : List String)

/-- The two sides agree: equally many edges, the same multiset of node ids. -/
def TwinState.Agree (S : TwinState) : Prop :=
  edgeTotal S.W S.inGraphs = edgeTotal S.W S.exGraphs ∧
  idTotal S.W S.inGraphs = idTotal S.W S.exGraphs

/-- The list of ids after a lookup-or-create of `id`. -/
def addId (ids : List String) (id : String) : List String :=
  if id ∈ ids then ids else ids ++ [id]

/-- What an operation did to the graphs of the heap: no graph was created or registered,
every node stayed, each graph looked up or created the ids of `nt` that name it, in order,
and gained one edge for every occurrence in `et`. -/
structure Effect (W W' : World) (nt : List (GraphRef × String)) (et : List GraphRef) :
    Prop where
  wf : W'.WF
  len : W'.graphs.length = W.graphs.length
  nodes_sub : ∀ (i : GraphRef) (n : dot.Node), n ∈ W.nodesOf i → n ∈ W'.nodesOf i
  subs : ∀ i : GraphRef, W'.subgraphsOf i = W.subgraphsOf i
  ids : ∀ i : GraphRef,
    idsOf W' i = ((nt.filter fun t => t.1 = i).map Prod.snd).foldl addId (idsOf W i)
  edges : ∀ i : GraphRef, (W'.edgesOf i).length = (W.edgesOf i).length + et.count i

/-- The pairs of graphs that mirror each other: the two graphs of the GraphTwin and the two
inner graphs of every CompositeTwin. -/
def TwinState.pairs (S : TwinState) : List (GraphRef × GraphRef) :=
  (S.g.in_, S.g.ex) :: S.composites.map fun c => (c.in_.Graph, c.ex.Graph)

/-- The invariant of the twin operations. -/
structure TwinInv (S : TwinState) : Prop where
  wf : S.W.WF
  subs_root : S.W.subgraphsOf S.g.in_ =
    S.composites.map fun c => (c.in_.outerNode.id, c.in_.Graph)
  subs_inner : ∀ c ∈ S.composites, S.W.subgraphsOf c.in_.Graph = []
  comp_wf : ∀ c ∈ S.composites, c.in_.WF S.W ∧ c.ex.WF S.W
  comp_outer : ∀ c ∈ S.composites, c.in_.outerGraph = S.g.in_ ∧ c.ex.outerGraph = S.g.ex
  pair_lt : ∀ p ∈ S.pairs, p.1 < S.W.graphs.length ∧ p.2 < S.W.graphs.length
  pair_eq : ∀ p ∈ S.pairs,
    idsOf S.W p.1 = idsOf S.W p.2 ∧ (S.W.edgesOf p.1).length = (S.W.edgesOf p.2).length
  pair_inj : ∀ p ∈ S.pairs, ∀ q ∈ S.pairs, (p.1 = q.1 ↔ p.2 = q.2) ∧ p.1 ≠ q.2
  handles : ∀ n ∈ S.nodes, ∃ p ∈ S.pairs, n.in_ ∈ S.W.nodesOf p.1 ∧ n.ex ∈ S.W.nodesOf p.2

/-- The sequence that gives one id to two CompositeTwin values and asks each for a node
`x`. -/
def exSharedOps : List TwinOp :=
  [.newCompositeTwin "testing/" "s", .newCompositeTwin "testing/" "s",
   .compositeNodeTwin 0 "x", .compositeNodeTwin 1 "x"]

/-- A sequence that uses every operation. -/
def exAllOps : List TwinOp :=
  [.graphNodeTwin "component", .newCompositeTwin "testing/" "subsystem",
   .compositeNodeTwin 0 "sub1", .inputTwin 0 "in" 0, .outputTwin 0 "out" 1,
   .newCompositeTwin "testing/" "other", .inputTwin 1 "in" 1, .nodeEdge 1 0 ["l"],
   .nodeSetAttribute 0 "color" (Value.str "red"),
   .compositeSetAttribute 1 "style" (Value.str "filled"), .outputTwin 0 "out2" 3]

end dottwin

namespace htmlike

/-! ## Setters and constructors of the label elements

A Go `*Table`, `*TD` or `*FONT` is the record of its attribute fields together with the list
of children held by the constructor of `HtmLikeElement`; a setter changes one field of the
record. -/

/-- Go `func (t *Table) SetAlign(v HtmLikeAlign) *Table`. -/
def Table.SetAlign (t : Table) (v : HtmLikeAlign) : Table := { t with Align := v }

/-- Go `func (t *Table) SetBGColor(v string) *Table`. -/
def Table.SetBGColor (t : Table) (v : String) : Table := { t with BGColor := v }

/-- Go `func (t *Table) SetBorder(v uint) *Table`. -/
def Table.SetBorder (t : Table) (v : Nat) : Table := { t with Border := some v }

/-- Go `func (t *Table) SetCellBorder(v uint) *Table`. -/
def Table.SetCellBorder (t : Table) (v : Nat) : Table := { t with CellBorder := some v }

/-- Go `func (t *Table) SetCellPadding(v uint) *Table`. -/
def Table.SetCellPadding (t : Table) (v : Nat) : Table := { t with CellPadding := some v }

/-- Go `func (t *Table) SetCellSpacing(v uint) *Table`. -/
def Table.SetCellSpacing (t : Table) (v : Nat) : Table := { t with CellSpacing := some v }

/-- Go `func (t *Table) SetColor(v string) *Table`. -/
def Table.SetColor (t : Table) (v : String) : Table := { t with Color := v }

/-- Go `func (t *Table) SetColumns(v string) *Table`. -/
def Table.SetColumns (t : Table) (v : String) : Table := { t with Columns := v }

/-- Go `func (t *Table) SetFixedSize(v bool) *Table`. -/
def Table.SetFixedSize (t : Table) (v : Bool) : Table := { t with FixedSize := some v }

/-- Go `func (t *Table) SetGradientAngle(v int) *Table`. -/
def Table.SetGradientAngle (t : Table) (v : Int) : Table := { t with GradientAngle := some v }

/-- Go `func (t *Table) SetHeight(v uint) *Table`. -/
def Table.SetHeight (t : Table) (v : Nat) : Table := { t with Height := some v }

/-- Go `func (t *Table) SetHREF(v string) *Table`. -/
def Table.SetHREF (t : Table) (v : String) : Table := { t with HREF := v }

/-- Go `func (t *Table) SetID(v string) *Table`. -/
def Table.SetID (t : Table) (v : String) : Table := { t with ID := v }

/-- Go `func (t *Table) SetPort(v string) *Table`. -/
def Table.SetPort (t : Table) (v : String) : Table := { t with Port := v }

/-- Go `func (t *Table) SetRows(v string) *Table`. -/
def Table.SetRows (t : Table) (v : String) : Table := { t with Rows := v }

/-- Go `func (t *Table) SetSides(v string) *Table`. -/
def Table.SetSides (t : Table) (v : String) : Table := { t with Sides := v }

/-- Go `func (t *Table) SetStyle(v string) *Table`. -/
def Table.SetStyle (t : Table) (v : String) : Table := { t with Style := v }

/-- Go `func (t *Table) SetTarget(v string) *Table`. -/
def Table.SetTarget (t : Table) (v : String) : Table := { t with Target := v }

/-- Go `func (t *Table) SetTitle(v string) *Table`. -/
def Table.SetTitle (t : Table) (v : String) : Table := { t with Title := v }

/-- Go `func (t *Table) SetTooltip(v string) *Table`. -/
def Table.SetTooltip (t : Table) (v : String) : Table := { t with Tooltip := v }

/-- Go `func (t *Table) SetValign(v HtmLikeValign) *Table`. -/
def Table.SetValign (t : Table) (v : HtmLikeValign) : Table := { t with Valign := v }

/-- Go `func (t *Table) SetWidth(v uint) *Table`. -/
def Table.SetWidth (t : Table) (v : Nat) : Table := { t with Width := some v }

/-- Go `func (td *TD) SetAlign(v HtmLikeAlign) *TD`. -/
def TD.SetAlign (td : TD) (v : HtmLikeAlign) : TD := { td with Align := v }

/-- Go `func (td *TD) SetBAlign(v HtmLikeAlign) *TD`. -/
def TD.SetBAlign (td : TD) (v : HtmLikeAlign) : TD := { td with BAlign := v }

/-- Go `func (td *TD) SetBGColor(v string) *TD`. -/
def TD.SetBGColor (td : TD) (v : String) : TD := { td with BGColor := v }

/-- Go `func (td *TD) SetBorder(v uint) *TD`. -/
def TD.SetBorder (td : TD) (v : Nat) : TD := { td with Border := some v }

/-- Go `func (td *TD) SetCellPadding(v uint) *TD`. -/
def TD.SetCellPadding (td : TD) (v : Nat) : TD := { td with CellPadding := some v }

/-- Go `func (td *TD) SetColor(v string) *TD`. -/
def TD.SetColor (td : TD) (v : String) : TD := { td with Color := v }

/-- Go `func (td *TD) SetColspan(v uint) *TD`. -/
def TD.SetColspan (td : TD) (v : Nat) : TD := { td with Colspan := some v }

/-- Go `func (td *TD) SetFixedSize(v bool) *TD`. -/
def TD.SetFixedSize (td : TD) (v : Bool) : TD := { td with FixedSize := some v }

/-- Go `func (td *TD) SetGradientAngle(v int) *TD`. -/
def TD.SetGradientAngle (td : TD) (v : Int) : TD := { td with GradientAngle := some v }

/-- Go `func (td *TD) SetHeight(v uint) *TD`. -/
def TD.SetHeight (td : TD) (v : Nat) : TD := { td with Height := some v }

/-- Go `func (td *TD) SetHREF(v string) *TD`. -/
def TD.SetHREF (td : TD) (v : String) : TD := { td with HREF := v }

/-- Go `func (td *TD) SetID(v string) *TD`. -/
def TD.SetID (td : TD) (v : String) : TD := { td with ID := v }

/-- Go `func (td *TD) SetPort(v string) *TD`. -/
def TD.SetPort (td : TD) (v : String) : TD := { td with Port := v }

/-- Go `func (td *TD) SetRowspan(v uint) *TD`. -/
def TD.SetRowspan (td : TD) (v : Nat) : TD := { td with Rowspan := some v }

/-- Go `func (td *TD) SetSides(v string) *TD`. -/
def TD.SetSides (td : TD) (v : String) : TD := { td with Sides := v }

/-- Go `func (td *TD) SetStyle(v string) *TD`. -/
def TD.SetStyle (td : TD) (v : String) : TD := { td with Style := v }

/-- Go `func (td *TD) SetTarget(v string) *TD`. -/
def TD.SetTarget (td : TD) (v : String) : TD := { td with Target := v }

/-- Go `func (td *TD) SetTitle(v string) *TD`. -/
def TD.SetTitle (td : TD) (v : String) : TD := { td with Title := v }

/-- Go `func (td *TD) SetTooltip(v string) *TD`. -/
def TD.SetTooltip (td : TD) (v : String) : TD := { td with Tooltip := v }

/-- Go `func (td *TD) SetValign(v HtmLikeValign) *TD`. -/
def TD.SetValign (td : TD) (v : HtmLikeValign) : TD := { td with Valign := v }

/-- Go `func (td *TD) SetWidth(v uint) *TD`. -/
def TD.SetWidth (td : TD) (v : Nat) : TD := { td with Width := some v }

/-- Go `func (f *FONT) SetColor(v string) *FONT`. -/
def FONT.SetColor (f : FONT) (v : String) : FONT := { f with Color := v }

/-- Go `func (f *FONT) SetFace(v string) *FONT`. -/
def FONT.SetFace (f : FONT) (v : String) : FONT := { f with Face := v }

/-- Go `func (f *FONT) SetPointSize(v int) *FONT`. -/
def FONT.SetPointSize (f : FONT) (v : Int) : FONT := { f with PointSize := some v }

/-- Go `func NewTable(children ...HtmLikeElement) *Table`. -/
def NewTable (children : List HtmLikeElement) : HtmLikeElement := .table {} children

/-- Go `func NewTR(children ...HtmLikeElement) *TR`. -/
def NewTR (children : List HtmLikeElement) : HtmLikeElement := .tr children

/-- Go `func NewTD(children ...HtmLikeElement) *TD`. -/
def NewTD (children : List HtmLikeElement) : HtmLikeElement := .td {} children

/-- Go `func NewFONT(children ...HtmLikeElement) *FONT`. -/
def NewFONT (children : List HtmLikeElement) : HtmLikeElement := .font {} children

/-- Go `func newStyleElement(tag string, children ...HtmLikeElement) *StyleElement`. -/
def newStyleElement (tag : String) (children : List HtmLikeElement) : HtmLikeElement :=
  .style tag children

/-- Go `func NewB(children ...HtmLikeElement) *StyleElement`. -/
def NewB (children : List HtmLikeElement) : HtmLikeElement := newStyleElement "B" children

/-- Go `func NewText(s string) Text`. -/
def NewText (s : String) : HtmLikeElement := .text s

/-- Go `func NewIMG(src string) *IMG`. -/
def NewIMG (src : String) : HtmLikeElement := .img "" src

/-- The five Go methods `AppendChildren(children ...HtmLikeElement)` of `*Table`, `*TR`,
`*TD`, `*FONT` and `*StyleElement`: `Children = append(Children, children...)`.  The other
element types have no such method; they are returned as they are. -/
def HtmLikeElement.AppendChildren : HtmLikeElement → List HtmLikeElement → HtmLikeElement
  | .table a Children, children => .table a (Children ++ children)
  | .tr Children, children => .tr (Children ++ children)
  | .td a Children, children => .td a (Children ++ children)
  | .font a Children, children => .font a (Children ++ children)
  | .style Tag Children, children => .style Tag (Children ++ children)
  | e, _ => e

/-- The text `s` contains the text `piece`. -/
def Emits (s piece : String) : Prop := ∃ pre post : String, s = pre ++ piece ++ post

/-- The text of one attribute with the value `v` between the quotes. -/
def attrText (name v : String) : String := " " ++ name ++ "=" ++ quote ++ v ++ quote

/-- The text written for a string attribute: nothing for the empty value, else the
escaped value between quotes. -/
def stringPiece (name value : String) : String :=
  if value = "" then "" else attrText name (html.EscapeString value)

/-- The text written for an attribute of type `HtmLikeAlign`, `HtmLikeValign` or
`HtmLikeImgScale`: nothing for the empty value, else the value between quotes. -/
def enumPiece (name value : String) : String :=
  if value = "" then "" else attrText name value

/-- The text written for a `*uint` attribute: nothing for nil, else the number. -/
def uintPiece (name : String) : Option Nat → String
  | none => ""
  | some v => attrText name (toString v)

/-- The text written for a `*int` attribute: nothing for nil, else the number. -/
def intPiece (name : String) : Option Int → String
  | none => ""
  | some v => attrText name (toString v)

/-- The text written for a `*bool` attribute: nothing for nil, else `TRUE` or `FALSE`. -/
def boolPiece (name : String) : Option Bool → String
  | none => ""
  | some v => attrText name (if v then "TRUE" else "FALSE")

/-- The pieces of text that `(*Table).WriteDOT` writes for the attributes, one for each
attribute in the order of the source; a piece is empty when the attribute is not written. -/
def Table.attrPieces (t : Table) : List String :=
  [enumPiece "ALIGN" t.Align,
   stringPiece "BGCOLOR" t.BGColor,
   uintPiece "BORDER" t.Border,
   uintPiece "CELLBORDER" t.CellBorder,
   uintPiece "CELLPADDING" t.CellPadding,
   uintPiece "CELLSPACING" t.CellSpacing,
   stringPiece "COLOR" t.Color,
   stringPiece "COLUMNS" t.Columns,
   boolPiece "FIXEDSIZE" t.FixedSize,
   intPiece "GRADIENTANGLE" t.GradientAngle,
   uintPiece "HEIGHT" t.Height,
   stringPiece "HREF" t.HREF,
   stringPiece "ID" t.ID,
   stringPiece "PORT" t.Port,
   stringPiece "ROWS" t.Rows,
   stringPiece "SIDES" t.Sides,
   stringPiece "STYLE" t.Style,
   stringPiece "TARGET" t.Target,
   stringPiece "TOOLTIP" (if t.Tooltip = "" ∧ t.Title ≠ "" then t.Title else t.Tooltip),
   enumPiece "VALIGN" t.Valign,
   uintPiece "WIDTH" t.Width]

/-- The pieces of text that `(*TD).WriteDOT` writes for the attributes, in the order of the
source. -/
def TD.attrPieces (td : TD) : List String :=
  [enumPiece "ALIGN" td.Align,
   enumPiece "BALIGN" td.BAlign,
   stringPiece "BGCOLOR" td.BGColor,
   uintPiece "BORDER" td.Border,
   uintPiece "CELLPADDING" td.CellPadding,
   stringPiece "COLOR" td.Color,
   uintPiece "COLSPAN" td.Colspan,
   boolPiece "FIXEDSIZE" td.FixedSize,
   intPiece "GRADIENTANGLE" td.GradientAngle,
   uintPiece "HEIGHT" td.Height,
   stringPiece "HREF" td.HREF,
   stringPiece "ID" td.ID,
   stringPiece "PORT" td.Port,
   uintPiece "ROWSPAN" td.Rowspan,
   stringPiece "SIDES" td.Sides,
   stringPiece "STYLE" td.Style,
   stringPiece "TARGET" td.Target,
   stringPiece "TOOLTIP"
     (if td.Tooltip = "" ∧ td.Title ≠ "" then td.Title else td.Tooltip),
   enumPiece "VALIGN" td.Valign,
   uintPiece "WIDTH" td.Width]

/-- The pieces of text that `(*FONT).WriteDOT` writes for the attributes, in the order of the
source. -/
def FONT.attrPieces (f : FONT) : List String :=
  [stringPiece "COLOR" f.Color,
   stringPiece "FACE" f.Face,
   intPiece "POINT-SIZE" f.PointSize]

/-- The texts in order, one after the other. -/
def concat : List String → String
  | [] => ""
  | s :: rest => s ++ concat rest

end htmlike

namespace htmlike

/-! ## The tags of a serialised label -/

/-- The tags of a text, in order: for each `<` outside a tag, the characters up to the next
`>`.  The first argument is the part of a tag read so far, `none` outside a tag; a tag that
the text leaves open at its end counts as a tag. -/
def scanTags : Option (List Char) → List Char → List (List Char)
  | none, [] => []
  | some acc, [] => [acc]
  | none, c :: cs => if c = '<' then scanTags (some []) cs else scanTags none cs
  | some acc, c :: cs =>
    if c = '>' then acc :: scanTags none cs else scanTags (some (acc ++ [c])) cs

/-- What a tag is: the opening tag or the closing tag of an element with a name, or a
self-closing tag. -/
inductive TagKind where
  | opening (name : List Char)
  | closing (name : List Char)
  | void
deriving DecidableEq, Repr

/-- The kind of the tag with the characters `body` between `<` and `>`: `/name` closes,
a tag that ends in `/` is self-closing, and another tag opens the element named by the
characters before the first blank. -/
def classify (body : List Char) : TagKind :=
  if body.head? = some '/' then .closing body.tail
  else if body.getLast? = some '/' then .void
  else .opening (body.takeWhile fun c => c != ' ')

/-- Whether the tags, in order, are properly nested: every closing tag closes the element
opened last and not yet closed, the elements of `stack` being open at the start, and no
element is left open. -/
def balanced : List (List Char) → List (List Char) → Bool
  | [], stack => stack.isEmpty
  | body :: rest, stack =>
    match classify body with
    | .opening name => balanced rest (name :: stack)
    | .closing name =>
      match stack with
      | [] => false
      | top :: below => decide (name = top) && balanced rest below
    | .void => balanced rest stack

/-- Whether every opening tag of the text has its matching closing tag. -/
def tagsMatch (s : String) : Bool := balanced (scanTags none s.data) []

/-- Whether an enum value is made of letters and digits, as the declared constants are; the
empty value is. -/
def plainValue (s : String) : Bool := s.data.all Char.isAlphanum

/-- Whether a tag is not empty and made of letters and digits, as the tags of `NewB`,
`NewI`, `NewU`, `NewO`, `NewSUB`, `NewSUP`, `NewS`, `NewHR` and `NewVR` are. -/
def plainTag (s : String) : Bool := !s.data.isEmpty && s.data.all Char.isAlphanum

mutual
/-- Whether, in the element and in what it contains, the tags of the style and rule elements
are plain tags and the values of the attributes of type `HtmLikeAlign`, `HtmLikeValign` and
`HtmLikeImgScale` are plain values. -/
def HtmLikeElement.plainTags : HtmLikeElement → Bool
  | .text _ => true
  | .table a Children => plainValue a.Align && plainValue a.Valign && allPlainTags Children
  | .tr Children => allPlainTags Children
  | .td a Children =>
    plainValue a.Align && plainValue a.BAlign && plainValue a.Valign && allPlainTags Children
  | .font _ Children => allPlainTags Children
  | .br Align => plainValue Align
  | .img Scale _ => plainValue Scale
  | .style Tag Children => plainTag Tag && allPlainTags Children
  | .rule Tag => plainTag Tag
/-- The same for a list of elements. -/
def allPlainTags : List HtmLikeElement → Bool
  | [] => true
  | child :: rest => child.plainTags && allPlainTags rest
end

/-- The attribute text of a tag: no `>`, and either empty or from a blank to a double
quote. -/
def AttrOK (l : List Char) : Prop :=
  '>' ∉ l ∧ (l = [] ∨ (l.head? = some ' ' ∧ l.getLast? = some html.dquote))

/-- A style element with a tag that holds a `>` and a `<`. -/
def exOddStyle : HtmLikeElement := .style "B><I" [.text "y"]

/-- The table of `exLabel` as an element. -/
def exTable : HtmLikeElement :=
  .table { Border := some 0, BGColor := "a<b" }
    [.tr [.td { Port := "here" } [.text "x & y", .br ""], .rule "VR",
      .td {} [.img "" "pic.png", .style "B" [.text "z"]]]]

end htmlike

namespace htmlike

/-- A table record with a border of zero. -/
def exBorder : Table := { Border := some 0 }

/-- A cell record with a port. -/
def exPort : TD := { Port := "here" }

/-- A text and a line break, as children. -/
def exCells : List HtmLikeElement := [.text "x & y", .br ""]

/-- A horizontal rule, as a child to append. -/
def exMore : List HtmLikeElement := [.rule "HR"]

end htmlike

namespace dotx

open dot

/-- A build with a plain subgraph under the id of a child: the root graph, the
ExternalGraph composite `subsystem`, a plain (non-cluster) subgraph `part` of its inner
graph, and the ExternalGraph composite `part` in that inner graph, whose outer node has the
`href` `part.svg`. -/
def exPlainBuild : Option (Composite × Composite × GraphRef × World) :=
  match NewGraph [GraphOption.Directed] World.empty with
  | (g, W0) =>
    match NewComposite "testing/" "subsystem" g ExternalGraph W0 with
    | none => none
    | some (root, W1) =>
      match Graph.Subgraph root.Graph "part" [] W1 with
      | none => none
      | some (sub, W2) =>
        match NewComposite "testing/" "part" root.Graph ExternalGraph W2 with
        | none => none
        | some (child, W3) => some (root, child, sub, W3)

/-- The composite `subsystem` of `exPlainBuild`. -/
def exPlainRoot : Composite :=
  { Graph := 1
    outerNode := { attributes := 2, graph := 0, id := "subsystem", seq := 1 }
    outerGraph := 0
    dotFilename := "testing/subsystem.dot"
    kind := ExternalGraph }

/-- The composite `part` of `exPlainBuild`. -/
def exPlainChild : Composite :=
  { Graph := 3
    outerNode := { attributes := 5, graph := 1, id := "part", seq := 2 }
    outerGraph := 1
    dotFilename := "testing/part.dot"
    kind := ExternalGraph }

/-- The heap `exPlainBuild` ends in: the root graph, the inner graph of `subsystem` with
the plain subgraph `part` (graph 2), and the inner graph of the composite `part`. -/
def exPlainWorld : World :=
  { graphs :=
      [{ attributes := 0, options := [GraphOption.Directed],
         nodes := [{ attributes := 2, graph := 0, id := "subsystem", seq := 1 }],
         edges := [], subgraphs := [] },
       { attributes := 1, options := [GraphOption.Directed],
         nodes := [{ attributes := 5, graph := 1, id := "part", seq := 2 }],
         edges := [], subgraphs := [("part", 2)] },
       { attributes := 3, options := [], nodes := [], edges := [], subgraphs := [] },
       { attributes := 4, options := [GraphOption.Directed], nodes := [], edges := [],
         subgraphs := [] }]
    attrs :=
      [[], [],
       [("shape", Value.str "box3d"), ("href", Value.str "subsystem.svg")],
       [], [],
       [("shape", Value.str "box3d"), ("href", Value.str "part.svg")]]
    seq := 2 }

end dotx

namespace dotx

open dot

/-- A directed graph with the plain (non-cluster) subgraph `part`:
`g := dot.NewGraph(dot.Directed); g.Subgraph("part")`. -/
def exPartBuild : Option (GraphRef × World) :=
  match NewGraph [GraphOption.Directed] World.empty with
  | (g, W0) => Graph.Subgraph g "part" [] W0

/-- The heap `exPartBuild` ends in: the graph 0 and its plain subgraph `part`, graph 1. -/
def exPartWorld : World :=
  { graphs :=
      [{ attributes := 0, options := [GraphOption.Directed], nodes := [], edges := [],
         subgraphs := [("part", 1)] },
       { attributes := 1, options := [], nodes := [], edges := [], subgraphs := [] }]
    attrs := [[], []]
    seq := 0 }

end dotx

/-! # Theorems -/

namespace dot

/-! ## Attribute maps -/

theorem Attrs.get_set_self (m : Attrs) (k : String) (v : Value) : (m.set k v).get k = v := by
  induction m with
  | nil => simp [Attrs.set, Attrs.get, List.lookup]
  | cons p rest ih =>
    obtain ⟨k', v'⟩ := p
    unfold Attrs.set
    split
    · simp [Attrs.get, List.lookup]
    · rename_i h
      have hk : (k == k') = false := by simpa using fun e : k = k' => h e.symm
      simpa [Attrs.get, List.lookup, hk] using ih

theorem Attrs.get_set_ne (m : Attrs) {k k' : String} (v : Value) (h : k' ≠ k) :
    (m.set k v).get k' = m.get k' := by
  induction m with
  | nil =>
    have hk : (k' == k) = false := by simpa using h
    simp [Attrs.set, Attrs.get, List.lookup, hk]
  | cons p rest ih =>
    obtain ⟨k0, v0⟩ := p
    unfold Attrs.set
    split
    · rename_i h0
      subst h0
      have hk : (k' == k0) = false := by simpa using h
      simp [Attrs.get, List.lookup, hk]
    · by_cases h1 : k' = k0
      · subst h1
        simp [Attrs.get, List.lookup]
      · have hk : (k' == k0) = false := by simpa using h1
        simpa [Attrs.get, List.lookup, hk] using ih

/-! ## Accessors depend on the graphs only -/

theorem World.nodesOf_congr {W W' : World} (h : W'.graphs = W.graphs) (i : GraphRef) :
    W'.nodesOf i = W.nodesOf i := by
  simp [World.nodesOf, h]

theorem World.edgesOf_congr {W W' : World} (h : W'.graphs = W.graphs) (i : GraphRef) :
    W'.edgesOf i = W.edgesOf i := by
  simp [World.edgesOf, h]

theorem World.subgraphsOf_congr {W W' : World} (h : W'.graphs = W.graphs) (i : GraphRef) :
    W'.subgraphsOf i = W.subgraphsOf i := by
  simp [World.subgraphsOf, h]

theorem World.edgeCount_congr {W W' : World} (h : W'.graphs = W.graphs) :
    W'.edgeCount = W.edgeCount := by
  simp [World.edgeCount, h]

/-! ## Well-formedness is kept by growth -/

theorem Graph.WF.mono {W W' : World} {i : GraphRef} {G : Graph} (h : G.WF W i)
    (ha : W.attrs.length ≤ W'.attrs.length) (hg : W.graphs.length ≤ W'.graphs.length) :
    G.WF W' i := by
  obtain ⟨h1, h2, h3, h4, h5⟩ := h
  exact ⟨fun r hr => lt_of_lt_of_le (h1 r hr) ha, h2, h3, h4,
    fun p hp => ⟨(h5 p hp).1, lt_of_lt_of_le (h5 p hp).2 hg⟩⟩

/-- A step that keeps every graph well formed and hands fresh maps to one graph only
keeps the heap well formed. -/
theorem World.WF.step {W W' : World} (hW : W.WF) (k : GraphRef)
    (hG : ∀ (i : GraphRef) (G' : Graph), W'.graphs[i]? = some G' → G'.WF W' i)
    (hr : ∀ (i : GraphRef) (G' : Graph), W'.graphs[i]? = some G' → ∀ r ∈ G'.refs,
      (∃ G : Graph, W.graphs[i]? = some G ∧ r ∈ G.refs) ∨ (i = k ∧ W.attrs.length ≤ r)) :
    W'.WF := by
  refine ⟨hG, ?_⟩
  intro i j Gi Gj hi hj hij r hri hrj
  rcases hr i Gi hi r hri with ⟨G, hG1, hrG⟩ | ⟨hik, hlen⟩
  · rcases hr j Gj hj r hrj with ⟨G2, hG2, hrG2⟩ | ⟨hjk, hlen2⟩
    · exact hW.2 i j G G2 hG1 hG2 hij r hrG hrG2
    · exact absurd ((hW.1 i G hG1).1 r hrG) (not_lt.mpr hlen2)
  · rcases hr j Gj hj r hrj with ⟨G2, hG2, hrG2⟩ | ⟨hjk, hlen2⟩
    · exact absurd ((hW.1 j G2 hG2).1 r hrG2) (not_lt.mpr hlen)
    · exact hij (hik.trans hjk.symm)

theorem World.WF_empty : World.empty.WF := by
  constructor
  · intro i G h
    simp [World.empty] at h
  · intro i j Gi Gj h
    simp [World.empty] at h

/-! ## Setting an attribute -/

/-- What `AttributesMap.SetAttribute` does to the heap. -/
theorem AttributesMap.SetAttribute_spec {a : AttributesMap} (l : String) (v : dot.Value)
    {W : World}
    (h : a.attributes < W.attrs.length) :
    ∃ W', a.SetAttribute l v W = some W' ∧ W'.graphs = W.graphs ∧ W'.seq = W.seq ∧
      W'.attrs.length = W.attrs.length ∧
      (∀ b : AttributesMap, b.attributes ≠ a.attributes → W'.attrsOf b = W.attrsOf b) ∧
      (∀ k, k ≠ l → (W'.attrsOf a).get k = (W.attrsOf a).get k) ∧
      (l ≠ "" → v ≠ dot.Value.nil → (W'.attrsOf a).get l = v) := by
  unfold AttributesMap.SetAttribute
  split
  · rename_i hskip
    refine ⟨W, rfl, rfl, rfl, rfl, fun _ _ => rfl, fun _ _ => rfl, ?_⟩
    intro h1 h2
    rcases hskip with h3 | h3
    · exact absurd h3 h1
    · exact absurd h3 h2
  · obtain ⟨m, hm⟩ : ∃ m, W.attrs[a.attributes]? = some m :=
      ⟨W.attrs[a.attributes], List.getElem?_eq_getElem h⟩
    rw [hm]
    refine ⟨_, rfl, rfl, rfl, by simp, ?_, ?_, ?_⟩
    · intro b hb
      simp [World.attrsOf, List.getElem?_set_ne (Ne.symm hb)]
    · intro k hk
      simp [World.attrsOf, List.getElem?_set_self h, hm, Attrs.get_set_ne _ _ hk]
    · intro _ _
      simp [World.attrsOf, List.getElem?_set_self h, Attrs.get_set_self]

theorem World.WF.of_graphs_eq {W W' : World} (hW : W.WF) (hg : W'.graphs = W.graphs)
    (ha : W'.attrs.length = W.attrs.length) : W'.WF := by
  constructor
  · intro i G h
    rw [hg] at h
    exact (hW.1 i G h).mono (le_of_eq ha.symm) (le_of_eq (by rw [hg]))
  · intro i j Gi Gj hi hj
    rw [hg] at hi hj
    exact hW.2 i j Gi Gj hi hj

end dot

namespace dot

/-! ## Looking up and creating nodes -/

theorem Graph.refs_addNode (G : Graph) (n : dot.Node) :
    List.Perm ({ G with nodes := G.nodes ++ [n] } : Graph).refs (n.attributes :: G.refs) := by
  simp only [Graph.refs, List.map_append, List.map_cons, List.map_nil, List.append_assoc,
    List.singleton_append]
  exact (List.Perm.cons _ List.perm_middle).trans (List.Perm.swap _ _ _)

theorem Graph.refs_addEdge (G : Graph) (e : dot.Edge) :
    List.Perm ({ G with edges := G.edges ++ [e] } : Graph).refs (e.attributes :: G.refs) := by
  simp only [Graph.refs, List.map_append, List.map_cons, List.map_nil]
  rw [← List.append_assoc]
  exact (List.Perm.cons _ (List.perm_append_singleton _ _)).trans (List.Perm.swap _ _ _)

theorem World.nodesOf_eq {W : World} {g : GraphRef} {G : Graph} (h : W.graphs[g]? = some G) :
    W.nodesOf g = G.nodes := by
  simp [World.nodesOf, h]

theorem World.edgesOf_eq {W : World} {g : GraphRef} {G : Graph} (h : W.graphs[g]? = some G) :
    W.edgesOf g = G.edges := by
  simp [World.edgesOf, h]

theorem World.subgraphsOf_eq {W : World} {g : GraphRef} {G : Graph} (h : W.graphs[g]? = some G) :
    W.subgraphsOf g = G.subgraphs := by
  simp [World.subgraphsOf, h]

theorem World.graph_of_lt {W : World} {g : GraphRef} (h : g < W.graphs.length) :
    ∃ G : Graph, W.graphs[g]? = some G :=
  ⟨W.graphs[g], List.getElem?_eq_getElem h⟩

theorem World.lt_of_graph {W : World} {g : GraphRef} {G : Graph} (h : W.graphs[g]? = some G) :
    g < W.graphs.length := by
  rcases Nat.lt_or_ge g W.graphs.length with h1 | h1
  · exact h1
  · rw [List.getElem?_eq_none h1] at h
    cases h

theorem World.attrsOf_append {W : World} (a : AttributesMap) (h : a.attributes < W.attrs.length)
    (graphs : List Graph) (m : Attrs) (seq : Nat) :
    World.attrsOf { graphs := graphs, attrs := W.attrs ++ [m], seq := seq } a = W.attrsOf a := by
  simp [World.attrsOf, List.getElem?_append_left h]

/-- The edge count after one graph has been replaced. -/
theorem edgeCount_set (l : List Graph) (g : GraphRef) (G G1 : Graph) (h : l[g]? = some G) :
    ((l.set g G1).map fun G => G.edges.length).sum + G.edges.length =
      (l.map fun G => G.edges.length).sum + G1.edges.length := by
  induction l generalizing g with
  | nil => simp at h
  | cons x rest ih =>
    cases g with
    | zero =>
      simp only [List.getElem?_cons_zero, Option.some.injEq] at h
      subst h
      simp only [List.set_cons_zero, List.map_cons, List.sum_cons]
      omega
    | succ k =>
      simp only [List.getElem?_cons_succ] at h
      have := ih k h
      simp only [List.set_cons_succ, List.map_cons, List.sum_cons]
      omega

end dot

namespace dot

theorem Graph.Node_found {g : GraphRef} {id : String} {W : World} {G : Graph} {n : dot.Node}
    (hG : W.graphs[g]? = some G) (hf : G.nodes.find? (fun n => decide (n.id = id)) = some n) :
    Graph.Node g id W = some (n, W) := by
  simp [Graph.Node, hG, hf]

theorem Graph.Node_fresh {g : GraphRef} {id : String} {W : World} {G : Graph}
    (hG : W.graphs[g]? = some G) (hf : G.nodes.find? (fun n => decide (n.id = id)) = none) :
    Graph.Node g id W =
      some ({ attributes := W.attrs.length, graph := g, id := id, seq := W.seq + 1 },
        { graphs := W.graphs.set g
            { G with nodes := G.nodes ++
                [{ attributes := W.attrs.length, graph := g, id := id, seq := W.seq + 1 }] }
          attrs := W.attrs ++ [[]]
          seq := W.seq + 1 }) := by
  simp [Graph.Node, hG, hf]

theorem Graph.Node_spec {g : GraphRef} (id : String) {W : World} (hW : W.WF)
    (hg : g < W.graphs.length) :
    ∃ n W', Graph.Node g id W = some (n, W') ∧ Graph.NodePost g id W n W' := by
  obtain ⟨G, hG⟩ := World.graph_of_lt hg
  have hGwf := hW.1 g G hG
  obtain ⟨hG1, hG2, hG3, hG4, hG5⟩ := hGwf
  cases hf : G.nodes.find? (fun n => decide (n.id = id)) with
  | some n =>
    have hmem : n ∈ G.nodes := List.mem_of_find?_eq_some hf
    have hid : n.id = id := by simpa using List.find?_some hf
    refine ⟨n, W, Graph.Node_found hG hf, ?_⟩
    exact
      { wf := hW
        id_eq := hid
        graph_eq := hG3 n hmem
        mem := by rw [World.nodesOf_eq hG]; exact hmem
        attr_lt := hG1 _ (by
          simp only [Graph.refs, List.mem_cons, List.mem_append, List.mem_map]
          exact Or.inr (Or.inl ⟨n, hmem, rfl⟩))
        graphs_len := rfl
        attrs_le := le_refl _
        attrs_keep := fun _ _ => rfl
        edges := fun _ => rfl
        subs := fun _ => rfl
        graphs_ne := fun _ _ => rfl
        nodes_ne := fun _ _ => rfl
        nodes_old := fun _ => ⟨rfl, rfl⟩
        nodes_new := fun h => absurd ⟨n, by rw [World.nodesOf_eq hG]; exact hmem, hid⟩ h
        edgeCount_eq := rfl }
  | none =>
    have hnone : ∀ m ∈ G.nodes, m.id ≠ id := by
      intro m hm
      have := List.find?_eq_none.1 hf m hm
      simpa using this
    refine ⟨_, _, Graph.Node_fresh hG hf, ?_⟩
    have hset : ∀ i : GraphRef, i ≠ g → ∀ G1 : Graph, (W.graphs.set g G1)[i]? = W.graphs[i]? :=
      fun i hi G1 => List.getElem?_set_ne (fun h => hi h.symm)
    have hself : ∀ G1 : Graph, (W.graphs.set g G1)[g]? = some G1 :=
      fun G1 => List.getElem?_set_self hg
    refine
      { wf := ?_
        id_eq := rfl
        graph_eq := rfl
        mem := by simp [World.nodesOf, hself]
        attr_lt := by simp
        graphs_len := by simp
        attrs_le := by simp
        attrs_keep := fun a ha => World.attrsOf_append a ha _ _ _
        edges := ?_
        subs := ?_
        graphs_ne := fun i hi => hset i hi _
        nodes_ne := fun i hi => by simp [World.nodesOf, hset i hi]
        nodes_old := fun ⟨m, hm, hmid⟩ => by
          rw [World.nodesOf_eq hG] at hm
          exact absurd hmid (hnone m hm)
        nodes_new := fun _ => by simp [World.nodesOf, hself, hG]
        edgeCount_eq := ?_ }
    · apply World.WF.step hW g
      · intro i G' hi
        by_cases hig : i = g
        · subst hig
          rw [hself] at hi
          cases hi
          refine ⟨?_, ?_, ?_, ?_, ?_⟩
          · intro r hr
            rcases List.mem_cons.1 ((Graph.refs_addNode G _).mem_iff.1 hr) with h | h
            · simp [h]
            · have := hG1 r h
              simp only [List.length_append, List.length_singleton]
              exact Nat.lt_succ_of_lt this
          · rw [(Graph.refs_addNode G _).nodup_iff, List.nodup_cons]
            exact ⟨fun h => lt_irrefl _ (hG1 _ h), hG2⟩
          · intro m hm
            rcases List.mem_append.1 hm with h | h
            · exact hG3 m h
            · simp only [List.mem_singleton] at h
              rw [h]
          · simp only [List.map_append, List.map_cons, List.map_nil]
            rw [List.nodup_append]
            refine ⟨hG4, by simp, ?_⟩
            intro a ha hb
            simp only [List.mem_singleton] at hb
            obtain ⟨m, hm, hma⟩ := List.mem_map.1 ha
            exact hnone m hm (hma.trans hb)
          · intro p hp
            have := hG5 p hp
            simpa using this
        · rw [hset i hig] at hi
          exact (hW.1 i G' hi).mono (by simp) (by simp)
      · intro i G' hi r hr
        by_cases hig : i = g
        · subst hig
          rw [hself] at hi
          cases hi
          rcases List.mem_cons.1 ((Graph.refs_addNode G _).mem_iff.1 hr) with h | h
          · exact Or.inr ⟨rfl, le_of_eq h.symm⟩
          · exact Or.inl ⟨G, hG, h⟩
        · rw [hset i hig] at hi
          exact Or.inl ⟨G', hi, hr⟩
    · intro i
      by_cases hig : i = g
      · subst hig
        simp [World.edgesOf, hself, hG]
      · simp [World.edgesOf, hset i hig]
    · intro i
      by_cases hig : i = g
      · subst hig
        simp [World.subgraphsOf, hself, hG]
      · simp [World.subgraphsOf, hset i hig]
    · have := edgeCount_set W.graphs g G
        { G with nodes := G.nodes ++
            [{ attributes := W.attrs.length, graph := g, id := id, seq := W.seq + 1 }] } hG
      simp only [World.edgeCount] at this ⊢
      omega

end dot

namespace dot

/-! ## Appending edges -/

theorem Graph.EdgeWithPorts_eq {g : GraphRef} (f t : dot.Node) (fp tp : String)
    (labels : List String) {W : World} {G : Graph} (hG : W.graphs[g]? = some G) :
    Graph.EdgeWithPorts g f t fp tp labels W =
      some ({ attributes := W.attrs.length, graph := g, fromNode := f, toNode := t,
              fromPort := fp, toPort := tp },
        { W with
          graphs := W.graphs.set g
            { G with edges := G.edges ++
                [{ attributes := W.attrs.length, graph := g, fromNode := f,
                   toNode := t, fromPort := fp, toPort := tp }] }
          attrs := W.attrs ++
            [if labels = [] then [] else [("label", Value.str (",".intercalate labels))]] }) := by
  simp only [Graph.EdgeWithPorts, hG]

theorem Graph.EdgeWithPorts_spec {g : GraphRef} (f t : dot.Node) (fp tp : String)
    (labels : List String) {W : World} (hW : W.WF) (hg : g < W.graphs.length) :
    ∃ e W', Graph.EdgeWithPorts g f t fp tp labels W = some (e, W') ∧
      Graph.EdgePost g f t fp tp W e W' := by
  obtain ⟨G, hG⟩ := World.graph_of_lt hg
  obtain ⟨hG1, hG2, hG3, hG4, hG5⟩ := hW.1 g G hG
  refine ⟨_, _, Graph.EdgeWithPorts_eq f t fp tp labels hG, ?_⟩
  have hset : ∀ i : GraphRef, i ≠ g → ∀ G1 : Graph, (W.graphs.set g G1)[i]? = W.graphs[i]? :=
    fun i hi G1 => List.getElem?_set_ne (fun h => hi h.symm)
  have hself : ∀ G1 : Graph, (W.graphs.set g G1)[g]? = some G1 :=
    fun G1 => List.getElem?_set_self hg
  refine
    { wf := ?_
      edge_eq := rfl
      graphs_len := by simp
      attrs_len := by simp
      attrs_keep := fun a ha => World.attrsOf_append a ha _ _ _
      nodes := ?_
      subs := ?_
      graphs_ne := fun i hi => hset i hi _
      edges_ne := fun i hi => by simp [World.edgesOf, hset i hi]
      edges_g := by simp [World.edgesOf, hself, hG]
      edgeCount_eq := ?_ }
  · apply World.WF.step hW g
    · intro i G' hi
      by_cases hig : i = g
      · subst hig
        rw [hself] at hi
        cases hi
        refine ⟨?_, ?_, hG3, hG4, ?_⟩
        · intro r hr
          rcases List.mem_cons.1 ((Graph.refs_addEdge G _).mem_iff.1 hr) with h | h
          · simp [h]
          · have := hG1 r h
            simp only [List.length_append, List.length_singleton]
            exact Nat.lt_succ_of_lt this
        · rw [(Graph.refs_addEdge G _).nodup_iff, List.nodup_cons]
          exact ⟨fun h => lt_irrefl _ (hG1 _ h), hG2⟩
        · intro p hp
          have := hG5 p hp
          simpa using this
      · rw [hset i hig] at hi
        exact (hW.1 i G' hi).mono (by simp) (by simp)
    · intro i G' hi r hr
      by_cases hig : i = g
      · subst hig
        rw [hself] at hi
        cases hi
        rcases List.mem_cons.1 ((Graph.refs_addEdge G _).mem_iff.1 hr) with h | h
        · exact Or.inr ⟨rfl, le_of_eq h.symm⟩
        · exact Or.inl ⟨G, hG, h⟩
      · rw [hset i hig] at hi
        exact Or.inl ⟨G', hi, hr⟩
  · intro i
    by_cases hig : i = g
    · subst hig
      simp [World.nodesOf, hself, hG]
    · simp [World.nodesOf, hset i hig]
  · intro i
    by_cases hig : i = g
    · subst hig
      simp [World.subgraphsOf, hself, hG]
    · simp [World.subgraphsOf, hset i hig]
  · have := edgeCount_set W.graphs g G
      { G with edges := G.edges ++
          [{ attributes := W.attrs.length, graph := g, fromNode := f, toNode := t,
             fromPort := fp, toPort := tp }] } hG
    simp only [World.edgeCount, List.length_append, List.length_singleton] at this ⊢
    omega

/-! ## Attributes of nodes and edges -/

/-- What holds after an attribute of the map `a` was set in `W`, giving `W'`. -/
theorem AttributesMap.SetAttribute_wf {a : AttributesMap} (l : String) (v : dot.Value)
    {W : World} (hW : W.WF) (h : a.attributes < W.attrs.length) :
    ∃ W', a.SetAttribute l v W = some W' ∧ W'.WF ∧ W'.graphs = W.graphs ∧
      W'.attrs.length = W.attrs.length ∧
      (∀ b : AttributesMap, b.attributes ≠ a.attributes → W'.attrsOf b = W.attrsOf b) ∧
      (∀ k, k ≠ l → (W'.attrsOf a).get k = (W.attrsOf a).get k) ∧
      (l ≠ "" → v ≠ dot.Value.nil → (W'.attrsOf a).get l = v) := by
  obtain ⟨W', h1, h2, _, h4, h5, h6, h7⟩ := AttributesMap.SetAttribute_spec l v h
  exact ⟨W', h1, hW.of_graphs_eq h2 h4, h2, h4, h5, h6, h7⟩

theorem Node.SetAttribute_node_eq {n : dot.Node} {l : String} {v : dot.Value} {W W' : World}
    (h : n.toAttributesMap.SetAttribute l v W = some W') :
    n.SetAttribute l v W = some (n, W') := by
  simp [Node.SetAttribute, h]

theorem Edge.SetAttribute_edge_eq {e : dot.Edge} {l : String} {v : dot.Value} {W W' : World}
    (h : e.toAttributesMap.SetAttribute l v W = some W') :
    e.SetAttribute l v W = some (e, W') := by
  simp [Edge.SetAttribute, h]

end dot

namespace dotx

open dot

/-! ## The port protocol -/

/-- The four steps shared by both branches of `Input` and `Output`: look up or create the
port node, give it the point shape, append an edge to graph `g`, set one attribute of the
edge to the port id. -/
theorem port_chain (s : Composite) (p : String) {W : World} (g : GraphRef)
    (x y : dot.Node → dot.Node) (fp tp l : String) (hl : l ≠ "") (hW : W.WF)
    (hs : s.Graph < W.graphs.length) (hg : g < W.graphs.length) :
    ∃ port e W' W1 W2 W3,
      Graph.Node s.Graph p W = some (port, W1) ∧
      port.toAttributesMap.SetAttribute "shape" (Value.str "point") W1 = some W2 ∧
      Graph.EdgeWithPorts g (x port) (y port) fp tp [] W2 = some (e, W3) ∧
      e.toAttributesMap.SetAttribute l (Value.str p) W3 = some W' ∧
      PortPost s p W g port e W' ∧
      e.fromNode = x port ∧ e.toNode = y port ∧ e.fromPort = fp ∧ e.toPort = tp ∧
      e.Attribute l W' = Value.str p := by
  obtain ⟨q, W1, h1, P1⟩ := Graph.Node_spec p hW hs
  obtain ⟨W2, h2, wf2, g2, al2, k2, kk2, s2⟩ :=
    AttributesMap.SetAttribute_wf (a := q.toAttributesMap) "shape" (Value.str "point")
      P1.wf P1.attr_lt
  have hg2 : g < W2.graphs.length := by rw [g2, P1.graphs_len]; exact hg
  obtain ⟨e, W3, h3, P3⟩ := Graph.EdgeWithPorts_spec (x q) (y q) fp tp [] wf2 hg2
  have hea : e.attributes = W2.attrs.length := by rw [P3.edge_eq]
  have he3 : e.attributes < W3.attrs.length := by rw [hea, P3.attrs_len]; exact Nat.lt_succ_self _
  obtain ⟨W4, h4, wf4, g4, al4, k4, kk4, s4⟩ :=
    AttributesMap.SetAttribute_wf (a := e.toAttributesMap) l (Value.str p) P3.wf he3
  have hqe : q.attributes ≠ e.attributes := by
    rw [hea, al2]
    exact Nat.ne_of_lt P1.attr_lt
  have hle : W.attrs.length ≤ e.attributes := by rw [hea, al2]; exact P1.attrs_le
  have hq4 : W4.attrsOf q.toAttributesMap = W2.attrsOf q.toAttributesMap := by
    rw [k4 q.toAttributesMap hqe]
    exact P3.attrs_keep _ (by rw [al2]; exact P1.attr_lt)
  refine ⟨q, e, W4, W1, W2, W3, h1, h2, h3, h4, ?_, by rw [P3.edge_eq], by rw [P3.edge_eq],
    by rw [P3.edge_eq], by rw [P3.edge_eq], ?_⟩
  · exact
      { wf := wf4
        graphs_len := by rw [g4, P3.graphs_len, g2, P1.graphs_len]
        edge_graph := by rw [P3.edge_eq]
        edge_fresh := hle
        edges_g := by
          rw [World.edgesOf_congr g4, P3.edges_g, World.edgesOf_congr g2, P1.edges]
        edges_ne := fun i hi => by
          rw [World.edgesOf_congr g4, P3.edges_ne i hi, World.edgesOf_congr g2, P1.edges]
        edgeCount_eq := by
          rw [World.edgeCount_congr g4, P3.edgeCount_eq, World.edgeCount_congr g2,
            P1.edgeCount_eq]
        subs := fun i => by
          rw [World.subgraphsOf_congr g4, P3.subs, World.subgraphsOf_congr g2, P1.subs]
        nodes_ne := fun i hi => by
          rw [World.nodesOf_congr g4, P3.nodes, World.nodesOf_congr g2, P1.nodes_ne i hi]
        port_mem := by
          rw [World.nodesOf_congr g4, P3.nodes, World.nodesOf_congr g2]
          exact P1.mem
        port_id := P1.id_eq
        port_shape := by
          show (W4.attrsOf q.toAttributesMap).get "shape" = Value.str "point"
          rw [hq4]
          exact s2 (by decide) (by simp)
        nodes_old := fun h => by
          rw [World.nodesOf_congr g4, P3.nodes, World.nodesOf_congr g2]
          exact (P1.nodes_old h).1
        nodes_new := fun h => by
          rw [World.nodesOf_congr g4, P3.nodes, World.nodesOf_congr g2]
          exact (P1.nodes_new h).1
        attrs_keep := fun a ha hne => by
          have ha1 : a.attributes < W1.attrs.length := lt_of_lt_of_le ha P1.attrs_le
          have hae : a.attributes ≠ e.attributes := Nat.ne_of_lt (lt_of_lt_of_le ha hle)
          rw [k4 a hae, P3.attrs_keep a (by rw [al2]; exact ha1), k2 a hne]
          exact P1.attrs_keep a ha
        port_keep := fun k hk hq => by
          rw [hq4, kk2 k hk, P1.attrs_keep _ hq] }
  · show (W4.attrsOf e.toAttributesMap).get l = Value.str p
    exact s4 hl (by simp)

end dotx

namespace dot

theorem World.WF.node_facts {W : World} (hW : W.WF) {i : GraphRef} {n : dot.Node}
    (h : n ∈ W.nodesOf i) :
    n.graph = i ∧ i < W.graphs.length ∧ n.attributes < W.attrs.length := by
  unfold World.nodesOf at h
  cases hG : W.graphs[i]? with
  | none => simp [hG] at h
  | some G =>
    simp only [hG] at h
    obtain ⟨h1, _, h3, _, _⟩ := hW.1 i G hG
    refine ⟨h3 n h, World.lt_of_graph hG, h1 _ ?_⟩
    simp only [Graph.refs, List.mem_cons, List.mem_append, List.mem_map]
    exact Or.inr (Or.inl ⟨n, h, rfl⟩)

theorem Graph.HasNode_eq {g : GraphRef} (n : dot.Node) {W : World} (hg : g < W.graphs.length) :
    Graph.HasNode g n W = some (decide (n ∈ W.nodesOf g)) := by
  obtain ⟨G, hG⟩ := World.graph_of_lt hg
  simp [Graph.HasNode, World.nodesOf, hG]

end dot

namespace dotx

open dot

theorem Composite.WF.facts {W : World} {s : Composite} (hW : W.WF) (hs : s.WF W) :
    s.outerNode.graph = s.outerGraph ∧ s.outerGraph < W.graphs.length ∧
      s.outerNode.attributes < W.attrs.length ∧ s.Graph < W.graphs.length ∧
      s.outerNode ∉ W.nodesOf s.Graph := by
  obtain ⟨h1, h2, h3⟩ := hs
  obtain ⟨k1, k2, k3⟩ := hW.node_facts h1
  refine ⟨k1, k2, k3, h2, fun h => ?_⟩
  exact h3 ((hW.node_facts h).1.symm.trans k1)

theorem Connectable.WF.nodeIn {W : World} {x : Connectable} (hW : W.WF) (hx : x.WF W) :
    NodeIn W x.resolve := by
  cases x with
  | node n => exact hx
  | composite c =>
    show c.outerNode ∈ W.nodesOf c.outerNode.graph
    rw [(Composite.WF.facts hW hx).1]
    exact hx.1

/-- The internal branch: `connect` draws the edge inside the inner graph. -/
theorem Composite.connect_spec (s : Composite) (p : String) (isInput : Bool) (inner : dot.Node)
    {W : World} (hW : W.WF) (hs : s.Graph < W.graphs.length) :
    ∃ port e W', s.connect p isInput inner W = some (e, W') ∧
      PortPost s p W s.Graph port e W' ∧ e.fromPort = "s" ∧ e.toPort = "n" ∧
      (isInput = true →
        e.fromNode = port ∧ e.toNode = inner ∧ e.Attribute "taillabel" W' = Value.str p) ∧
      (isInput = false →
        e.fromNode = inner ∧ e.toNode = port ∧ e.Attribute "headlabel" W' = Value.str p) := by
  cases isInput with
  | true =>
    obtain ⟨port, e, W', W1, W2, W3, h1, h2, h3, h4, P, e1, e2, e3, e4, e5⟩ :=
      port_chain s p s.Graph (fun q => q) (fun _ => inner) "s" "n" "taillabel" (by decide) hW hs hs
    refine ⟨port, e, W', ?_, P, e3, e4, fun _ => ⟨e1, e2, e5⟩, fun h => by cases h⟩
    simp [Composite.connect, h1, Node.SetAttribute_node_eq h2, h3, Edge.SetAttribute_edge_eq h4]
  | false =>
    obtain ⟨port, e, W', W1, W2, W3, h1, h2, h3, h4, P, e1, e2, e3, e4, e5⟩ :=
      port_chain s p s.Graph (fun _ => inner) (fun q => q) "s" "n" "headlabel" (by decide) hW hs hs
    refine ⟨port, e, W', ?_, P, e3, e4, (fun h => by cases h), fun _ => ⟨e1, e2, e5⟩⟩
    simp [Composite.connect, h1, Node.SetAttribute_node_eq h2, h3, Edge.SetAttribute_edge_eq h4]

/-- Input on the internal branch. -/
theorem Composite.Input_internal (s : Composite) (p : String) (x : Connectable) {W : World}
    (hW : W.WF) (hs : s.Graph < W.graphs.length) (hin : x.resolve ∈ W.nodesOf s.Graph) :
    ∃ port e W', s.Input p x W = some (e, W') ∧ PortPost s p W s.Graph port e W' ∧
      e.fromNode = port ∧ e.toNode = x.resolve ∧ e.fromPort = "s" ∧ e.toPort = "n" ∧
      e.Attribute "taillabel" W' = Value.str p := by
  obtain ⟨port, e, W', h, P, e3, e4, k, _⟩ := Composite.connect_spec s p true x.resolve hW hs
  obtain ⟨e1, e2, e5⟩ := k rfl
  refine ⟨port, e, W', ?_, P, e1, e2, e3, e4, e5⟩
  simp [Composite.Input, Graph.HasNode_eq _ hs, hin, h]

/-- Output on the internal branch. -/
theorem Composite.Output_internal (s : Composite) (p : String) (x : Connectable) {W : World}
    (hW : W.WF) (hs : s.Graph < W.graphs.length) (hin : x.resolve ∈ W.nodesOf s.Graph) :
    ∃ port e W', s.Output p x W = some (e, W') ∧ PortPost s p W s.Graph port e W' ∧
      e.fromNode = x.resolve ∧ e.toNode = port ∧ e.fromPort = "s" ∧ e.toPort = "n" ∧
      e.Attribute "headlabel" W' = Value.str p := by
  obtain ⟨port, e, W', h, P, e3, e4, _, k⟩ := Composite.connect_spec s p false x.resolve hW hs
  obtain ⟨e1, e2, e5⟩ := k rfl
  refine ⟨port, e, W', ?_, P, e1, e2, e3, e4, e5⟩
  simp [Composite.Output, Graph.HasNode_eq _ hs, hin, h]

/-- Input on the external branch: the edge is created by the resolved node, in its graph. -/
theorem Composite.Input_external (s : Composite) (p : String) (x : Connectable) {W : World}
    (hW : W.WF) (hs : s.Graph < W.graphs.length) (hx : x.resolve.graph < W.graphs.length)
    (hni : x.resolve ∉ W.nodesOf s.Graph) :
    ∃ port e W', s.Input p x W = some (e, W') ∧ PortPost s p W x.resolve.graph port e W' ∧
      e.fromNode = x.resolve ∧ e.toNode = s.outerNode ∧ e.fromPort = "" ∧ e.toPort = "" ∧
      e.Attribute "label" W' = Value.str p := by
  obtain ⟨port, e, W', W1, W2, W3, h1, h2, h3, h4, P, e1, e2, e3, e4, e5⟩ :=
    port_chain s p x.resolve.graph (fun _ => x.resolve) (fun _ => s.outerNode) "" "" "label"
      (by decide) hW hs hx
  refine ⟨port, e, W', ?_, P, e1, e2, e3, e4, e5⟩
  simp [Composite.Input, Graph.HasNode_eq _ hs, hni, h1, Node.SetAttribute_node_eq h2, Node.Edge,
    Graph.Edge, h3, Edge.Label, Edge.SetAttribute_edge_eq h4]

/-- Output on the external branch: the edge is created by the outer node, in its graph. -/
theorem Composite.Output_external (s : Composite) (p : String) (x : Connectable) {W : World}
    (hW : W.WF) (hs : s.Graph < W.graphs.length) (ho : s.outerNode.graph < W.graphs.length)
    (hni : x.resolve ∉ W.nodesOf s.Graph) :
    ∃ port e W', s.Output p x W = some (e, W') ∧ PortPost s p W s.outerNode.graph port e W' ∧
      e.fromNode = s.outerNode ∧ e.toNode = x.resolve ∧ e.fromPort = "" ∧ e.toPort = "" ∧
      e.Attribute "label" W' = Value.str p := by
  obtain ⟨port, e, W', W1, W2, W3, h1, h2, h3, h4, P, e1, e2, e3, e4, e5⟩ :=
    port_chain s p s.outerNode.graph (fun _ => s.outerNode) (fun _ => x.resolve) "" "" "label"
      (by decide) hW hs ho
  refine ⟨port, e, W', ?_, P, e1, e2, e3, e4, e5⟩
  simp [Composite.Output, Graph.HasNode_eq _ hs, hni, h1, Node.SetAttribute_node_eq h2, Node.Edge,
    Graph.Edge, h3, Edge.Label, Edge.SetAttribute_edge_eq h4]

end dotx

namespace dot

/-! ## Creating graphs and subgraphs -/

theorem edgeCount_append_empty (l : List Graph) (G : Graph) (h : G.edges = []) :
    ((l ++ [G]).map fun G => G.edges.length).sum = (l.map fun G => G.edges.length).sum := by
  simp [h]

theorem NewGraph_spec (options : List GraphOption) {W : World} (hW : W.WF) :
    NewGraphPost options W (NewGraph options W).1 (NewGraph options W).2 := by
  have hold : ∀ i : GraphRef, i < W.graphs.length → ∀ G1 : Graph,
      (W.graphs ++ [G1])[i]? = W.graphs[i]? := fun i hi G1 => List.getElem?_append_left hi
  have hnew : ∀ G1 : Graph, (W.graphs ++ [G1])[W.graphs.length]? = some G1 := fun G1 => by
    rw [List.getElem?_append_right (le_refl _)]
    simp
  refine
    { wf := ?_
      ref_eq := rfl
      graphs_len := by simp [NewGraph]
      graph_eq := hnew _
      attrs_le := by simp [NewGraph]
      attrs_keep := fun a ha => World.attrsOf_append a ha _ _ _
      nodes := fun i hi => by simp [NewGraph, World.nodesOf, hold i hi]
      edges := fun i hi => by simp [NewGraph, World.edgesOf, hold i hi]
      subs := fun i hi => by simp [NewGraph, World.subgraphsOf, hold i hi]
      edgeCount_eq := by simp [NewGraph, World.edgeCount] }
  apply World.WF.step hW W.graphs.length
  · intro i G' hi
    simp only [NewGraph] at hi
    rcases Nat.lt_or_ge i W.graphs.length with h | h
    · rw [hold i h] at hi
      exact (hW.1 i G' hi).mono (by simp [NewGraph]) (by simp [NewGraph])
    · have hi' := World.lt_of_graph (W := (NewGraph options W).2) hi
      simp only [NewGraph, List.length_append, List.length_singleton] at hi'
      have hieq : i = W.graphs.length := Nat.le_antisymm (Nat.lt_succ_iff.mp hi') h
      subst hieq
      rw [hnew] at hi
      cases hi
      refine ⟨?_, ?_, ?_, ?_, ?_⟩
      · intro r hr
        simp only [Graph.refs, List.map_nil, List.append_nil, List.mem_singleton] at hr
        simp [NewGraph, hr]
      · simp [Graph.refs]
      · intro n hn
        cases hn
      · simp
      · intro p hp
        cases hp
  · intro i G' hi r hr
    simp only [NewGraph] at hi
    rcases Nat.lt_or_ge i W.graphs.length with h | h
    · rw [hold i h] at hi
      exact Or.inl ⟨G', hi, hr⟩
    · have hi' := World.lt_of_graph (W := (NewGraph options W).2) hi
      simp only [NewGraph, List.length_append, List.length_singleton] at hi'
      have hieq : i = W.graphs.length := Nat.le_antisymm (Nat.lt_succ_iff.mp hi') h
      subst hieq
      rw [hnew] at hi
      cases hi
      simp only [Graph.refs, List.map_nil, List.append_nil, List.mem_singleton] at hr
      exact Or.inr ⟨rfl, le_of_eq hr.symm⟩

end dot

namespace dot

theorem lookup_append_singleton (l : List (String × GraphRef)) (id : String) (r : GraphRef)
    (h : l.lookup id = none) : (l ++ [(id, r)]).lookup id = some r := by
  induction l with
  | nil => simp [List.lookup]
  | cons p rest ih =>
    obtain ⟨k, v⟩ := p
    simp only [List.lookup] at h
    simp only [List.cons_append, List.lookup]
    cases hk : id == k with
    | true => simp [hk] at h
    | false =>
      simp only [hk] at h
      simpa using ih h

theorem Graph.Subgraph_found {g : GraphRef} {id : String} {options : List GraphOption} {W : World}
    {G : Graph} {r : GraphRef} (hG : W.graphs[g]? = some G) (hf : G.subgraphs.lookup id = some r) :
    Graph.Subgraph g id options W = some (r, W) := by
  simp [Graph.Subgraph, hG, hf]

theorem Graph.Subgraph_fresh {g : GraphRef} {id : String} {options : List GraphOption} {W : World}
    {G : Graph} (hG : W.graphs[g]? = some G) (hf : G.subgraphs.lookup id = none) :
    Graph.Subgraph g id options W =
      some (W.graphs.length,
        { W with
          graphs := W.graphs.set g { G with subgraphs := G.subgraphs ++ [(id, W.graphs.length)] } ++
            [{ attributes := W.attrs.length, options := options, nodes := [], edges := [],
               subgraphs := [] }]
          attrs := W.attrs ++ [[]] }) := by
  simp [Graph.Subgraph, hG, hf]

theorem Graph.Subgraph_spec {g : GraphRef} (id : String) (options : List GraphOption) {W : World}
    (hW : W.WF) (hg : g < W.graphs.length) :
    ∃ r W', Graph.Subgraph g id options W = some (r, W') ∧
      Graph.SubgraphPost g id options W r W' := by
  obtain ⟨G, hG⟩ := World.graph_of_lt hg
  obtain ⟨hG1, hG2, hG3, hG4, hG5⟩ := hW.1 g G hG
  cases hf : G.subgraphs.lookup id with
  | some r =>
    refine ⟨r, W, Graph.Subgraph_found hG hf, ?_⟩
    have hmem : (id, r) ∈ G.subgraphs := by
      have := List.lookup_eq_some_iff.1 hf
      obtain ⟨l1, l2, h1, _⟩ := this
      rw [h1]
      simp
    have := hG5 _ hmem
    exact
      { wf := hW
        lt := this.1
        valid := this.2
        registered := by rw [World.subgraphsOf_eq hG]; exact hf
        graphs_le := le_refl _
        attrs_le := le_refl _
        attrs_keep := fun _ _ => rfl
        nodes := fun _ _ => rfl
        edges := fun _ _ => rfl
        subs_ne := fun _ _ _ => rfl
        old := fun _ => rfl
        new := fun h => by
          rw [World.subgraphsOf_eq hG, hf] at h
          cases h
        edgeCount_eq := rfl }
  | none =>
    refine ⟨_, _, Graph.Subgraph_fresh hG hf, ?_⟩
    have hlen : ∀ G1 : Graph, (W.graphs.set g G1).length = W.graphs.length := fun G1 => by simp
    have hnew : ∀ G1 G2 : Graph, (W.graphs.set g G1 ++ [G2])[W.graphs.length]? = some G2 :=
      fun G1 G2 => by
        rw [List.getElem?_append_right (le_of_eq (hlen G1))]
        simp
    have hself : ∀ G1 G2 : Graph, (W.graphs.set g G1 ++ [G2])[g]? = some G1 := fun G1 G2 => by
      rw [List.getElem?_append_left (by rw [hlen]; exact hg)]
      exact List.getElem?_set_self hg
    have hold : ∀ i : GraphRef, i < W.graphs.length → i ≠ g → ∀ G1 G2 : Graph,
        (W.graphs.set g G1 ++ [G2])[i]? = W.graphs[i]? := fun i hi hig G1 G2 => by
      rw [List.getElem?_append_left (by rw [hlen]; exact hi)]
      exact List.getElem?_set_ne (fun h => hig h.symm)
    refine
      { wf := ?_
        lt := hg
        valid := by simp
        registered := by
          simp only [World.subgraphsOf, hself]
          exact lookup_append_singleton _ _ _ hf
        graphs_le := by simp
        attrs_le := by simp
        attrs_keep := fun a ha => World.attrsOf_append a ha _ _ _
        nodes := ?_
        edges := ?_
        subs_ne := fun i hi hig => by simp [World.subgraphsOf, hold i hi hig]
        old := fun h => by
          rw [World.subgraphsOf_eq hG, hf] at h
          exact absurd rfl h
        new := fun _ => ⟨rfl, by simp [World.subgraphsOf, hself, hG], hnew _ _⟩
        edgeCount_eq := ?_ }
    · apply World.WF.step hW W.graphs.length
      · intro i G' hi
        have hi' := World.lt_of_graph hi
        simp only [List.length_append, List.length_set, List.length_singleton] at hi'
        rcases Nat.lt_or_ge i W.graphs.length with h | h
        · by_cases hig : i = g
          · subst hig
            simp only [hself] at hi
            cases hi
            refine ⟨?_, hG2, hG3, hG4, ?_⟩
            · intro r hr
              have := hG1 r hr
              simp only [List.length_append, List.length_singleton]
              exact Nat.lt_succ_of_lt this
            · intro p hp
              simp only [List.length_append, List.length_set, List.length_singleton]
              rcases List.mem_append.1 hp with h1 | h1
              · exact ⟨(hG5 p h1).1, Nat.lt_succ_of_lt (hG5 p h1).2⟩
              · simp only [List.mem_singleton] at h1
                subst h1
                exact ⟨hg, Nat.lt_succ_self _⟩
          · simp only [hold i h hig] at hi
            exact (hW.1 i G' hi).mono (by simp) (by simp)
        · have hieq : i = W.graphs.length := Nat.le_antisymm (Nat.lt_succ_iff.mp hi') h
          subst hieq
          simp only [hnew] at hi
          cases hi
          refine ⟨?_, ?_, ?_, ?_, ?_⟩
          · intro r hr
            simp only [Graph.refs, List.map_nil, List.append_nil, List.mem_singleton] at hr
            simp [hr]
          · simp [Graph.refs]
          · intro n hn
            cases hn
          · simp
          · intro p hp
            cases hp
      · intro i G' hi r hr
        have hi' := World.lt_of_graph hi
        simp only [List.length_append, List.length_set, List.length_singleton] at hi'
        rcases Nat.lt_or_ge i W.graphs.length with h | h
        · by_cases hig : i = g
          · subst hig
            simp only [hself] at hi
            cases hi
            exact Or.inl ⟨G, hG, hr⟩
          · simp only [hold i h hig] at hi
            exact Or.inl ⟨G', hi, hr⟩
        · have hieq : i = W.graphs.length := Nat.le_antisymm (Nat.lt_succ_iff.mp hi') h
          subst hieq
          simp only [hnew] at hi
          cases hi
          simp only [Graph.refs, List.map_nil, List.append_nil, List.mem_singleton] at hr
          exact Or.inr ⟨rfl, le_of_eq hr.symm⟩
    · intro i hi
      by_cases hig : i = g
      · subst hig
        simp [World.nodesOf, hself, hG]
      · simp [World.nodesOf, hold i hi hig]
    · intro i hi
      by_cases hig : i = g
      · subst hig
        simp [World.edgesOf, hself, hG]
      · simp [World.edgesOf, hold i hi hig]
    · have := edgeCount_set W.graphs g G
        { G with subgraphs := G.subgraphs ++ [(id, W.graphs.length)] } hG
      simp only [World.edgeCount, List.map_append, List.sum_append, List.map_cons, List.map_nil,
        List.length_nil, List.sum_cons, List.sum_nil] at this ⊢
      omega

end dot

namespace dotx

open dot

/-! ## Export names -/

theorem replaceSpaces_length (name : String) : (replaceSpaces name).length = name.length := by
  cases name with
  | mk l =>
    show (l.map fun c => if c = ' ' then '_' else c).length = l.length
    exact List.length_map _ _

theorem replaceSpaces_no_space (name : String) : ' ' ∉ (replaceSpaces name).data := by
  simp only [replaceSpaces, List.mem_map, not_exists, not_and]
  intro c _
  split
  · decide
  · rename_i h
    exact h

theorem replaceSpaces_get (name : String) (i : Nat) :
    (replaceSpaces name).data[i]? =
      (name.data[i]?).map fun c => if c = ' ' then '_' else c := by
  simp [replaceSpaces]

/-- What `ExportName` does: the file name is stored in the composite, the link in the
`href` attribute of the outer node; nothing else changes. -/
theorem Composite.ExportName_spec (s : Composite) (d name : String) {W : World} (hW : W.WF)
    (ho : s.outerNode.attributes < W.attrs.length) :
    ∃ W', s.ExportName d name W =
        some ({ s with dotFilename := d ++ (replaceSpaces name ++ ".dot") }, W') ∧
      W'.WF ∧ W'.graphs = W.graphs ∧ W'.attrs.length = W.attrs.length ∧
      s.outerNode.Attribute "href" W' = Value.str (replaceSpaces name ++ ".svg") ∧
      (∀ k, k ≠ "href" → s.outerNode.Attribute k W' = s.outerNode.Attribute k W) ∧
      (∀ b : AttributesMap, b.attributes ≠ s.outerNode.attributes → W'.attrsOf b = W.attrsOf b) := by
  obtain ⟨W', h1, wf, hg, hl, k1, k2, k3⟩ :=
    AttributesMap.SetAttribute_wf (a := s.outerNode.toAttributesMap) "href"
      (Value.str (replaceSpaces name ++ ".svg")) hW ho
  refine ⟨W', ?_, wf, hg, hl, k3 (by decide) (by simp), k2, k1⟩
  simp [Composite.ExportName, Node.SetAttribute_node_eq h1]

end dotx

namespace dot

theorem Graph.NodePost.nodes_sub_node {g : GraphRef} {id : String} {W W' : World} {n : dot.Node}
    (P : Graph.NodePost g id W n W') (i : GraphRef) (m : dot.Node) (h : m ∈ W.nodesOf i) :
    m ∈ W'.nodesOf i := by
  by_cases hig : i = g
  · subst hig
    by_cases hex : ∃ m ∈ W.nodesOf i, m.id = id
    · rw [(P.nodes_old hex).1]
      exact h
    · rw [(P.nodes_new hex).1]
      exact List.mem_append_left _ h
  · rw [P.nodes_ne i hig]
    exact h

theorem Graph.Subgraph_of_lookup {g : GraphRef} {id : String} (options : List GraphOption)
    {W : World} {r : GraphRef} (h : (W.subgraphsOf g).lookup id = some r) :
    Graph.Subgraph g id options W = some (r, W) := by
  unfold World.subgraphsOf at h
  cases hG : W.graphs[g]? with
  | none => simp [hG, List.lookup] at h
  | some G =>
    simp only [hG] at h
    exact Graph.Subgraph_found hG h

end dot

namespace dotx

open dot

/-! ## Constructing a composite -/

/-- The first step of `NewComposite`: the inner graph, a subgraph of `g` or a new graph. -/
theorem NewComposite_inner (id : String) {g : GraphRef} (kind : compositeGraphKind) {W : World}
    (hW : W.WF) (hg : g < W.graphs.length) :
    ∃ r W1,
      (if kind = SameGraph then Graph.Subgraph g id [GraphOption.ClusterOption] W
        else some (NewGraph [GraphOption.Directed] W)) = some (r, W1) ∧
      W1.WF ∧ g < r ∧ r < W1.graphs.length ∧ W.graphs.length ≤ W1.graphs.length ∧
      (∀ i : GraphRef, i < W.graphs.length → W1.nodesOf i = W.nodesOf i) ∧
      (∀ i : GraphRef, i < W.graphs.length → W1.edgesOf i = W.edgesOf i) ∧
      (kind = SameGraph →
        (W1.subgraphsOf g).lookup id = some r ∧
        ((W.subgraphsOf g).lookup id = none →
          W1.graphs[r]? = some { attributes := W.attrs.length,
                                 options := [GraphOption.ClusterOption], nodes := [],
                                 edges := [], subgraphs := [] })) ∧
      (kind ≠ SameGraph →
        r = W.graphs.length ∧
        W1.graphs[r]? = some { attributes := W.attrs.length,
                               options := [GraphOption.Directed], nodes := [], edges := [],
                               subgraphs := [] } ∧
        ∀ (i : GraphRef) (q : String × GraphRef), q ∈ W1.subgraphsOf i → q.2 ≠ r) := by
  by_cases hk : kind = SameGraph
  · obtain ⟨r, W1, h1, P⟩ := Graph.Subgraph_spec id [GraphOption.ClusterOption] hW hg
    refine ⟨r, W1, by rw [if_pos hk]; exact h1, P.wf, P.lt, P.valid, P.graphs_le, P.nodes,
      P.edges, fun _ => ⟨P.registered, fun h => (P.new h).2.2⟩, fun h => absurd hk h⟩
  · have P := NewGraph_spec [GraphOption.Directed] hW
    refine ⟨_, _, by rw [if_neg hk], P.wf, ?_, ?_, ?_, P.nodes, P.edges,
      fun h => absurd h hk, fun _ => ⟨P.ref_eq, P.graph_eq, ?_⟩⟩
    · rw [P.ref_eq]; exact hg
    · rw [P.graphs_len, P.ref_eq]; exact Nat.lt_succ_self _
    · rw [P.graphs_len]; exact Nat.le_succ _
    · intro i q hq
      rw [P.ref_eq]
      rcases Nat.lt_or_ge i W.graphs.length with h | h
      · rw [P.subs i h] at hq
        obtain ⟨G, hG⟩ := World.graph_of_lt h
        rw [World.subgraphsOf_eq hG] at hq
        obtain ⟨_, _, _, _, h5⟩ := hW.1 i G hG
        exact Nat.ne_of_lt (h5 q hq).2
      · rcases Nat.eq_or_lt_of_le h with h1 | h1
        · have h2 : i = (NewGraph [GraphOption.Directed] W).1 := by rw [P.ref_eq]; exact h1.symm
          rw [h2, World.subgraphsOf_eq P.graph_eq] at hq
          cases hq
        · have hnone : (NewGraph [GraphOption.Directed] W).2.graphs[i]? = none := by
            apply List.getElem?_eq_none
            rw [P.graphs_len]
            exact h1
          simp [World.subgraphsOf, hnone] at hq

theorem NewComposite_spec (d id : String) {g : GraphRef} (kind : compositeGraphKind) {W : World}
    (hW : W.WF) (hg : g < W.graphs.length) :
    ∃ s W', NewComposite d id g kind W = some (s, W') ∧ NewCompositePost d id g kind W s W' := by
  obtain ⟨r, W1, h1, wf1, hgr, hr1, hle1, n1, e1, same1, ext1⟩ := NewComposite_inner id kind hW hg
  have hg1 : g < W1.graphs.length := lt_of_lt_of_le hg hle1
  obtain ⟨n, W2, h2, P2⟩ := Graph.Node_spec id wf1 hg1
  obtain ⟨W3, h3, wf3, g3, al3, k3, kk3, s3⟩ :=
    AttributesMap.SetAttribute_wf (a := n.toAttributesMap) "shape" (Value.str "box3d")
      P2.wf P2.attr_lt
  obtain ⟨W4, h4, wf4, g4, al4, href4, keep4, _⟩ :=
    Composite.ExportName_spec
      { Graph := r, outerNode := n, outerGraph := g, dotFilename := "", kind := kind } d id wf3
      (by rw [al3]; exact P2.attr_lt)
  have hrg : r ≠ g := Nat.ne_of_gt hgr
  have hgraphs : W4.graphs = W2.graphs := g4.trans g3
  refine ⟨{ Graph := r, outerNode := n, outerGraph := g,
            dotFilename := d ++ (replaceSpaces id ++ ".dot"), kind := kind }, W4, ?_, ?_⟩
  · simp only [NewComposite, h1, h2, Node.SetAttribute_node_eq h3]
    exact h4
  · exact
      { wf := wf4
        swf := by
          refine ⟨?_, ?_, hrg⟩
          · rw [World.nodesOf_congr hgraphs]
            exact P2.mem
          · show r < W4.graphs.length
            rw [hgraphs, P2.graphs_len]
            exact hr1
        outerGraph_eq := rfl
        kind_eq := rfl
        filename := rfl
        outer_id := P2.id_eq
        outer_mem := by
          rw [World.nodesOf_congr hgraphs]
          exact P2.mem
        shape := by
          have := keep4 "shape" (by decide)
          simp only at this
          rw [this]
          exact s3 (by decide) (by simp)
        href := href4
        graphs_le := by
          rw [hgraphs, P2.graphs_len]
          exact hle1
        nodes_ne := fun i hi hig => by
          rw [World.nodesOf_congr hgraphs, P2.nodes_ne i hig, n1 i hi]
        nodes_g := fun m hm => by
          rw [World.nodesOf_congr hgraphs]
          apply P2.nodes_sub_node
          rw [n1 g hg]
          exact hm
        edges := fun i hi => by
          rw [World.edgesOf_congr hgraphs, P2.edges, e1 i hi]
        same := fun hk => by
          have hreg : (W4.subgraphsOf g).lookup id = some r := by
            rw [World.subgraphsOf_congr hgraphs, P2.subs]
            exact (same1 hk).1
          refine ⟨hreg, Graph.Subgraph_of_lookup _ hreg, fun hn => ?_⟩
          show W4.graphs[r]? = _
          rw [hgraphs, P2.graphs_ne r hrg]
          exact (same1 hk).2 hn
        ext := fun hk => by
          obtain ⟨a, b, c⟩ := ext1 hk
          refine ⟨a, ?_, fun i q hq => ?_⟩
          · show W4.graphs[r]? = _
            rw [hgraphs, P2.graphs_ne r hrg]
            exact b
          · rw [World.subgraphsOf_congr hgraphs, P2.subs] at hq
            exact c i q hq }

end dotx

namespace dot

theorem Graph.WF_of_graph_check {W : World} {i : GraphRef} {G : Graph} (h : G.check W i = true) :
    G.WF W i := by
  simp only [Graph.check, Bool.and_eq_true, List.all_eq_true, decide_eq_true_eq] at h
  obtain ⟨⟨⟨⟨h1, h2⟩, h3⟩, h4⟩, h5⟩ := h
  exact ⟨h1, h2, h3, h4, h5⟩

theorem World.WF_of_check {W : World} (h : W.check = true) : W.WF := by
  simp only [World.check, List.all_eq_true, List.mem_range] at h
  constructor
  · intro i G hG
    have := h i (World.lt_of_graph hG)
    simp only [hG, Bool.and_eq_true] at this
    exact Graph.WF_of_graph_check this.1
  · intro i j Gi Gj hi hj hij r hri hrj
    have := h i (World.lt_of_graph hi)
    simp only [hi, Bool.and_eq_true, List.all_eq_true, List.mem_range] at this
    have h2 := this.2 j (World.lt_of_graph hj)
    simp only [hj, Bool.or_eq_true, decide_eq_true_eq, List.all_eq_true] at h2
    rcases h2 with h2 | h2
    · exact hij h2
    · have := h2 r hri
      simp [hrj] at this

end dot

namespace dotx

open dot

/-! ## The example heaps are the ones the code builds -/

theorem exBuild_eq : exBuild = some (exComponent, exSub, exInner, exWorld) := by decide

theorem exNested_eq : exNested = some (exC1, exC2, exNestedWorld) := by decide

theorem exWorld_wf : exWorld.WF := World.WF_of_check (by decide)

theorem exNestedWorld_wf : exNestedWorld.WF := World.WF_of_check (by decide)

theorem exRoot_wf : exRoot.WF := World.WF_of_check (by decide)

end dotx

namespace dotx

open dot

/-! ## One call of the port protocol -/

theorem PortPost.nodes_sub_port {s : Composite} {p : String} {W W' : World} {g : GraphRef}
    {port : dot.Node} {e : dot.Edge} (P : PortPost s p W g port e W') (i : GraphRef)
    (m : dot.Node) (h : m ∈ W.nodesOf i) : m ∈ W'.nodesOf i := by
  by_cases hi : i = s.Graph
  · subst hi
    by_cases hex : ∃ m ∈ W.nodesOf s.Graph, m.id = p
    · rw [P.nodes_old hex]
      exact h
    · rw [P.nodes_new hex]
      exact List.mem_append_left _ h
  · rw [P.nodes_ne i hi]
    exact h

theorem PortPost.composite_wf {s : Composite} {p : String} {W W' : World} {g : GraphRef}
    {port : dot.Node} {e : dot.Edge} (P : PortPost s p W g port e W') {c : Composite}
    (h : c.WF W) : c.WF W' :=
  ⟨P.nodes_sub_port _ _ h.1, by rw [P.graphs_len]; exact h.2.1, h.2.2⟩

theorem PortPost.connectable_wf {s : Composite} {p : String} {W W' : World} {g : GraphRef}
    {port : dot.Node} {e : dot.Edge} (P : PortPost s p W g port e W') {x : Connectable}
    (h : x.WF W) : x.WF W' := by
  cases x with
  | node n => exact P.nodes_sub_port _ _ h
  | composite c => exact P.composite_wf h

/-- Every call on a composite of the heap with a Connectable of the heap returns an edge;
on the external branch the graph that receives the edge is not the inner graph. -/
theorem Composite.call_spec (s : Composite) (c : PortCall) {W : World} (hW : W.WF)
    (hs : s.WF W) (hx : c.target.WF W) :
    ∃ g port e W', s.call c W = some (e, W') ∧ PortPost s c.id W g port e W' ∧
      (c.target.resolve ∉ W.nodesOf s.Graph → g ≠ s.Graph) ∧
      (c.target.resolve ∈ W.nodesOf s.Graph → g = s.Graph) := by
  obtain ⟨f1, f2, f3, f4, f5⟩ := Composite.WF.facts hW hs
  have hin := Connectable.WF.nodeIn hW hx
  cases c with
  | input p x =>
    by_cases hmem : x.resolve ∈ W.nodesOf s.Graph
    · obtain ⟨port, e, W', h, P, _⟩ := Composite.Input_internal s p x hW f4 hmem
      exact ⟨s.Graph, port, e, W', h, P, fun h => absurd hmem h, fun _ => rfl⟩
    · have hxg : x.resolve.graph < W.graphs.length := (hW.node_facts hin).2.1
      obtain ⟨port, e, W', h, P, _⟩ := Composite.Input_external s p x hW f4 hxg hmem
      refine ⟨x.resolve.graph, port, e, W', h, P, fun _ hg => ?_, fun h => absurd h hmem⟩
      apply hmem
      have : x.resolve ∈ W.nodesOf x.resolve.graph := hin
      rw [hg] at this
      exact this
  | output p x =>
    by_cases hmem : x.resolve ∈ W.nodesOf s.Graph
    · obtain ⟨port, e, W', h, P, _⟩ := Composite.Output_internal s p x hW f4 hmem
      exact ⟨s.Graph, port, e, W', h, P, fun h => absurd hmem h, fun _ => rfl⟩
    · obtain ⟨port, e, W', h, P, _⟩ :=
        Composite.Output_external s p x hW f4 (by rw [f1]; exact f2) hmem
      refine ⟨s.outerNode.graph, port, e, W', h, P, fun _ hg => ?_, fun h => absurd h hmem⟩
      exact hs.2.2 (hg.symm.trans f1)

theorem Composite.calls_spec (s : Composite) (cs : List PortCall) :
    ∀ {W : World}, W.WF → s.WF W → (∀ c ∈ cs, c.target.WF W) →
      ∃ W', s.calls cs W = some W' ∧ W'.edgeCount = W.edgeCount + cs.length ∧ W'.WF ∧
        s.WF W' := by
  induction cs with
  | nil =>
    intro W hW hs _
    exact ⟨W, rfl, rfl, hW, hs⟩
  | cons c cs ih =>
    intro W hW hs hx
    obtain ⟨g, port, e, W1, h, P, _⟩ :=
      Composite.call_spec s c hW hs (hx c (List.mem_cons_self _ _))
    obtain ⟨W2, h2, hc, hw, hs2⟩ := ih P.wf (P.composite_wf hs)
      (fun c' hc' => P.connectable_wf (hx c' (List.mem_cons_of_mem _ hc')))
    refine ⟨W2, by simp [Composite.calls, h, h2], ?_, hw, hs2⟩
    rw [hc, P.edgeCount_eq, List.length_cons]
    omega

theorem countP_eq_one_of_nodup {α β : Type} [DecidableEq β] (f : α → β) (l : List α) (a : α)
    (hn : (l.map f).Nodup) (ha : a ∈ l) : l.countP (fun m => decide (f m = f a)) = 1 := by
  induction l with
  | nil => cases ha
  | cons x rest ih =>
    simp only [List.map_cons, List.nodup_cons] at hn
    rcases List.mem_cons.1 ha with h | h
    · subst h
      have hz : rest.countP (fun m => decide (f m = f a)) = 0 := by
        rw [List.countP_eq_zero]
        intro m hm
        simp only [decide_eq_true_eq]
        intro hfm
        exact hn.1 (hfm ▸ List.mem_map_of_mem f hm)
      simp [List.countP_cons, hz]
    · have hne : f x ≠ f a := fun hxa => hn.1 (hxa ▸ List.mem_map_of_mem f h)
      simp [List.countP_cons, ih hn.2 h, hne]

end dotx

namespace dot

theorem World.WF.nodes_nodup {W : World} (hW : W.WF) (i : GraphRef) :
    ((W.nodesOf i).map fun n => n.id).Nodup := by
  unfold World.nodesOf
  cases hG : W.graphs[i]? with
  | none => simp
  | some G => exact (hW.1 i G hG).2.2.2.1

theorem World.WF.node_unique {W : World} (hW : W.WF) {i : GraphRef} {a b : dot.Node}
    (ha : a ∈ W.nodesOf i) (hb : b ∈ W.nodesOf i) (hab : a.id = b.id) : a = b :=
  List.inj_on_of_nodup_map (hW.nodes_nodup i) ha hb hab

end dot

namespace dotx

open dot

/-! # The claims -/

/-- C1: external boundary.  For a composite `s` of a well-formed heap, a port id `p` and a
node `n` of the outer graph of `s` that is not a node of its inner graph, `s.Input(p, n)`
returns an edge that was appended to the outer graph while the edge list of the inner graph
is unchanged, that goes from `n` to the outer node of `s` and whose `label` attribute is
`p`; `s.Output(p, n)` returns such an edge going from the outer node to `n`. -/
theorem C1_external_boundary (s : Composite) (p : String) (n : dot.Node) (W : World)
    (hW : W.WF) (hs : s.WF W) (hn : n ∈ W.nodesOf s.outerGraph) (hni : n ∉ W.nodesOf s.Graph) :
    (∃ e W', s.Input p (Connectable.node n) W = some (e, W') ∧
        W'.edgesOf s.outerGraph = W.edgesOf s.outerGraph ++ [e] ∧
        W'.edgesOf s.Graph = W.edgesOf s.Graph ∧
        e.From = n ∧ e.To = s.outerNode ∧ e.Attribute "label" W' = Value.str p) ∧
    (∃ e W', s.Output p (Connectable.node n) W = some (e, W') ∧
        W'.edgesOf s.outerGraph = W.edgesOf s.outerGraph ++ [e] ∧
        W'.edgesOf s.Graph = W.edgesOf s.Graph ∧
        e.From = s.outerNode ∧ e.To = n ∧ e.Attribute "label" W' = Value.str p) := by
  obtain ⟨f1, f2, f3, f4, f5⟩ := Composite.WF.facts hW hs
  obtain ⟨k1, k2, k3⟩ := hW.node_facts hn
  constructor
  · obtain ⟨port, e, W', h, P, e1, e2, _, _, e5⟩ :=
      Composite.Input_external s p (Connectable.node n) hW f4
        (by show n.graph < _; rw [k1]; exact k2) hni
    have hg : (Connectable.node n).resolve.graph = s.outerGraph := k1
    rw [hg] at P
    exact ⟨e, W', h, P.edges_g, P.edges_ne _ hs.2.2, e1, e2, e5⟩
  · obtain ⟨port, e, W', h, P, e1, e2, _, _, e5⟩ :=
      Composite.Output_external s p (Connectable.node n) hW f4 (by rw [f1]; exact f2) hni
    rw [f1] at P
    exact ⟨e, W', h, P.edges_g, P.edges_ne _ hs.2.2, e1, e2, e5⟩

/-- Witness of C1 on the heap of `TestExampleSubsystemSameGraph`: port `in1`, node
`component`. -/
theorem C1_external_boundary_witness :
    (∃ e W', exSub.Input "in1" (Connectable.node exComponent) exWorld = some (e, W') ∧
        W'.edgesOf exSub.outerGraph = exWorld.edgesOf exSub.outerGraph ++ [e] ∧
        W'.edgesOf exSub.Graph = exWorld.edgesOf exSub.Graph ∧
        e.From = exComponent ∧ e.To = exSub.outerNode ∧
        e.Attribute "label" W' = Value.str "in1") ∧
    (∃ e W', exSub.Output "in1" (Connectable.node exComponent) exWorld = some (e, W') ∧
        W'.edgesOf exSub.outerGraph = exWorld.edgesOf exSub.outerGraph ++ [e] ∧
        W'.edgesOf exSub.Graph = exWorld.edgesOf exSub.Graph ∧
        e.From = exSub.outerNode ∧ e.To = exComponent ∧
        e.Attribute "label" W' = Value.str "in1") :=
  C1_external_boundary exSub "in1" exComponent exWorld exWorld_wf (by decide) (by decide)
    (by decide)

/-- C2: internal boundary.  For a composite `s` of a well-formed heap, a port id `p` and a
node `n` of the inner graph of `s`, `s.Input(p, n)` returns an edge appended to the inner
graph that goes from the inner node named `p` to `n`, with from-port `s`, to-port `n` and
attribute `taillabel = p`; `s.Output(p, n)` returns an edge appended to the inner graph that
goes from `n` to the inner node named `p`, with the same ports and `headlabel = p`; the edge
list of the outer graph is unchanged in both cases. -/
theorem C2_internal_boundary (s : Composite) (p : String) (n : dot.Node) (W : World)
    (hW : W.WF) (hs : s.WF W) (hn : n ∈ W.nodesOf s.Graph) :
    (∃ e W', s.Input p (Connectable.node n) W = some (e, W') ∧
        W'.edgesOf s.Graph = W.edgesOf s.Graph ++ [e] ∧
        e.From ∈ W'.nodesOf s.Graph ∧ e.From.ID = p ∧ e.To = n ∧
        e.fromPort = "s" ∧ e.toPort = "n" ∧ e.Attribute "taillabel" W' = Value.str p ∧
        W'.edgesOf s.outerGraph = W.edgesOf s.outerGraph) ∧
    (∃ e W', s.Output p (Connectable.node n) W = some (e, W') ∧
        W'.edgesOf s.Graph = W.edgesOf s.Graph ++ [e] ∧
        e.From = n ∧ e.To ∈ W'.nodesOf s.Graph ∧ e.To.ID = p ∧
        e.fromPort = "s" ∧ e.toPort = "n" ∧ e.Attribute "headlabel" W' = Value.str p ∧
        W'.edgesOf s.outerGraph = W.edgesOf s.outerGraph) := by
  have hne : s.outerGraph ≠ s.Graph := fun h => hs.2.2 h.symm
  constructor
  · obtain ⟨port, e, W', h, P, e1, e2, e3, e4, e5⟩ :=
      Composite.Input_internal s p (Connectable.node n) hW hs.2.1 hn
    refine ⟨e, W', h, P.edges_g, ?_, ?_, e2, e3, e4, e5, P.edges_ne _ hne⟩
    · show e.fromNode ∈ _
      rw [e1]
      exact P.port_mem
    · show e.fromNode.id = p
      rw [e1]
      exact P.port_id
  · obtain ⟨port, e, W', h, P, e1, e2, e3, e4, e5⟩ :=
      Composite.Output_internal s p (Connectable.node n) hW hs.2.1 hn
    refine ⟨e, W', h, P.edges_g, e1, ?_, ?_, e3, e4, e5, P.edges_ne _ hne⟩
    · show e.toNode ∈ _
      rw [e2]
      exact P.port_mem
    · show e.toNode.id = p
      rw [e2]
      exact P.port_id

/-- Witness of C2 on the heap of `TestExampleSubsystemSameGraph`: port `in1`, inner node
`subcomponent 1`. -/
theorem C2_internal_boundary_witness :
    (∃ e W', exSub.Input "in1" (Connectable.node exInner) exWorld = some (e, W') ∧
        W'.edgesOf exSub.Graph = exWorld.edgesOf exSub.Graph ++ [e] ∧
        e.From ∈ W'.nodesOf exSub.Graph ∧ e.From.ID = "in1" ∧ e.To = exInner ∧
        e.fromPort = "s" ∧ e.toPort = "n" ∧ e.Attribute "taillabel" W' = Value.str "in1" ∧
        W'.edgesOf exSub.outerGraph = exWorld.edgesOf exSub.outerGraph) ∧
    (∃ e W', exSub.Output "in1" (Connectable.node exInner) exWorld = some (e, W') ∧
        W'.edgesOf exSub.Graph = exWorld.edgesOf exSub.Graph ++ [e] ∧
        e.From = exInner ∧ e.To ∈ W'.nodesOf exSub.Graph ∧ e.To.ID = "in1" ∧
        e.fromPort = "s" ∧ e.toPort = "n" ∧ e.Attribute "headlabel" W' = Value.str "in1" ∧
        W'.edgesOf exSub.outerGraph = exWorld.edgesOf exSub.outerGraph) :=
  C2_internal_boundary exSub "in1" exInner exWorld exWorld_wf (by decide) (by decide)

/-- C3: every call appends exactly one edge.  For a composite `s` of a well-formed heap,
one call of `Input` or `Output` with a node or composite of the heap returns an edge `e`
that is appended to the edge list of one graph while every other edge list is unchanged, so
the number of edges of all graphs together grows by one, whatever edges exist already; and
`N` calls in a row, with any port ids and endpoints, leave `N` more edges than before. -/
theorem C3_one_edge_per_call (s : Composite) (W : World) (hW : W.WF) (hs : s.WF W) :
    (∀ c : PortCall, c.target.WF W →
      ∃ g e W', s.call c W = some (e, W') ∧ W'.edgesOf g = W.edgesOf g ++ [e] ∧
        (∀ i : GraphRef, i ≠ g → W'.edgesOf i = W.edgesOf i) ∧
        W'.edgeCount = W.edgeCount + 1) ∧
    (∀ cs : List PortCall, (∀ c ∈ cs, c.target.WF W) →
      ∃ W', s.calls cs W = some W' ∧ W'.edgeCount = W.edgeCount + cs.length) := by
  constructor
  · intro c hc
    obtain ⟨g, port, e, W', h, P, _⟩ := Composite.call_spec s c hW hs hc
    exact ⟨g, e, W', h, P.edges_g, P.edges_ne, P.edgeCount_eq⟩
  · intro cs hcs
    obtain ⟨W', h, hc, _⟩ := Composite.calls_spec s cs hW hs hcs
    exact ⟨W', h, hc⟩

/-- Witness of C3: the three calls `Input("in1", c1)`, `Input("in2", c1)`,
`Output("out2", c1)` of `TestExampleSubsystemSameGraph`, followed by a repetition of the
first one, leave four more edges. -/
theorem C3_one_edge_per_call_witness :
    ∃ W', exSub.calls
        [PortCall.input "in1" (Connectable.node exComponent),
         PortCall.input "in2" (Connectable.node exComponent),
         PortCall.output "out2" (Connectable.node exComponent),
         PortCall.input "in1" (Connectable.node exComponent)] exWorld = some W' ∧
      W'.edgeCount = exWorld.edgeCount + 4 :=
  (C3_one_edge_per_call exSub exWorld exWorld_wf (by decide)).2
    [PortCall.input "in1" (Connectable.node exComponent),
     PortCall.input "in2" (Connectable.node exComponent),
     PortCall.output "out2" (Connectable.node exComponent),
     PortCall.input "in1" (Connectable.node exComponent)] (by decide)

end dotx

namespace dotx

open dot

/-- The part of C4 shared by `Input` and `Output`. -/
theorem Composite.call_port (s : Composite) (c : PortCall) {W : World} (hW : W.WF)
    (hs : s.WF W) (hx : c.target.WF W) :
    ∃ e W', s.call c W = some (e, W') ∧
      (W'.nodesOf s.Graph).countP (fun m => decide (m.id = c.id)) = 1 ∧
      (∀ m ∈ W'.nodesOf s.Graph, m.id = c.id → m.Attribute "shape" W' = Value.str "point") ∧
      (W'.nodesOf s.Graph).length = (W.nodesOf s.Graph).length +
        (if (W.nodesOf s.Graph).any (fun m => decide (m.id = c.id)) then 0 else 1) ∧
      (c.target.resolve ∉ W.nodesOf s.Graph → W'.edgesOf s.Graph = W.edgesOf s.Graph) := by
  obtain ⟨g, port, e, W', h, P, hext, _⟩ := Composite.call_spec s c hW hs hx
  refine ⟨e, W', h, ?_, ?_, ?_, ?_⟩
  · have := countP_eq_one_of_nodup (fun m : dot.Node => m.id) (W'.nodesOf s.Graph) port
      (P.wf.nodes_nodup s.Graph) P.port_mem
    simp only [P.port_id] at this
    exact this
  · intro m hm hid
    have : m = port := P.wf.node_unique hm P.port_mem (hid.trans P.port_id.symm)
    rw [this]
    exact P.port_shape
  · by_cases hex : ∃ m ∈ W.nodesOf s.Graph, m.id = c.id
    · have hany : (W.nodesOf s.Graph).any (fun m => decide (m.id = c.id)) = true := by
        rw [List.any_eq_true]
        obtain ⟨m, hm, hid⟩ := hex
        exact ⟨m, hm, by simpa using hid⟩
      rw [P.nodes_old hex, hany]
      simp
    · have hany : (W.nodesOf s.Graph).any (fun m => decide (m.id = c.id)) = false := by
        rw [Bool.eq_false_iff]
        intro h1
        rw [List.any_eq_true] at h1
        obtain ⟨m, hm, hid⟩ := h1
        exact hex ⟨m, hm, by simpa using hid⟩
      rw [P.nodes_new hex, hany]
      simp
  · intro hni
    exact P.edges_ne _ (fun h => hext hni h.symm)

/-- C4: the port node is created idempotently on both branches.  For a composite `s` of a
well-formed heap, a port id `p` and a node or composite `x` of the heap, after `s.Input(p, x)`
and after `s.Output(p, x)` the inner graph has exactly one node with id `p`, that node has
`shape = "point"`, the inner graph has one node more than before if it had no node with id
`p` and as many as before otherwise, and when `x` resolves to a node outside the inner graph
(the external branch) the edge list of the inner graph is unchanged. -/
theorem C4_port_node_idempotent (s : Composite) (p : String) (x : Connectable) (W : World)
    (hW : W.WF) (hs : s.WF W) (hx : x.WF W) :
    (∃ e W', s.Input p x W = some (e, W') ∧
      (W'.nodesOf s.Graph).countP (fun m => decide (m.id = p)) = 1 ∧
      (∀ m ∈ W'.nodesOf s.Graph, m.id = p → m.Attribute "shape" W' = Value.str "point") ∧
      (W'.nodesOf s.Graph).length = (W.nodesOf s.Graph).length +
        (if (W.nodesOf s.Graph).any (fun m => decide (m.id = p)) then 0 else 1) ∧
      (x.resolve ∉ W.nodesOf s.Graph → W'.edgesOf s.Graph = W.edgesOf s.Graph)) ∧
    (∃ e W', s.Output p x W = some (e, W') ∧
      (W'.nodesOf s.Graph).countP (fun m => decide (m.id = p)) = 1 ∧
      (∀ m ∈ W'.nodesOf s.Graph, m.id = p → m.Attribute "shape" W' = Value.str "point") ∧
      (W'.nodesOf s.Graph).length = (W.nodesOf s.Graph).length +
        (if (W.nodesOf s.Graph).any (fun m => decide (m.id = p)) then 0 else 1) ∧
      (x.resolve ∉ W.nodesOf s.Graph → W'.edgesOf s.Graph = W.edgesOf s.Graph)) :=
  ⟨Composite.call_port s (PortCall.input p x) hW hs hx,
   Composite.call_port s (PortCall.output p x) hW hs hx⟩

/-- Witness of C4 on the heap of `TestCompositeWithUnusedIOSameGraph`: port `in`, parent
node `component` (the external branch). -/
theorem C4_port_node_idempotent_witness :
    (∃ e W', exSub.Input "in" (Connectable.node exComponent) exWorld = some (e, W') ∧
      (W'.nodesOf exSub.Graph).countP (fun m => decide (m.id = "in")) = 1 ∧
      (∀ m ∈ W'.nodesOf exSub.Graph, m.id = "in" →
        m.Attribute "shape" W' = Value.str "point") ∧
      (W'.nodesOf exSub.Graph).length = (exWorld.nodesOf exSub.Graph).length +
        (if (exWorld.nodesOf exSub.Graph).any (fun m => decide (m.id = "in")) then 0 else 1) ∧
      ((Connectable.node exComponent).resolve ∉ exWorld.nodesOf exSub.Graph →
        W'.edgesOf exSub.Graph = exWorld.edgesOf exSub.Graph)) ∧
    (∃ e W', exSub.Output "in" (Connectable.node exComponent) exWorld = some (e, W') ∧
      (W'.nodesOf exSub.Graph).countP (fun m => decide (m.id = "in")) = 1 ∧
      (∀ m ∈ W'.nodesOf exSub.Graph, m.id = "in" →
        m.Attribute "shape" W' = Value.str "point") ∧
      (W'.nodesOf exSub.Graph).length = (exWorld.nodesOf exSub.Graph).length +
        (if (exWorld.nodesOf exSub.Graph).any (fun m => decide (m.id = "in")) then 0 else 1) ∧
      ((Connectable.node exComponent).resolve ∉ exWorld.nodesOf exSub.Graph →
        W'.edgesOf exSub.Graph = exWorld.edgesOf exSub.Graph)) :=
  C4_port_node_idempotent exSub "in" (Connectable.node exComponent) exWorld exWorld_wf
    (by decide) (by decide)

/-- Counterexample to C5 as stated: `c2` is a composite built inside the inner graph of
`c1`, so `c1.Input("in", c2)` takes the internal branch and returns an edge whose from-node
is the port node `in`, not the outer node `c2`; likewise `c1.Output("out", c2)` returns an
edge whose to-node is the port node `out`. -/
theorem C5_composite_unwrapped_counterexample :
    exNested = some (exC1, exC2, exNestedWorld) ∧
    (exC1.Input "in" (Connectable.composite exC2) exNestedWorld).map
        (fun r => (r.1.From.ID, exC2.outerNode.ID)) = some ("in", "c2") ∧
    (exC1.Output "out" (Connectable.composite exC2) exNestedWorld).map
        (fun r => (r.1.To.ID, exC2.outerNode.ID)) = some ("out", "c2") := by
  decide

/-- C5, amended: a composite passed as Connectable is unwrapped to its outer node.  For two
composites `c1`, `c2` of a well-formed heap and a port id `p`: when the outer node of `c2`
is not a node of the inner graph of `c1`, the edge returned by `c1.Input(p, c2)` has the
outer node of `c2` as from-node and the edge returned by `c1.Output(p, c2)` has it as
to-node; when it is a node of the inner graph of `c1`, the edge of `Input` goes from the
port node `p` to the outer node of `c2` and the edge of `Output` from the outer node of `c2`
to the port node `p`. -/
theorem C5_composite_unwrapped (c1 c2 : Composite) (p : String) (W : World)
    (hW : W.WF) (h1 : c1.WF W) (h2 : c2.WF W) :
    (∃ e W', c1.Input p (Connectable.composite c2) W = some (e, W') ∧
      (c2.outerNode ∉ W.nodesOf c1.Graph →
        e.From = c2.outerNode ∧ e.From.ID = c2.outerNode.ID) ∧
      (c2.outerNode ∈ W.nodesOf c1.Graph →
        e.From.ID = p ∧ e.To = c2.outerNode ∧ e.To.ID = c2.outerNode.ID)) ∧
    (∃ e W', c1.Output p (Connectable.composite c2) W = some (e, W') ∧
      (c2.outerNode ∉ W.nodesOf c1.Graph →
        e.To = c2.outerNode ∧ e.To.ID = c2.outerNode.ID) ∧
      (c2.outerNode ∈ W.nodesOf c1.Graph →
        e.To.ID = p ∧ e.From = c2.outerNode ∧ e.From.ID = c2.outerNode.ID)) := by
  obtain ⟨f1, f2, f3, f4, f5⟩ := Composite.WF.facts hW h1
  obtain ⟨g1, g2, g3, g4, g5⟩ := Composite.WF.facts hW h2
  by_cases hmem : c2.outerNode ∈ W.nodesOf c1.Graph
  · constructor
    · obtain ⟨port, e, W', h, P, e1, e2, _⟩ :=
        Composite.Input_internal c1 p (Connectable.composite c2) hW f4 hmem
      refine ⟨e, W', h, fun hn => absurd hmem hn, fun _ => ⟨?_, e2, ?_⟩⟩
      · show e.fromNode.id = p
        rw [e1]
        exact P.port_id
      · show e.toNode.id = c2.outerNode.id
        rw [e2]
        rfl
    · obtain ⟨port, e, W', h, P, e1, e2, _⟩ :=
        Composite.Output_internal c1 p (Connectable.composite c2) hW f4 hmem
      refine ⟨e, W', h, fun hn => absurd hmem hn, fun _ => ⟨?_, e1, ?_⟩⟩
      · show e.toNode.id = p
        rw [e2]
        exact P.port_id
      · show e.fromNode.id = c2.outerNode.id
        rw [e1]
        rfl
  · constructor
    · obtain ⟨port, e, W', h, P, e1, e2, _⟩ :=
        Composite.Input_external c1 p (Connectable.composite c2) hW f4
          (by show c2.outerNode.graph < _; rw [g1]; exact g2) hmem
      refine ⟨e, W', h, fun _ => ⟨e1, ?_⟩, fun hn => absurd hn hmem⟩
      show e.fromNode.id = c2.outerNode.id
      rw [e1]
      rfl
    · obtain ⟨port, e, W', h, P, e1, e2, _⟩ :=
        Composite.Output_external c1 p (Connectable.composite c2) hW f4
          (by rw [f1]; exact f2) hmem
      refine ⟨e, W', h, fun _ => ⟨e2, ?_⟩, fun hn => absurd hn hmem⟩
      show e.toNode.id = c2.outerNode.id
      rw [e2]
      rfl

/-- Witness of the amended C5 on the heap of the two nested composites. -/
theorem C5_composite_unwrapped_witness :
    (∃ e W', exC1.Input "in" (Connectable.composite exC2) exNestedWorld = some (e, W') ∧
      (exC2.outerNode ∉ exNestedWorld.nodesOf exC1.Graph →
        e.From = exC2.outerNode ∧ e.From.ID = exC2.outerNode.ID) ∧
      (exC2.outerNode ∈ exNestedWorld.nodesOf exC1.Graph →
        e.From.ID = "in" ∧ e.To = exC2.outerNode ∧ e.To.ID = exC2.outerNode.ID)) ∧
    (∃ e W', exC1.Output "in" (Connectable.composite exC2) exNestedWorld = some (e, W') ∧
      (exC2.outerNode ∉ exNestedWorld.nodesOf exC1.Graph →
        e.To = exC2.outerNode ∧ e.To.ID = exC2.outerNode.ID) ∧
      (exC2.outerNode ∈ exNestedWorld.nodesOf exC1.Graph →
        e.To.ID = "in" ∧ e.From = exC2.outerNode ∧ e.From.ID = exC2.outerNode.ID)) :=
  C5_composite_unwrapped exC1 exC2 "in" exNestedWorld exNestedWorld_wf (by decide) (by decide)

end dotx

namespace dotx

open dot

/-- C6: the outer node.  For every export path `d`, name `id`, existing graph `g` of a
well-formed heap and kind (`SameGraph`, `ExternalGraph` or any other value),
`NewComposite(d, id, g, kind)` returns a composite whose outer node is a node of `g` with id
`id`, attribute `shape = "box3d"` and attribute `href` equal to `id` with every space
replaced by an underscore, followed by `.svg`. -/
theorem C6_outer_node (d id : String) (g : GraphRef) (kind : compositeGraphKind) (W : World)
    (hW : W.WF) (hg : g < W.graphs.length) :
    ∃ s W', NewComposite d id g kind W = some (s, W') ∧
      s.outerNode ∈ W'.nodesOf g ∧ s.outerNode.ID = id ∧
      s.outerNode.Attribute "shape" W' = Value.str "box3d" ∧
      s.outerNode.Attribute "href" W' = Value.str (replaceSpaces id ++ ".svg") := by
  obtain ⟨s, W', h, P⟩ := NewComposite_spec d id kind hW hg
  exact ⟨s, W', h, P.outer_mem, P.outer_id, P.shape, P.href⟩

/-- Witness of C6: an ExternalGraph composite named `my example` on a new graph. -/
theorem C6_outer_node_witness :
    ∃ s W', NewComposite "testing/" "my example" 0 ExternalGraph exRoot = some (s, W') ∧
      s.outerNode ∈ W'.nodesOf 0 ∧ s.outerNode.ID = "my example" ∧
      s.outerNode.Attribute "shape" W' = Value.str "box3d" ∧
      s.outerNode.Attribute "href" W' = Value.str (replaceSpaces "my example" ++ ".svg") :=
  C6_outer_node "testing/" "my example" 0 ExternalGraph exRoot exRoot_wf (by decide)

/-- C7: export naming is a function of path and name only.  For a composite `s` of a
well-formed heap, after `ExportName(d, name)` the export file name is `d ++ stem ++ ".dot"`
and the `href` of the outer node is `stem ++ ".svg"`, where `stem` has the length of `name`,
contains no space, and has at every position the character of `name`, an underscore where
`name` has a space; the same names result from `NewComposite(d, name, g, kind)`; and the name
`my example` gives `my_example.dot` and `my_example.svg`. -/
theorem C7_export_naming (s : Composite) (d name : String) (W : World) (hW : W.WF)
    (hs : s.WF W) :
    (∃ s' W', s.ExportName d name W = some (s', W') ∧
      s'.ExportFilename = d ++ replaceSpaces name ++ ".dot" ∧
      s'.outerNode.Attribute "href" W' = Value.str (replaceSpaces name ++ ".svg")) ∧
    (∀ (g : GraphRef) (kind : compositeGraphKind), g < W.graphs.length →
      ∃ c W', NewComposite d name g kind W = some (c, W') ∧
        c.ExportFilename = d ++ replaceSpaces name ++ ".dot" ∧
        c.outerNode.Attribute "href" W' = Value.str (replaceSpaces name ++ ".svg")) ∧
    (replaceSpaces name).length = name.length ∧
    ' ' ∉ (replaceSpaces name).data ∧
    (∀ i : Nat, (replaceSpaces name).data[i]? =
      (name.data[i]?).map fun c => if c = ' ' then '_' else c) ∧
    replaceSpaces "my example" ++ ".dot" = "my_example.dot" ∧
    replaceSpaces "my example" ++ ".svg" = "my_example.svg" := by
  refine ⟨?_, ?_, replaceSpaces_length name, replaceSpaces_no_space name,
    replaceSpaces_get name, by decide, by decide⟩
  · obtain ⟨W', h, _, _, _, href, _⟩ :=
      Composite.ExportName_spec s d name hW (Composite.WF.facts hW hs).2.2.1
    exact ⟨_, W', h, by simp [Composite.ExportFilename, String.append_assoc], href⟩
  · intro g kind hg
    obtain ⟨c, W', h, P⟩ := NewComposite_spec d name kind hW hg
    refine ⟨c, W', h, ?_, P.href⟩
    rw [Composite.ExportFilename, P.filename, String.append_assoc]

/-- Witness of C7: renaming the composite of `TestExampleSubsystemSameGraph`. -/
theorem C7_export_naming_witness :
    (∃ s' W', exSub.ExportName "out/" "my example" exWorld = some (s', W') ∧
      s'.ExportFilename = "out/" ++ replaceSpaces "my example" ++ ".dot" ∧
      s'.outerNode.Attribute "href" W' = Value.str (replaceSpaces "my example" ++ ".svg")) ∧
    (∀ (g : GraphRef) (kind : compositeGraphKind), g < exWorld.graphs.length →
      ∃ c W', NewComposite "out/" "my example" g kind exWorld = some (c, W') ∧
        c.ExportFilename = "out/" ++ replaceSpaces "my example" ++ ".dot" ∧
        c.outerNode.Attribute "href" W' = Value.str (replaceSpaces "my example" ++ ".svg")) ∧
    (replaceSpaces "my example").length = "my example".length ∧
    ' ' ∉ (replaceSpaces "my example").data ∧
    (∀ i : Nat, (replaceSpaces "my example").data[i]? =
      ("my example".data[i]?).map fun c => if c = ' ' then '_' else c) ∧
    replaceSpaces "my example" ++ ".dot" = "my_example.dot" ∧
    replaceSpaces "my example" ++ ".svg" = "my_example.svg" :=
  C7_export_naming exSub "out/" "my example" exWorld exWorld_wf (by decide)

end dotx

namespace dotx

open dot

theorem NewComposite_kind {d id : String} {g : GraphRef} {kind : compositeGraphKind}
    {W W1 : World} {s : Composite} (h : NewComposite d id g kind W = some (s, W1)) :
    s.kind = kind := by
  unfold NewComposite at h
  split at h
  · cases h
  · split at h
    · cases h
    · split at h
      · cases h
      · unfold Composite.ExportName at h
        simp only at h
        split at h
        · cases h
        · simp only [Option.some.injEq, Prod.mk.injEq] at h
          rw [← h.1]

/-- C9: attribute delegation.  For a composite `s` of a well-formed heap, a non-empty
attribute name `l` and a non-nil value `v`, `s.SetAttribute(l, v)` returns the outer node,
whose attribute `l` is `v` afterwards; no graph changes its nodes, edges or subgraphs, and
the attribute map of the inner graph and those of its nodes and of its edges have the same
content as before. -/
theorem C9_set_attribute_outer (s : Composite) (l : String) (v : Value) (W : World)
    (hW : W.WF) (hs : s.WF W) (hl : l ≠ "") (hv : v ≠ Value.nil) :
    ∃ W', s.SetAttribute l v W = some (s.outerNode, W') ∧
      s.outerNode.Attribute l W' = v ∧
      W'.graphs = W.graphs ∧
      (∀ G : Graph, W.graphs[s.Graph]? = some G →
        W'.attrsOf G.toAttributesMap = W.attrsOf G.toAttributesMap ∧
        (∀ n ∈ G.nodes, W'.attrsOf n.toAttributesMap = W.attrsOf n.toAttributesMap) ∧
        (∀ e ∈ G.edges, W'.attrsOf e.toAttributesMap = W.attrsOf e.toAttributesMap)) := by
  obtain ⟨f1, f2, f3, f4, f5⟩ := Composite.WF.facts hW hs
  obtain ⟨W', h, _, hg, _, keep, _, set⟩ :=
    AttributesMap.SetAttribute_wf (a := s.outerNode.toAttributesMap) l v hW f3
  refine ⟨W', ?_, set hl hv, hg, fun G hG => ?_⟩
  · simp [Composite.SetAttribute, Node.SetAttribute_node_eq h]
  · obtain ⟨Go, hGo⟩ := World.graph_of_lt f2
    have hmem : s.outerNode ∈ Go.nodes := by
      have := hs.1
      rw [World.nodesOf_eq hGo] at this
      exact this
    have hro : s.outerNode.attributes ∈ Go.refs := by
      simp only [Graph.refs, List.mem_cons, List.mem_append, List.mem_map]
      exact Or.inr (Or.inl ⟨s.outerNode, hmem, rfl⟩)
    have hdis := hW.2 s.outerGraph s.Graph Go G hGo hG (fun h => hs.2.2 h.symm) _ hro
    refine ⟨keep _ (fun h => hdis ?_), fun n hn => keep _ (fun h => hdis ?_),
      fun e he => keep _ (fun h => hdis ?_)⟩
    · rw [← h]
      simp [Graph.refs]
    · rw [← h]
      simp only [Graph.refs, List.mem_cons, List.mem_append, List.mem_map]
      exact Or.inr (Or.inl ⟨n, hn, rfl⟩)
    · rw [← h]
      simp only [Graph.refs, List.mem_cons, List.mem_append, List.mem_map]
      exact Or.inr (Or.inr ⟨e, he, rfl⟩)

/-- Witness of C9: `sub.SetAttribute("color", "red")` on the heap of
`TestExampleSubsystemSameGraph`. -/
theorem C9_set_attribute_outer_witness :
    ∃ W', exSub.SetAttribute "color" (Value.str "red") exWorld = some (exSub.outerNode, W') ∧
      exSub.outerNode.Attribute "color" W' = Value.str "red" ∧
      W'.graphs = exWorld.graphs ∧
      (∀ G : Graph, exWorld.graphs[exSub.Graph]? = some G →
        W'.attrsOf G.toAttributesMap = exWorld.attrsOf G.toAttributesMap ∧
        (∀ n ∈ G.nodes, W'.attrsOf n.toAttributesMap = exWorld.attrsOf n.toAttributesMap) ∧
        (∀ e ∈ G.edges, W'.attrsOf e.toAttributesMap = exWorld.attrsOf e.toAttributesMap)) :=
  C9_set_attribute_outer exSub "color" (Value.str "red") exWorld exWorld_wf (by decide)
    (by decide) (by decide)

/-- C10: the kind check of `ExportFile`.  On a composite constructed by `NewComposite` with
kind `SameGraph`, `ExportFile` returns an error and calls neither `os.MkdirAll` nor
`os.WriteFile`; on a composite constructed with kind `ExternalGraph` the returned error is
the one of `os.MkdirAll` if that call fails and otherwise the result of `os.WriteFile`, so it
is nil when both succeed. -/
theorem C10_export_file_kind (d id : String) (g : GraphRef) (kind : compositeGraphKind)
    (W W1 : World) (s : Composite) (os : OS) (render : World → GraphRef → String) (W2 : World)
    (h : NewComposite d id g kind W = some (s, W1)) :
    (kind = SameGraph →
      (s.ExportFile os render W2).1 ≠ none ∧ (s.ExportFile os render W2).2 = []) ∧
    (kind = ExternalGraph →
      (s.ExportFile os render W2).1 =
        (match os.MkdirAll (splitDir s.ExportFilename) with
         | some err => some err
         | none => os.WriteFile s.ExportFilename (render W2 s.Graph)) ∧
      ∀ c ∈ (s.ExportFile os render W2).2,
        c = FsCall.mkdirAll (splitDir s.ExportFilename) ∨
        c = FsCall.writeFile s.ExportFilename (render W2 s.Graph)) := by
  have hk := NewComposite_kind h
  constructor
  · intro hs
    have hne : s.kind ≠ ExternalGraph := by rw [hk, hs]; decide
    simp [Composite.ExportFile, hne]
  · intro he
    have hke : s.kind = ExternalGraph := by rw [hk, he]
    unfold Composite.ExportFile
    simp only [hke, ne_eq, not_true_eq_false, if_false]
    cases os.MkdirAll (splitDir s.ExportFilename) with
    | some err => simp
    | none => simp

/-- Witness of C10: the SameGraph composite `my example`, on an operating system where every
call would succeed. -/
theorem C10_export_file_kind_witness :
    (SameGraph = SameGraph →
      (exMy.ExportFile exOS exRender exMyWorld).1 ≠ none ∧
      (exMy.ExportFile exOS exRender exMyWorld).2 = []) ∧
    (SameGraph = ExternalGraph →
      (exMy.ExportFile exOS exRender exMyWorld).1 =
        (match exOS.MkdirAll (splitDir exMy.ExportFilename) with
         | some err => some err
         | none => exOS.WriteFile exMy.ExportFilename (exRender exMyWorld exMy.Graph)) ∧
      ∀ c ∈ (exMy.ExportFile exOS exRender exMyWorld).2,
        c = FsCall.mkdirAll (splitDir exMy.ExportFilename) ∨
        c = FsCall.writeFile exMy.ExportFilename (exRender exMyWorld exMy.Graph)) :=
  C10_export_file_kind "testing/" "my example" 0 SameGraph exRoot exMyWorld exMy exOS exRender
    exMyWorld (by decide)

end dotx

namespace dot

theorem Graph.Node_id {g : GraphRef} {id : String} {W W' : World} {n : dot.Node}
    (h : Graph.Node g id W = some (n, W')) : n.id = id := by
  unfold Graph.Node at h
  split at h
  · cases h
  · split at h
    · rename_i m hf
      simp only [Option.some.injEq, Prod.mk.injEq] at h
      rw [← h.1]
      simpa using List.find?_some hf
    · simp only [Option.some.injEq, Prod.mk.injEq] at h
      rw [← h.1]

end dot

namespace dotx

open dot

theorem Composite.ExportName_fields {s s' : Composite} {d name : String} {W W' : World}
    (h : s.ExportName d name W = some (s', W')) :
    s'.outerNode = s.outerNode ∧ s'.Graph = s.Graph ∧ s'.outerGraph = s.outerGraph ∧
      s'.kind = s.kind ∧ s'.dotFilename = d ++ (replaceSpaces name ++ ".dot") := by
  unfold Composite.ExportName at h
  simp only at h
  split at h
  · cases h
  · simp only [Option.some.injEq, Prod.mk.injEq] at h
    rw [← h.1]
    exact ⟨rfl, rfl, rfl, rfl, rfl⟩

theorem NewComposite_outer_id {d id : String} {g : GraphRef} {kind : compositeGraphKind}
    {W W1 : World} {s : Composite} (h : NewComposite d id g kind W = some (s, W1)) :
    s.outerNode.id = id := by
  unfold NewComposite at h
  split at h
  · cases h
  · split at h
    · cases h
    · rename_i n W2 hn
      split at h
      · cases h
      · rename_i outer W3 hset
        have hf := (Composite.ExportName_fields h).1
        simp only at hf
        rw [hf]
        unfold Node.SetAttribute at hset
        split at hset
        · cases hset
        · simp only [Option.some.injEq, Prod.mk.injEq] at hset
          rw [← hset.1]
          exact Graph.Node_id hn

theorem Composite.step_outerNode {os : OS} {render : World → GraphRef → String}
    {s s' : Composite} {op : CompositeOp} {W W' : World}
    (h : s.step os render op W = some (s', W')) : s'.outerNode = s.outerNode := by
  cases op with
  | setAttribute l v =>
    simp only [Composite.step] at h
    split at h
    · cases h
    · simp only [Option.some.injEq, Prod.mk.injEq] at h
      rw [← h.1]
  | input p x =>
    simp only [Composite.step] at h
    split at h
    · cases h
    · simp only [Option.some.injEq, Prod.mk.injEq] at h
      rw [← h.1]
  | output p x =>
    simp only [Composite.step] at h
    split at h
    · cases h
    · simp only [Option.some.injEq, Prod.mk.injEq] at h
      rw [← h.1]
  | exportName d name => exact (Composite.ExportName_fields h).1
  | exportBuild build =>
    simp only [Composite.step, Composite.Export] at h
    split at h
    · cases h
    · rename_i s1 W1 c w hE
      simp only [Option.some.injEq, Prod.mk.injEq] at h
      split at hE
      · cases hE
      · split at hE
        · simp only [Option.some.injEq, Prod.mk.injEq] at hE
          rw [← h.1, ← hE.1]
        · simp only [Option.some.injEq, Prod.mk.injEq] at hE
          rw [← h.1, ← hE.1]
  | exportFile =>
    simp only [Composite.step, Option.some.injEq, Prod.mk.injEq] at h
    rw [← h.1]

theorem Composite.run_outerNode {os : OS} {render : World → GraphRef → String}
    (ops : List CompositeOp) :
    ∀ {s s' : Composite} {W W' : World}, s.run os render ops W = some (s', W') →
      s'.outerNode = s.outerNode := by
  induction ops with
  | nil =>
    intro s s' W W' h
    simp only [Composite.run, Option.some.injEq, Prod.mk.injEq] at h
    rw [← h.1]
  | cons op ops ih =>
    intro s s' W W' h
    simp only [Composite.run] at h
    split at h
    · cases h
    · rename_i s1 W1 hstep
      rw [ih h, Composite.step_outerNode hstep]

end dotx

namespace dotx

open dot

/-- C11: Export is best-effort.  For every composite `s` (of either kind), operating system
and build function `f` that returns on the inner graph of `s`: `s.Export(f)` returns `s`
itself and the heap exactly as `f` left it after one application to the inner graph, makes
the file-system calls of one `ExportFile` on that heap, and logs a warning exactly when that
`ExportFile` failed; on a SameGraph composite it always fails, makes no call, and the heap is
still the one `f` left. -/
theorem C11_export_best_effort (os : OS) (render : World → GraphRef → String)
    (build : GraphRef → World → Option World) (s : Composite) (W W1 : World)
    (hb : build s.Graph W = some W1) :
    ∃ calls warning, Composite.Export os render build s W = some (s, W1, calls, warning) ∧
      calls = (s.ExportFile os render W1).2 ∧
      (warning = none ↔ (s.ExportFile os render W1).1 = none) ∧
      (s.kind = SameGraph → warning ≠ none ∧ calls = []) := by
  cases hE : s.ExportFile os render W1 with
  | mk err calls =>
    cases err with
    | none =>
      refine ⟨calls, none, by simp [Composite.Export, hb, hE], rfl, by simp, fun hk => ?_⟩
      have hne : s.kind ≠ ExternalGraph := by rw [hk]; decide
      simp [Composite.ExportFile, hne] at hE
    | some msg =>
      refine ⟨calls, some ("WARN: dotx.Composite.Export failed " ++ msg),
        by simp [Composite.Export, hb, hE], rfl, by simp, fun hk => ⟨by simp, ?_⟩⟩
      have hne : s.kind ≠ ExternalGraph := by rw [hk]; decide
      simp [Composite.ExportFile, hne] at hE
      exact hE.2

/-- Witness of C11: `TestWarninOnExport`, an empty build function on a SameGraph composite. -/
theorem C11_export_best_effort_witness :
    ∃ calls warning,
      Composite.Export exOS exRender exNoBuild exSub exWorld =
        some (exSub, exWorld, calls, warning) ∧
      calls = (exSub.ExportFile exOS exRender exWorld).2 ∧
      (warning = none ↔ (exSub.ExportFile exOS exRender exWorld).1 = none) ∧
      (exSub.kind = SameGraph → warning ≠ none ∧ calls = []) :=
  C11_export_best_effort exOS exRender exNoBuild exSub exWorld exWorld rfl

/-- C12: the outer node keeps the declared name.  For a composite `s` returned by
`NewComposite(d, name, g, kind)` on a well-formed heap, the id of the outer node is `name`,
it is still `name` after every sequence of `SetAttribute`, `Input`, `Output`, `ExportName`,
`Export` and `ExportFile` calls that returns, and `ExportName` with any other path and name
returns, changing the file name and the `href` but not the id of the outer node. -/
theorem C12_outer_id_invariant (d name : String) (g : GraphRef) (kind : compositeGraphKind)
    (W W1 : World) (s : Composite) (hW : W.WF) (hg : g < W.graphs.length)
    (h : NewComposite d name g kind W = some (s, W1)) :
    s.OuterNode.ID = name ∧
    (∀ (os : OS) (render : World → GraphRef → String) (ops : List CompositeOp)
        (s' : Composite) (W' : World),
      s.run os render ops W1 = some (s', W') → s'.OuterNode.ID = name) ∧
    (∀ d2 name2 : String, ∃ s2 W2, s.ExportName d2 name2 W1 = some (s2, W2) ∧
      s2.OuterNode.ID = name ∧
      s2.ExportFilename = d2 ++ replaceSpaces name2 ++ ".dot" ∧
      s2.outerNode.Attribute "href" W2 = Value.str (replaceSpaces name2 ++ ".svg")) := by
  have hid : s.outerNode.id = name := NewComposite_outer_id h
  refine ⟨hid, fun os render ops s' W' hrun => ?_, fun d2 name2 => ?_⟩
  · show s'.outerNode.id = name
    rw [Composite.run_outerNode ops hrun]
    exact hid
  · obtain ⟨s0, W0, h0, P⟩ := NewComposite_spec d name kind hW hg
    rw [h] at h0
    simp only [Option.some.injEq, Prod.mk.injEq] at h0
    obtain ⟨hs, hw⟩ := h0
    subst hs
    subst hw
    obtain ⟨W2, h2, _, _, _, href, _⟩ :=
      Composite.ExportName_spec s d2 name2 P.wf (Composite.WF.facts P.wf P.swf).2.2.1
    refine ⟨_, W2, h2, hid, ?_, href⟩
    simp [Composite.ExportFilename, String.append_assoc]

/-- Witness of C12: the composite `my example` on a new graph. -/
theorem C12_outer_id_invariant_witness :
    exMy.OuterNode.ID = "my example" ∧
    (∀ (os : OS) (render : World → GraphRef → String) (ops : List CompositeOp)
        (s' : Composite) (W' : World),
      exMy.run os render ops exMyWorld = some (s', W') → s'.OuterNode.ID = "my example") ∧
    (∀ d2 name2 : String, ∃ s2 W2, exMy.ExportName d2 name2 exMyWorld = some (s2, W2) ∧
      s2.OuterNode.ID = "my example" ∧
      s2.ExportFilename = d2 ++ replaceSpaces name2 ++ ".dot" ∧
      s2.outerNode.Attribute "href" W2 = Value.str (replaceSpaces name2 ++ ".svg")) :=
  C12_outer_id_invariant "testing/" "my example" 0 SameGraph exRoot exMyWorld exMy exRoot_wf
    (by decide) (by decide)

/-- A sequence of all six calls on the composite `my example` returns, with the outer node
still named `my example`. -/
theorem exMy_run_returns :
    (exMy.run exOS exRender
      [CompositeOp.setAttribute "color" (Value.str "red"),
       CompositeOp.input "in" (Connectable.node exMy.outerNode),
       CompositeOp.output "out" (Connectable.node exMy.outerNode),
       CompositeOp.exportName "out/" "other name",
       CompositeOp.exportBuild exNoBuild,
       CompositeOp.exportFile] exMyWorld).map (fun r => r.1.OuterNode.ID) =
      some "my example" := by
  decide

end dotx

namespace dot

theorem World.WF.edge_lt {W : World} (hW : W.WF) {i : GraphRef} {e : dot.Edge}
    (h : e ∈ W.edgesOf i) : e.attributes < W.attrs.length := by
  unfold World.edgesOf at h
  cases hG : W.graphs[i]? with
  | none => simp [hG] at h
  | some G =>
    simp only [hG] at h
    apply (hW.1 i G hG).1
    simp only [Graph.refs, List.mem_cons, List.mem_append, List.mem_map]
    exact Or.inr (Or.inr ⟨e, h, rfl⟩)

theorem World.WF.edge_node_ne {W : World} (hW : W.WF) {i j : GraphRef} {e : dot.Edge}
    {n : dot.Node} (he : e ∈ W.edgesOf i) (hn : n ∈ W.nodesOf j) (hij : i ≠ j) :
    e.attributes ≠ n.attributes := by
  unfold World.edgesOf at he
  unfold World.nodesOf at hn
  cases hGi : W.graphs[i]? with
  | none => simp [hGi] at he
  | some Gi =>
    cases hGj : W.graphs[j]? with
    | none => simp [hGj] at hn
    | some Gj =>
      simp only [hGi] at he
      simp only [hGj] at hn
      intro heq
      apply hW.2 i j Gi Gj hGi hGj hij e.attributes
      · simp only [Graph.refs, List.mem_cons, List.mem_append, List.mem_map]
        exact Or.inr (Or.inr ⟨e, he, rfl⟩)
      · simp only [Graph.refs, List.mem_cons, List.mem_append, List.mem_map]
        exact Or.inr (Or.inl ⟨n, hn, heq.symm⟩)

theorem Graph.NodePost.composite_wf_node {g : GraphRef} {id : String} {W W' : World}
    {n : dot.Node} (P : Graph.NodePost g id W n W') {c : dotx.Composite} (h : c.WF W) :
    c.WF W' :=
  ⟨P.nodes_sub_node _ _ h.1, by rw [P.graphs_len]; exact h.2.1, h.2.2⟩

end dot

namespace dotx

open dot

theorem PortPost.edges_sub {s : Composite} {p : String} {W W' : World} {g : GraphRef}
    {port : dot.Node} {e : dot.Edge} (P : PortPost s p W g port e W') (i : GraphRef)
    (e0 : dot.Edge) (h : e0 ∈ W.edgesOf i) : e0 ∈ W'.edgesOf i := by
  by_cases hi : i = g
  · subst hi
    rw [P.edges_g]
    exact List.mem_append_left _ h
  · rw [P.edges_ne i hi]
    exact h

/-- An edge of another graph than the inner graph keeps its attributes during a port call. -/
theorem PortPost.edge_attr_keep {s : Composite} {p : String} {W W' : World} {g : GraphRef}
    {port : dot.Node} {e : dot.Edge} (P : PortPost s p W g port e W') (hW : W.WF)
    {i : GraphRef} {e0 : dot.Edge} (h : e0 ∈ W.edgesOf i) (hi : i ≠ s.Graph) :
    W'.attrsOf e0.toAttributesMap = W.attrsOf e0.toAttributesMap :=
  P.attrs_keep _ (hW.edge_lt h) (P.wf.edge_node_ne (P.edges_sub i e0 h) P.port_mem hi)

end dotx

namespace dottwin

open dot dotx

theorem exTwinBuild_eq :
    exTwinBuild = some (exTwinGraph, exTwinComponent, exTwin, exTwinWorld) := by decide

theorem exTwinWorld_wf : exTwinWorld.WF := World.WF_of_check (by decide)

/-- Two port calls in a row, the first on the embedded member and the second on the
external member: each appends its edge to its own graph, and the first edge keeps its
attributes during the second call. -/
theorem pair_frames {c : CompositeTwin} {p : String} {W W1 W2 : World} {g1 g2 : GraphRef}
    {port1 port2 : dot.Node} {e1 e2 : dot.Edge}
    (P1 : PortPost c.in_ p W g1 port1 e1 W1) (P2 : PortPost c.ex p W1 g2 port2 e2 W2)
    (h12 : g1 ≠ g2) (h1 : g1 ≠ c.ex.Graph) :
    W2.edgesOf g1 = W.edgesOf g1 ++ [e1] ∧ W2.edgesOf g2 = W.edgesOf g2 ++ [e2] ∧
      W2.edgeCount = W.edgeCount + 2 ∧
      (∃ q ∈ W2.nodesOf c.in_.Graph, q.id = p) ∧ (∃ q ∈ W2.nodesOf c.ex.Graph, q.id = p) ∧
      W2.attrsOf e1.toAttributesMap = W1.attrsOf e1.toAttributesMap := by
  refine ⟨?_, ?_, ?_, ⟨port1, P2.nodes_sub_port _ _ P1.port_mem, P1.port_id⟩,
    ⟨port2, P2.port_mem, P2.port_id⟩, ?_⟩
  · rw [P2.edges_ne g1 h12, P1.edges_g]
  · rw [P2.edges_g, P1.edges_ne g2 (fun h => h12 h.symm)]
  · rw [P2.edgeCount_eq, P1.edgeCount_eq]
  · apply P2.edge_attr_keep P1.wf (i := g1) _ h1
    rw [P1.edges_g]
    exact List.mem_append_right _ (List.mem_singleton_self _)

end dottwin

namespace dottwin

open dot dotx

theorem twin_nodes {c : CompositeTwin} {W : World} (hW : W.WF) (hc : c.WF W)
    (ga gb : GraphRef) (ha : ga < W.graphs.length) (hb : gb < W.graphs.length) (id : String) :
    ∃ n W1, GraphTwin.NodeTwin { in_ := ga, ex := gb } id W = some (n, W1) ∧ W1.WF ∧
      c.WF W1 ∧ n.in_ ∈ W1.nodesOf ga ∧ n.ex ∈ W1.nodesOf gb ∧ n.in_.id = id ∧
      n.ex.id = id := by
  obtain ⟨a, Wa, h1, P1⟩ := Graph.Node_spec id hW ha
  obtain ⟨b, Wb, h2, P2⟩ := Graph.Node_spec id P1.wf (by rw [P1.graphs_len]; exact hb)
  refine ⟨{ in_ := a, ex := b }, Wb, by simp [GraphTwin.NodeTwin, h1, h2], P2.wf, ?_,
    P2.nodes_sub_node _ _ P1.mem, P2.mem, P1.id_eq, P2.id_eq⟩
  obtain ⟨c1, c2, c3⟩ := hc
  exact ⟨P2.composite_wf_node (P1.composite_wf_node c1),
    P2.composite_wf_node (P1.composite_wf_node c2), c3⟩

/-- Both members take the internal branch of `Input`. -/
theorem InputTwin_internal {c : CompositeTwin} {W : World} (p : String) {n : NodeTwin}
    (hW : W.WF) (hc : c.WF W) (ha : n.in_ ∈ W.nodesOf c.in_.Graph)
    (hb : n.ex ∈ W.nodesOf c.ex.Graph) :
    ∃ e W2, c.InputTwin p n W = some (e, W2) ∧
      e.in_.From.ID = p ∧ e.ex.From.ID = p ∧ e.in_.To = n.in_ ∧ e.ex.To = n.ex ∧
      e.in_.fromPort = "s" ∧ e.ex.fromPort = "s" ∧ e.in_.toPort = "n" ∧ e.ex.toPort = "n" ∧
      e.in_.Attribute "taillabel" W2 = Value.str p ∧
      e.ex.Attribute "taillabel" W2 = Value.str p ∧
      W2.edgesOf c.in_.Graph = W.edgesOf c.in_.Graph ++ [e.in_] ∧
      W2.edgesOf c.ex.Graph = W.edgesOf c.ex.Graph ++ [e.ex] ∧
      W2.edgeCount = W.edgeCount + 2 ∧
      (∃ q ∈ W2.nodesOf c.in_.Graph, q.id = p) ∧ (∃ q ∈ W2.nodesOf c.ex.Graph, q.id = p) := by
  obtain ⟨c1, c2, _, d1, _, _, _⟩ := hc
  obtain ⟨port1, e1, W1, h1, P1, a1, a2, a3, a4, a5⟩ :=
    Composite.Input_internal c.in_ p (Connectable.node n.in_) hW c1.2.1 ha
  obtain ⟨port2, e2, W2, h2, P2, b1, b2, b3, b4, b5⟩ :=
    Composite.Input_internal c.ex p (Connectable.node n.ex) P1.wf (P1.composite_wf c2).2.1
      (P1.nodes_sub_port _ _ hb)
  obtain ⟨f1, f2, f3, f4, f5, f6⟩ := pair_frames P1 P2 d1 d1
  refine ⟨{ in_ := e1, ex := e2 }, W2, by simp [CompositeTwin.InputTwin, h1, h2], ?_, ?_, a2, b2,
    a3, b3, a4, b4, ?_, b5, f1, f2, f3, f4, f5⟩
  · show e1.fromNode.id = p
    rw [a1]; exact P1.port_id
  · show e2.fromNode.id = p
    rw [b1]; exact P2.port_id
  · show (W2.attrsOf e1.toAttributesMap).get "taillabel" = Value.str p
    rw [f6]; exact a5

/-- Both members take the internal branch of `Output`. -/
theorem OutputTwin_internal {c : CompositeTwin} {W : World} (p : String) {n : NodeTwin}
    (hW : W.WF) (hc : c.WF W) (ha : n.in_ ∈ W.nodesOf c.in_.Graph)
    (hb : n.ex ∈ W.nodesOf c.ex.Graph) :
    ∃ e W2, c.OutputTwin p n W = some (e, W2) ∧
      e.in_.To.ID = p ∧ e.ex.To.ID = p ∧ e.in_.From = n.in_ ∧ e.ex.From = n.ex ∧
      e.in_.fromPort = "s" ∧ e.ex.fromPort = "s" ∧ e.in_.toPort = "n" ∧ e.ex.toPort = "n" ∧
      e.in_.Attribute "headlabel" W2 = Value.str p ∧
      e.ex.Attribute "headlabel" W2 = Value.str p ∧
      W2.edgesOf c.in_.Graph = W.edgesOf c.in_.Graph ++ [e.in_] ∧
      W2.edgesOf c.ex.Graph = W.edgesOf c.ex.Graph ++ [e.ex] ∧
      W2.edgeCount = W.edgeCount + 2 ∧
      (∃ q ∈ W2.nodesOf c.in_.Graph, q.id = p) ∧ (∃ q ∈ W2.nodesOf c.ex.Graph, q.id = p) := by
  obtain ⟨c1, c2, _, d1, _, _, _⟩ := hc
  obtain ⟨port1, e1, W1, h1, P1, a1, a2, a3, a4, a5⟩ :=
    Composite.Output_internal c.in_ p (Connectable.node n.in_) hW c1.2.1 ha
  obtain ⟨port2, e2, W2, h2, P2, b1, b2, b3, b4, b5⟩ :=
    Composite.Output_internal c.ex p (Connectable.node n.ex) P1.wf (P1.composite_wf c2).2.1
      (P1.nodes_sub_port _ _ hb)
  obtain ⟨f1, f2, f3, f4, f5, f6⟩ := pair_frames P1 P2 d1 d1
  refine ⟨{ in_ := e1, ex := e2 }, W2, by simp [CompositeTwin.OutputTwin, h1, h2], ?_, ?_, a1,
    b1, a3, b3, a4, b4, ?_, b5, f1, f2, f3, f4, f5⟩
  · show e1.toNode.id = p
    rw [a2]; exact P1.port_id
  · show e2.toNode.id = p
    rw [b2]; exact P2.port_id
  · show (W2.attrsOf e1.toAttributesMap).get "headlabel" = Value.str p
    rw [f6]; exact a5

end dottwin

namespace dottwin

open dot dotx

theorem not_inner_of_outer {W : World} {s : Composite} {n : dot.Node} (hW : W.WF)
    (hs : s.WF W) (hn : n ∈ W.nodesOf s.outerGraph) : n ∉ W.nodesOf s.Graph := fun h =>
  hs.2.2 ((hW.node_facts h).1.symm.trans (hW.node_facts hn).1)

/-- Both members take the external branch of `Input`. -/
theorem InputTwin_external {c : CompositeTwin} {W : World} (p : String) {n : NodeTwin}
    (hW : W.WF) (hc : c.WF W) (ha : n.in_ ∈ W.nodesOf c.in_.outerGraph)
    (hb : n.ex ∈ W.nodesOf c.ex.outerGraph) :
    ∃ e W2, c.InputTwin p n W = some (e, W2) ∧
      e.in_.From = n.in_ ∧ e.ex.From = n.ex ∧
      e.in_.To = c.in_.outerNode ∧ e.ex.To = c.ex.outerNode ∧
      e.in_.Attribute "label" W2 = Value.str p ∧ e.ex.Attribute "label" W2 = Value.str p ∧
      W2.edgesOf c.in_.outerGraph = W.edgesOf c.in_.outerGraph ++ [e.in_] ∧
      W2.edgesOf c.ex.outerGraph = W.edgesOf c.ex.outerGraph ++ [e.ex] ∧
      W2.edgeCount = W.edgeCount + 2 ∧
      (∃ q ∈ W2.nodesOf c.in_.Graph, q.id = p) ∧ (∃ q ∈ W2.nodesOf c.ex.Graph, q.id = p) := by
  obtain ⟨c1, c2, _, _, _, d3, d4⟩ := hc
  obtain ⟨k1, k2, _⟩ := hW.node_facts ha
  obtain ⟨port1, e1, W1, h1, P1, a1, a2, _, _, a5⟩ :=
    Composite.Input_external c.in_ p (Connectable.node n.in_) hW c1.2.1
      (by show n.in_.graph < _; rw [k1]; exact k2) (not_inner_of_outer hW c1 ha)
  have hg1 : (Connectable.node n.in_).resolve.graph = c.in_.outerGraph := k1
  rw [hg1] at P1
  have hb1 := P1.nodes_sub_port _ _ hb
  have c2' := P1.composite_wf c2
  obtain ⟨m1, m2, _⟩ := P1.wf.node_facts hb1
  obtain ⟨port2, e2, W2, h2, P2, b1, b2, _, _, b5⟩ :=
    Composite.Input_external c.ex p (Connectable.node n.ex) P1.wf c2'.2.1
      (by show n.ex.graph < _; rw [m1]; exact m2) (not_inner_of_outer P1.wf c2' hb1)
  have hg2 : (Connectable.node n.ex).resolve.graph = c.ex.outerGraph := m1
  rw [hg2] at P2
  obtain ⟨f1, f2, f3, f4, f5, f6⟩ := pair_frames P1 P2 d4 d3
  refine ⟨{ in_ := e1, ex := e2 }, W2, by simp [CompositeTwin.InputTwin, h1, h2], a1, b1, a2, b2,
    ?_, b5, f1, f2, f3, f4, f5⟩
  show (W2.attrsOf e1.toAttributesMap).get "label" = Value.str p
  rw [f6]; exact a5

/-- Both members take the external branch of `Output`. -/
theorem OutputTwin_external {c : CompositeTwin} {W : World} (p : String) {n : NodeTwin}
    (hW : W.WF) (hc : c.WF W) (ha : n.in_ ∈ W.nodesOf c.in_.outerGraph)
    (hb : n.ex ∈ W.nodesOf c.ex.outerGraph) :
    ∃ e W2, c.OutputTwin p n W = some (e, W2) ∧
      e.in_.To = n.in_ ∧ e.ex.To = n.ex ∧
      e.in_.From = c.in_.outerNode ∧ e.ex.From = c.ex.outerNode ∧
      e.in_.Attribute "label" W2 = Value.str p ∧ e.ex.Attribute "label" W2 = Value.str p ∧
      W2.edgesOf c.in_.outerGraph = W.edgesOf c.in_.outerGraph ++ [e.in_] ∧
      W2.edgesOf c.ex.outerGraph = W.edgesOf c.ex.outerGraph ++ [e.ex] ∧
      W2.edgeCount = W.edgeCount + 2 ∧
      (∃ q ∈ W2.nodesOf c.in_.Graph, q.id = p) ∧ (∃ q ∈ W2.nodesOf c.ex.Graph, q.id = p) := by
  obtain ⟨c1, c2, _, _, _, d3, d4⟩ := hc
  obtain ⟨f1, f2, _, f4, _⟩ := Composite.WF.facts hW c1
  obtain ⟨port1, e1, W1, h1, P1, a1, a2, _, _, a5⟩ :=
    Composite.Output_external c.in_ p (Connectable.node n.in_) hW f4
      (by rw [f1]; exact f2) (not_inner_of_outer hW c1 ha)
  rw [f1] at P1
  have hb1 := P1.nodes_sub_port _ _ hb
  have c2' := P1.composite_wf c2
  obtain ⟨g1, g2, _, g4, _⟩ := Composite.WF.facts P1.wf c2'
  obtain ⟨port2, e2, W2, h2, P2, b1, b2, _, _, b5⟩ :=
    Composite.Output_external c.ex p (Connectable.node n.ex) P1.wf g4
      (by rw [g1]; exact g2) (not_inner_of_outer P1.wf c2' hb1)
  rw [g1] at P2
  obtain ⟨r1, r2, r3, r4, r5, r6⟩ := pair_frames P1 P2 d4 d3
  refine ⟨{ in_ := e1, ex := e2 }, W2, by simp [CompositeTwin.OutputTwin, h1, h2], a2, b2, a1,
    b1, ?_, b5, r1, r2, r3, r4, r5⟩
  show (W2.attrsOf e1.toAttributesMap).get "label" = Value.str p
  rw [r6]; exact a5

end dottwin

namespace dottwin

open dot dotx

/-- C20: InputTwin and OutputTwin run in lock-step.  For a CompositeTwin `c` of a
well-formed heap, a port id `p` and a node id `id`: with the NodeTwin returned by
`c.NodeTwin(id)` both members take the internal branch, and the two edges returned have the
same from-node id, to-node id and compass ports and `taillabel = p` (InputTwin) or
`headlabel = p` (OutputTwin); with the NodeTwin returned by the parent GraphTwin's
`NodeTwin(id)` both members take the external branch, and the two edges have the same
from-node id and to-node id and `label = p`; in each case one edge is appended on each side
and both inner graphs have a node `p` afterwards. -/
theorem C20_twin_lock_step (c : CompositeTwin) (p id : String) (W : World) (hW : W.WF)
    (hc : c.WF W) :
    (∃ n W1, c.NodeTwin id W = some (n, W1) ∧
      (∃ e W2, c.InputTwin p n W1 = some (e, W2) ∧
        e.in_.From.ID = p ∧ e.ex.From.ID = p ∧ e.in_.To.ID = id ∧ e.ex.To.ID = id ∧
        e.in_.fromPort = "s" ∧ e.ex.fromPort = "s" ∧ e.in_.toPort = "n" ∧ e.ex.toPort = "n" ∧
        e.in_.Attribute "taillabel" W2 = Value.str p ∧
        e.ex.Attribute "taillabel" W2 = Value.str p ∧
        W2.edgesOf c.in_.Graph = W1.edgesOf c.in_.Graph ++ [e.in_] ∧
        W2.edgesOf c.ex.Graph = W1.edgesOf c.ex.Graph ++ [e.ex] ∧
        W2.edgeCount = W1.edgeCount + 2 ∧
        (∃ q ∈ W2.nodesOf c.in_.Graph, q.id = p) ∧ (∃ q ∈ W2.nodesOf c.ex.Graph, q.id = p)) ∧
      (∃ e W2, c.OutputTwin p n W1 = some (e, W2) ∧
        e.in_.From.ID = id ∧ e.ex.From.ID = id ∧ e.in_.To.ID = p ∧ e.ex.To.ID = p ∧
        e.in_.fromPort = "s" ∧ e.ex.fromPort = "s" ∧ e.in_.toPort = "n" ∧ e.ex.toPort = "n" ∧
        e.in_.Attribute "headlabel" W2 = Value.str p ∧
        e.ex.Attribute "headlabel" W2 = Value.str p ∧
        W2.edgesOf c.in_.Graph = W1.edgesOf c.in_.Graph ++ [e.in_] ∧
        W2.edgesOf c.ex.Graph = W1.edgesOf c.ex.Graph ++ [e.ex] ∧
        W2.edgeCount = W1.edgeCount + 2 ∧
        (∃ q ∈ W2.nodesOf c.in_.Graph, q.id = p) ∧ (∃ q ∈ W2.nodesOf c.ex.Graph, q.id = p))) ∧
    (∃ n W1, c.parent.NodeTwin id W = some (n, W1) ∧
      (∃ e W2, c.InputTwin p n W1 = some (e, W2) ∧
        e.in_.From.ID = id ∧ e.ex.From.ID = id ∧
        e.in_.To = c.in_.outerNode ∧ e.ex.To = c.ex.outerNode ∧ e.in_.To.ID = e.ex.To.ID ∧
        e.in_.Attribute "label" W2 = Value.str p ∧ e.ex.Attribute "label" W2 = Value.str p ∧
        W2.edgesOf c.in_.outerGraph = W1.edgesOf c.in_.outerGraph ++ [e.in_] ∧
        W2.edgesOf c.ex.outerGraph = W1.edgesOf c.ex.outerGraph ++ [e.ex] ∧
        W2.edgeCount = W1.edgeCount + 2 ∧
        (∃ q ∈ W2.nodesOf c.in_.Graph, q.id = p) ∧ (∃ q ∈ W2.nodesOf c.ex.Graph, q.id = p)) ∧
      (∃ e W2, c.OutputTwin p n W1 = some (e, W2) ∧
        e.in_.To.ID = id ∧ e.ex.To.ID = id ∧
        e.in_.From = c.in_.outerNode ∧ e.ex.From = c.ex.outerNode ∧
        e.in_.From.ID = e.ex.From.ID ∧
        e.in_.Attribute "label" W2 = Value.str p ∧ e.ex.Attribute "label" W2 = Value.str p ∧
        W2.edgesOf c.in_.outerGraph = W1.edgesOf c.in_.outerGraph ++ [e.in_] ∧
        W2.edgesOf c.ex.outerGraph = W1.edgesOf c.ex.outerGraph ++ [e.ex] ∧
        W2.edgeCount = W1.edgeCount + 2 ∧
        (∃ q ∈ W2.nodesOf c.in_.Graph, q.id = p) ∧
        (∃ q ∈ W2.nodesOf c.ex.Graph, q.id = p))) := by
  have hids : c.in_.outerNode.id = c.ex.outerNode.id := hc.2.2.1
  obtain ⟨fi1, fi2, _, fi4, _⟩ := Composite.WF.facts hW hc.1
  obtain ⟨fe1, fe2, _, fe4, _⟩ := Composite.WF.facts hW hc.2.1
  constructor
  · obtain ⟨n, W1, h, wf1, hc1, ha, hb, ia, ib⟩ :=
      twin_nodes hW hc c.in_.Graph c.ex.Graph fi4 fe4 id
    refine ⟨n, W1, h, ?_, ?_⟩
    · obtain ⟨e, W2, h2, a1, a2, a3, a4, rest⟩ := InputTwin_internal p wf1 hc1 ha hb
      exact ⟨e, W2, h2, a1, a2, by show e.in_.To.id = id; rw [a3]; exact ia,
        by show e.ex.To.id = id; rw [a4]; exact ib, rest⟩
    · obtain ⟨e, W2, h2, a1, a2, a3, a4, rest⟩ := OutputTwin_internal p wf1 hc1 ha hb
      exact ⟨e, W2, h2, by show e.in_.From.id = id; rw [a3]; exact ia,
        by show e.ex.From.id = id; rw [a4]; exact ib, a1, a2, rest⟩
  · obtain ⟨n, W1, h, wf1, hc1, ha, hb, ia, ib⟩ :=
      twin_nodes hW hc c.in_.outerGraph c.ex.outerGraph fi2 fe2 id
    refine ⟨n, W1, h, ?_, ?_⟩
    · obtain ⟨e, W2, h2, a1, a2, a3, a4, rest⟩ := InputTwin_external p wf1 hc1 ha hb
      exact ⟨e, W2, h2, by show e.in_.From.id = id; rw [a1]; exact ia,
        by show e.ex.From.id = id; rw [a2]; exact ib, a3, a4,
        by show e.in_.To.id = e.ex.To.id; rw [a3, a4]; exact hids, rest⟩
    · obtain ⟨e, W2, h2, a1, a2, a3, a4, rest⟩ := OutputTwin_external p wf1 hc1 ha hb
      exact ⟨e, W2, h2, by show e.in_.To.id = id; rw [a1]; exact ia,
        by show e.ex.To.id = id; rw [a2]; exact ib, a3, a4,
        by show e.in_.From.id = e.ex.From.id; rw [a3, a4]; exact hids, rest⟩

end dottwin

namespace dottwin

open dot dotx

/-- Witness of C20 on the heap of `TestExampleSubsystemTwinGraph`: port `in`, node id `sc`. -/
theorem C20_twin_lock_step_witness :
    (∃ n W1, exTwin.NodeTwin "sc" exTwinWorld = some (n, W1) ∧
      (∃ e W2, exTwin.InputTwin "in" n W1 = some (e, W2) ∧
        e.in_.From.ID = "in" ∧ e.ex.From.ID = "in" ∧ e.in_.To.ID = "sc" ∧ e.ex.To.ID = "sc" ∧
        e.in_.fromPort = "s" ∧ e.ex.fromPort = "s" ∧ e.in_.toPort = "n" ∧ e.ex.toPort = "n" ∧
        e.in_.Attribute "taillabel" W2 = Value.str "in" ∧
        e.ex.Attribute "taillabel" W2 = Value.str "in" ∧
        W2.edgesOf exTwin.in_.Graph = W1.edgesOf exTwin.in_.Graph ++ [e.in_] ∧
        W2.edgesOf exTwin.ex.Graph = W1.edgesOf exTwin.ex.Graph ++ [e.ex] ∧
        W2.edgeCount = W1.edgeCount + 2 ∧
        (∃ q ∈ W2.nodesOf exTwin.in_.Graph, q.id = "in") ∧ (∃ q ∈ W2.nodesOf exTwin.ex.Graph, q.id = "in")) ∧
      (∃ e W2, exTwin.OutputTwin "in" n W1 = some (e, W2) ∧
        e.in_.From.ID = "sc" ∧ e.ex.From.ID = "sc" ∧ e.in_.To.ID = "in" ∧ e.ex.To.ID = "in" ∧
        e.in_.fromPort = "s" ∧ e.ex.fromPort = "s" ∧ e.in_.toPort = "n" ∧ e.ex.toPort = "n" ∧
        e.in_.Attribute "headlabel" W2 = Value.str "in" ∧
        e.ex.Attribute "headlabel" W2 = Value.str "in" ∧
        W2.edgesOf exTwin.in_.Graph = W1.edgesOf exTwin.in_.Graph ++ [e.in_] ∧
        W2.edgesOf exTwin.ex.Graph = W1.edgesOf exTwin.ex.Graph ++ [e.ex] ∧
        W2.edgeCount = W1.edgeCount + 2 ∧
        (∃ q ∈ W2.nodesOf exTwin.in_.Graph, q.id = "in") ∧ (∃ q ∈ W2.nodesOf exTwin.ex.Graph, q.id = "in"))) ∧
    (∃ n W1, exTwin.parent.NodeTwin "sc" exTwinWorld = some (n, W1) ∧
      (∃ e W2, exTwin.InputTwin "in" n W1 = some (e, W2) ∧
        e.in_.From.ID = "sc" ∧ e.ex.From.ID = "sc" ∧
        e.in_.To = exTwin.in_.outerNode ∧ e.ex.To = exTwin.ex.outerNode ∧ e.in_.To.ID = e.ex.To.ID ∧
        e.in_.Attribute "label" W2 = Value.str "in" ∧ e.ex.Attribute "label" W2 = Value.str "in" ∧
        W2.edgesOf exTwin.in_.outerGraph = W1.edgesOf exTwin.in_.outerGraph ++ [e.in_] ∧
        W2.edgesOf exTwin.ex.outerGraph = W1.edgesOf exTwin.ex.outerGraph ++ [e.ex] ∧
        W2.edgeCount = W1.edgeCount + 2 ∧
        (∃ q ∈ W2.nodesOf exTwin.in_.Graph, q.id = "in") ∧ (∃ q ∈ W2.nodesOf exTwin.ex.Graph, q.id = "in")) ∧
      (∃ e W2, exTwin.OutputTwin "in" n W1 = some (e, W2) ∧
        e.in_.To.ID = "sc" ∧ e.ex.To.ID = "sc" ∧
        e.in_.From = exTwin.in_.outerNode ∧ e.ex.From = exTwin.ex.outerNode ∧
        e.in_.From.ID = e.ex.From.ID ∧
        e.in_.Attribute "label" W2 = Value.str "in" ∧ e.ex.Attribute "label" W2 = Value.str "in" ∧
        W2.edgesOf exTwin.in_.outerGraph = W1.edgesOf exTwin.in_.outerGraph ++ [e.in_] ∧
        W2.edgesOf exTwin.ex.outerGraph = W1.edgesOf exTwin.ex.outerGraph ++ [e.ex] ∧
        W2.edgeCount = W1.edgeCount + 2 ∧
        (∃ q ∈ W2.nodesOf exTwin.in_.Graph, q.id = "in") ∧
        (∃ q ∈ W2.nodesOf exTwin.ex.Graph, q.id = "in"))) :=
  C20_twin_lock_step exTwin "in" "sc" exTwinWorld exTwinWorld_wf (by decide)


/-- Counterexample to C19 as stated: on the twin of `TestExampleSubsystemTwinGraph`,
`twinsub.Input("in1", c1.in)` returns; afterwards the inner graph of the embedded member has
the port node `in1` and its parent graph one edge, but the inner graph of the external member
has no node and its graphs have no edge: one edge was added in all. -/
theorem C19_twin_input_counterexample :
    exTwinBuild = some (exTwinGraph, exTwinComponent, exTwin, exTwinWorld) ∧
    (exTwin.Input "in1" (Connectable.node exTwinComponent.in_) exTwinWorld).map
        (fun r =>
          ((r.2.nodesOf exTwin.in_.Graph).map Node.ID, (r.2.nodesOf exTwin.ex.Graph).map Node.ID,
           (r.2.edgesOf exTwin.in_.outerGraph).length, (r.2.edgesOf exTwin.ex.outerGraph).length,
           (r.2.edgesOf exTwin.ex.Graph).length, r.2.edgeCount)) =
      some (["in1"], [], 1, 0, 0, 1) ∧
    (exTwin.Output "out1" (Connectable.node exTwinComponent.in_) exTwinWorld).map
        (fun r =>
          ((r.2.nodesOf exTwin.in_.Graph).map Node.ID, (r.2.nodesOf exTwin.ex.Graph).map Node.ID,
           (r.2.edgesOf exTwin.in_.outerGraph).length, (r.2.edgesOf exTwin.ex.outerGraph).length,
           (r.2.edgesOf exTwin.ex.Graph).length, r.2.edgeCount)) =
      some (["out1"], [], 1, 0, 0, 1) := by
  refine ⟨by decide, ?_, ?_⟩ <;> rfl

/-- C19, amended: `CompositeTwin.Input` and `CompositeTwin.Output` act on the embedded
member only.  For a CompositeTwin `c` of a well-formed heap, a port id `p` and a node or
composite `x` of the heap, `c.Input(p, x)` and `c.Output(p, x)` are the Input (resp. Output)
of the embedded member and return its edge: afterwards the inner graph of the embedded
member has a node `p` and one edge has been added in all; the node sets of both graphs of
the external member are unchanged, `Output` adds no edge to them, and `Input` adds an edge
to one of them only when `x` itself is a node of that graph. -/
theorem C19_twin_input_embedded_only (c : CompositeTwin) (p : String) (x : Connectable)
    (W : World) (hW : W.WF) (hc : c.WF W) (hx : x.WF W) :
    (∃ e W', c.Input p x W = some (e, W') ∧ c.in_.Input p x W = some (e, W') ∧
      W'.edgeCount = W.edgeCount + 1 ∧
      (∃ q ∈ W'.nodesOf c.in_.Graph, q.id = p) ∧
      W'.nodesOf c.ex.Graph = W.nodesOf c.ex.Graph ∧
      W'.nodesOf c.ex.outerGraph = W.nodesOf c.ex.outerGraph ∧
      (x.resolve.graph ≠ c.ex.Graph → W'.edgesOf c.ex.Graph = W.edgesOf c.ex.Graph) ∧
      (x.resolve.graph ≠ c.ex.outerGraph →
        W'.edgesOf c.ex.outerGraph = W.edgesOf c.ex.outerGraph)) ∧
    (∃ e W', c.Output p x W = some (e, W') ∧ c.in_.Output p x W = some (e, W') ∧
      W'.edgeCount = W.edgeCount + 1 ∧
      (∃ q ∈ W'.nodesOf c.in_.Graph, q.id = p) ∧
      W'.nodesOf c.ex.Graph = W.nodesOf c.ex.Graph ∧
      W'.nodesOf c.ex.outerGraph = W.nodesOf c.ex.outerGraph ∧
      W'.edgesOf c.ex.Graph = W.edgesOf c.ex.Graph ∧
      W'.edgesOf c.ex.outerGraph = W.edgesOf c.ex.outerGraph) := by
  obtain ⟨c1, c2, _, d1, d2, d3, d4⟩ := hc
  obtain ⟨f1, f2, _, f4, _⟩ := Composite.WF.facts hW c1
  have hin := Connectable.WF.nodeIn hW hx
  have n1 : c.ex.Graph ≠ c.in_.Graph := fun h => d1 h.symm
  have n2 : c.ex.outerGraph ≠ c.in_.Graph := fun h => d2 h.symm
  have n3 : c.ex.Graph ≠ c.in_.outerGraph := fun h => d3 h.symm
  have n4 : c.ex.outerGraph ≠ c.in_.outerGraph := fun h => d4 h.symm
  by_cases hmem : x.resolve ∈ W.nodesOf c.in_.Graph
  · constructor
    · obtain ⟨port, e, W', h, P, _⟩ := Composite.Input_internal c.in_ p x hW f4 hmem
      exact ⟨e, W', h, h, P.edgeCount_eq, ⟨port, P.port_mem, P.port_id⟩, P.nodes_ne _ n1,
        P.nodes_ne _ n2, fun _ => P.edges_ne _ n1, fun _ => P.edges_ne _ n2⟩
    · obtain ⟨port, e, W', h, P, _⟩ := Composite.Output_internal c.in_ p x hW f4 hmem
      exact ⟨e, W', h, h, P.edgeCount_eq, ⟨port, P.port_mem, P.port_id⟩, P.nodes_ne _ n1,
        P.nodes_ne _ n2, P.edges_ne _ n1, P.edges_ne _ n2⟩
  · constructor
    · obtain ⟨port, e, W', h, P, _⟩ :=
        Composite.Input_external c.in_ p x hW f4 (hW.node_facts hin).2.1 hmem
      exact ⟨e, W', h, h, P.edgeCount_eq, ⟨port, P.port_mem, P.port_id⟩, P.nodes_ne _ n1,
        P.nodes_ne _ n2, fun hg => P.edges_ne _ (fun h => hg h.symm),
        fun hg => P.edges_ne _ (fun h => hg h.symm)⟩
    · obtain ⟨port, e, W', h, P, _⟩ :=
        Composite.Output_external c.in_ p x hW f4 (by rw [f1]; exact f2) hmem
      rw [f1] at P
      exact ⟨e, W', h, h, P.edgeCount_eq, ⟨port, P.port_mem, P.port_id⟩, P.nodes_ne _ n1,
        P.nodes_ne _ n2, P.edges_ne _ n3, P.edges_ne _ n4⟩

end dottwin

namespace dottwin

open dot dotx

/-- Witness of the amended C19 on the heap of `TestExampleSubsystemTwinGraph`: port `in1`,
node `component` of the embedded parent graph. -/
theorem C19_twin_input_embedded_only_witness :
    (∃ e W', exTwin.Input "in1" (Connectable.node exTwinComponent.in_) exTwinWorld = some (e, W') ∧ exTwin.in_.Input "in1" (Connectable.node exTwinComponent.in_) exTwinWorld = some (e, W') ∧
      W'.edgeCount = exTwinWorld.edgeCount + 1 ∧
      (∃ q ∈ W'.nodesOf exTwin.in_.Graph, q.id = "in1") ∧
      W'.nodesOf exTwin.ex.Graph = exTwinWorld.nodesOf exTwin.ex.Graph ∧
      W'.nodesOf exTwin.ex.outerGraph = exTwinWorld.nodesOf exTwin.ex.outerGraph ∧
      ((Connectable.node exTwinComponent.in_).resolve.graph ≠ exTwin.ex.Graph → W'.edgesOf exTwin.ex.Graph = exTwinWorld.edgesOf exTwin.ex.Graph) ∧
      ((Connectable.node exTwinComponent.in_).resolve.graph ≠ exTwin.ex.outerGraph →
        W'.edgesOf exTwin.ex.outerGraph = exTwinWorld.edgesOf exTwin.ex.outerGraph)) ∧
    (∃ e W', exTwin.Output "in1" (Connectable.node exTwinComponent.in_) exTwinWorld = some (e, W') ∧ exTwin.in_.Output "in1" (Connectable.node exTwinComponent.in_) exTwinWorld = some (e, W') ∧
      W'.edgeCount = exTwinWorld.edgeCount + 1 ∧
      (∃ q ∈ W'.nodesOf exTwin.in_.Graph, q.id = "in1") ∧
      W'.nodesOf exTwin.ex.Graph = exTwinWorld.nodesOf exTwin.ex.Graph ∧
      W'.nodesOf exTwin.ex.outerGraph = exTwinWorld.nodesOf exTwin.ex.outerGraph ∧
      W'.edgesOf exTwin.ex.Graph = exTwinWorld.edgesOf exTwin.ex.Graph ∧
      W'.edgesOf exTwin.ex.outerGraph = exTwinWorld.edgesOf exTwin.ex.outerGraph) :=
  C19_twin_input_embedded_only exTwin "in1" (Connectable.node exTwinComponent.in_) exTwinWorld
    exTwinWorld_wf (by decide) (by decide)


end dottwin

namespace dot

/-! ## Frames of the conversion: growth of one graph -/

theorem World.nodesOf_of_graphs {W W' : World} {i : GraphRef}
    (h : W'.graphs[i]? = W.graphs[i]?) : W'.nodesOf i = W.nodesOf i := by
  simp [World.nodesOf, h]

theorem World.edgesOf_of_graphs {W W' : World} {i : GraphRef}
    (h : W'.graphs[i]? = W.graphs[i]?) : W'.edgesOf i = W.edgesOf i := by
  simp [World.edgesOf, h]

theorem World.subgraphsOf_of_graphs {W W' : World} {i : GraphRef}
    (h : W'.graphs[i]? = W.graphs[i]?) : W'.subgraphsOf i = W.subgraphsOf i := by
  simp [World.subgraphsOf, h]

theorem World.headOf_of_graphs {W W' : World} {i : GraphRef}
    (h : W'.graphs[i]? = W.graphs[i]?) : W'.headOf i = W.headOf i := by
  simp [World.headOf, h]

theorem Grow.refl_grow {t : GraphRef} {W : World} (hW : W.WF) : Grow t W W :=
  { wf := hW
    graphs_len := rfl
    graphs_ne := fun _ _ => rfl
    nodes_t := List.prefix_refl _
    edges_t := List.prefix_refl _
    subs_t := rfl
    head_t := rfl
    attrs_le := le_refl _
    attrs_keep := fun _ _ => rfl }

theorem Grow.trans {t : GraphRef} {W W1 W2 : World} (h1 : Grow t W W1) (h2 : Grow t W1 W2) :
    Grow t W W2 :=
  { wf := h2.wf
    graphs_len := h2.graphs_len.trans h1.graphs_len
    graphs_ne := fun i hi => (h2.graphs_ne i hi).trans (h1.graphs_ne i hi)
    nodes_t := h1.nodes_t.trans h2.nodes_t
    edges_t := h1.edges_t.trans h2.edges_t
    subs_t := h2.subs_t.trans h1.subs_t
    head_t := h2.head_t.trans h1.head_t
    attrs_le := le_trans h1.attrs_le h2.attrs_le
    attrs_keep := fun a ha =>
      (h2.attrs_keep a (lt_of_lt_of_le ha h1.attrs_le)).trans (h1.attrs_keep a ha) }

/-- Writing into a map that did not exist in `W` keeps the growth from `W`. -/
theorem Grow.of_write {t : GraphRef} {W W1 W2 : World} (h1 : Grow t W W1) (hwf : W2.WF)
    (hg : W2.graphs = W1.graphs) (hl : W2.attrs.length = W1.attrs.length)
    (hk : ∀ a : AttributesMap, a.attributes < W.attrs.length → W2.attrsOf a = W1.attrsOf a) :
    Grow t W W2 :=
  { wf := hwf
    graphs_len := by rw [hg]; exact h1.graphs_len
    graphs_ne := fun i hi => by rw [hg]; exact h1.graphs_ne i hi
    nodes_t := by rw [World.nodesOf_congr hg]; exact h1.nodes_t
    edges_t := by rw [World.edgesOf_congr hg]; exact h1.edges_t
    subs_t := by rw [World.subgraphsOf_congr hg]; exact h1.subs_t
    head_t := (@World.headOf_of_graphs W1 W2 t (by rw [hg])).trans h1.head_t
    attrs_le := by rw [hl]; exact h1.attrs_le
    attrs_keep := fun a ha => (hk a ha).trans (h1.attrs_keep a ha) }

end dot

namespace dot

theorem World.headOf_set {l : List Graph} {g : GraphRef} {G : Graph} (G1 : Graph)
    (hG : l[g]? = some G)
    (W W' : World) (hW : W.graphs = l) (hW' : W'.graphs = l.set g G1)
    (ha : G1.toAttributesMap = G.toAttributesMap) (ho : G1.options = G.options) (i : GraphRef) :
    W'.headOf i = W.headOf i := by
  have hlt : g < l.length := by
    rcases Nat.lt_or_ge g l.length with h | h
    · exact h
    · rw [List.getElem?_eq_none h] at hG; cases hG
  unfold World.headOf
  rw [hW, hW']
  by_cases hi : i = g
  · subst hi
    rw [List.getElem?_set_self hlt, hG]
    simp [ha, ho]
  · rw [List.getElem?_set_ne (fun h => hi h.symm)]

theorem Graph.Node_head {g : GraphRef} {id : String} {W W' : World} {n : dot.Node}
    (h : Graph.Node g id W = some (n, W')) (i : GraphRef) : W'.headOf i = W.headOf i := by
  unfold Graph.Node at h
  cases hG : W.graphs[g]? with
  | none => simp [hG] at h
  | some G =>
    simp only [hG] at h
    cases hf : G.nodes.find? (fun n => decide (n.id = id)) with
    | some m =>
      simp only [hf, Option.some.injEq, Prod.mk.injEq] at h
      rw [h.2]
    | none =>
      simp only [hf, Option.some.injEq, Prod.mk.injEq] at h
      obtain ⟨_, rfl⟩ := h
      exact World.headOf_set
        { G with nodes := G.nodes ++
            [{ attributes := W.attrs.length, graph := g, id := id, seq := W.seq + 1 }] }
        hG W _ rfl rfl rfl rfl i

theorem Graph.EdgeWithPorts_head {g : GraphRef} {f t : dot.Node} {fp tp : String}
    {labels : List String} {W W' : World} {e : dot.Edge}
    (h : Graph.EdgeWithPorts g f t fp tp labels W = some (e, W')) (i : GraphRef) :
    W'.headOf i = W.headOf i := by
  unfold Graph.EdgeWithPorts at h
  cases hG : W.graphs[g]? with
  | none => simp [hG] at h
  | some G =>
    simp only [hG, Option.some.injEq, Prod.mk.injEq] at h
    obtain ⟨_, rfl⟩ := h
    exact World.headOf_set
      { G with edges := G.edges ++
          [{ attributes := W.attrs.length, graph := g, fromNode := f,
             toNode := t, fromPort := fp, toPort := tp }] } hG W _ rfl rfl rfl rfl i

/-- Creating or finding a node of `t` grows `t` only. -/
theorem Graph.NodePost.grow_node {t : GraphRef} {id : String} {W W' : World} {n : dot.Node}
    (h : Graph.Node t id W = some (n, W')) (hp : Graph.NodePost t id W n W') : Grow t W W' :=
  { wf := hp.wf
    graphs_len := hp.graphs_len
    graphs_ne := hp.graphs_ne
    nodes_t := by
      by_cases hex : ∃ m ∈ W.nodesOf t, m.id = id
      · rw [(hp.nodes_old hex).1]
      · rw [(hp.nodes_new hex).1]; exact List.prefix_append _ _
    edges_t := by rw [hp.edges t]
    subs_t := hp.subs t
    head_t := Graph.Node_head h t
    attrs_le := hp.attrs_le
    attrs_keep := hp.attrs_keep }

/-- Appending an edge to `t` grows `t` only. -/
theorem Graph.EdgePost.grow_edge {t : GraphRef} {f x : dot.Node} {fp tp : String}
    {labels : List String} {W W' : World} {e : dot.Edge}
    (h : Graph.EdgeWithPorts t f x fp tp labels W = some (e, W'))
    (hp : Graph.EdgePost t f x fp tp W e W') : Grow t W W' :=
  { wf := hp.wf
    graphs_len := hp.graphs_len
    graphs_ne := hp.graphs_ne
    nodes_t := by rw [hp.nodes t]
    edges_t := by rw [hp.edges_g]; exact List.prefix_append _ _
    subs_t := hp.subs t
    head_t := Graph.EdgeWithPorts_head h t
    attrs_le := by rw [hp.attrs_len]; exact Nat.le_succ _
    attrs_keep := hp.attrs_keep }

end dot

namespace dot

/-! ## Copying an attribute map -/

theorem Attrs.get_cons (k0 : String) (v0 : Value) (rest : Attrs) (k : String) :
    Attrs.get ((k0, v0) :: rest) k = if k = k0 then v0 else Attrs.get rest k := by
  by_cases h : k = k0
  · subst h
    simp [Attrs.get, List.lookup]
  · have hk : (k == k0) = false := by simpa using h
    simp [Attrs.get, List.lookup, hk, h]

theorem Attrs.get_of_not_mem (m : Attrs) (k : String) (h : k ∉ m.map Prod.fst) :
    Attrs.get m k = Value.nil := by
  induction m with
  | nil => simp [Attrs.get, List.lookup]
  | cons p rest ih =>
    obtain ⟨k0, v0⟩ := p
    simp only [List.map_cons, List.mem_cons, not_or] at h
    rw [Attrs.get_cons, if_neg h.1]
    exact ih h.2

theorem Attrs.get_nil (k : String) : Attrs.get [] k = Value.nil := rfl

theorem AttributesMap.SetAttribute_skip (a : AttributesMap) (l : String) (W : World) :
    a.SetAttribute l Value.nil W = some W := by
  simp [AttributesMap.SetAttribute]

end dot

namespace dotx

open dot

/-- Copying the entries of `m` into an existing map: the heap keeps its graphs, the other
maps keep their content, and the map written reads as `m` on every name `m` holds with a
value other than nil. -/
theorem setAll_spec (dst : AttributesMap) (m : Attrs) :
    ∀ {W : World}, W.WF → dst.attributes < W.attrs.length →
    ∃ W', setAll dst m W = some W' ∧ W'.WF ∧ W'.graphs = W.graphs ∧
      W'.attrs.length = W.attrs.length ∧
      (∀ b : AttributesMap, b.attributes ≠ dst.attributes → W'.attrsOf b = W.attrsOf b) ∧
      (m.WF → ∀ k, (W'.attrsOf dst).get k =
        if m.get k = Value.nil then (W.attrsOf dst).get k else m.get k) := by
  induction m with
  | nil =>
    intro W hW _
    exact ⟨W, rfl, hW, rfl, rfl, fun _ _ => rfl, fun _ k => by simp [Attrs.get_nil]⟩
  | cons p rest ih =>
    obtain ⟨k0, v0⟩ := p
    intro W hW hd
    have hstep : ∃ W1, dst.SetAttribute k0 v0 W = some W1 ∧ W1.WF ∧ W1.graphs = W.graphs ∧
        W1.attrs.length = W.attrs.length ∧
        (∀ b : AttributesMap, b.attributes ≠ dst.attributes → W1.attrsOf b = W.attrsOf b) ∧
        (∀ k, k ≠ k0 → (W1.attrsOf dst).get k = (W.attrsOf dst).get k) ∧
        (k0 ≠ "" → (W1.attrsOf dst).get k0 =
          if v0 = Value.nil then (W.attrsOf dst).get k0 else v0) := by
      by_cases hv : v0 = Value.nil
      · subst hv
        exact ⟨W, AttributesMap.SetAttribute_skip _ _ _, hW, rfl, rfl, fun _ _ => rfl,
          fun _ _ => rfl, fun _ => by simp⟩
      · obtain ⟨W1, e1, w1, g1, l1, o1, k1, s1⟩ := AttributesMap.SetAttribute_wf k0 v0 hW hd
        exact ⟨W1, e1, w1, g1, l1, o1, k1, fun h0 => by rw [if_neg hv]; exact s1 h0 hv⟩
    obtain ⟨W1, e1, w1, g1, l1, o1, k1, s1⟩ := hstep
    obtain ⟨W2, e2, w2, g2, l2, o2, s2⟩ := ih w1 (by rw [l1]; exact hd)
    refine ⟨W2, ?_, w2, g2.trans g1, l2.trans l1, fun b hb => (o2 b hb).trans (o1 b hb), ?_⟩
    · simp only [setAll, e1]
      exact e2
    · intro hm k
      have hm' : Attrs.WF rest := by
        refine ⟨?_, ?_⟩
        · have := hm.1
          simp only [List.map_cons, List.nodup_cons] at this
          exact this.2
        · intro h
          exact hm.2 (by simp only [List.map_cons, List.mem_cons]; exact Or.inr h)
      have hk0 : k0 ∉ rest.map Prod.fst := by
        have := hm.1
        simp only [List.map_cons, List.nodup_cons] at this
        exact this.1
      have h0 : k0 ≠ "" := by
        intro h
        exact hm.2 (by simp only [List.map_cons, List.mem_cons]; exact Or.inl h.symm)
      rw [s2 hm' k, Attrs.get_cons]
      by_cases hk : k = k0
      · subst hk
        rw [Attrs.get_of_not_mem rest k hk0, if_pos rfl, if_pos rfl, s1 h0]
      · rw [if_neg hk, k1 k hk]

end dotx

namespace dot

theorem lookup_cons_self {β : Type} (k : String) (v : β) (l : List (String × β)) :
    List.lookup k ((k, v) :: l) = some v := by
  simp [List.lookup]

theorem lookup_cons_ne {β : Type} {k k0 : String} (v : β) (l : List (String × β)) (h : k ≠ k0) :
    List.lookup k ((k0, v) :: l) = List.lookup k l := by
  have hk : (k == k0) = false := by simpa using h
  simp [List.lookup, hk]

/-- A node that `Graph.Node` had to create has an empty attribute map. -/
theorem Graph.Node_fresh_cell {g : GraphRef} {id : String} {W W' : World} {n : dot.Node}
    (h : Graph.Node g id W = some (n, W')) (hn : ¬ ∃ m ∈ W.nodesOf g, m.id = id) :
    W'.attrsOf n.toAttributesMap = [] := by
  unfold Graph.Node at h
  cases hG : W.graphs[g]? with
  | none => simp [hG] at h
  | some G =>
    simp only [hG] at h
    cases hf : G.nodes.find? (fun n => decide (n.id = id)) with
    | some m =>
      exfalso
      apply hn
      refine ⟨m, ?_, ?_⟩
      · rw [World.nodesOf_eq hG]
        exact List.mem_of_find?_eq_some hf
      · simpa using List.find?_some hf
    | none =>
      simp only [hf, Option.some.injEq, Prod.mk.injEq] at h
      obtain ⟨rfl, rfl⟩ := h
      simp [World.attrsOf]

end dot

namespace dotx

open dot

/-- The node loop of the conversion: every enumerated node gets one copy in the target, in
the order of the enumeration, with the same id and the same attributes, and the copy is
stored under the id in the node map. -/
theorem copyNodes_spec (t : GraphRef) (L : List dot.Node) :
    ∀ (m0 : NodeMap) {W : World}, W.WF → t < W.graphs.length →
    (∀ n ∈ L, ∀ c ∈ W.nodesOf t, c.id ≠ n.id) → (L.map fun n => n.id).Nodup →
    (∀ n ∈ L, n.attributes < W.attrs.length) →
    ∃ m W' copies, copyNodes t L m0 W = some (m, W') ∧ Grow t W W' ∧
      W'.nodesOf t = W.nodesOf t ++ copies ∧ W'.edgesOf t = W.edgesOf t ∧
      (copies.map fun n => n.id) = (L.map fun n => n.id) ∧
      (∀ n ∈ L, ∃ c ∈ copies, c.id = n.id ∧ m.lookup n.id = some c ∧
        W.attrs.length ≤ c.attributes ∧
        (Attrs.WF (W.attrsOf n.toAttributesMap) → ∀ k, c.Attribute k W' = n.Attribute k W)) ∧
      (∀ k, k ∉ (L.map fun n => n.id) → m.lookup k = m0.lookup k) := by
  induction L with
  | nil =>
    intro m0 W hW _ _ _ _
    exact ⟨m0, W, [], rfl, Grow.refl_grow hW, by simp, rfl, rfl,
      (fun n hn => by cases hn), fun _ _ => rfl⟩
  | cons n rest ih =>
    intro m0 W hW ht hfresh hnd hlt
    obtain ⟨n1, W1, e1, hp⟩ := Graph.Node_spec n.id hW ht
    have hnew : ¬ ∃ c ∈ W.nodesOf t, c.id = n.id := by
      rintro ⟨c, hc, hid⟩
      exact hfresh n (List.mem_cons_self _ _) c hc hid
    obtain ⟨hn1, ha1⟩ := hp.nodes_new hnew
    have hcell := Graph.Node_fresh_cell e1 hnew
    have hsrc : W1.attrsOf n.toAttributesMap = W.attrsOf n.toAttributesMap :=
      hp.attrs_keep _ (hlt n (List.mem_cons_self _ _))
    obtain ⟨W2, e2, w2, g2, l2, o2, s2⟩ :=
      setAll_spec n1.toAttributesMap (W1.attrsOf n.toAttributesMap) hp.wf hp.attr_lt
    have hg2 : Grow t W W2 := by
      refine Grow.of_write (Graph.NodePost.grow_node e1 hp) w2 g2 l2 ?_
      intro a ha
      apply o2
      rw [ha1]
      exact Nat.ne_of_lt ha
    have hnd' := hnd
    simp only [List.map_cons, List.nodup_cons] at hnd'
    have hn2 : W2.nodesOf t = W.nodesOf t ++ [n1] := by
      rw [World.nodesOf_congr g2, hn1]
    obtain ⟨m, W', copies, e3, hg3, hn3, he3, hid3, hc3, hl3⟩ :=
      ih ((n.id, n1) :: m0) w2 (by rw [hg2.graphs_len]; exact ht)
        (by
          intro x hx c hc
          rw [hn2, List.mem_append, List.mem_singleton] at hc
          rcases hc with hc | hc
          · exact hfresh x (List.mem_cons_of_mem _ hx) c hc
          · subst hc
            rw [hp.id_eq]
            intro h
            exact hnd'.1 (by rw [h]; exact List.mem_map_of_mem _ hx))
        hnd'.2
        (fun x hx => lt_of_lt_of_le (hlt x (List.mem_cons_of_mem _ hx)) hg2.attrs_le)
    refine ⟨m, W', n1 :: copies, ?_, hg2.trans hg3, ?_, ?_, ?_, ?_, ?_⟩
    · simp only [copyNodes, Node.ID, e1, copyAttributes, AttributesMap.Attributes, e2]
      exact e3
    · rw [hn3, hn2, List.append_assoc, List.singleton_append]
    · rw [he3, World.edgesOf_congr g2, hp.edges]
    · simp only [List.map_cons, hid3, hp.id_eq]
    · intro x hx
      rw [List.mem_cons] at hx
      rcases hx with hx | hx
      · subst hx
        refine ⟨n1, List.mem_cons_self _ _, hp.id_eq, ?_, ?_, ?_⟩
        · rw [hl3 x.id hnd'.1]
          exact lookup_cons_self _ _ _
        · rw [ha1]
        · intro hwf k
          have h1 : W'.attrsOf n1.toAttributesMap = W2.attrsOf n1.toAttributesMap :=
            hg3.attrs_keep _ (by rw [l2]; exact hp.attr_lt)
          show (W'.attrsOf n1.toAttributesMap).get k = (W.attrsOf x.toAttributesMap).get k
          rw [h1, s2 (by rw [hsrc]; exact hwf) k, hcell, hsrc]
          by_cases hv : (W.attrsOf x.toAttributesMap).get k = Value.nil
          · rw [if_pos hv, hv]; rfl
          · rw [if_neg hv]
      · obtain ⟨c, hc, hcid, hcl, hca, hcattr⟩ := hc3 x hx
        refine ⟨c, List.mem_cons_of_mem _ hc, hcid, hcl, le_trans hg2.attrs_le hca, ?_⟩
        have hx2 : W2.attrsOf x.toAttributesMap = W.attrsOf x.toAttributesMap :=
          hg2.attrs_keep _ (hlt x (List.mem_cons_of_mem _ hx))
        intro hwf k
        rw [hcattr (by rw [hx2]; exact hwf) k]
        show (W2.attrsOf x.toAttributesMap).get k = (W.attrsOf x.toAttributesMap).get k
        rw [hx2]
    · intro k hk
      simp only [List.map_cons, List.mem_cons, not_or] at hk
      rw [hl3 k hk.2]
      exact lookup_cons_ne _ _ hk.1

end dotx

namespace dot

theorem Grow.nodesOf_ne {t : GraphRef} {W W' : World} (h : Grow t W W') {i : GraphRef}
    (hi : i ≠ t) : W'.nodesOf i = W.nodesOf i :=
  World.nodesOf_of_graphs (h.graphs_ne i hi)

theorem Grow.edgesOf_ne {t : GraphRef} {W W' : World} (h : Grow t W W') {i : GraphRef}
    (hi : i ≠ t) : W'.edgesOf i = W.edgesOf i :=
  World.edgesOf_of_graphs (h.graphs_ne i hi)

theorem Grow.subgraphsOf_keep {t : GraphRef} {W W' : World} (h : Grow t W W') (i : GraphRef) :
    W'.subgraphsOf i = W.subgraphsOf i := by
  by_cases hi : i = t
  · subst hi; exact h.subs_t
  · exact World.subgraphsOf_of_graphs (h.graphs_ne i hi)

theorem Grow.headOf_eq {t : GraphRef} {W W' : World} (h : Grow t W W') (i : GraphRef) :
    W'.headOf i = W.headOf i := by
  by_cases hi : i = t
  · subst hi; exact h.head_t
  · exact World.headOf_of_graphs (h.graphs_ne i hi)

/-- An edge that `EdgeWithPorts` creates without labels has an empty attribute map. -/
theorem Graph.EdgeWithPorts_fresh_cell {g : GraphRef} {f t : dot.Node} {fp tp : String}
    {W W' : World} {e : dot.Edge}
    (h : Graph.EdgeWithPorts g f t fp tp [] W = some (e, W')) :
    W'.attrsOf e.toAttributesMap = [] := by
  unfold Graph.EdgeWithPorts at h
  cases hG : W.graphs[g]? with
  | none => simp [hG] at h
  | some G =>
    simp only [hG, Option.some.injEq, Prod.mk.injEq] at h
    obtain ⟨rfl, rfl⟩ := h
    simp [World.attrsOf]

theorem Graph.FindEdges_eq {g : GraphRef} (a b : dot.Node) {W : World}
    (hg : g < W.graphs.length) :
    Graph.FindEdges g a b W =
      some ((W.edgesOf g).filter fun e => decide (e.fromNode = a ∧ e.toNode = b)) := by
  obtain ⟨G, hG⟩ := World.graph_of_lt hg
  simp [Graph.FindEdges, hG, World.edgesOf_eq hG]

theorem Graph.FindNodes_eq {g : GraphRef} {W : World} (hg : g < W.graphs.length) :
    Graph.FindNodes g W = some (W.nodesOf g) := by
  obtain ⟨G, hG⟩ := World.graph_of_lt hg
  simp [Graph.FindNodes, hG, World.nodesOf_eq hG]

end dot

namespace dotx

open dot

/-- A copy stays a copy while the target only grows. -/
theorem EdgeCopy.mono_grow {t : GraphRef} {m : NodeMap} {W0 W1 W2 : World} {e : dot.Edge}
    (hW1 : W1.WF) (hg : Grow t W1 W2) (h : EdgeCopy t m W0 W1 e) : EdgeCopy t m W0 W2 e := by
  obtain ⟨e', he', hf, ht, ha⟩ := h
  refine ⟨e', hg.edges_t.subset he', hf, ht, fun hwf k => ?_⟩
  rw [← ha hwf k]
  show (W2.attrsOf e'.toAttributesMap).get k = (W1.attrsOf e'.toAttributesMap).get k
  rw [hg.attrs_keep _ (hW1.edge_lt he')]

/-- The reference heap of a copy may be any heap in which the original reads the same. -/
theorem EdgeCopy.base {t : GraphRef} {m : NodeMap} {W0 W0' W1 : World} {e : dot.Edge}
    (hb : W0'.attrsOf e.toAttributesMap = W0.attrsOf e.toAttributesMap)
    (h : EdgeCopy t m W0' W1 e) : EdgeCopy t m W0 W1 e := by
  obtain ⟨e', he', hf, ht, ha⟩ := h
  refine ⟨e', he', hf, ht, fun hwf k => ?_⟩
  rw [ha (by rw [hb]; exact hwf) k]
  show (W0'.attrsOf e.toAttributesMap).get k = (W0.attrsOf e.toAttributesMap).get k
  rw [hb]

end dotx

namespace dotx

open dot

/-- Copying a list of edges whose endpoints are in the node map: each gets a copy in the
target, and the target gains nothing else than edges. -/
theorem copyEdgeList_spec (t : GraphRef) (m : NodeMap) (es : List dot.Edge) :
    ∀ {W : World}, W.WF → t < W.graphs.length →
    (∀ e ∈ es, ∃ a b, m.lookup e.fromNode.id = some a ∧ m.lookup e.toNode.id = some b) →
    (∀ e ∈ es, e.attributes < W.attrs.length) →
    ∃ W', copyEdgeList t m es W = some W' ∧ Grow t W W' ∧ W'.nodesOf t = W.nodesOf t ∧
      ∀ e ∈ es, EdgeCopy t m W W' e := by
  induction es with
  | nil =>
    intro W hW _ _ _
    exact ⟨W, rfl, Grow.refl_grow hW, rfl, fun e he => by cases he⟩
  | cons e rest ih =>
    intro W hW ht hm hlt
    obtain ⟨a, b, ha, hb⟩ := hm e (List.mem_cons_self _ _)
    obtain ⟨e1, W1, x1, hp⟩ := Graph.EdgeWithPorts_spec a b "" "" [] hW ht
    have hcell := Graph.EdgeWithPorts_fresh_cell x1
    have hsrc : W1.attrsOf e.toAttributesMap = W.attrsOf e.toAttributesMap :=
      hp.attrs_keep _ (hlt e (List.mem_cons_self _ _))
    have he1 : e1.attributes = W.attrs.length := by rw [hp.edge_eq]
    have hlt1 : e1.attributes < W1.attrs.length := by rw [he1, hp.attrs_len]; exact Nat.lt_succ_self _
    obtain ⟨W2, x2, w2, g2, l2, o2, s2⟩ :=
      setAll_spec e1.toAttributesMap (W1.attrsOf e.toAttributesMap) hp.wf hlt1
    have hg2 : Grow t W W2 := by
      refine Grow.of_write (Graph.EdgePost.grow_edge x1 hp) w2 g2 l2 ?_
      intro c hc
      apply o2
      rw [he1]
      exact Nat.ne_of_lt hc
    obtain ⟨W', x3, hg3, hn3, hc3⟩ :=
      ih w2 (by rw [hg2.graphs_len]; exact ht)
        (fun x hx => hm x (List.mem_cons_of_mem _ hx))
        (fun x hx => lt_of_lt_of_le (hlt x (List.mem_cons_of_mem _ hx)) hg2.attrs_le)
    refine ⟨W', ?_, hg2.trans hg3, ?_, ?_⟩
    · simp only [copyEdgeList, Edge.From, Edge.To, Node.ID, ha, hb, Graph.Edge, x1,
        copyAttributes, AttributesMap.Attributes, x2]
      exact x3
    · rw [hn3, World.nodesOf_congr g2, hp.nodes]
    · intro x hx
      rw [List.mem_cons] at hx
      rcases hx with hx | hx
      · subst hx
        refine EdgeCopy.mono_grow w2 hg3 ⟨e1, ?_, ?_, ?_, ?_⟩
        · rw [World.edgesOf_congr g2, hp.edges_g]
          exact List.mem_append_right _ (List.mem_singleton_self _)
        · rw [ha, hp.edge_eq]
        · rw [hb, hp.edge_eq]
        · intro hwf k
          show (W2.attrsOf e1.toAttributesMap).get k = (W.attrsOf x.toAttributesMap).get k
          rw [s2 (by rw [hsrc]; exact hwf) k, hcell, hsrc]
          by_cases hv : (W.attrsOf x.toAttributesMap).get k = Value.nil
          · rw [if_pos hv, hv]; rfl
          · rw [if_neg hv]
      · exact EdgeCopy.base (hg2.attrs_keep _ (hlt x (List.mem_cons_of_mem _ hx))) (hc3 x hx)

end dotx

namespace dotx

open dot

/-- The inner loop of the edge copy: every edge of the source between `x` and a node of
`rest`, in either direction, gets a copy in the target. -/
theorem copyEdgePairs_spec (s t : GraphRef) (m : NodeMap) (x : dot.Node) (rest : List dot.Node) :
    ∀ {W : World}, W.WF → t < W.graphs.length → s < W.graphs.length → s ≠ t →
    (∃ c, m.lookup x.id = some c) → (∀ n ∈ rest, ∃ c, m.lookup n.id = some c) →
    ∃ W', copyEdgePairs s t m x rest W = some W' ∧ Grow t W W' ∧
      W'.nodesOf t = W.nodesOf t ∧
      ∀ e ∈ W.edgesOf s,
        ((e.fromNode = x ∧ e.toNode ∈ rest) ∨ (e.toNode = x ∧ e.fromNode ∈ rest)) →
        EdgeCopy t m W W' e := by
  induction rest with
  | nil =>
    intro W hW _ _ _ _ _
    refine ⟨W, rfl, Grow.refl_grow hW, rfl, ?_⟩
    intro e _ h
    rcases h with h | h
    · cases h.2
    · cases h.2
  | cons y rest ih =>
    intro W hW ht hs hst hx hm
    obtain ⟨cx, hcx⟩ := hx
    obtain ⟨cy, hcy⟩ := hm y (List.mem_cons_self _ _)
    obtain ⟨W1, x1, g1, n1, c1⟩ := copyEdgeList_spec t m
      ((W.edgesOf s).filter fun e => decide (e.fromNode = x ∧ e.toNode = y)) hW ht
      (by
        intro e he
        have := (List.mem_filter.mp he).2
        simp only [decide_eq_true_eq] at this
        exact ⟨cx, cy, by rw [this.1]; exact hcx, by rw [this.2]; exact hcy⟩)
      (fun e he => hW.edge_lt (List.mem_filter.mp he).1)
    have hs1 : s < W1.graphs.length := by rw [g1.graphs_len]; exact hs
    have ht1 : t < W1.graphs.length := by rw [g1.graphs_len]; exact ht
    have he1 : W1.edgesOf s = W.edgesOf s := g1.edgesOf_ne hst
    obtain ⟨W2, x2, g2, n2, c2⟩ := copyEdgeList_spec t m
      ((W1.edgesOf s).filter fun e => decide (e.fromNode = y ∧ e.toNode = x)) g1.wf ht1
      (by
        intro e he
        have := (List.mem_filter.mp he).2
        simp only [decide_eq_true_eq] at this
        exact ⟨cy, cx, by rw [this.1]; exact hcy, by rw [this.2]; exact hcx⟩)
      (fun e he => g1.wf.edge_lt (List.mem_filter.mp he).1)
    have hs2 : s < W2.graphs.length := by rw [g2.graphs_len]; exact hs1
    have ht2 : t < W2.graphs.length := by rw [g2.graphs_len]; exact ht1
    have he2 : W2.edgesOf s = W.edgesOf s := (g2.edgesOf_ne hst).trans he1
    obtain ⟨W', x3, g3, n3, c3⟩ := ih g2.wf ht2 hs2 hst ⟨cx, hcx⟩
      (fun n hn => hm n (List.mem_cons_of_mem _ hn))
    refine ⟨W', ?_, (g1.trans g2).trans g3, ?_, ?_⟩
    · simp only [copyEdgePairs, Graph.FindEdges_eq x y hs, x1, Graph.FindEdges_eq y x hs1, x2]
      exact x3
    · rw [n3, n2, n1]
    · intro e he h
      have hk1 : W1.attrsOf e.toAttributesMap = W.attrsOf e.toAttributesMap :=
        g1.attrs_keep _ (hW.edge_lt he)
      have hk2 : W2.attrsOf e.toAttributesMap = W.attrsOf e.toAttributesMap :=
        (g1.trans g2).attrs_keep _ (hW.edge_lt he)
      by_cases hxy : e.fromNode = x ∧ e.toNode = y
      · have hmem : e ∈ (W.edgesOf s).filter fun e => decide (e.fromNode = x ∧ e.toNode = y) :=
          List.mem_filter.mpr ⟨he, by simpa using hxy⟩
        exact EdgeCopy.mono_grow g2.wf g3 (EdgeCopy.mono_grow g1.wf g2 (c1 e hmem))
      · by_cases hyx : e.fromNode = y ∧ e.toNode = x
        · have hmem : e ∈ (W1.edgesOf s).filter
              fun e => decide (e.fromNode = y ∧ e.toNode = x) :=
            List.mem_filter.mpr ⟨by rw [he1]; exact he, by simpa using hyx⟩
          exact EdgeCopy.mono_grow g2.wf g3 (EdgeCopy.base hk1 (c2 e hmem))
        · refine EdgeCopy.base hk2 (c3 e (by rw [he2]; exact he) ?_)
          rcases h with ⟨hf, hto⟩ | ⟨hto, hf⟩
          · rw [List.mem_cons] at hto
            rcases hto with hto | hto
            · exact absurd ⟨hf, hto⟩ hxy
            · exact Or.inl ⟨hf, hto⟩
          · rw [List.mem_cons] at hf
            rcases hf with hf | hf
            · exact absurd ⟨hf, hto⟩ hyx
            · exact Or.inr ⟨hto, hf⟩

/-- The edge loop of the conversion: every edge of the source between two different
enumerated nodes gets a copy in the target; the target gains edges only. -/
theorem copyEdges_spec (s t : GraphRef) (m : NodeMap) (L : List dot.Node) :
    ∀ {W : World}, W.WF → t < W.graphs.length → s < W.graphs.length → s ≠ t →
    (∀ n ∈ L, ∃ c, m.lookup n.id = some c) →
    ∃ W', copyEdges s t m L W = some W' ∧ Grow t W W' ∧ W'.nodesOf t = W.nodesOf t ∧
      ∀ e ∈ W.edgesOf s, e.fromNode ∈ L → e.toNode ∈ L → e.fromNode ≠ e.toNode →
        EdgeCopy t m W W' e := by
  induction L with
  | nil =>
    intro W hW _ _ _ _
    exact ⟨W, rfl, Grow.refl_grow hW, rfl, fun e _ h => by cases h⟩
  | cons x rest ih =>
    intro W hW ht hs hst hm
    obtain ⟨W1, x1, g1, n1, c1⟩ := copyEdgePairs_spec s t m x rest hW ht hs hst
      (hm x (List.mem_cons_self _ _)) (fun n hn => hm n (List.mem_cons_of_mem _ hn))
    have he1 : W1.edgesOf s = W.edgesOf s := g1.edgesOf_ne hst
    obtain ⟨W', x2, g2, n2, c2⟩ := ih g1.wf (by rw [g1.graphs_len]; exact ht)
      (by rw [g1.graphs_len]; exact hs) hst (fun n hn => hm n (List.mem_cons_of_mem _ hn))
    refine ⟨W', ?_, g1.trans g2, by rw [n2, n1], ?_⟩
    · simp only [copyEdges, x1]
      exact x2
    · intro e he hf hto hne
      have hk1 : W1.attrsOf e.toAttributesMap = W.attrsOf e.toAttributesMap :=
        g1.attrs_keep _ (hW.edge_lt he)
      rw [List.mem_cons] at hf hto
      rcases hf with hf | hf
      · rcases hto with hto | hto
        · exact absurd (hf.trans hto.symm) hne
        · exact EdgeCopy.mono_grow g1.wf g2 (c1 e he (Or.inl ⟨hf, hto⟩))
      · rcases hto with hto | hto
        · exact EdgeCopy.mono_grow g1.wf g2 (c1 e he (Or.inr ⟨hto, hf⟩))
        · exact EdgeCopy.base hk1 (c2 e (by rw [he1]; exact he) hf hto hne)

end dotx

namespace dot

theorem World.Owns.congr {W W' : World} {g : GraphRef} {a : AttributesMap}
    (hh : W'.headOf g = W.headOf g) (hn : W'.nodesOf g = W.nodesOf g)
    (he : W'.edgesOf g = W.edgesOf g) (h : W.Owns g a) : W'.Owns g a := by
  unfold World.Owns at h ⊢
  rw [hh, hn, he]
  exact h

theorem World.Owns.mem_refs {W : World} {g : GraphRef} {a : AttributesMap} (h : W.Owns g a) :
    ∃ G, W.graphs[g]? = some G ∧ a.attributes ∈ G.refs := by
  cases hG : W.graphs[g]? with
  | none =>
    exfalso
    rcases h with ⟨o, h⟩ | ⟨n, hn, _⟩ | ⟨e, he, _⟩
    · simp [World.headOf, hG] at h
    · simp [World.nodesOf, hG] at hn
    · simp [World.edgesOf, hG] at he
  | some G =>
    refine ⟨G, rfl, ?_⟩
    rcases h with ⟨o, h⟩ | ⟨n, hn, h⟩ | ⟨e, he, h⟩
    · simp only [World.headOf, hG, Option.some.injEq, Prod.mk.injEq] at h
      rw [← h.1]
      exact List.mem_cons_self _ _
    · rw [World.nodesOf_eq hG] at hn
      rw [← h]
      exact List.mem_cons_of_mem _
        (List.mem_append_left _ (List.mem_map_of_mem (fun n : dot.Node => n.attributes) hn))
    · rw [World.edgesOf_eq hG] at he
      rw [← h]
      exact List.mem_cons_of_mem _
        (List.mem_append_right _ (List.mem_map_of_mem (fun e : dot.Edge => e.attributes) he))

theorem World.WF.owns_lt {W : World} (hW : W.WF) {g : GraphRef} {a : AttributesMap}
    (h : W.Owns g a) : a.attributes < W.attrs.length := by
  obtain ⟨G, hG, hr⟩ := h.mem_refs
  exact (hW.1 g G hG).1 _ hr

theorem World.WF.owns_ne {W : World} (hW : W.WF) {g r : GraphRef} {a b : AttributesMap}
    (ha : W.Owns g a) (hb : W.Owns r b) (hgr : g ≠ r) : a.attributes ≠ b.attributes := by
  obtain ⟨G, hG, hr⟩ := ha.mem_refs
  obtain ⟨R, hR, hr'⟩ := hb.mem_refs
  intro h
  exact hW.2 g r G R hG hR hgr _ hr (h ▸ hr')

theorem World.Owns.of_node {W : World} {g : GraphRef} {n : dot.Node} (h : n ∈ W.nodesOf g) :
    W.Owns g n.toAttributesMap := Or.inr (Or.inl ⟨n, h, rfl⟩)

theorem World.Owns.of_edge {W : World} {g : GraphRef} {e : dot.Edge} (h : e ∈ W.edgesOf g) :
    W.Owns g e.toAttributesMap := Or.inr (Or.inr ⟨e, h, rfl⟩)

end dot

namespace dotx

open dot

theorem Frame.refl_frame {N0 B : Nat} {P : GraphRef} {W : World} (hW : W.WF) :
    Frame N0 B P W W :=
  { wf := hW
    graphs_le := le_refl _
    attrs_le := le_refl _
    head := fun _ _ => rfl
    nodes := fun _ _ => rfl
    edges := fun _ _ => rfl
    subs_mono := fun _ => List.prefix_refl _
    subs_res := fun _ _ _ _ => rfl
    cells := fun _ _ _ _ _ => rfl
    inv := fun h => h }

theorem Frame.trans_frame {N0 B : Nat} {P : GraphRef} {W W1 W2 : World}
    (h1 : Frame N0 B P W W1) (h2 : Frame N0 B P W1 W2) : Frame N0 B P W W2 :=
  { wf := h2.wf
    graphs_le := le_trans h1.graphs_le h2.graphs_le
    attrs_le := le_trans h1.attrs_le h2.attrs_le
    head := fun g hg => (h2.head g hg).trans (h1.head g hg)
    nodes := fun g hg => (h2.nodes g hg).trans (h1.nodes g hg)
    edges := fun g hg => (h2.edges g hg).trans (h1.edges g hg)
    subs_mono := fun g => (h1.subs_mono g).trans (h2.subs_mono g)
    subs_res := fun g h0 hg hP => (h2.subs_res g h0 hg hP).trans (h1.subs_res g h0 hg hP)
    cells := fun g h0 hg a ha =>
      (h2.cells g h0 hg a (ha.congr (h1.head g hg) (h1.nodes g hg) (h1.edges g hg))).trans
        (h1.cells g h0 hg a ha)
    inv := fun h => h2.inv (h1.inv h) }

/-- A frame for more graphs, or for a parent that did not exist, is a frame for fewer. -/
theorem Frame.weaken {N0 B B' : Nat} {P P' : GraphRef} {W W' : World}
    (h : Frame N0 B' P' W W') (hB : B ≤ B') (hP : P' = P ∨ B ≤ P') : Frame N0 B P W W' :=
  { wf := h.wf
    graphs_le := h.graphs_le
    attrs_le := h.attrs_le
    head := fun g hg => h.head g (lt_of_lt_of_le hg hB)
    nodes := fun g hg => h.nodes g (lt_of_lt_of_le hg hB)
    edges := fun g hg => h.edges g (lt_of_lt_of_le hg hB)
    subs_mono := h.subs_mono
    subs_res := fun g h0 hg hgP => h.subs_res g h0 (lt_of_lt_of_le hg hB) (by
      rcases hP with hP | hP
      · rw [hP]; exact hgP
      · exact Nat.ne_of_lt (lt_of_lt_of_le hg hP))
    cells := fun g h0 hg a ha => h.cells g h0 (lt_of_lt_of_le hg hB) a ha
    inv := h.inv }

end dotx

namespace dot

theorem Graph.Subgraph_head {g : GraphRef} {id : String} {options : List GraphOption}
    {W W' : World} {r : GraphRef} (h : Graph.Subgraph g id options W = some (r, W'))
    (i : GraphRef) (hi : i < W.graphs.length) : W'.headOf i = W.headOf i := by
  unfold Graph.Subgraph at h
  cases hG : W.graphs[g]? with
  | none => simp [hG] at h
  | some G =>
    simp only [hG] at h
    cases hf : G.subgraphs.lookup id with
    | some m =>
      simp only [hf, Option.some.injEq, Prod.mk.injEq] at h
      rw [h.2]
    | none =>
      simp only [hf, Option.some.injEq, Prod.mk.injEq] at h
      obtain ⟨_, rfl⟩ := h
      have hlt : g < W.graphs.length := World.lt_of_graph hG
      unfold World.headOf
      show (match (W.graphs.set g _ ++ [_])[i]? with
        | some G => some (G.toAttributesMap, G.options) | none => none) = _
      rw [List.getElem?_append_left (by rw [List.length_set]; exact hi)]
      by_cases hig : i = g
      · subst hig
        rw [List.getElem?_set_self hlt, hG]
      · rw [List.getElem?_set_ne (fun h => hig h.symm)]

end dot

namespace dotx

open dot

/-- Growth of a graph that is not among the first `B` graphs nor registered in an input
graph is within the frame. -/
theorem Frame.of_grow {N0 B : Nat} {P t : GraphRef} {W W' : World} (hW : W.WF)
    (h : Grow t W W') (hB : B ≤ t)
    (hreg : ∀ i : GraphRef, i < N0 → ∀ p ∈ W.subgraphsOf i, p.2 ≠ t) : Frame N0 B P W W' :=
  { wf := h.wf
    graphs_le := le_of_eq h.graphs_len.symm
    attrs_le := h.attrs_le
    head := fun g _ => h.headOf_eq g
    nodes := fun g hg => h.nodesOf_ne (Nat.ne_of_lt (lt_of_lt_of_le hg hB))
    edges := fun g hg => h.edgesOf_ne (Nat.ne_of_lt (lt_of_lt_of_le hg hB))
    subs_mono := fun g => by rw [h.subgraphsOf_keep g]
    subs_res := fun g _ _ _ => h.subgraphsOf_keep g
    cells := fun g _ _ a ha => h.attrs_keep a (hW.owns_lt ha)
    inv := fun hI i hi p hp hp0 => by
      rw [h.subgraphsOf_keep i] at hp
      rw [h.nodesOf_ne (hreg i hi p hp)]
      exact hI i hi p hp hp0 }

/-- Writing into one attribute map that no graph from `N0` on and below `B` refers to is
within the frame. -/
theorem Frame.of_cell_write {N0 B : Nat} {P : GraphRef} {W W' : World} (c : AttrRef)
    (hwf : W'.WF) (hg : W'.graphs = W.graphs) (hl : W'.attrs.length = W.attrs.length)
    (ho : ∀ b : AttributesMap, b.attributes ≠ c → W'.attrsOf b = W.attrsOf b)
    (hc : ∀ g : GraphRef, N0 ≤ g → g < B → ∀ b : AttributesMap, W.Owns g b → b.attributes ≠ c) :
    Frame N0 B P W W' :=
  { wf := hwf
    graphs_le := by rw [hg]
    attrs_le := by rw [hl]
    head := fun g _ => World.headOf_of_graphs (by rw [hg])
    nodes := fun g _ => World.nodesOf_congr hg g
    edges := fun g _ => World.edgesOf_congr hg g
    subs_mono := fun g => by rw [World.subgraphsOf_congr hg g]
    subs_res := fun g _ _ _ => World.subgraphsOf_congr hg g
    cells := fun g h0 hB a ha => ho a (hc g h0 hB a ha)
    inv := fun hI i hi p hp hp0 => by
      rw [World.subgraphsOf_congr hg i] at hp
      rw [World.nodesOf_congr hg]
      exact hI i hi p hp hp0 }

/-- Looking up or creating a subgraph, in the parent `P` or in an input graph, is within
the frame. -/
theorem Frame.of_subgraph {N0 B : Nat} {P g : GraphRef} {id : String}
    {options : List GraphOption} {W W' : World} {r : GraphRef} (hW : W.WF)
    (h : Graph.Subgraph g id options W = some (r, W'))
    (hp : Graph.SubgraphPost g id options W r W') (hB : B ≤ W.graphs.length)
    (h0 : N0 ≤ W.graphs.length) (hg : g = P ∨ g < N0) : Frame N0 B P W W' := by
  by_cases hl : (W.subgraphsOf g).lookup id = none
  · obtain ⟨hr, hs, hG⟩ := hp.new hl
    exact
      { wf := hp.wf
        graphs_le := hp.graphs_le
        attrs_le := hp.attrs_le
        head := fun i hi => Graph.Subgraph_head h i (lt_of_lt_of_le hi hB)
        nodes := fun i hi => hp.nodes i (lt_of_lt_of_le hi hB)
        edges := fun i hi => hp.edges i (lt_of_lt_of_le hi hB)
        subs_mono := fun i => by
          by_cases hi : i = g
          · subst hi; rw [hs]; exact List.prefix_append _ _
          · rcases Nat.lt_or_ge i W.graphs.length with hlt | hge
            · rw [hp.subs_ne i hlt hi]
            · have h1 : W.subgraphsOf i = [] := by
                simp [World.subgraphsOf, List.getElem?_eq_none hge]
              rw [h1]
              exact List.nil_prefix
        subs_res := fun i hi0 hiB hiP => hp.subs_ne i (lt_of_lt_of_le hiB hB) (by
          rcases hg with hg | hg
          · rw [hg]; exact hiP
          · exact fun e => absurd hi0 (not_le.mpr (e ▸ hg)))
        cells := fun i _ _ a ha => hp.attrs_keep a (hW.owns_lt ha)
        inv := fun hI i hi p hp' hp0 => by
          have hnr : W'.nodesOf r = [] := by rw [World.nodesOf_eq hG]
          by_cases hig : i = g
          · subst hig
            rw [hs, List.mem_append, List.mem_singleton] at hp'
            rcases hp' with hp' | hp'
            · obtain ⟨G0, hG0⟩ := World.graph_of_lt (lt_of_lt_of_le hi h0)
              have hlt := ((hW.1 i G0 hG0).2.2.2.2 p (by rw [World.subgraphsOf_eq hG0] at hp'; exact hp')).2
              rw [hp.nodes p.2 hlt]
              exact hI i hi p hp' hp0
            · rw [hp']; exact hnr
          · rw [hp.subs_ne i (lt_of_lt_of_le hi h0) hig] at hp'
            obtain ⟨G0, hG0⟩ := World.graph_of_lt (lt_of_lt_of_le hi h0)
            have hlt := ((hW.1 i G0 hG0).2.2.2.2 p (by rw [World.subgraphsOf_eq hG0] at hp'; exact hp')).2
            rw [hp.nodes p.2 hlt]
            exact hI i hi p hp' hp0 }
  · have hWW := hp.old hl
    subst hWW
    exact Frame.refl_frame hW

end dotx

namespace dot

theorem Graph.Subgraph_fresh_len {g : GraphRef} {id : String} {options : List GraphOption}
    {W W' : World} {r : GraphRef} (h : Graph.Subgraph g id options W = some (r, W'))
    (hl : (W.subgraphsOf g).lookup id = none) :
    W'.graphs.length = W.graphs.length + 1 ∧ W'.attrs.length = W.attrs.length + 1 ∧
      W'.attrsOf { attributes := W.attrs.length } = [] := by
  unfold Graph.Subgraph at h
  cases hG : W.graphs[g]? with
  | none => simp [hG] at h
  | some G =>
    rw [World.subgraphsOf_eq hG] at hl
    simp only [hG, hl, Option.some.injEq, Prod.mk.injEq] at h
    obtain ⟨_, rfl⟩ := h
    simp [World.attrsOf]

theorem Graph.SetAttribute_eq {g : GraphRef} {G : Graph} (l : String) (v : dot.Value)
    {W : World} (hG : W.graphs[g]? = some G) :
    Graph.SetAttribute g l v W = G.toAttributesMap.SetAttribute l v W := by
  simp [Graph.SetAttribute, hG]

end dot

namespace dotx

open dot

/-- The first steps of `processComposite`: a new cluster is registered in the parent under
the id, labelled with the id and filled white; nothing else changes. -/
theorem cluster_spec (N0 : Nat) {P : GraphRef} (id : String) {W : World} (hW : W.WF)
    (hP : P < W.graphs.length) (hN : N0 ≤ W.graphs.length)
    (hfresh : (W.subgraphsOf P).lookup id = none) :
    ∃ W1 W2 W3,
      Graph.Subgraph P id [GraphOption.ClusterOption] W = some (W.graphs.length, W1) ∧
      Graph.SetAttribute W.graphs.length "label" (Value.str id) W1 = some W2 ∧
      Graph.SetAttribute W.graphs.length "fillcolor" (Value.str "white") W2 = some W3 ∧
      Frame N0 W.graphs.length P W W3 ∧
      W3.graphs.length = W.graphs.length + 1 ∧
      W3.subgraphsOf P = W.subgraphsOf P ++ [(id, W.graphs.length)] ∧
      W3.nodesOf W.graphs.length = [] ∧ W3.edgesOf W.graphs.length = [] ∧
      W3.subgraphsOf W.graphs.length = [] ∧
      W3.headOf W.graphs.length =
        some ({ attributes := W.attrs.length }, [GraphOption.ClusterOption]) ∧
      (W3.attrsOf { attributes := W.attrs.length }).get "label" = Value.str id ∧
      (W3.attrsOf { attributes := W.attrs.length }).get "fillcolor" = Value.str "white" ∧
      (∀ a : AttributesMap, a.attributes < W.attrs.length → W3.attrsOf a = W.attrsOf a) ∧
      (∀ i : GraphRef, i < W.graphs.length → i ≠ P → W3.subgraphsOf i = W.subgraphsOf i) := by
  obtain ⟨r, W1, e1, hp⟩ := Graph.Subgraph_spec id [GraphOption.ClusterOption] hW hP
  obtain ⟨hr, hs, hG⟩ := hp.new hfresh
  subst hr
  obtain ⟨hgl, hal, _⟩ := Graph.Subgraph_fresh_len e1 hfresh
  have hc1 : ({ attributes := W.attrs.length } : AttributesMap).attributes < W1.attrs.length := by
    rw [hal]; exact Nat.lt_succ_self _
  obtain ⟨W2, e2, w2, g2, l2, o2, k2, s2⟩ :=
    AttributesMap.SetAttribute_wf "label" (Value.str id) hp.wf hc1
  obtain ⟨W3, e3, w3, g3, l3, o3, k3, s3⟩ :=
    AttributesMap.SetAttribute_wf "fillcolor" (Value.str "white") w2 (by rw [l2]; exact hc1)
  have hG2 := hG
  rw [← g2] at hG2
  have f1 : Frame N0 W.graphs.length P W W1 :=
    Frame.of_subgraph hW e1 hp (le_refl _) hN (Or.inl rfl)
  have f2 : Frame N0 W.graphs.length P W1 W2 :=
    Frame.of_cell_write W.attrs.length w2 g2 l2 o2 (fun g _ hg b hb =>
      Nat.ne_of_lt (hW.owns_lt
        (hb.congr (f1.head g hg).symm (f1.nodes g hg).symm (f1.edges g hg).symm)))
  have f12 := f1.trans_frame f2
  have f3 : Frame N0 W.graphs.length P W2 W3 :=
    Frame.of_cell_write W.attrs.length w3 g3 l3 o3 (fun g _ hg b hb =>
      Nat.ne_of_lt (hW.owns_lt
        (hb.congr (f12.head g hg).symm (f12.nodes g hg).symm (f12.edges g hg).symm)))
  have hG3 := hG2
  rw [← g3] at hG3
  refine ⟨W1, W2, W3, e1, ?_, ?_, f12.trans_frame f3, ?_, ?_, ?_, ?_, ?_, ?_, ?_, ?_, ?_, ?_⟩
  · rw [Graph.SetAttribute_eq _ _ hG]; exact e2
  · rw [Graph.SetAttribute_eq _ _ hG2]; exact e3
  · rw [g3, g2, hgl]
  · rw [World.subgraphsOf_congr g3, World.subgraphsOf_congr g2, hs]
  · rw [World.nodesOf_eq hG3]
  · rw [World.edgesOf_eq hG3]
  · rw [World.subgraphsOf_eq hG3]
  · simp [World.headOf, hG3]
  · rw [k3 "label" (by decide)]
    exact s2 (by decide) (by simp)
  · exact s3 (by decide) (by simp)
  · intro a ha
    have hne : a.attributes ≠ W.attrs.length := Nat.ne_of_lt ha
    rw [o3 a hne, o2 a hne, hp.attrs_keep a ha]
  · intro i hi hiP
    rw [World.subgraphsOf_congr g3, World.subgraphsOf_congr g2, hp.subs_ne i hi hiP]

end dotx

namespace dotx

open dot

/-- The call `NewComposite(comp.dotFilename, node.ID(), comp.Graph, SameGraph)` of
`findChildComposites` on a node `n` that the input graph `r` already has: the wrapper has
`n` as outer node and the subgraph registered under the id of `n` as inner graph, which is
created empty when none was registered; only the map of `n` is written. -/
theorem NewComposite_existing (N0 : Nat) (P : GraphRef) (d : String) {r : GraphRef}
    {n : dot.Node} {W : World} (hW : W.WF) (hn : n ∈ W.nodesOf r) (hr0 : r < N0)
    (hN : N0 ≤ W.graphs.length) :
    ∃ c W', NewComposite d n.id r SameGraph W = some (c, W') ∧
      c.outerNode = n ∧ c.outerGraph = r ∧ c.kind = SameGraph ∧
      Frame N0 W.graphs.length P W W' ∧
      (W'.subgraphsOf r).lookup n.id = some c.Graph ∧ c.Graph < W'.graphs.length ∧
      (∀ K, (W.subgraphsOf r).lookup n.id = some K →
        c.Graph = K ∧ W'.subgraphsOf r = W.subgraphsOf r) ∧
      ((W.subgraphsOf r).lookup n.id = none →
        c.Graph = W.graphs.length ∧
        W'.subgraphsOf r = W.subgraphsOf r ++ [(n.id, W.graphs.length)]) ∧
      (∀ i : GraphRef, i < W.graphs.length → i ≠ r → W'.subgraphsOf i = W.subgraphsOf i) ∧
      (∀ b : AttributesMap, b.attributes < W.attrs.length → b.attributes ≠ n.attributes →
        W'.attrsOf b = W.attrsOf b) := by
  have hr : r < W.graphs.length := lt_of_lt_of_le hr0 hN
  obtain ⟨K, W1, h1, hp⟩ := Graph.Subgraph_spec n.id [GraphOption.ClusterOption] hW hr
  have hr1 : r < W1.graphs.length := lt_of_lt_of_le hr hp.graphs_le
  have hn1 : n ∈ W1.nodesOf r := by rw [hp.nodes r hr]; exact hn
  obtain ⟨n', W2, h2, P2⟩ := Graph.Node_spec n.id hp.wf hr1
  obtain ⟨_, hW2⟩ := P2.nodes_old ⟨n, hn1, rfl⟩
  subst hW2
  have hnn : n' = n := hp.wf.node_unique P2.mem hn1 P2.id_eq
  subst hnn
  have f1 : Frame N0 W.graphs.length P W W2 :=
    Frame.of_subgraph hW h1 hp (le_refl _) hN (Or.inr hr0)
  have hown : ∀ {X : World}, X.WF → Frame N0 W.graphs.length P W X →
      ∀ g : GraphRef, N0 ≤ g → g < W.graphs.length → ∀ b : AttributesMap, X.Owns g b →
      b.attributes ≠ n'.attributes := by
    intro X _ f g h0 hg b hb
    have hb0 : W.Owns g b := hb.congr (f.head g hg).symm (f.nodes g hg).symm (f.edges g hg).symm
    exact hW.owns_ne hb0 (World.Owns.of_node hn) (fun e => absurd h0 (not_le.mpr (e ▸ hr0)))
  obtain ⟨W3, h3, wf3, g3, al3, k3, _, _⟩ :=
    AttributesMap.SetAttribute_wf (a := n'.toAttributesMap) "shape" (Value.str "box3d")
      P2.wf P2.attr_lt
  have f2 : Frame N0 W.graphs.length P W2 W3 :=
    Frame.of_cell_write n'.attributes wf3 g3 al3 k3 (hown hp.wf f1)
  have f12 := f1.trans_frame f2
  obtain ⟨W4, h4, wf4, g4, al4, _, _, k4⟩ :=
    Composite.ExportName_spec
      { Graph := K, outerNode := n', outerGraph := r, dotFilename := "", kind := SameGraph }
      d n'.id wf3 (by rw [al3]; exact P2.attr_lt)
  have f3 : Frame N0 W.graphs.length P W3 W4 :=
    Frame.of_cell_write n'.attributes wf4 g4 al4 k4 (hown wf3 f12)
  have hgraphs : W4.graphs = W2.graphs := g4.trans g3
  refine ⟨{ Graph := K, outerNode := n', outerGraph := r,
            dotFilename := d ++ (replaceSpaces n'.id ++ ".dot"), kind := SameGraph },
    W4, ?_, rfl, rfl, rfl, f12.trans_frame f3, ?_, ?_, ?_, ?_, ?_, ?_⟩
  · simp only [NewComposite, if_pos, h1, h2, Node.SetAttribute_node_eq h3]
    exact h4
  · show (W4.subgraphsOf r).lookup n'.id = some K
    rw [World.subgraphsOf_congr hgraphs]
    exact hp.registered
  · show K < W4.graphs.length
    rw [hgraphs]
    exact hp.valid
  · intro K' hK'
    have hne : (W.subgraphsOf r).lookup n'.id ≠ none := by rw [hK']; simp
    have hWW := hp.old hne
    have hreg := hp.registered
    rw [hWW, hK'] at hreg
    refine ⟨(Option.some.inj hreg).symm, ?_⟩
    rw [World.subgraphsOf_congr hgraphs, hWW]
  · intro hnone
    obtain ⟨hK, hs, _⟩ := hp.new hnone
    refine ⟨hK, ?_⟩
    rw [World.subgraphsOf_congr hgraphs, hs, hK]
  · intro i hi hir
    rw [World.subgraphsOf_congr hgraphs]
    exact hp.subs_ne i hi hir
  · intro b hb hbn
    rw [k4 b hbn, k3 b hbn]
    exact hp.attrs_keep b hb

end dotx

namespace dot

theorem lookup_append_other (l : List (String × GraphRef)) {k id : String} (r : GraphRef)
    (h : k ≠ id) : (l ++ [(id, r)]).lookup k = l.lookup k := by
  induction l with
  | nil =>
    have hk : (k == id) = false := by simpa using h
    simp [List.lookup, hk]
  | cons p rest ih =>
    obtain ⟨k0, v⟩ := p
    simp only [List.cons_append, List.lookup]
    cases hk : k == k0 with
    | true => rfl
    | false => exact ih

/-- Two nodes of one graph with different ids have different attribute maps. -/
theorem World.WF.node_attr_ne {W : World} (hW : W.WF) {r : GraphRef} {a b : dot.Node}
    (ha : a ∈ W.nodesOf r) (hb : b ∈ W.nodesOf r) (hab : a.id ≠ b.id) :
    a.attributes ≠ b.attributes := by
  have hr : r < W.graphs.length := (hW.node_facts ha).2.1
  obtain ⟨G, hG⟩ := World.graph_of_lt hr
  rw [World.nodesOf_eq hG] at ha hb
  have hnd := (hW.1 r G hG).2.1
  unfold Graph.refs at hnd
  have hnd2 : (G.nodes.map fun n => n.attributes).Nodup :=
    (List.nodup_append.mp (List.nodup_cons.mp hnd).2).1
  intro h
  exact hab (congrArg (fun n : dot.Node => n.id) (List.inj_on_of_nodup_map hnd2 ha hb h))

theorem World.WF.node_attr_cross {W : World} (hW : W.WF) {i j : GraphRef} {a b : dot.Node}
    (ha : a ∈ W.nodesOf i) (hb : b ∈ W.nodesOf j) (hij : i ≠ j) :
    a.attributes ≠ b.attributes := by
  unfold World.nodesOf at ha hb
  cases hGi : W.graphs[i]? with
  | none => simp [hGi] at ha
  | some Gi =>
    cases hGj : W.graphs[j]? with
    | none => simp [hGj] at hb
    | some Gj =>
      simp only [hGi] at ha
      simp only [hGj] at hb
      intro heq
      apply hW.2 i j Gi Gj hGi hGj hij a.attributes
      · simp only [Graph.refs, List.mem_cons, List.mem_append, List.mem_map]
        exact Or.inr (Or.inl ⟨a, ha, rfl⟩)
      · simp only [Graph.refs, List.mem_cons, List.mem_append, List.mem_map]
        exact Or.inr (Or.inl ⟨b, hb, heq.symm⟩)

end dot

namespace dotx

open dot

theorem hasHref_congr {W W' : World} {n : dot.Node}
    (h : W'.attrsOf n.toAttributesMap = W.attrsOf n.toAttributesMap) :
    hasHref W' n = hasHref W n := by
  unfold hasHref AttributesMap.Attributes
  rw [h]

end dotx

namespace dotx

open dot

/-- The loop of `findChildComposites` over nodes of an input graph: one wrapper per node
whose `href` is a non-empty string, in the order of the nodes, with that node as outer
node; the graphs keep their nodes and edges, and only the maps of those nodes are
written. -/
theorem findChildrenLoop_spec (N0 : Nat) (P : GraphRef) (comp : Composite)
    (L : List dot.Node) :
    ∀ (acc : List Composite) {W : World}, W.WF → comp.Graph < N0 → N0 ≤ W.graphs.length →
    (∀ n ∈ L, n ∈ W.nodesOf comp.Graph) → (L.map fun n => n.id).Nodup →
    ∃ cs W', findChildrenLoop comp L acc W = some (acc ++ cs, W') ∧
      Frame N0 W.graphs.length P W W' ∧
      (cs.map fun c => c.outerNode) = L.filter (hasHref W) ∧
      (∀ c ∈ cs, ChildPost comp.Graph W W' c) ∧
      (∀ i : GraphRef, i < W.graphs.length → i ≠ comp.Graph →
        W'.subgraphsOf i = W.subgraphsOf i) ∧
      (∀ k, k ∉ (L.map fun n => n.id) →
        (W'.subgraphsOf comp.Graph).lookup k = (W.subgraphsOf comp.Graph).lookup k) ∧
      (∀ b : AttributesMap, b.attributes < W.attrs.length →
        (∀ n ∈ L, b.attributes ≠ n.attributes) → W'.attrsOf b = W.attrsOf b) ∧
      (∀ n ∈ L, hasHref W n = true →
        n.Attribute "shape" W' = Value.str "box3d" ∧
        n.Attribute "href" W' = Value.str (replaceSpaces n.id ++ ".svg")) ∧
      ((∀ n ∈ L, hasHref W n = false) → cs = [] ∧ W' = W) := by
  induction L with
  | nil =>
    intro acc W hW _ _ _ _
    exact ⟨[], W, by simp [findChildrenLoop], Frame.refl_frame hW, rfl,
      (fun c hc => by cases hc), (fun _ _ _ => rfl), (fun _ _ => rfl), (fun _ _ _ => rfl),
      (fun n hn => by cases hn), fun _ => ⟨rfl, rfl⟩⟩
  | cons n rest ih =>
    intro acc W hW hr0 hN hL hnd
    have hnd' := hnd
    simp only [List.map_cons, List.nodup_cons] at hnd'
    have hn : n ∈ W.nodesOf comp.Graph := hL n (List.mem_cons_self _ _)
    by_cases hh : hasHref W n = true
    · obtain ⟨c, W1, e1, co, cg, ck, f1, creg, clt, cfound, cfresh, csub, ccell⟩ :=
        NewComposite_existing N0 P comp.dotFilename hW hn hr0 hN
      have hr : comp.Graph < W.graphs.length := lt_of_lt_of_le hr0 hN
      obtain ⟨c', W1', es, Ps⟩ := NewComposite_spec comp.dotFilename n.id SameGraph hW hr
      rw [e1] at es
      simp only [Option.some.injEq, Prod.mk.injEq] at es
      obtain ⟨ec, eW⟩ := es
      subst ec; subst eW
      have hrest1 : ∀ x ∈ rest, x ∈ W1.nodesOf comp.Graph := by
        intro x hx
        rw [f1.nodes _ hr]
        exact hL x (List.mem_cons_of_mem _ hx)
      have hne : ∀ x ∈ rest, x.id ≠ n.id := by
        intro x hx h
        exact hnd'.1 (by rw [← h]; exact List.mem_map_of_mem _ hx)
      have hlk : ∀ k, k ≠ n.id →
          (W1.subgraphsOf comp.Graph).lookup k = (W.subgraphsOf comp.Graph).lookup k := by
        intro k hk
        cases hl : (W.subgraphsOf comp.Graph).lookup n.id with
        | some K => rw [(cfound K hl).2]
        | none => rw [(cfresh hl).2]; exact lookup_append_other _ _ hk
      obtain ⟨cs, W', e2, f2, hmap, hpost, hsub, hlook, hcell, hmark, _⟩ :=
        ih (acc ++ [c]) f1.wf hr0 (le_trans hN f1.graphs_le) hrest1 hnd'.2
      have hcong : ∀ x ∈ rest, hasHref W1 x = hasHref W x := by
        intro x hx
        have hxW := hL x (List.mem_cons_of_mem _ hx)
        exact hasHref_congr (ccell _ (hW.node_facts hxW).2.2
          (hW.node_attr_ne hxW hn (hne x hx)))
      have hnkeep : W'.attrsOf n.toAttributesMap = W1.attrsOf n.toAttributesMap :=
        hcell _ (lt_of_lt_of_le (hW.node_facts hn).2.2 f1.attrs_le)
          (fun x hx => hW.node_attr_ne hn (hL x (List.mem_cons_of_mem _ hx))
            (fun h => hne x hx h.symm))
      have hfilter : rest.filter (hasHref W1) = rest.filter (hasHref W) := by
        apply List.filter_congr
        intro x hx
        have hxW := hL x (List.mem_cons_of_mem _ hx)
        exact hasHref_congr (ccell _ (hW.node_facts hxW).2.2
          (hW.node_attr_ne hxW hn (hne x hx)))
      refine ⟨c :: cs, W', ?_, f1.trans_frame (f2.weaken f1.graphs_le (Or.inl rfl)), ?_, ?_,
        ?_, ?_, ?_, ?_, ?_⟩
      · simp only [findChildrenLoop, hh, if_true, Node.ID, e1]
        rw [e2, List.append_assoc, List.singleton_append]
      · rw [List.filter_cons_of_pos hh, List.map_cons, hmap, hfilter, co]
      · intro x hx
        rw [List.mem_cons] at hx
        rcases hx with hx | hx
        · subst hx
          exact
            { outerGraph_eq := cg
              kind_eq := ck
              registered := by
                rw [co, hlook n.id hnd'.1]
                exact creg
              fresh := fun hl => by
                rw [co] at hl
                rw [(cfresh hl).1]
              found := fun K hK => by
                rw [co] at hK
                exact (cfound K hK).1
              cluster := fun hl => by
                rw [co] at hl
                have hG := (Ps.same rfl).2.2 hl
                refine ⟨{ attributes := W.attrs.length }, ?_⟩
                rw [f2.head _ clt]
                simp only [World.headOf, hG]
              empty := fun hl => by
                rw [co] at hl
                have hG := (Ps.same rfl).2.2 hl
                have hcr : x.Graph ≠ comp.Graph := by
                  rw [(cfresh hl).1]
                  exact Nat.ne_of_gt hr
                rw [f2.nodes _ clt, f2.edges _ clt, hsub _ clt hcr, World.nodesOf_eq hG,
                  World.edgesOf_eq hG, World.subgraphsOf_eq hG]
                exact ⟨rfl, rfl, rfl⟩ }
        · have hp := hpost x hx
          have hxr : x.outerNode ∈ rest := by
            have : x.outerNode ∈ cs.map fun c => c.outerNode := List.mem_map_of_mem _ hx
            rw [hmap] at this
            exact (List.mem_filter.mp this).1
          have hxn := hne _ hxr
          exact
            { outerGraph_eq := hp.outerGraph_eq
              kind_eq := hp.kind_eq
              registered := hp.registered
              fresh := fun hl =>
                le_trans f1.graphs_le (hp.fresh (by rw [hlk _ hxn]; exact hl))
              found := fun K hK => hp.found K (by rw [hlk _ hxn]; exact hK)
              cluster := fun hl => hp.cluster (by rw [hlk _ hxn]; exact hl)
              empty := fun hl => hp.empty (by rw [hlk _ hxn]; exact hl) }
      · intro i hi hir
        rw [hsub i (lt_of_lt_of_le hi f1.graphs_le) hir, csub i hi hir]
      · intro k hk
        simp only [List.map_cons, List.mem_cons, not_or] at hk
        rw [hlook k hk.2, hlk k hk.1]
      · intro b hb hbn
        rw [hcell b (lt_of_lt_of_le hb f1.attrs_le)
          (fun x hx => hbn x (List.mem_cons_of_mem _ hx))]
        exact ccell b hb (hbn n (List.mem_cons_self _ _))
      · intro x hx hxh
        rw [List.mem_cons] at hx
        rcases hx with hx | hx
        · subst hx
          constructor
          · show (W'.attrsOf x.toAttributesMap).get "shape" = _
            have h1 := Ps.shape
            rw [co] at h1
            rw [hnkeep]
            exact h1
          · show (W'.attrsOf x.toAttributesMap).get "href" = _
            have h1 := Ps.href
            rw [co] at h1
            rw [hnkeep]
            exact h1
        · exact hmark x hx (by rw [hcong x hx]; exact hxh)
      · intro hall
        have := hall n (List.mem_cons_self _ _)
        rw [hh] at this
        cases this
    · obtain ⟨cs, W', e2, f2, hmap, hpost, hsub, hlook, hcell, hmark, hsame⟩ :=
        ih acc hW hr0 hN (fun x hx => hL x (List.mem_cons_of_mem _ hx)) hnd'.2
      refine ⟨cs, W', ?_, f2, ?_, hpost, hsub, ?_, ?_, ?_, ?_⟩
      · simp only [findChildrenLoop, hh]
        exact e2
      · rw [List.filter_cons_of_neg hh, hmap]
      · intro k hk
        simp only [List.map_cons, List.mem_cons, not_or] at hk
        exact hlook k hk.2
      · intro b hb hbn
        exact hcell b hb (fun x hx => hbn x (List.mem_cons_of_mem _ hx))
      · intro x hx hxh
        rw [List.mem_cons] at hx
        rcases hx with hx | hx
        · subst hx
          exact absurd hxh hh
        · exact hmark x hx hxh
      · intro hall
        exact hsame (fun x hx => hall x (List.mem_cons_of_mem _ hx))

end dotx

namespace dot

theorem lookup_mem {β : Type} {l : List (String × β)} {k : String} {v : β}
    (h : l.lookup k = some v) : (k, v) ∈ l := by
  induction l with
  | nil => simp [List.lookup] at h
  | cons p rest ih =>
    obtain ⟨k0, v0⟩ := p
    simp only [List.lookup] at h
    cases hk : k == k0 with
    | true =>
      simp only [hk, Option.some.injEq] at h
      have : k = k0 := by simpa using hk
      rw [this, h]
      exact List.mem_cons_self _ _
    | false =>
      simp only [hk] at h
      exact List.mem_cons_of_mem _ (ih h)

/-- A registered subgraph exists and was created after its parent. -/
theorem World.WF.sub_facts {W : World} (hW : W.WF) {i : GraphRef} {p : String × GraphRef}
    (h : p ∈ W.subgraphsOf i) : i < p.2 ∧ p.2 < W.graphs.length := by
  cases hG : W.graphs[i]? with
  | none => simp [World.subgraphsOf, hG] at h
  | some G =>
    rw [World.subgraphsOf_eq hG] at h
    exact (hW.1 i G hG).2.2.2.2 p h

end dot

namespace dotx

open dot

/-- Go `findChildComposites(comp)` on an input graph, or on a graph without nodes: one
wrapper per node whose `href` is a non-empty string. -/
theorem findChildComposites_spec (N0 : Nat) (P : GraphRef) (comp : Composite) {W : World}
    (hW : W.WF) (hr : comp.Graph < W.graphs.length) (hN : N0 ≤ W.graphs.length)
    (hin : comp.Graph < N0 ∨ W.nodesOf comp.Graph = []) :
    ∃ cs W', findChildComposites comp W = some (cs, W') ∧
      Frame N0 W.graphs.length P W W' ∧
      (cs.map fun c => c.outerNode) = (W.nodesOf comp.Graph).filter (hasHref W) ∧
      (∀ c ∈ cs, ChildPost comp.Graph W W' c ∧ comp.Graph < N0) ∧
      (∀ i : GraphRef, i < W.graphs.length → N0 ≤ i → W'.subgraphsOf i = W.subgraphsOf i) ∧
      (∀ n ∈ W.nodesOf comp.Graph, hasHref W n = true →
        n.Attribute "shape" W' = Value.str "box3d" ∧
        n.Attribute "href" W' = Value.str (replaceSpaces n.id ++ ".svg")) ∧
      ((∀ n ∈ W.nodesOf comp.Graph, hasHref W n = false) → cs = [] ∧ W' = W) ∧
      (∀ b : AttributesMap, b.attributes < W.attrs.length →
        (∀ n ∈ W.nodesOf comp.Graph, b.attributes ≠ n.attributes) →
        W'.attrsOf b = W.attrsOf b) := by
  rcases hin with h0 | hnil
  · obtain ⟨cs, W', e, f, hmap, hpost, hsub, _, hcell, hmark, hsame⟩ :=
      findChildrenLoop_spec N0 P comp (W.nodesOf comp.Graph) [] hW h0 hN (fun _ h => h)
        (hW.nodes_nodup comp.Graph)
    refine ⟨cs, W', ?_, f, hmap, (fun c hc => ⟨hpost c hc, h0⟩), ?_, hmark, hsame, hcell⟩
    · simp only [findChildComposites, Graph.FindNodes_eq hr]
      rw [e, List.nil_append]
    · intro i hi hi0
      exact hsub i hi (fun e => absurd hi0 (not_le.mpr (e ▸ h0)))
  · refine ⟨[], W, ?_, Frame.refl_frame hW, ?_, (fun c hc => by cases hc), (fun _ _ _ => rfl),
      (fun n hn => by rw [hnil] at hn; cases hn), (fun _ => ⟨rfl, rfl⟩), fun _ _ _ => rfl⟩
    · simp only [findChildComposites, Graph.FindNodes_eq hr, hnil, findChildrenLoop]
    · rw [hnil]; rfl

end dotx

namespace dot

theorem World.lt_of_headOf {W : World} {g : GraphRef} {x : AttributesMap × List GraphOption}
    (h : W.headOf g = some x) : g < W.graphs.length := by
  rcases Nat.lt_or_ge g W.graphs.length with hlt | hge
  · exact hlt
  · simp [World.headOf, List.getElem?_eq_none hge] at h

end dot

namespace dotx

open dot

theorem lookup_mono {β : Type} {l l' : List (String × β)} {k : String} {v : β}
    (hp : l <+: l') (h : l.lookup k = some v) : l'.lookup k = some v := by
  obtain ⟨t, rfl⟩ := hp
  induction l with
  | nil => simp [List.lookup] at h
  | cons p rest ih =>
    obtain ⟨k0, v0⟩ := p
    simp only [List.cons_append, List.lookup] at h ⊢
    cases hk : k == k0 with
    | true => simpa [hk] using h
    | false =>
      simp only [hk] at h ⊢
      exact ih h

/-- The loop over the children: each child, processed by a function `f` that satisfies the
contract of `processComposite` for the parent `C`, appends one cluster to `C`, whose nodes
have the ids of the nodes of the inner graph of the child. -/
theorem forEachChild_spec (N0 : Nat) (C : GraphRef) (f : Composite → World → Option World)
    (ok : Composite → Prop)
    (H : ∀ (c : Composite) {W : World}, W.WF → Inv N0 W → N0 ≤ W.graphs.length →
      C < W.graphs.length → c.Graph < W.graphs.length →
      (c.Graph < N0 ∨ W.nodesOf c.Graph = []) →
      (W.subgraphsOf C).lookup c.outerNode.id = none → ok c →
      ∃ W', f c W = some W' ∧ CallPost N0 c C W W')
    (cs : List Composite) :
    ∀ {W : World}, W.WF → Inv N0 W → N0 ≤ W.graphs.length → C < W.graphs.length →
    (∀ c ∈ cs, ok c ∧ c.Graph < W.graphs.length ∧
      (c.Graph < N0 ∨ W.nodesOf c.Graph = []) ∧
      (W.subgraphsOf C).lookup c.outerNode.id = none) →
    (cs.map fun c => c.outerNode.id).Nodup →
    ∃ W' new, forEachChild f cs W = some W' ∧ Frame N0 W.graphs.length C W W' ∧
      W'.subgraphsOf C = W.subgraphsOf C ++ new ∧
      new.map Prod.fst = (cs.map fun c => c.outerNode.id) ∧
      (∀ q ∈ new, ∃ c ∈ cs, c.outerNode.id = q.1 ∧
        ((W'.nodesOf q.2).map fun n => n.id) = ((W.nodesOf c.Graph).map fun n => n.id) ∧
        (W.nodesOf c.Graph = [] → W'.subgraphsOf q.2 = []) ∧
        ∃ a : AttributesMap, W'.headOf q.2 = some (a, [GraphOption.ClusterOption]) ∧
          (W'.attrsOf a).get "label" = Value.str q.1) ∧
      (∀ b : AttributesMap, b.attributes < W.attrs.length →
        (∀ c ∈ cs, ∀ g : GraphRef, c.Graph ≤ g → g < N0 → ∀ n ∈ W.nodesOf g,
          b.attributes ≠ n.attributes) → W'.attrsOf b = W.attrsOf b) := by
  induction cs with
  | nil =>
    intro W hW _ _ _ _ _
    exact ⟨W, [], rfl, Frame.refl_frame hW, by simp, rfl, (fun q hq => by cases hq),
      fun _ _ _ => rfl⟩
  | cons c rest ih =>
    intro W hW hI hN hC hcs hnd
    have hnd' := hnd
    simp only [List.map_cons, List.nodup_cons] at hnd'
    obtain ⟨hok, hg, hin, hfr⟩ := hcs c (List.mem_cons_self _ _)
    obtain ⟨W1, e1, cp⟩ := H c hW hI hN hC hg hin hfr hok
    have hlen : W.graphs.length < W1.graphs.length := World.lt_of_headOf cp.c_head
    obtain ⟨W', new, e2, f2, hs2, hk2, hq2, ha2⟩ :=
      ih cp.frame.wf (cp.frame.inv hI) (le_trans hN cp.frame.graphs_le)
        (lt_of_lt_of_le hC cp.frame.graphs_le)
        (by
          intro x hx
          obtain ⟨xok, xg, xin, xfr⟩ := hcs x (List.mem_cons_of_mem _ hx)
          refine ⟨xok, lt_of_lt_of_le xg cp.frame.graphs_le, ?_, ?_⟩
          · rw [cp.frame.nodes _ xg]; exact xin
          · rw [cp.reg, lookup_append_other _ _ ?_]
            · exact xfr
            · intro h
              exact hnd'.1 (by rw [← h]; exact List.mem_map_of_mem (fun c => c.outerNode.id) hx))
        hnd'.2
    refine ⟨W', (c.outerNode.id, W.graphs.length) :: new, ?_,
      cp.frame.trans_frame (f2.weaken cp.frame.graphs_le (Or.inl rfl)), ?_, ?_, ?_, ?_⟩
    · simp only [forEachChild, e1]
      exact e2
    · rw [hs2, cp.reg, List.append_assoc, List.singleton_append]
    · simp only [List.map_cons, hk2]
    · intro q hq
      rw [List.mem_cons] at hq
      rcases hq with hq | hq
      · subst hq
        refine ⟨c, List.mem_cons_self _ _, rfl, ?_, ?_, { attributes := W.attrs.length }, ?_,
          ?_⟩
        · show ((W'.nodesOf W.graphs.length).map fun n => n.id) = _
          rw [f2.nodes _ hlen]
          exact cp.c_ids
        · intro hnil
          show W'.subgraphsOf W.graphs.length = []
          rw [f2.subs_res _ hN hlen (Nat.ne_of_gt hC)]
          have h1 := cp.c_subs
          rw [hnil] at h1
          exact List.map_eq_nil_iff.mp h1
        · show W'.headOf W.graphs.length = _
          rw [f2.head _ hlen]
          exact cp.c_head
        · rw [f2.cells _ hN hlen _ (Or.inl ⟨_, cp.c_head⟩)]
          exact cp.c_label
      · obtain ⟨x, hx, hxid, hxn, hxl, hxa⟩ := hq2 q hq
        have hxe := cp.frame.nodes _ (hcs x (List.mem_cons_of_mem _ hx)).2.1
        refine ⟨x, List.mem_cons_of_mem _ hx, hxid, ?_, ?_, hxa⟩
        · rw [hxn, hxe]
        · intro hnil
          exact hxl (by rw [hxe]; exact hnil)
    · intro b hb hbn
      rw [ha2 b (lt_of_lt_of_le hb cp.frame.attrs_le) (fun x hx g hg hg0 n hn =>
        hbn x (List.mem_cons_of_mem _ hx) g hg hg0 n
          (by rw [← cp.frame.nodes g (lt_of_lt_of_le hg0 hN)]; exact hn))]
      exact cp.attrs b hb (hbn c (List.mem_cons_self _ _))

end dotx

namespace dotx

open dot

theorem depthBound_pos (N0 : Nat) (r : GraphRef) : 1 ≤ depthBound N0 r := by
  unfold depthBound
  split
  · exact Nat.le_add_left _ _
  · exact le_refl _

theorem depthBound_child {N0 fuel : Nat} {r k : Nat} (hr : r < N0) (hk : r < k)
    (h : depthBound N0 r ≤ fuel + 1) : depthBound N0 k ≤ fuel := by
  unfold depthBound at h ⊢
  rw [if_pos hr] at h
  have h1 : N0 - r ≤ fuel := Nat.le_of_succ_le_succ h
  have h2 : 1 ≤ N0 - r := Nat.sub_pos_of_lt hr
  split
  · rename_i hk0
    have h3 : N0 - k + 1 ≤ N0 - r := by omega
    exact le_trans h3 h1
  · exact le_trans h2 h1

/-- The closure `processComposite` returns when it is given `depthBound` nested calls, and
its result satisfies `CallPost`. -/
theorem processComposite_spec (N0 : Nat) :
    ∀ (fuel : Nat) (comp : Composite) (P : GraphRef) (m : NodeMap) {W : World},
    W.WF → Inv N0 W → N0 ≤ W.graphs.length → N0 ≤ P → P < W.graphs.length →
    comp.Graph < W.graphs.length → (comp.Graph < N0 ∨ W.nodesOf comp.Graph = []) →
    (W.subgraphsOf P).lookup comp.outerNode.id = none → depthBound N0 comp.Graph ≤ fuel →
    ∃ W', processComposite fuel comp P m W = some W' ∧ CallPost N0 comp P W W' := by
  intro fuel
  induction fuel with
  | zero =>
    intro comp P m W _ _ _ _ _ _ _ _ hfuel
    exact absurd (le_trans (depthBound_pos N0 comp.Graph) hfuel) (by decide)
  | succ fuel ih =>
    intro comp P m W hW hI hN hP0 hP hr hin hfresh hfuel
    obtain ⟨W1, W2, W3, e1, e2, e3, f3, hlen3, hreg3, hn3, _, hs3, hh3, hlab3, hfill3, hkeep3,
      hsub3⟩ := cluster_spec N0 comp.outerNode.id hW hP hN hfresh
    have hC3 : W.graphs.length < W3.graphs.length := by rw [hlen3]; exact Nat.lt_succ_self _
    have hr3 : comp.Graph < W3.graphs.length := lt_trans hr hC3
    have hrC : comp.Graph ≠ W.graphs.length := Nat.ne_of_lt hr
    have hL3 : W3.nodesOf comp.Graph = W.nodesOf comp.Graph := f3.nodes _ hr
    obtain ⟨m4, W4, copies, e4, g4, hn4, _, hid4, hc4, _⟩ :=
      copyNodes_spec W.graphs.length (W.nodesOf comp.Graph) [] f3.wf hC3
        (by intro n _ c hc; rw [hn3] at hc; cases hc) (hW.nodes_nodup comp.Graph)
        (fun n hn => lt_of_lt_of_le (hW.node_facts hn).2.2 f3.attrs_le)
    rw [hn3, List.nil_append] at hn4
    have hL4 : W4.nodesOf comp.Graph = W.nodesOf comp.Graph := (g4.nodesOf_ne hrC).trans hL3
    have hC4 : W.graphs.length < W4.graphs.length := by rw [g4.graphs_len]; exact hC3
    have hr4 : comp.Graph < W4.graphs.length := lt_trans hr hC4
    obtain ⟨W5, e5, g5, hn5, hc5⟩ :=
      copyEdges_spec comp.Graph W.graphs.length m4 (W.nodesOf comp.Graph) g4.wf hC4 hr4 hrC
        (fun n hn => by
          obtain ⟨c, _, _, hl, _⟩ := hc4 n hn
          exact ⟨c, hl⟩)
    have g35 := g4.trans g5
    have hC5 : W.graphs.length < W5.graphs.length := by rw [g5.graphs_len]; exact hC4
    have hr5 : comp.Graph < W5.graphs.length := lt_trans hr hC5
    have hL5 : W5.nodesOf comp.Graph = W.nodesOf comp.Graph := (g5.nodesOf_ne hrC).trans hL4
    have hreg35 : ∀ i : GraphRef, i < N0 → ∀ p ∈ W3.subgraphsOf i, p.2 ≠ W.graphs.length := by
      intro i hi p hp
      have hiP : i ≠ P := Nat.ne_of_lt (lt_of_lt_of_le hi hP0)
      rw [hsub3 i (lt_of_lt_of_le hi hN) hiP] at hp
      exact Nat.ne_of_lt (hW.sub_facts hp).2
    have f35 : Frame N0 W.graphs.length P W3 W5 :=
      Frame.of_grow f3.wf g35 (le_refl _) hreg35
    have f05 := f3.trans_frame f35
    have hkeep5 : ∀ a : AttributesMap, a.attributes < W.attrs.length →
        W5.attrsOf a = W.attrsOf a :=
      fun a ha => (g35.attrs_keep a (lt_of_lt_of_le ha f3.attrs_le)).trans (hkeep3 a ha)
    have hN5 : N0 ≤ W5.graphs.length := le_trans hN f05.graphs_le
    have hI5 := f05.inv hI
    obtain ⟨cs, W6, e6, f6, hmap6, hpost6, hsub6, hmark6, hsame6, hcell6⟩ :=
      findChildComposites_spec N0 W.graphs.length comp g5.wf hr5 hN5 (by rw [hL5]; exact hin)
    have hI6 := f6.inv hI5
    have hfilter : (W.nodesOf comp.Graph).filter (hasHref W5) =
        (W.nodesOf comp.Graph).filter (hasHref W) :=
      List.filter_congr (fun n hn => hasHref_congr (hkeep5 _ (hW.node_facts hn).2.2))
    have hids : (cs.map fun c => c.outerNode.id) =
        ((W.nodesOf comp.Graph).filter (hasHref W)).map fun n => n.id := by
      rw [← hfilter, ← hL5, ← hmap6, List.map_map]
      rfl
    have hnd : (cs.map fun c => c.outerNode.id).Nodup := by
      rw [hids]
      exact (hW.nodes_nodup comp.Graph).sublist (List.Sublist.map _ (List.filter_sublist _))
    have hC6 : W.graphs.length < W6.graphs.length := lt_of_lt_of_le hC5 f6.graphs_le
    have hsC6 : W6.subgraphsOf W.graphs.length = [] := by
      rw [hsub6 _ hC5 hN, g35.subgraphsOf_keep, hs3]
    have hchild : ∀ c ∈ cs, comp.Graph < N0 ∧
        (c.outerNode.id, c.Graph) ∈ W6.subgraphsOf comp.Graph ∧ comp.Graph < c.Graph ∧
        c.Graph < W6.graphs.length := by
      intro c hc
      obtain ⟨cp, hr0⟩ := hpost6 c hc
      have hmem := lookup_mem cp.registered
      have hsf := f6.wf.sub_facts hmem
      exact ⟨hr0, hmem, hsf.1, hsf.2⟩
    obtain ⟨W', new, e7, f7, hs7, hk7, hq7, ha7⟩ :=
      forEachChild_spec N0 W.graphs.length
        (fun child X => processComposite fuel child W.graphs.length m4 X)
        (fun c => depthBound N0 c.Graph ≤ fuel)
        (fun c X hX hIX hNX hCX hgX hinX hfrX hokX =>
          ih c W.graphs.length m4 hX hIX hNX hN hCX hgX hinX hfrX hokX)
        cs f6.wf hI6 (le_trans hN5 f6.graphs_le) hC6
        (by
          intro c hc
          obtain ⟨hr0, hmem, hlt, hval⟩ := hchild c hc
          refine ⟨depthBound_child hr0 hlt hfuel, hval, ?_, by rw [hsC6]; rfl⟩
          by_cases h0 : c.Graph < N0
          · exact Or.inl h0
          · exact Or.inr (hI6 comp.Graph hr0 _ hmem (not_lt.mp h0)))
        hnd
    rw [hsC6, List.nil_append] at hs7
    have F56 : Frame N0 W5.graphs.length W.graphs.length W5 W' :=
      f6.trans_frame (f7.weaken f6.graphs_le (Or.inl rfl))
    have hnC : W'.nodesOf W.graphs.length = copies := by
      rw [F56.nodes _ hC5, hn5, hn4]
    have hcell : ∀ a : AttributesMap, W5.Owns W.graphs.length a → W'.attrsOf a = W5.attrsOf a :=
      fun a ha => F56.cells _ hN hC5 a ha
    have hh5 : W5.headOf W.graphs.length =
        some ({ attributes := W.attrs.length }, [GraphOption.ClusterOption]) :=
      (g35.headOf_eq _).trans hh3
    have hcellC : W'.attrsOf { attributes := W.attrs.length } =
        W3.attrsOf { attributes := W.attrs.length } := by
      rw [hcell _ (Or.inl ⟨_, hh5⟩)]
      exact g35.attrs_keep _ (f3.wf.owns_lt (Or.inl ⟨_, hh3⟩))
    have hrP : comp.Graph < N0 → comp.Graph ≠ P :=
      fun h => Nat.ne_of_lt (lt_of_lt_of_le h hP0)
    refine ⟨W', ?_, ?_⟩
    · simp only [processComposite, Node.ID, e1, e2, e3, Graph.FindNodes_eq hr3, hL3, e4,
        Graph.FindNodes_eq hr4, hL4, e5, e6]
      exact e7
    · exact
        { frame := f05.trans_frame (F56.weaken f05.graphs_le (Or.inr (le_refl _)))
          reg := by
            rw [F56.subs_res P hP0 (lt_trans hP hC5) (Nat.ne_of_lt hP), g35.subgraphsOf_keep,
              hreg3]
          c_head := by rw [F56.head _ hC5]; exact hh5
          c_label := by rw [hcellC]; exact hlab3
          c_fill := by rw [hcellC]; exact hfill3
          c_ids := by rw [hnC]; exact hid4
          c_nodes := by
            intro n hn
            obtain ⟨c, hc, hcid, _, _, hattr⟩ := hc4 n hn
            refine ⟨c, by rw [hnC]; exact hc, hcid, ?_⟩
            intro hwf k
            have hn3' : W3.attrsOf n.toAttributesMap = W.attrsOf n.toAttributesMap :=
              hkeep3 _ (hW.node_facts hn).2.2
            have hc4' : c ∈ W4.nodesOf W.graphs.length := by rw [hn4]; exact hc
            have hc5' : c ∈ W5.nodesOf W.graphs.length := by rw [hn5]; exact hc4'
            have h1 := hattr (by rw [hn3']; exact hwf) k
            show (W'.attrsOf c.toAttributesMap).get k = (W.attrsOf n.toAttributesMap).get k
            rw [hcell _ (World.Owns.of_node hc5'),
              g5.attrs_keep _ (g4.wf.node_facts hc4').2.2, ← hn3']
            exact h1
          c_edges := by
            intro e he hfrom hto hne
            have he4 : e ∈ W4.edgesOf comp.Graph := by
              rw [g4.edgesOf_ne hrC, f3.edges _ hr]; exact he
            obtain ⟨e', he', hf, ht, hattr⟩ := hc5 e he4 hfrom hto hne
            obtain ⟨a, ha, haid, hal, _⟩ := hc4 e.fromNode hfrom
            obtain ⟨b, hb, hbid, hbl, _⟩ := hc4 e.toNode hto
            have hfa : e'.fromNode = a := Option.some.inj (hf.symm.trans hal)
            have htb : e'.toNode = b := Option.some.inj (ht.symm.trans hbl)
            have hk4 : W4.attrsOf e.toAttributesMap = W.attrsOf e.toAttributesMap :=
              (g4.attrs_keep _ (lt_of_lt_of_le (hW.edge_lt he) f3.attrs_le)).trans
                (hkeep3 _ (hW.edge_lt he))
            refine ⟨e', by rw [F56.edges _ hC5]; exact he', by rw [hfa, hnC]; exact ha,
              by rw [hfa]; exact haid, by rw [htb, hnC]; exact hb, by rw [htb]; exact hbid, ?_⟩
            intro hwf k
            have h1 := hattr (by rw [hk4]; exact hwf) k
            show (W'.attrsOf e'.toAttributesMap).get k = (W.attrsOf e.toAttributesMap).get k
            rw [hcell _ (World.Owns.of_edge he'), ← hk4]
            exact h1
          c_subs := by rw [hs7, hk7, hids]
          c_fresh := by
            intro q hq hl
            rw [hs7] at hq
            obtain ⟨c, hc, hcq, hnodes, _⟩ := hq7 q hq
            obtain ⟨cp, hr0⟩ := hpost6 c hc
            obtain ⟨_, hmem, _, _⟩ := hchild c hc
            have hs5 : W5.subgraphsOf comp.Graph = W.subgraphsOf comp.Graph :=
              (g35.subgraphsOf_keep _).trans (hsub3 _ hr (hrP hr0))
            have hge : W5.graphs.length ≤ c.Graph :=
              cp.fresh (by rw [hs5, hcq]; exact hl)
            have hnil := hI6 comp.Graph hr0 _ hmem (le_trans hN5 hge)
            rw [hnil] at hnodes
            exact List.map_eq_nil_iff.mp hnodes
          c_found := by
            intro q hq K hl
            rw [hs7] at hq
            obtain ⟨c, hc, hcq, hnodes, _⟩ := hq7 q hq
            obtain ⟨cp, hr0⟩ := hpost6 c hc
            have hs5 : W5.subgraphsOf comp.Graph = W.subgraphsOf comp.Graph :=
              (g35.subgraphsOf_keep _).trans (hsub3 _ hr (hrP hr0))
            have hK : c.Graph = K := cp.found K (by rw [hs5, hcq]; exact hl)
            have hKlt : K < W.graphs.length := (hW.sub_facts (lookup_mem hl)).2
            rw [hnodes, hK, f6.nodes K (lt_trans hKlt hC5), f05.nodes K hKlt]
          c_nested := by
            intro q hq
            rw [hs7] at hq
            obtain ⟨_, _, _, _, _, ha⟩ := hq7 q hq
            exact ha
          c_leaf := by
            intro q hq hl
            rw [hs7] at hq
            obtain ⟨c, hc, hcq, _, hleaf, _⟩ := hq7 q hq
            obtain ⟨cp, hr0⟩ := hpost6 c hc
            obtain ⟨_, hmem, _, _⟩ := hchild c hc
            have hs5 : W5.subgraphsOf comp.Graph = W.subgraphsOf comp.Graph :=
              (g35.subgraphsOf_keep _).trans (hsub3 _ hr (hrP hr0))
            have hge : W5.graphs.length ≤ c.Graph :=
              cp.fresh (by rw [hs5, hcq]; exact hl)
            exact hleaf (hI6 comp.Graph hr0 _ hmem (le_trans hN5 hge))
          attrs := by
            intro b hb hbn
            have hb5 : b.attributes < W5.attrs.length := lt_of_lt_of_le hb f05.attrs_le
            have h56 : W6.attrsOf b = W5.attrsOf b := hcell6 b hb5 (by
              intro n hn
              rw [hL5] at hn
              rcases hin with h0 | hnil
              · exact hbn comp.Graph (le_refl _) h0 n hn
              · rw [hnil] at hn; cases hn)
            have h67 : W'.attrsOf b = W6.attrsOf b :=
              ha7 b (lt_of_lt_of_le hb5 f6.attrs_le) (by
                intro c hc g hg hg0 n hn
                obtain ⟨_, _, hlt, _⟩ := hchild c hc
                have hgl : g < W.graphs.length := lt_of_lt_of_le hg0 hN
                rw [f6.nodes g (lt_trans hgl hC5), f05.nodes g hgl] at hn
                exact hbn g (le_trans (le_of_lt hlt) hg) hg0 n hn)
            rw [h67, h56]
            exact hkeep5 b hb
          in_reg := by
            intro n hn hh
            have hn5' : n ∈ (W5.nodesOf comp.Graph).filter (hasHref W5) := by
              rw [hL5, hfilter]
              exact List.mem_filter.mpr ⟨hn, hh⟩
            rw [← hmap6] at hn5'
            obtain ⟨c, hc, hco⟩ := List.mem_map.mp hn5'
            obtain ⟨cp, hr0⟩ := hpost6 c hc
            obtain ⟨_, _, _, hval⟩ := hchild c hc
            have hs5 : W5.subgraphsOf comp.Graph = W.subgraphsOf comp.Graph :=
              (g35.subgraphsOf_keep _).trans (hsub3 _ hr (hrP hr0))
            refine ⟨c.Graph, ?_, ?_, ?_⟩
            · have h1 := lookup_mono (f7.subs_mono comp.Graph) cp.registered
              rw [hco] at h1
              exact h1
            · intro K hK
              exact cp.found K (by rw [hs5, hco]; exact hK)
            · intro hl
              have hl5 : (W5.subgraphsOf comp.Graph).lookup c.outerNode.id = none := by
                rw [hs5, hco]; exact hl
              refine ⟨le_trans (le_of_lt hC5) (cp.fresh hl5), ?_⟩
              obtain ⟨a, ha⟩ := cp.cluster hl5
              exact ⟨a, by rw [f7.head _ hval]; exact ha⟩
          in_marks := by
            intro n hn hh
            have hn5 : n ∈ W5.nodesOf comp.Graph := by rw [hL5]; exact hn
            have hh5' : hasHref W5 n = true := by
              rw [hasHref_congr (hkeep5 _ (hW.node_facts hn).2.2)]; exact hh
            obtain ⟨m1, m2⟩ := hmark6 n hn5 hh5'
            have hn6 : n ∈ W6.nodesOf comp.Graph := by rw [f6.nodes _ hr5]; exact hn5
            have hk : W'.attrsOf n.toAttributesMap = W6.attrsOf n.toAttributesMap :=
              ha7 _ (f6.wf.node_facts hn6).2.2 (by
                intro c hc g hg hg0 m hm
                obtain ⟨_, _, hlt, _⟩ := hchild c hc
                exact f6.wf.node_attr_cross hn6 hm (Nat.ne_of_lt (lt_of_lt_of_le hlt hg)))
            constructor
            · show (W'.attrsOf n.toAttributesMap).get "shape" = _
              rw [hk]; exact m1
            · show (W'.attrsOf n.toAttributesMap).get "href" = _
              rw [hk]; exact m2
          in_same := by
            intro hall
            have hall5 : ∀ n ∈ W5.nodesOf comp.Graph, hasHref W5 n = false := by
              intro n hn
              rw [hL5] at hn
              rw [hasHref_congr (hkeep5 _ (hW.node_facts hn).2.2)]
              exact hall n hn
            obtain ⟨hcs, hW6⟩ := hsame6 hall5
            have hW' : W' = W5 := by
              rw [hcs, hW6] at e7
              simp only [forEachChild, Option.some.injEq] at e7
              exact e7.symm
            refine ⟨fun b hb => by rw [hW']; exact hkeep5 b hb, fun g hg hgP => ?_⟩
            rw [hW', g35.subgraphsOf_keep]
            exact hsub3 g hg hgP }

end dotx

namespace dotx

open dot

/-- Go `ConvertExternalToSameGraph(root)` returns, given more nested calls than the heap
has graphs, and its result satisfies `ConvertPost`. -/
theorem ConvertExternalToSameGraph_spec (fuel : Nat) (root : Composite) {W : World}
    (hW : W.WF) (hog : root.outerGraph < W.graphs.length) (hig : root.Graph < W.graphs.length)
    (hfuel : W.graphs.length < fuel) :
    ∃ W', ConvertExternalToSameGraph fuel root W = some (W.graphs.length, W') ∧
      ConvertPost root W W' := by
  have hp0 := NewGraph_spec [GraphOption.Directed] hW
  cases hN : NewGraph [GraphOption.Directed] W with
  | mk T W0 =>
  rw [hN] at hp0
  simp only at hp0
  have hT : T = W.graphs.length := hp0.ref_eq
  subst hT
  have hlen0 : W0.graphs.length = W.graphs.length + 1 := hp0.graphs_len
  have hhead0 : ∀ g : GraphRef, g < W.graphs.length → W0.headOf g = W.headOf g := by
    intro g hg
    have hW0 : W0 = (NewGraph [GraphOption.Directed] W).2 := by rw [hN]
    rw [hW0]
    simp only [NewGraph, World.headOf, List.getElem?_append_left hg]
  have hT0 : W.graphs.length < W0.graphs.length := by rw [hlen0]; exact Nat.lt_succ_self _
  have hogT : root.outerGraph ≠ W.graphs.length := Nat.ne_of_lt hog
  have higT : root.Graph ≠ W.graphs.length := Nat.ne_of_lt hig
  have hnT0 : W0.nodesOf W.graphs.length = [] := by rw [World.nodesOf_eq hp0.graph_eq]
  have hsT0 : W0.subgraphsOf W.graphs.length = [] := by rw [World.subgraphsOf_eq hp0.graph_eq]
  have hhT0 : W0.headOf W.graphs.length =
      some ({ attributes := W.attrs.length }, [GraphOption.Directed]) := by
    simp [World.headOf, hp0.graph_eq]
  obtain ⟨m1, W1, copies, e1, g1, hn1, _, hid1, hc1, _⟩ :=
    copyNodes_spec W.graphs.length (W.nodesOf root.outerGraph) [] hp0.wf hT0
      (by intro n _ c hc; rw [hnT0] at hc; cases hc) (hW.nodes_nodup root.outerGraph)
      (fun n hn => lt_of_lt_of_le (hW.node_facts hn).2.2 hp0.attrs_le)
  rw [hnT0, List.nil_append] at hn1
  have hT1 : W.graphs.length < W1.graphs.length := by rw [g1.graphs_len]; exact hT0
  have hL1 : W1.nodesOf root.outerGraph = W.nodesOf root.outerGraph :=
    (g1.nodesOf_ne hogT).trans (hp0.nodes _ hog)
  obtain ⟨W2, e2, g2, hn2, hc2⟩ :=
    copyEdges_spec root.outerGraph W.graphs.length m1 (W.nodesOf root.outerGraph) g1.wf hT1
      (lt_trans hog hT1) hogT
      (fun n hn => by
        obtain ⟨c, _, _, hl, _⟩ := hc1 n hn
        exact ⟨c, hl⟩)
  have g12 := g1.trans g2
  have hlen2 : W2.graphs.length = W.graphs.length + 1 := g12.graphs_len.trans hlen0
  have hT2 : W.graphs.length < W2.graphs.length := by rw [hlen2]; exact Nat.lt_succ_self _
  have hkeep2 : ∀ a : AttributesMap, a.attributes < W.attrs.length →
      W2.attrsOf a = W.attrsOf a :=
    fun a ha => (g12.attrs_keep a (lt_of_lt_of_le ha hp0.attrs_le)).trans (hp0.attrs_keep a ha)
  have hnodes2 : ∀ g : GraphRef, g < W.graphs.length → W2.nodesOf g = W.nodesOf g :=
    fun g hg => (g12.nodesOf_ne (Nat.ne_of_lt hg)).trans (hp0.nodes g hg)
  have hedges2 : ∀ g : GraphRef, g < W.graphs.length → W2.edgesOf g = W.edgesOf g :=
    fun g hg => (g12.edgesOf_ne (Nat.ne_of_lt hg)).trans (hp0.edges g hg)
  have hsubs2 : ∀ g : GraphRef, g < W.graphs.length → W2.subgraphsOf g = W.subgraphsOf g :=
    fun g hg => (g12.subgraphsOf_keep g).trans (hp0.subs g hg)
  have hI2 : Inv W.graphs.length W2 := by
    intro i hi p hp hp0'
    rw [hsubs2 i hi] at hp
    exact absurd (hW.sub_facts hp).2 (not_lt.mpr hp0')
  obtain ⟨W', e3, cp⟩ :=
    processComposite_spec W.graphs.length fuel root W.graphs.length m1 g12.wf hI2
      (le_of_lt hT2) (le_refl _) hT2 (lt_trans hig hT2) (Or.inl hig)
      (by rw [g12.subgraphsOf_keep, hsT0]; rfl)
      (by
        unfold depthBound
        rw [if_pos hig]
        exact le_trans (Nat.succ_le_succ (Nat.sub_le _ _)) hfuel)
  have hnT : W'.nodesOf W.graphs.length = copies := by
    rw [cp.frame.nodes _ hT2, hn2, hn1]
  have hcell : ∀ a : AttributesMap, W2.Owns W.graphs.length a → W'.attrsOf a = W2.attrsOf a :=
    fun a ha => cp.frame.cells _ (le_refl _) hT2 a ha
  have hfilter : (W.nodesOf root.Graph).filter (hasHref W2) =
      (W.nodesOf root.Graph).filter (hasHref W) :=
    List.filter_congr (fun n hn => hasHref_congr (hkeep2 _ (hW.node_facts hn).2.2))
  refine ⟨W', ?_, ?_⟩
  · simp only [ConvertExternalToSameGraph, hN, Graph.FindNodes_eq (lt_trans hog hT0),
      hp0.nodes _ hog, e1, Graph.FindNodes_eq (lt_trans hog hT1), hL1, e2, e3]
  · exact
      { wf := cp.frame.wf
        old_nodes := fun g hg => (cp.frame.nodes g (lt_trans hg hT2)).trans (hnodes2 g hg)
        old_edges := fun g hg => (cp.frame.edges g (lt_trans hg hT2)).trans (hedges2 g hg)
        t_head := by rw [cp.frame.head _ hT2, g12.headOf_eq]; exact hhT0
        t_ids := by rw [hnT]; exact hid1
        t_nodes := by
          intro n hn
          obtain ⟨c, hc, hcid, _, _, hattr⟩ := hc1 n hn
          refine ⟨c, by rw [hnT]; exact hc, hcid, ?_⟩
          intro hwf k
          have hn0 : W0.attrsOf n.toAttributesMap = W.attrsOf n.toAttributesMap :=
            hp0.attrs_keep _ (hW.node_facts hn).2.2
          have hc1' : c ∈ W1.nodesOf W.graphs.length := by rw [hn1]; exact hc
          have hc2' : c ∈ W2.nodesOf W.graphs.length := by rw [hn2]; exact hc1'
          have h1 := hattr (by rw [hn0]; exact hwf) k
          show (W'.attrsOf c.toAttributesMap).get k = (W.attrsOf n.toAttributesMap).get k
          rw [hcell _ (World.Owns.of_node hc2'),
            g2.attrs_keep _ (g1.wf.node_facts hc1').2.2, ← hn0]
          exact h1
        t_edges := by
          intro e he hfrom hto hne
          have he1 : e ∈ W1.edgesOf root.outerGraph := by
            rw [g1.edgesOf_ne hogT, hp0.edges _ hog]; exact he
          obtain ⟨e', he', hf, ht, hattr⟩ := hc2 e he1 hfrom hto hne
          obtain ⟨a, ha, haid, hal, _⟩ := hc1 e.fromNode hfrom
          obtain ⟨b, hb, hbid, hbl, _⟩ := hc1 e.toNode hto
          have hfa : e'.fromNode = a := Option.some.inj (hf.symm.trans hal)
          have htb : e'.toNode = b := Option.some.inj (ht.symm.trans hbl)
          have hk1 : W1.attrsOf e.toAttributesMap = W.attrsOf e.toAttributesMap :=
            (g1.attrs_keep _ (lt_of_lt_of_le (hW.edge_lt he) hp0.attrs_le)).trans
              (hp0.attrs_keep _ (hW.edge_lt he))
          refine ⟨e', by rw [cp.frame.edges _ hT2]; exact he', by rw [hfa, hnT]; exact ha,
            by rw [hfa]; exact haid, by rw [htb, hnT]; exact hb, by rw [htb]; exact hbid, ?_⟩
          intro hwf k
          have h1 := hattr (by rw [hk1]; exact hwf) k
          show (W'.attrsOf e'.toAttributesMap).get k = (W.attrsOf e.toAttributesMap).get k
          rw [hcell _ (World.Owns.of_edge he'), ← hk1]
          exact h1
        t_subs := by rw [cp.reg, g12.subgraphsOf_keep, hsT0, hlen2]; rfl
        c_head := ⟨_, by rw [← hlen2]; exact cp.c_head, cp.c_label, cp.c_fill⟩
        c_ids := by rw [← hlen2, cp.c_ids, hnodes2 _ hig]
        c_nodes := by
          intro n hn
          obtain ⟨c, hc, hcid, hattr⟩ := cp.c_nodes n (by rw [hnodes2 _ hig]; exact hn)
          have hn2' : W2.attrsOf n.toAttributesMap = W.attrsOf n.toAttributesMap :=
            hkeep2 _ (hW.node_facts hn).2.2
          refine ⟨c, by rw [← hlen2]; exact hc, hcid, ?_⟩
          intro hwf k
          rw [hattr (by rw [hn2']; exact hwf) k]
          show (W2.attrsOf n.toAttributesMap).get k = (W.attrsOf n.toAttributesMap).get k
          rw [hn2']
        c_edges := by
          intro e he hfrom hto hne
          obtain ⟨e', he', h1, h2, h3, h4, hattr⟩ :=
            cp.c_edges e (by rw [hedges2 _ hig]; exact he) (by rw [hnodes2 _ hig]; exact hfrom)
              (by rw [hnodes2 _ hig]; exact hto) hne
          have he2' : W2.attrsOf e.toAttributesMap = W.attrsOf e.toAttributesMap :=
            hkeep2 _ (hW.edge_lt he)
          refine ⟨e', by rw [← hlen2]; exact he', by rw [← hlen2]; exact h1, h2,
            by rw [← hlen2]; exact h3, h4, ?_⟩
          intro hwf k
          rw [hattr (by rw [he2']; exact hwf) k]
          show (W2.attrsOf e.toAttributesMap).get k = (W.attrsOf e.toAttributesMap).get k
          rw [he2']
        c_subs := by rw [← hlen2, cp.c_subs, hnodes2 _ hig, hfilter]
        c_fresh := by
          intro q hq hl
          rw [← hlen2] at hq
          exact cp.c_fresh q hq (by rw [hsubs2 _ hig]; exact hl)
        c_found := by
          intro q hq K hl
          rw [← hlen2] at hq
          rw [cp.c_found q hq K (by rw [hsubs2 _ hig]; exact hl),
            hnodes2 K (hW.sub_facts (lookup_mem hl)).2]
        c_nested := by
          intro q hq
          rw [← hlen2] at hq
          exact cp.c_nested q hq
        old_head := fun g hg => by
          rw [cp.frame.head g (lt_trans hg hT2), g12.headOf_eq]
          exact hhead0 g hg
        c_leaf := by
          intro q hq hl
          rw [← hlen2] at hq
          exact cp.c_leaf q hq (by rw [hsubs2 _ hig]; exact hl)
        in_reg := by
          intro n hn hh
          obtain ⟨r, h1, h2, h3⟩ := cp.in_reg n (by rw [hnodes2 _ hig]; exact hn)
            (by rw [hasHref_congr (hkeep2 _ (hW.node_facts hn).2.2)]; exact hh)
          refine ⟨r, h1, fun K hK => h2 K (by rw [hsubs2 _ hig]; exact hK), fun hl => ?_⟩
          obtain ⟨h4, h5⟩ := h3 (by rw [hsubs2 _ hig]; exact hl)
          exact ⟨le_trans (le_of_lt hT2) h4, h5⟩
        in_marks := by
          intro n hn hh
          exact cp.in_marks n (by rw [hnodes2 _ hig]; exact hn)
            (by rw [hasHref_congr (hkeep2 _ (hW.node_facts hn).2.2)]; exact hh)
        in_same := by
          intro hall
          obtain ⟨ha, hs⟩ := cp.in_same (by
            intro n hn
            rw [hnodes2 _ hig] at hn
            rw [hasHref_congr (hkeep2 _ (hW.node_facts hn).2.2)]
            exact hall n hn)
          refine ⟨fun b hb => ?_, fun g hg => ?_⟩
          · rw [ha b (lt_of_lt_of_le hb (le_trans hp0.attrs_le g12.attrs_le))]
            exact hkeep2 b hb
          · rw [hs g (lt_trans hg hT2) (Nat.ne_of_lt hg)]
            exact hsubs2 g hg }

end dotx

namespace dotx

open dot

theorem exConvBuild_eq : exConvBuild = some (exConvRoot, exConvChild, exConvWorld) := by
  decide

theorem exConvWorld_wf : exConvWorld.WF := World.WF_of_check (by decide)

theorem exLoopBuild_eq : exLoopBuild = some (exLoopRoot, exLoopWorld) := by decide

theorem exLoopWorld_wf : exLoopWorld.WF := World.WF_of_check (by decide)

end dotx

namespace dot

theorem World.AttrsWF.attrsOf {W : World} (h : W.AttrsWF) (a : AttributesMap) :
    Attrs.WF (W.attrsOf a) := by
  unfold World.attrsOf
  cases hm : W.attrs[a.attributes]? with
  | none => exact ⟨List.nodup_nil, List.not_mem_nil _⟩
  | some m => exact h m (List.getElem?_mem hm)

theorem World.graph_of_headOf {W : World} {g : GraphRef} {a : AttributesMap}
    {o : List GraphOption} (h : W.headOf g = some (a, o)) :
    ∃ G, W.graphs[g]? = some G ∧ G.toAttributesMap = a ∧ G.options = o := by
  unfold World.headOf at h
  cases hG : W.graphs[g]? with
  | none => simp [hG] at h
  | some G =>
    simp only [hG, Option.some.injEq, Prod.mk.injEq] at h
    exact ⟨G, rfl, h.1, h.2⟩

end dot

namespace dotx

open dot

theorem Composite.WF.bounds {W : World} {s : Composite} (hW : W.WF) (hs : s.WF W) :
    s.outerGraph < W.graphs.length ∧ s.Graph < W.graphs.length :=
  ⟨(hW.node_facts hs.1).2.1, hs.2.1⟩

/-- C13: `ConvertExternalToSameGraph` copies the nodes of the root's outer graph.  For a
root composite of a well-formed heap whose attribute maps are as `SetAttribute` builds them,
the conversion returns (given more nested calls than the heap has graphs); the nodes
enumerated from the returned graph have, in order, the ids of the nodes enumerated from the
outer graph of the root, and every enumerated node of the outer graph has a copy among them
with the same id that reads the same value as the original under every attribute name. -/
theorem C13_top_level_nodes (fuel : Nat) (root : Composite) (W : World) (hW : W.WF)
    (hA : W.AttrsWF) (hs : root.WF W) (hfuel : W.graphs.length < fuel) :
    ∃ T W' found placed, ConvertExternalToSameGraph fuel root W = some (T, W') ∧
      Graph.FindNodes root.outerGraph W = some found ∧
      Graph.FindNodes T W' = some placed ∧
      placed.map Node.ID = found.map Node.ID ∧
      ∀ n ∈ found, ∃ c ∈ placed, c.ID = n.ID ∧
        ∀ name, c.Attribute name W' = n.Attribute name W := by
  obtain ⟨hog, hig⟩ := Composite.WF.bounds hW hs
  obtain ⟨W', e, cp⟩ := ConvertExternalToSameGraph_spec fuel root hW hog hig hfuel
  refine ⟨W.graphs.length, W', W.nodesOf root.outerGraph, W'.nodesOf W.graphs.length, e,
    Graph.FindNodes_eq hog, Graph.FindNodes_eq (World.lt_of_headOf cp.t_head), cp.t_ids, ?_⟩
  intro n hn
  obtain ⟨c, hc, hid, hattr⟩ := cp.t_nodes n hn
  exact ⟨c, hc, hid, hattr (hA.attrsOf _)⟩

/-- Witness of C13: the conversion of the composite `subsystem` of `exConvBuild`. -/
theorem C13_top_level_nodes_witness :
    ∃ T W' found placed, ConvertExternalToSameGraph 4 exConvRoot exConvWorld = some (T, W') ∧
      Graph.FindNodes exConvRoot.outerGraph exConvWorld = some found ∧
      Graph.FindNodes T W' = some placed ∧
      placed.map Node.ID = found.map Node.ID ∧
      ∀ n ∈ found, ∃ c ∈ placed, c.ID = n.ID ∧
        ∀ name, c.Attribute name W' = n.Attribute name exConvWorld :=
  C13_top_level_nodes 4 exConvRoot exConvWorld exConvWorld_wf (by decide) (by decide)
    (by decide)

/-- C15: the cluster of the root.  For a root composite of a well-formed heap whose
attribute maps are as `SetAttribute` builds them, the conversion returns a graph that has a
subgraph registered under the id of the root's outer node; that subgraph is flagged as a
cluster and its `label` attribute is that id; every node of the root's inner graph has a
copy in the cluster with the same id and the same value under every attribute name; and
every edge of the inner graph between two different nodes of the inner graph has a copy in
the cluster, from the copy of its from-node to the copy of its to-node, with the same value
under every attribute name. -/
theorem C15_root_cluster (fuel : Nat) (root : Composite) (W : World) (hW : W.WF)
    (hA : W.AttrsWF) (hs : root.WF W) (hfuel : W.graphs.length < fuel) :
    ∃ T W' C G, ConvertExternalToSameGraph fuel root W = some (T, W') ∧
      (W'.subgraphsOf T).lookup root.OuterNode.ID = some C ∧
      W'.graphs[C]? = some G ∧ G.isCluster = true ∧
      G.toAttributesMap.Value "label" W' = Value.str root.OuterNode.ID ∧
      (∀ n ∈ W.nodesOf root.Graph, ∃ c ∈ W'.nodesOf C, c.ID = n.ID ∧
        ∀ name, c.Attribute name W' = n.Attribute name W) ∧
      (∀ e ∈ W.edgesOf root.Graph, e.From ∈ W.nodesOf root.Graph →
        e.To ∈ W.nodesOf root.Graph → e.From ≠ e.To →
        ∃ e' ∈ W'.edgesOf C,
          e'.From ∈ W'.nodesOf C ∧ e'.From.ID = e.From.ID ∧
          e'.To ∈ W'.nodesOf C ∧ e'.To.ID = e.To.ID ∧
          ∀ name, e'.Attribute name W' = e.Attribute name W) := by
  obtain ⟨hog, hig⟩ := Composite.WF.bounds hW hs
  obtain ⟨W', e, cp⟩ := ConvertExternalToSameGraph_spec fuel root hW hog hig hfuel
  obtain ⟨a, hh, hlabel, _⟩ := cp.c_head
  obtain ⟨G, hG, hGa, hGo⟩ := World.graph_of_headOf hh
  refine ⟨W.graphs.length, W', W.graphs.length + 1, G, e, ?_, hG, ?_, ?_, ?_, ?_⟩
  · rw [cp.t_subs]
    exact lookup_cons_self _ _ _
  · simp [Graph.isCluster, hGo]
  · show (W'.attrsOf G.toAttributesMap).get "label" = _
    rw [hGa]
    exact hlabel
  · intro n hn
    obtain ⟨c, hc, hid, hattr⟩ := cp.c_nodes n hn
    exact ⟨c, hc, hid, hattr (hA.attrsOf _)⟩
  · intro x hx hf ht hne
    obtain ⟨x', hx', h1, h2, h3, h4, hattr⟩ := cp.c_edges x hx hf ht hne
    exact ⟨x', hx', h1, h2, h3, h4, hattr (hA.attrsOf _)⟩

/-- Witness of C15: the conversion of the composite `subsystem` of `exConvBuild`, whose
inner graph has the edge from `subcomponent 1` to `subcomponent 2`. -/
theorem C15_root_cluster_witness :
    ∃ T W' C G, ConvertExternalToSameGraph 4 exConvRoot exConvWorld = some (T, W') ∧
      (W'.subgraphsOf T).lookup exConvRoot.OuterNode.ID = some C ∧
      W'.graphs[C]? = some G ∧ G.isCluster = true ∧
      G.toAttributesMap.Value "label" W' = Value.str exConvRoot.OuterNode.ID ∧
      (∀ n ∈ exConvWorld.nodesOf exConvRoot.Graph, ∃ c ∈ W'.nodesOf C, c.ID = n.ID ∧
        ∀ name, c.Attribute name W' = n.Attribute name exConvWorld) ∧
      (∀ e ∈ exConvWorld.edgesOf exConvRoot.Graph, e.From ∈ exConvWorld.nodesOf exConvRoot.Graph →
        e.To ∈ exConvWorld.nodesOf exConvRoot.Graph → e.From ≠ e.To →
        ∃ e' ∈ W'.edgesOf C,
          e'.From ∈ W'.nodesOf C ∧ e'.From.ID = e.From.ID ∧
          e'.To ∈ W'.nodesOf C ∧ e'.To.ID = e.To.ID ∧
          ∀ name, e'.Attribute name W' = e.Attribute name exConvWorld) :=
  C15_root_cluster 4 exConvRoot exConvWorld exConvWorld_wf (by decide) (by decide)
    (by decide)

end dotx

namespace dotx

open dot

theorem hasHref_iff (W : World) (n : dot.Node) :
    hasHref W n = true ↔ ∃ h : String, n.Attribute "href" W = Value.str h ∧ h ≠ "" := by
  unfold hasHref AttributesMap.Attributes Node.Attribute
  cases hv : (W.attrsOf n.toAttributesMap).get "href" with
  | nil => simp
  | str h => simp
  | int i => simp
  | bool b => simp

/-- C16: child discovery is attribute-driven.  For a composite `c` of a well-formed heap,
`findChildComposites(c)` returns, in the order of the nodes of the inner graph of `c`, one
composite for each node whose `href` attribute is a non-empty string and none for another
node; the composite has that node as outer node, so the id of the node as name, the inner
graph of `c` as outer graph, and the kind SameGraph.  The conversion of `c` returns, and
the subgraphs of the cluster of `c` in its result are clusters registered under the ids of
exactly those nodes, one each, labelled with the id. -/
theorem C16_child_discovery (fuel : Nat) (c : Composite) (W : World) (hW : W.WF)
    (hs : c.WF W) (hfuel : W.graphs.length < fuel) :
    (∀ n : dot.Node, hasHref W n = true ↔
      ∃ h : String, n.Attribute "href" W = Value.str h ∧ h ≠ "") ∧
    (∃ children W1, findChildComposites c W = some (children, W1) ∧
      children.map Composite.OuterNode = (W.nodesOf c.Graph).filter (hasHref W) ∧
      (children.map fun x => x.OuterNode.ID).Nodup ∧
      ∀ x ∈ children, x.kind = SameGraph ∧ x.outerGraph = c.Graph) ∧
    (∃ T W' C, ConvertExternalToSameGraph fuel c W = some (T, W') ∧
      (W'.subgraphsOf T).lookup c.OuterNode.ID = some C ∧
      (W'.subgraphsOf C).map Prod.fst =
        ((W.nodesOf c.Graph).filter (hasHref W)).map Node.ID ∧
      ∀ q ∈ W'.subgraphsOf C, ∃ G, W'.graphs[q.2]? = some G ∧ G.isCluster = true ∧
        G.toAttributesMap.Value "label" W' = Value.str q.1) := by
  obtain ⟨hog, hig⟩ := Composite.WF.bounds hW hs
  refine ⟨hasHref_iff W, ?_, ?_⟩
  · obtain ⟨cs, W1, e, _, hmap, hpost, _⟩ :=
      findChildComposites_spec W.graphs.length 0 c hW hig (le_refl _) (Or.inl hig)
    refine ⟨cs, W1, e, hmap, ?_, fun x hx => ⟨(hpost x hx).1.kind_eq, (hpost x hx).1.outerGraph_eq⟩⟩
    have hids : (cs.map fun x => x.OuterNode.ID) =
        ((W.nodesOf c.Graph).filter (hasHref W)).map fun n => n.id := by
      rw [← hmap, List.map_map]
      rfl
    rw [hids]
    exact (hW.nodes_nodup c.Graph).sublist (List.Sublist.map _ (List.filter_sublist _))
  · obtain ⟨W', e, cp⟩ := ConvertExternalToSameGraph_spec fuel c hW hog hig hfuel
    refine ⟨W.graphs.length, W', W.graphs.length + 1, e, ?_, cp.c_subs, ?_⟩
    · rw [cp.t_subs]
      exact lookup_cons_self _ _ _
    · intro q hq
      obtain ⟨a, hh, hlabel⟩ := cp.c_nested q hq
      obtain ⟨G, hG, hGa, hGo⟩ := World.graph_of_headOf hh
      refine ⟨G, hG, by simp [Graph.isCluster, hGo], ?_⟩
      show (W'.attrsOf G.toAttributesMap).get "label" = _
      rw [hGa]
      exact hlabel

end dotx

namespace dotx

open dot

/-- Witness of C16: the composite `subsystem` of `exConvBuild`, whose inner graph has one
node with an `href`, the outer node of `subsystem2`. -/
theorem C16_child_discovery_witness :
    (∀ n : dot.Node, hasHref exConvWorld n = true ↔
      ∃ h : String, n.Attribute "href" exConvWorld = Value.str h ∧ h ≠ "") ∧
    (∃ children W1, findChildComposites exConvRoot exConvWorld = some (children, W1) ∧
      children.map Composite.OuterNode =
        (exConvWorld.nodesOf exConvRoot.Graph).filter (hasHref exConvWorld) ∧
      (children.map fun x => x.OuterNode.ID).Nodup ∧
      ∀ x ∈ children, x.kind = SameGraph ∧ x.outerGraph = exConvRoot.Graph) ∧
    (∃ T W' C, ConvertExternalToSameGraph 4 exConvRoot exConvWorld = some (T, W') ∧
      (W'.subgraphsOf T).lookup exConvRoot.OuterNode.ID = some C ∧
      (W'.subgraphsOf C).map Prod.fst =
        ((exConvWorld.nodesOf exConvRoot.Graph).filter (hasHref exConvWorld)).map Node.ID ∧
      ∀ q ∈ W'.subgraphsOf C, ∃ G, W'.graphs[q.2]? = some G ∧ G.isCluster = true ∧
        G.toAttributesMap.Value "label" W' = Value.str q.1) :=
  C16_child_discovery 4 exConvRoot exConvWorld exConvWorld_wf (by decide) (by decide)

end dotx

namespace dotx

open dot

/-- Counterexample to C17 as stated: in the heap of `exConvBuild` the ExternalGraph
composite `subsystem` holds the outer node of the ExternalGraph composite `subsystem2`,
whose inner graph has the node `subcomponent 3`.  The conversion of `subsystem` returns
graph 3 with the cluster 4 of `subsystem`, which has the one nested cluster 6; the nested
cluster has no node, and no graph of the result has a node `subcomponent 3`. -/
theorem C17_nested_scenario_counterexample :
    exConvBuild = some (exConvRoot, exConvChild, exConvWorld) ∧
    exConvRoot.kind = ExternalGraph ∧ exConvChild.kind = ExternalGraph ∧
    exConvChild.OuterNode ∈ exConvWorld.nodesOf exConvRoot.Graph ∧
    (exConvWorld.nodesOf exConvChild.Graph).map Node.ID = ["subcomponent 3"] ∧
    (ConvertExternalToSameGraph 4 exConvRoot exConvWorld).map
        (fun r =>
          (r.1, r.2.subgraphsOf 3, r.2.subgraphsOf 4, r.2.subgraphsOf 6,
           (r.2.nodesOf 3).map Node.ID, (r.2.nodesOf 4).map Node.ID,
           (r.2.nodesOf 6).map Node.ID)) =
      some (3, [("subsystem", 4)], [("subsystem2", 6)], [],
        ["component", "subsystem"],
        ["in1", "subcomponent 1", "subcomponent 2", "subsystem2"], []) := by
  refine ⟨by decide, rfl, rfl, by decide, rfl, ?_⟩
  rfl

/-- C17, amended: the nested cluster of a child that has no subgraph of its own in the
root's inner graph is empty.  For a root composite of a well-formed heap whose inner graph
has one node with an `href`, the outer node of the composite `child`, and no subgraph
registered under the id of that node (as when `child` is an ExternalGraph composite), the
conversion returns a graph in which the cluster of the root has exactly one subgraph: a
cluster registered under the id of the child's outer node and labelled with it, which has
no node.  The inner graph of the child keeps its nodes, and none of them has a copy in the
nested cluster. -/
theorem C17_nested_cluster_empty (fuel : Nat) (root child : Composite) (W : World)
    (hW : W.WF) (hs : root.WF W) (hc : child.Graph < W.graphs.length)
    (hone : (W.nodesOf root.Graph).filter (hasHref W) = [child.OuterNode])
    (hnone : (W.subgraphsOf root.Graph).lookup child.OuterNode.ID = none)
    (hfuel : W.graphs.length < fuel) :
    ∃ T W' C N G, ConvertExternalToSameGraph fuel root W = some (T, W') ∧
      (W'.subgraphsOf T).lookup root.OuterNode.ID = some C ∧
      W'.subgraphsOf C = [(child.OuterNode.ID, N)] ∧
      W'.graphs[N]? = some G ∧ G.isCluster = true ∧
      G.toAttributesMap.Value "label" W' = Value.str child.OuterNode.ID ∧
      W'.nodesOf N = [] ∧
      W'.nodesOf child.Graph = W.nodesOf child.Graph ∧
      ∀ x ∈ W.nodesOf child.Graph, ∀ c ∈ W'.nodesOf N, c.ID ≠ x.ID := by
  obtain ⟨hog, hig⟩ := Composite.WF.bounds hW hs
  obtain ⟨W', e, cp⟩ := ConvertExternalToSameGraph_spec fuel root hW hog hig hfuel
  have hsubs := cp.c_subs
  rw [hone] at hsubs
  cases hq : W'.subgraphsOf (W.graphs.length + 1) with
  | nil => rw [hq] at hsubs; cases hsubs
  | cons q rest =>
    rw [hq] at hsubs
    simp only [List.map_cons, List.map_nil, List.cons.injEq, List.map_eq_nil_iff] at hsubs
    obtain ⟨hq1, hrest⟩ := hsubs
    subst hrest
    have hqm : q ∈ W'.subgraphsOf (W.graphs.length + 1) := by
      rw [hq]; exact List.mem_cons_self _ _
    have hq1' : q.1 = child.OuterNode.ID := hq1
    have hnil : W'.nodesOf q.2 = [] := cp.c_fresh q hqm (by rw [hq1']; exact hnone)
    obtain ⟨a, hh, hlabel⟩ := cp.c_nested q hqm
    obtain ⟨G, hG, hGa, hGo⟩ := World.graph_of_headOf hh
    refine ⟨W.graphs.length, W', W.graphs.length + 1, q.2, G, e, ?_, ?_, hG, ?_, ?_, hnil,
      cp.old_nodes _ hc, ?_⟩
    · rw [cp.t_subs]
      exact lookup_cons_self _ _ _
    · rw [← hq1', hq]
    · simp [Graph.isCluster, hGo]
    · show (W'.attrsOf G.toAttributesMap).get "label" = _
      rw [hGa, hlabel, hq1']
    · intro x _ c hc'
      rw [hnil] at hc'
      cases hc'

end dotx

namespace dotx

open dot

/-- Witness of C17, amended: the composites `subsystem` and `subsystem2` of `exConvBuild`. -/
theorem C17_nested_cluster_empty_witness :
    ∃ T W' C N G, ConvertExternalToSameGraph 4 exConvRoot exConvWorld = some (T, W') ∧
      (W'.subgraphsOf T).lookup exConvRoot.OuterNode.ID = some C ∧
      W'.subgraphsOf C = [(exConvChild.OuterNode.ID, N)] ∧
      W'.graphs[N]? = some G ∧ G.isCluster = true ∧
      G.toAttributesMap.Value "label" W' = Value.str exConvChild.OuterNode.ID ∧
      W'.nodesOf N = [] ∧
      W'.nodesOf exConvChild.Graph = exConvWorld.nodesOf exConvChild.Graph ∧
      ∀ x ∈ exConvWorld.nodesOf exConvChild.Graph, ∀ c ∈ W'.nodesOf N, c.ID ≠ x.ID :=
  C17_nested_cluster_empty 4 exConvRoot exConvChild exConvWorld exConvWorld_wf (by decide)
    (by decide) (by decide) (by decide) (by decide)

end dotx

namespace dotx

open dot

/-- C14 at a failing input: the outer graph of the composite `root` of `exLoopBuild` has one
edge, from the node `a` to itself.  The conversion of `root` returns a graph with the
copies of `a` and `root` at the top level and no edge there: the loop `for _, toNode :=
range nodes[i+1:]` never asks for the edges from a node to itself. -/
theorem C14_self_loop_not_copied :
    exLoopBuild = some (exLoopRoot, exLoopWorld) ∧
    (exLoopWorld.edgesOf exLoopRoot.outerGraph).map (fun e => (e.From.ID, e.To.ID)) =
      [("a", "a")] ∧
    (ConvertExternalToSameGraph 3 exLoopRoot exLoopWorld).map
        (fun r => ((r.2.nodesOf r.1).map Node.ID, (r.2.edgesOf r.1).length)) =
      some (["a", "root"], 0) := by
  refine ⟨by decide, rfl, ?_⟩
  rfl

/-- C18 at a failing input: on a parent graph whose node `component` has an edge to itself,
the composite `subsystem` with the input `in1` wired to `component`.  Built by hand as
SameGraph, the parent graph and its cluster have 3 nodes and 2 edges; the conversion of the
ExternalGraph build has 3 nodes and 1 edge, the edge from `component` to itself is not
copied. -/
theorem C18_round_trip_self_loop :
    (exTripBuild SameGraph).map
        (fun r => (r.2.2.countNodes 3 r.1, r.2.2.countEdges 3 r.1)) = some (3, 2) ∧
    ((exTripBuild ExternalGraph).bind
        fun r => ConvertExternalToSameGraph 3 r.2.1 r.2.2).map
        (fun r => (r.2.countNodes 3 r.1, r.2.countEdges 3 r.1)) = some (3, 1) := by
  refine ⟨?_, ?_⟩ <;> rfl

end dotx

namespace dottwin

open dot dotx

/-- C21: `CompositeTwin.Export` builds and exports the external member only.  For every
CompositeTwin `c`, operating system and build function `f` that returns on the inner graph
of the external member: `c.Export(f)` returns `c` itself and the heap exactly as one
application of `f` to that graph left it, so that a graph `f` does not change, of the
embedded member or any other, is as before; the file-system calls are those of one
`ExportFile` on the external member, each for the export file name of that member; a
failure of it only yields the logged warning. -/
theorem C21_twin_export (os : OS) (render : World → GraphRef → String)
    (build : GraphRef → World → Option World) (c : CompositeTwin) (W W1 : World)
    (hb : build c.ex.Graph W = some W1) :
    ∃ calls warning, c.Export os render build W = some (c, W1, calls, warning) ∧
      calls = (c.ex.ExportFile os render W1).2 ∧
      (warning = none ↔ (c.ex.ExportFile os render W1).1 = none) ∧
      (∀ x ∈ calls, x = FsCall.mkdirAll (splitDir c.ex.ExportFilename) ∨
        x = FsCall.writeFile c.ex.ExportFilename (render W1 c.ex.Graph)) ∧
      (∀ i : GraphRef, W1.graphs[i]? = W.graphs[i]? →
        ∀ r, c.Export os render build W = some r → r.2.1.graphs[i]? = W.graphs[i]?) := by
  have hcalls : ∀ x ∈ (c.ex.ExportFile os render W1).2,
      x = FsCall.mkdirAll (splitDir c.ex.ExportFilename) ∨
      x = FsCall.writeFile c.ex.ExportFilename (render W1 c.ex.Graph) := by
    intro x hx
    unfold Composite.ExportFile at hx
    split at hx
    · cases hx
    · simp only at hx
      split at hx
      · simp only [List.mem_singleton] at hx
        exact Or.inl hx
      · simp only [List.mem_cons, List.mem_singleton, List.not_mem_nil, or_false] at hx
        exact hx
  cases hE : c.ex.ExportFile os render W1 with
  | mk err calls =>
    rw [hE] at hcalls
    cases err with
    | none =>
      have he : c.Export os render build W = some (c, W1, calls, none) := by
        simp [CompositeTwin.Export, hb, hE]
      refine ⟨calls, none, he, rfl, by simp, hcalls, fun i hi r hr => ?_⟩
      rw [he] at hr
      cases hr
      exact hi
    | some msg =>
      have he : c.Export os render build W =
          some (c, W1, calls, some ("WARN: dotx.Composite.Export failed " ++ msg)) := by
        simp [CompositeTwin.Export, hb, hE]
      refine ⟨calls, _, he, rfl, by simp, hcalls, fun i hi r hr => ?_⟩
      rw [he] at hr
      cases hr
      exact hi

end dottwin

namespace dottwin

open dot dotx

/-- Witness of C21: the twin `twinsub` of `exTwinBuild` with an empty build function. -/
theorem C21_twin_export_witness :
    ∃ calls warning, exTwin.Export exOS exRender exNoBuild exTwinWorld = some (exTwin, exTwinWorld, calls, warning) ∧
      calls = (exTwin.ex.ExportFile exOS exRender exTwinWorld).2 ∧
      (warning = none ↔ (exTwin.ex.ExportFile exOS exRender exTwinWorld).1 = none) ∧
      (∀ x ∈ calls, x = FsCall.mkdirAll (splitDir exTwin.ex.ExportFilename) ∨
        x = FsCall.writeFile exTwin.ex.ExportFilename (exRender exTwinWorld exTwin.ex.Graph)) ∧
      (∀ i : GraphRef, exTwinWorld.graphs[i]? = exTwinWorld.graphs[i]? →
        ∀ r, exTwin.Export exOS exRender exNoBuild exTwinWorld = some r → r.2.1.graphs[i]? = exTwinWorld.graphs[i]?) :=
  C21_twin_export exOS exRender exNoBuild exTwin exTwinWorld exTwinWorld rfl


end dottwin

namespace dottwin

open dot dotx

/-- Writing `l = v` into the map of `a` and then into the map of `b`: both read `v`. -/
theorem set_both {a b : AttributesMap} {l : String} {v : Value} {W : World}
    (ha : a.attributes < W.attrs.length) (hb : b.attributes < W.attrs.length)
    (hl : l ≠ "") (hv : v ≠ Value.nil) :
    ∃ W1 W2, a.SetAttribute l v W = some W1 ∧ b.SetAttribute l v W1 = some W2 ∧
      W2.graphs = W.graphs ∧ (W2.attrsOf a).get l = v ∧ (W2.attrsOf b).get l = v := by
  obtain ⟨W1, e1, g1, _, l1, _, _, s1⟩ := AttributesMap.SetAttribute_spec l v ha
  obtain ⟨W2, e2, g2, _, _, o2, _, s2⟩ :=
    AttributesMap.SetAttribute_spec l v (show b.attributes < W1.attrs.length by rw [l1]; exact hb)
  refine ⟨W1, W2, e1, e2, g2.trans g1, ?_, s2 hl hv⟩
  by_cases hab : a.attributes = b.attributes
  · have : W2.attrsOf a = W2.attrsOf b := by unfold World.attrsOf; rw [hab]
    rw [this]
    exact s2 hl hv
  · rw [o2 a hab]
    exact s1 hl hv

/-- C22: twin attribute assignment hits both sides.  For a name `l` other than "" and a
value `v` other than nil: `NodeTwin.SetAttribute(l, v)` on a NodeTwin of two nodes of the
heap returns the NodeTwin itself, and afterwards both its nodes read `v` under `l`;
`CompositeTwin.SetAttribute(l, v)` on a twin of two composites of the heap returns the
NodeTwin of the two outer nodes, and afterwards the node with the id of the outer node
stored in the parent graph of either member reads `v` under `l`. -/
theorem C22_twin_set_attribute (l : String) (v : Value) (W : World) (n : NodeTwin)
    (c : CompositeTwin) (hW : W.WF) (hl : l ≠ "") (hv : v ≠ Value.nil)
    (hi : NodeIn W n.in_) (he : NodeIn W n.ex) (hci : c.in_.WF W) (hce : c.ex.WF W) :
    (∃ W', n.SetAttribute l v W = some (n, W') ∧
      n.in_.Attribute l W' = v ∧ n.ex.Attribute l W' = v) ∧
    (∃ W', c.SetAttribute l v W =
        some ({ in_ := c.in_.OuterNode, ex := c.ex.OuterNode }, W') ∧
      c.in_.OuterNode.Attribute l W' = v ∧ c.ex.OuterNode.Attribute l W' = v ∧
      (∀ m ∈ W'.nodesOf c.in_.outerGraph, m.ID = c.in_.OuterNode.ID →
        m.Attribute l W' = v) ∧
      (∀ m ∈ W'.nodesOf c.ex.outerGraph, m.ID = c.ex.OuterNode.ID →
        m.Attribute l W' = v)) := by
  refine ⟨?_, ?_⟩
  · obtain ⟨W1, W2, e1, e2, _, s1, s2⟩ :=
      set_both (hW.node_facts hi).2.2 (hW.node_facts he).2.2 hl hv
    exact ⟨W2, by simp [NodeTwin.SetAttribute, e1, e2], s1, s2⟩
  · obtain ⟨W1, W2, e1, e2, hg, s1, s2⟩ :=
      set_both (hW.node_facts hci.1).2.2 (hW.node_facts hce.1).2.2 hl hv
    have hW2 : W2.WF := hW.of_graphs_eq hg (by
      obtain ⟨X1, x1, _, _, l1, _⟩ :=
        AttributesMap.SetAttribute_spec l v (hW.node_facts hci.1).2.2
      rw [e1] at x1
      cases x1
      obtain ⟨X2, x2, _, _, l2, _⟩ := AttributesMap.SetAttribute_spec l v
        (show c.ex.outerNode.attributes < W1.attrs.length by
          rw [l1]; exact (hW.node_facts hce.1).2.2)
      rw [e2] at x2
      cases x2
      exact l2.trans l1)
    refine ⟨W2, ?_, s1, s2, ?_, ?_⟩
    · simp [CompositeTwin.SetAttribute, Composite.OuterNode, Node.SetAttribute, e1, e2]
    · intro m hm hid
      have hmem : c.in_.outerNode ∈ W2.nodesOf c.in_.outerGraph := by
        rw [World.nodesOf_congr hg]; exact hci.1
      rw [hW2.node_unique hm hmem hid]
      exact s1
    · intro m hm hid
      have hmem : c.ex.outerNode ∈ W2.nodesOf c.ex.outerGraph := by
        rw [World.nodesOf_congr hg]; exact hce.1
      rw [hW2.node_unique hm hmem hid]
      exact s2

end dottwin

namespace dottwin

open dot dotx

end dottwin

namespace dottwin

open dot dotx

/-- Witness of C22: the attribute `color = red` on the NodeTwin `component` and on the twin
`twinsub` of `exTwinBuild`. -/
theorem C22_twin_set_attribute_witness :
    (∃ W', exTwinComponent.SetAttribute "color" (Value.str "red") exTwinWorld =
        some (exTwinComponent, W') ∧
      exTwinComponent.in_.Attribute "color" W' = Value.str "red" ∧
      exTwinComponent.ex.Attribute "color" W' = Value.str "red") ∧
    (∃ W', exTwin.SetAttribute "color" (Value.str "red") exTwinWorld =
        some ({ in_ := exTwin.in_.OuterNode, ex := exTwin.ex.OuterNode }, W') ∧
      exTwin.in_.OuterNode.Attribute "color" W' = Value.str "red" ∧
      exTwin.ex.OuterNode.Attribute "color" W' = Value.str "red" ∧
      (∀ m ∈ W'.nodesOf exTwin.in_.outerGraph, m.ID = exTwin.in_.OuterNode.ID →
        m.Attribute "color" W' = Value.str "red") ∧
      (∀ m ∈ W'.nodesOf exTwin.ex.outerGraph, m.ID = exTwin.ex.OuterNode.ID →
        m.Attribute "color" W' = Value.str "red")) :=
  C22_twin_set_attribute "color" (Value.str "red") exTwinWorld exTwinComponent exTwin
    exTwinWorld_wf (by decide) (by decide) (by decide) (by decide) (by decide) (by decide)


end dottwin

namespace dotx

open dot

/-- Of the attribute maps that existed before, `NewComposite` writes the map of the outer
node only. -/
theorem NewComposite_cells (d id : String) {g : GraphRef} (kind : compositeGraphKind)
    {W : World} (hW : W.WF) (hg : g < W.graphs.length) {s : Composite} {W' : World}
    (h : NewComposite d id g kind W = some (s, W')) :
    W.attrs.length ≤ W'.attrs.length ∧
    (∀ b : AttributesMap, b.attributes < W.attrs.length →
      b.attributes ≠ s.outerNode.attributes → W'.attrsOf b = W.attrsOf b) ∧
    (kind ≠ SameGraph → ∀ i : GraphRef, i < W.graphs.length →
      W'.subgraphsOf i = W.subgraphsOf i) := by
  have hstep : ∃ r W1,
      (if kind = SameGraph then Graph.Subgraph g id [GraphOption.ClusterOption] W
        else some (NewGraph [GraphOption.Directed] W)) = some (r, W1) ∧
      W1.WF ∧ W.graphs.length ≤ W1.graphs.length ∧ W.attrs.length ≤ W1.attrs.length ∧
      (∀ b : AttributesMap, b.attributes < W.attrs.length → W1.attrsOf b = W.attrsOf b) ∧
      (kind ≠ SameGraph → ∀ i : GraphRef, i < W.graphs.length →
        W1.subgraphsOf i = W.subgraphsOf i) := by
    by_cases hk : kind = SameGraph
    · obtain ⟨r, W1, h1, P⟩ := Graph.Subgraph_spec id [GraphOption.ClusterOption] hW hg
      exact ⟨r, W1, by rw [if_pos hk]; exact h1, P.wf, P.graphs_le, P.attrs_le, P.attrs_keep,
        fun h => absurd hk h⟩
    · have P := NewGraph_spec [GraphOption.Directed] hW
      exact ⟨_, _, by rw [if_neg hk], P.wf, by rw [P.graphs_len]; exact Nat.le_succ _,
        P.attrs_le, P.attrs_keep, fun _ => P.subs⟩
  obtain ⟨r, W1, h1, wf1, gl1, al1, k1, sb1⟩ := hstep
  obtain ⟨n, W2, h2, P2⟩ := Graph.Node_spec id wf1 (lt_of_lt_of_le hg gl1)
  obtain ⟨W3, h3, wf3, g3, al3, k3, _, _⟩ :=
    AttributesMap.SetAttribute_wf (a := n.toAttributesMap) "shape" (Value.str "box3d")
      P2.wf P2.attr_lt
  obtain ⟨W4, h4, _, g4, al4, _, _, k4⟩ :=
    Composite.ExportName_spec
      { Graph := r, outerNode := n, outerGraph := g, dotFilename := "", kind := kind } d id wf3
      (by rw [al3]; exact P2.attr_lt)
  have he : NewComposite d id g kind W =
      some ({ Graph := r, outerNode := n, outerGraph := g,
              dotFilename := d ++ (replaceSpaces id ++ ".dot"), kind := kind }, W4) := by
    simp only [NewComposite, h1, h2, Node.SetAttribute_node_eq h3]
    exact h4
  rw [he] at h
  simp only [Option.some.injEq, Prod.mk.injEq] at h
  obtain ⟨rfl, rfl⟩ := h
  refine ⟨?_, fun b hb hbn => ?_, fun hk i hi => ?_⟩
  · rw [al4, al3]
    exact le_trans al1 P2.attrs_le
  · rw [k4 b hbn, k3 b hbn, P2.attrs_keep b (lt_of_lt_of_le hb al1), k1 b hb]
  · rw [World.subgraphsOf_congr (g4.trans g3), P2.subs, sb1 hk i hi]

end dotx

namespace dottwin

open dot dotx

/-- C23: `NewCompositeTwin` builds two members that agree.  For a GraphTwin `g` of two
graphs of a well-formed heap, `NewCompositeTwin(d, id, g)` returns a twin whose embedded
member is of kind SameGraph on the in graph of `g`, with the subgraph registered there under
`id` as inner graph, and whose external member is of kind ExternalGraph on the ex graph of
`g`; both outer nodes are nodes of their parent graph with the id `id`, both have the
shape `box3d` and the href `id` with spaces replaced by underscores plus `.svg`, and both
members have the export file name `d` followed by that stem and `.dot`. -/
theorem C23_new_composite_twin (d id : String) (g : GraphTwin) (W : World) (hW : W.WF)
    (hi : g.in_ < W.graphs.length) (he : g.ex < W.graphs.length) :
    ∃ c W', NewCompositeTwin d id g W = some (c, W') ∧
      c.in_.kind = SameGraph ∧ c.in_.outerGraph = g.in_ ∧
      (W'.subgraphsOf g.in_).lookup id = some c.in_.Graph ∧
      c.ex.kind = ExternalGraph ∧ c.ex.outerGraph = g.ex ∧
      c.in_.OuterNode.ID = id ∧ c.ex.OuterNode.ID = id ∧
      c.in_.OuterNode ∈ W'.nodesOf g.in_ ∧ c.ex.OuterNode ∈ W'.nodesOf g.ex ∧
      c.in_.OuterNode.Attribute "shape" W' = Value.str "box3d" ∧
      c.ex.OuterNode.Attribute "shape" W' = Value.str "box3d" ∧
      c.in_.OuterNode.Attribute "href" W' = Value.str (replaceSpaces id ++ ".svg") ∧
      c.ex.OuterNode.Attribute "href" W' = Value.str (replaceSpaces id ++ ".svg") ∧
      c.in_.ExportFilename = d ++ (replaceSpaces id ++ ".dot") ∧
      c.ex.ExportFilename = c.in_.ExportFilename := by
  obtain ⟨a, W1, e1, P1⟩ := NewComposite_spec d id SameGraph hW hi
  have he1 : g.ex < W1.graphs.length := lt_of_lt_of_le he P1.graphs_le
  obtain ⟨b, W2, e2, P2⟩ := NewComposite_spec d id ExternalGraph P1.wf he1
  obtain ⟨_, hcell, hsubs⟩ := NewComposite_cells d id ExternalGraph P1.wf he1 e2
  have hne : ExternalGraph ≠ SameGraph := by decide
  have ha1 : a.outerNode.attributes < W1.attrs.length := (P1.wf.node_facts P1.outer_mem).2.2
  have hai : g.in_ < W1.graphs.length := lt_of_lt_of_le hi P1.graphs_le
  have hmem2 : a.outerNode ∈ W2.nodesOf g.in_ := by
    by_cases hie : g.in_ = g.ex
    · rw [hie]
      exact P2.nodes_g _ (hie ▸ P1.outer_mem)
    · rw [P2.nodes_ne _ hai hie]
      exact P1.outer_mem
  have hattr : ∀ k, (k = "shape" ∨ k = "href") →
      a.outerNode.Attribute k W2 = b.outerNode.Attribute k W2 ∨
      a.outerNode.Attribute k W2 = a.outerNode.Attribute k W1 := by
    intro k _
    by_cases hab : a.outerNode.attributes = b.outerNode.attributes
    · left
      unfold Node.Attribute World.attrsOf
      rw [hab]
    · right
      unfold Node.Attribute
      rw [hcell _ ha1 hab]
  refine ⟨{ in_ := a, ex := b }, W2, by simp [NewCompositeTwin, e1, e2], P1.kind_eq,
    P1.outerGraph_eq, ?_, P2.kind_eq, P2.outerGraph_eq, P1.outer_id, P2.outer_id, hmem2,
    P2.outer_mem, ?_, P2.shape, ?_, P2.href, P1.filename, ?_⟩
  · rw [hsubs hne _ hai]
    exact (P1.same rfl).1
  · rcases hattr "shape" (Or.inl rfl) with h | h
    · exact h.trans P2.shape
    · exact h.trans P1.shape
  · rcases hattr "href" (Or.inr rfl) with h | h
    · exact h.trans P2.href
    · exact h.trans P1.href
  · show b.dotFilename = a.dotFilename
    rw [P2.filename, P1.filename]

end dottwin

namespace dottwin

open dot dotx

/-- Witness of C23: `NewCompositeTwin("testing/", "sub system", g)` on a new GraphTwin. -/
theorem C23_new_composite_twin_witness :
    ∃ c W', NewCompositeTwin "testing/" "sub system" exTwinStart.1 exTwinStart.2 = some (c, W') ∧
      c.in_.kind = SameGraph ∧ c.in_.outerGraph = exTwinStart.1.in_ ∧
      (W'.subgraphsOf exTwinStart.1.in_).lookup "sub system" = some c.in_.Graph ∧
      c.ex.kind = ExternalGraph ∧ c.ex.outerGraph = exTwinStart.1.ex ∧
      c.in_.OuterNode.ID = "sub system" ∧ c.ex.OuterNode.ID = "sub system" ∧
      c.in_.OuterNode ∈ W'.nodesOf exTwinStart.1.in_ ∧ c.ex.OuterNode ∈ W'.nodesOf exTwinStart.1.ex ∧
      c.in_.OuterNode.Attribute "shape" W' = Value.str "box3d" ∧
      c.ex.OuterNode.Attribute "shape" W' = Value.str "box3d" ∧
      c.in_.OuterNode.Attribute "href" W' = Value.str (replaceSpaces "sub system" ++ ".svg") ∧
      c.ex.OuterNode.Attribute "href" W' = Value.str (replaceSpaces "sub system" ++ ".svg") ∧
      c.in_.ExportFilename = "testing/" ++ (replaceSpaces "sub system" ++ ".dot") ∧
      c.ex.ExportFilename = c.in_.ExportFilename :=
  C23_new_composite_twin "testing/" "sub system" exTwinStart.1 exTwinStart.2
    (World.WF_of_check (by decide)) (by decide) (by decide)


end dottwin

namespace dot

/-- C25: an odd count of arguments aborts the bulk attribute call.  For every attribute
map, graph and heap and every argument list of odd length, `SetAttributes` fails (the model
of the Go panic), whatever the arguments are; nothing is set. -/
theorem C25_odd_bulk_call_fails (a : AttributesMap) (g : GraphRef) (labelvalues : List Value)
    (W : World) (h : labelvalues.length % 2 = 1) :
    a.SetAttributes labelvalues W = none ∧ Graph.SetAttributes g labelvalues W = none := by
  have h1 : ∀ b : AttributesMap, b.SetAttributes labelvalues W = none := by
    intro b
    unfold AttributesMap.SetAttributes
    rw [if_pos (by rw [h]; decide)]
  refine ⟨h1 a, ?_⟩
  unfold Graph.SetAttributes
  cases W.graphs[g]? with
  | none => rfl
  | some G => exact h1 _

/-- Witness of C25: `NewGraph().SetAttributes("l", "v", "l2")` of
`TestAttributesMap_AttrsMissingValue`. -/
theorem C25_odd_bulk_call_fails_witness :
    ({ attributes := 0 } : AttributesMap).SetAttributes
        [Value.str "l", Value.str "v", Value.str "l2"] dotx.exRoot = none ∧
      Graph.SetAttributes 0 [Value.str "l", Value.str "v", Value.str "l2"] dotx.exRoot = none :=
  C25_odd_bulk_call_fails { attributes := 0 } 0 [Value.str "l", Value.str "v", Value.str "l2"]
    dotx.exRoot (by decide)

end dot

namespace dot

theorem alternate_length (pairs : List (String × Value)) :
    (alternate pairs).length % 2 = 0 := by
  induction pairs with
  | nil => rfl
  | cons p rest ih =>
    obtain ⟨l, v⟩ := p
    simp only [alternate, List.length_cons]
    omega

/-- One `SetAttribute`, read under any name. -/
theorem AttributesMap.SetAttribute_get {a : AttributesMap} (l : String) (v : dot.Value)
    {W : World} (h : a.attributes < W.attrs.length) :
    ∃ W', a.SetAttribute l v W = some W' ∧ W'.graphs = W.graphs ∧
      W'.attrs.length = W.attrs.length ∧
      ∀ k, (W'.attrsOf a).get k =
        if l = k ∧ l ≠ "" ∧ v ≠ dot.Value.nil then v else (W.attrsOf a).get k := by
  by_cases hs : l = "" ∨ v = dot.Value.nil
  · refine ⟨W, by simp [AttributesMap.SetAttribute, hs], rfl, rfl, fun k => ?_⟩
    rw [if_neg]
    rintro ⟨_, h1, h2⟩
    rcases hs with hs | hs
    · exact h1 hs
    · exact h2 hs
  · simp only [not_or] at hs
    obtain ⟨W', e, g, _, al, _, k1, s1⟩ := AttributesMap.SetAttribute_spec l v h
    refine ⟨W', e, g, al, fun k => ?_⟩
    by_cases hk : l = k
    · subst hk
      rw [if_pos ⟨rfl, hs.1, hs.2⟩]
      exact s1 hs.1 hs.2
    · rw [if_neg (fun h => hk h.1)]
      exact k1 k (fun h => hk h.symm)

theorem pairedValue_cons (p : String × Value) (rest : List (String × Value)) (l : String)
    (init : Value) :
    pairedValue (p :: rest) l init =
      pairedValue rest l (if p.1 = l ∧ p.1 ≠ "" ∧ p.2 ≠ Value.nil then p.2 else init) := rfl

theorem pairedValue_not_mem (pairs : List (String × Value)) (l : String) (init : Value)
    (h : l ∉ pairs.map Prod.fst) : pairedValue pairs l init = init := by
  induction pairs generalizing init with
  | nil => rfl
  | cons p rest ih =>
    simp only [List.map_cons, List.mem_cons, not_or] at h
    rw [pairedValue_cons, if_neg (fun hp => h.1 hp.1.symm)]
    exact ih init h.2

theorem pairedValue_of_mem (pairs : List (String × Value)) (init : Value)
    (hnd : (pairs.map Prod.fst).Nodup) (hok : ∀ p ∈ pairs, p.1 ≠ "" ∧ p.2 ≠ Value.nil)
    (p : String × Value) (hp : p ∈ pairs) : pairedValue pairs p.1 init = p.2 := by
  induction pairs generalizing init with
  | nil => cases hp
  | cons q rest ih =>
    simp only [List.map_cons, List.nodup_cons] at hnd
    rw [pairedValue_cons]
    rw [List.mem_cons] at hp
    rcases hp with hp | hp
    · subst hp
      have := hok p (List.mem_cons_self _ _)
      rw [if_pos ⟨rfl, this.1, this.2⟩]
      exact pairedValue_not_mem rest p.1 p.2 hnd.1
    · exact ih _ hnd.2 (fun x hx => hok x (List.mem_cons_of_mem _ hx)) hp

theorem AttributesMap.setPairs_spec (a : AttributesMap)
    (pairs : List (String × dot.Value)) :
    ∀ {W : World}, a.attributes < W.attrs.length →
    ∃ W', a.setPairs (alternate pairs) W = some W' ∧ W'.graphs = W.graphs ∧
      W'.attrs.length = W.attrs.length ∧
      ∀ k, (W'.attrsOf a).get k = pairedValue pairs k ((W.attrsOf a).get k) := by
  induction pairs with
  | nil =>
    intro W _
    exact ⟨W, rfl, rfl, rfl, fun _ => rfl⟩
  | cons p rest ih =>
    obtain ⟨l, v⟩ := p
    intro W ha
    obtain ⟨W1, e1, g1, l1, s1⟩ := AttributesMap.SetAttribute_get l v ha
    obtain ⟨W2, e2, g2, l2, s2⟩ := ih (show a.attributes < W1.attrs.length by rw [l1]; exact ha)
    refine ⟨W2, ?_, g2.trans g1, l2.trans l1, fun k => ?_⟩
    · simp only [alternate, AttributesMap.setPairs, e1]
      exact e2
    · rw [s2 k, s1 k, pairedValue_cons]

/-- Counterexample to C26 as stated: `g.SetAttributes("", "skip")` on a new graph returns,
and the empty name does not map to `skip` afterwards but to nil, as after
`g.SetAttribute("", "skip")` in `TestAttributesMap_EmptyKey_NilValue`. -/
theorem C26_bulk_call_counterexample :
    ((Graph.SetAttributes 0 [Value.str "", Value.str "skip"] dotx.exRoot).bind
        fun W => Graph.Value 0 "" W) = some Value.nil ∧
    ((Graph.SetAttribute 0 "" (Value.str "skip") dotx.exRoot).bind
        fun W => Graph.Value 0 "" W) = some Value.nil := by
  refine ⟨?_, ?_⟩ <;> rfl

/-- C26, amended: after the bulk attribute call every name maps to the value of its last
pair that is not skipped.  For an existing attribute map and every list of pairs of a name
and a value, `SetAttributes` on the alternating argument list returns and changes no graph;
afterwards every name maps to `pairedValue`: the value of the last pair that declares it,
pairs with the empty name or the value nil being skipped as by `SetAttribute`, and what it
mapped to before if no pair is left.  So when the names are not empty and pairwise
different and no value is nil, every declared name maps to its paired value. -/
theorem C26_bulk_call_sets_pairs (a : AttributesMap) (pairs : List (String × Value))
    (W : World) (ha : a.attributes < W.attrs.length) :
    ∃ W', a.SetAttributes (alternate pairs) W = some W' ∧ W'.graphs = W.graphs ∧
      (∀ l, a.Value l W' = pairedValue pairs l (a.Value l W)) ∧
      ((pairs.map Prod.fst).Nodup → (∀ p ∈ pairs, p.1 ≠ "" ∧ p.2 ≠ Value.nil) →
        ∀ p ∈ pairs, a.Value p.1 W' = p.2) := by
  obtain ⟨W', e, g, _, s⟩ := AttributesMap.setPairs_spec a pairs ha
  refine ⟨W', ?_, g, s, fun hnd hok p hp => ?_⟩
  · unfold AttributesMap.SetAttributes
    rw [if_neg (by rw [alternate_length]; decide)]
    exact e
  · show (W'.attrsOf a).get p.1 = p.2
    rw [s p.1]
    exact pairedValue_of_mem pairs _ hnd hok p hp

/-- Witness of C26, amended: `g.SetAttributes("l", "v", "l2", "v2")` of
`TestAttributesMap_Attrs` on a new graph. -/
theorem C26_bulk_call_sets_pairs_witness :
    ∃ W', ({ attributes := 0 } : AttributesMap).SetAttributes
        (alternate [("l", Value.str "v"), ("l2", Value.str "v2")]) dotx.exRoot = some W' ∧
      W'.graphs = dotx.exRoot.graphs ∧
      (∀ l, ({ attributes := 0 } : AttributesMap).Value l W' =
        pairedValue [("l", Value.str "v"), ("l2", Value.str "v2")] l
          (({ attributes := 0 } : AttributesMap).Value l dotx.exRoot)) ∧
      ((([("l", Value.str "v"), ("l2", Value.str "v2")] : List (String × Value)).map
          Prod.fst).Nodup →
        (∀ p ∈ ([("l", Value.str "v"), ("l2", Value.str "v2")] : List (String × Value)),
          p.1 ≠ "" ∧ p.2 ≠ Value.nil) →
        ∀ p ∈ ([("l", Value.str "v"), ("l2", Value.str "v2")] : List (String × Value)),
          ({ attributes := 0 } : AttributesMap).Value p.1 W' = p.2) :=
  C26_bulk_call_sets_pairs { attributes := 0 } [("l", Value.str "v"), ("l2", Value.str "v2")]
    dotx.exRoot (by decide)

end dot

namespace dot

/-- C27, amended: node lookup-or-create is idempotent and handles share state, for
attributes that `SetAttribute` stores.  For a graph `g` of a well-formed heap and an id: two
calls `g.Node(id)` return, both handles have the id `id` and the same attribute map, the
second call changes nothing, and the first adds the handle as one new node exactly when `g`
had no node of that id; for a name `l` other than "" and a value `v` other than nil,
`SetAttribute(l, v)` through either handle returns that handle and `v` is read under `l`
through the other handle with `Attribute`. -/
theorem C27_node_handles_share (g : GraphRef) (id : String) (W : World) (hW : W.WF)
    (hg : g < W.graphs.length) :
    ∃ n1 W1 n2 W2, Graph.Node g id W = some (n1, W1) ∧ Graph.Node g id W1 = some (n2, W2) ∧
      n1.ID = id ∧ n2.ID = id ∧ n2.toAttributesMap = n1.toAttributesMap ∧
      n1 ∈ W1.nodesOf g ∧ n2 ∈ W1.nodesOf g ∧
      W2 = W1 ∧
      ((¬ ∃ m ∈ W.nodesOf g, m.ID = id) → W1.nodesOf g = W.nodesOf g ++ [n1]) ∧
      ((∃ m ∈ W.nodesOf g, m.ID = id) → W1.nodesOf g = W.nodesOf g) ∧
      ∀ (l : String) (v : dot.Value), l ≠ "" → v ≠ dot.Value.nil →
        (∃ W3, n1.SetAttribute l v W2 = some (n1, W3) ∧ n2.Attribute l W3 = v) ∧
        (∃ W3, n2.SetAttribute l v W2 = some (n2, W3) ∧ n1.Attribute l W3 = v) := by
  obtain ⟨n1, W1, e1, P1⟩ := Graph.Node_spec id hW hg
  obtain ⟨n2, W2, e2, P2⟩ := Graph.Node_spec id P1.wf (by rw [P1.graphs_len]; exact hg)
  obtain ⟨hn, hWW⟩ := P2.nodes_old ⟨n1, P1.mem, P1.id_eq⟩
  subst hWW
  have h21 : n2 = n1 := P1.wf.node_unique P2.mem P1.mem (P2.id_eq.trans P1.id_eq.symm)
  subst h21
  refine ⟨n2, W2, n2, W2, e1, e2, P1.id_eq, P1.id_eq, rfl, P1.mem, P1.mem, rfl,
    fun h => (P1.nodes_new h).1, fun h => (P1.nodes_old h).1, fun l v hl hv => ?_⟩
  obtain ⟨W3, e3, _, _, _, _, _, s3⟩ := AttributesMap.SetAttribute_spec l v P1.attr_lt
  exact ⟨⟨W3, Node.SetAttribute_node_eq e3, s3 hl hv⟩, ⟨W3, Node.SetAttribute_node_eq e3, s3 hl hv⟩⟩

/-- Witness of C27, amended: two calls `g.Node("a")` on a new graph. -/
theorem C27_node_handles_share_witness :
    ∃ n1 W1 n2 W2, Graph.Node 0 "a" dotx.exRoot = some (n1, W1) ∧
      Graph.Node 0 "a" W1 = some (n2, W2) ∧
      n1.ID = "a" ∧ n2.ID = "a" ∧ n2.toAttributesMap = n1.toAttributesMap ∧
      n1 ∈ W1.nodesOf 0 ∧ n2 ∈ W1.nodesOf 0 ∧
      W2 = W1 ∧
      ((¬ ∃ m ∈ dotx.exRoot.nodesOf 0, m.ID = "a") →
        W1.nodesOf 0 = dotx.exRoot.nodesOf 0 ++ [n1]) ∧
      ((∃ m ∈ dotx.exRoot.nodesOf 0, m.ID = "a") → W1.nodesOf 0 = dotx.exRoot.nodesOf 0) ∧
      ∀ (l : String) (v : dot.Value), l ≠ "" → v ≠ dot.Value.nil →
        (∃ W3, n1.SetAttribute l v W2 = some (n1, W3) ∧ n2.Attribute l W3 = v) ∧
        (∃ W3, n2.SetAttribute l v W2 = some (n2, W3) ∧ n1.Attribute l W3 = v) :=
  C27_node_handles_share 0 "a" dotx.exRoot dotx.exRoot_wf (by decide)

end dot


namespace htmlike

/-! ## HTML-like labels: the writers commute with what the buffer held before -/

theorem writeAttrString_append (w1 w2 n v : String) :
    writeAttrString (w1 ++ w2) n v = w1 ++ writeAttrString w2 n v := by
  unfold writeAttrString; split <;> simp [String.append_assoc]

theorem writeAttrIntPtr_append (w1 w2 n : String) (v : Option Int) :
    writeAttrIntPtr (w1 ++ w2) n v = w1 ++ writeAttrIntPtr w2 n v := by
  cases v <;> simp [writeAttrIntPtr, String.append_assoc]

theorem writeAttrUintPtr_append (w1 w2 n : String) (v : Option Nat) :
    writeAttrUintPtr (w1 ++ w2) n v = w1 ++ writeAttrUintPtr w2 n v := by
  cases v <;> simp [writeAttrUintPtr, String.append_assoc]

theorem writeAttrBoolPtr_append (w1 w2 n : String) (v : Option Bool) :
    writeAttrBoolPtr (w1 ++ w2) n v = w1 ++ writeAttrBoolPtr w2 n v := by
  cases v <;> simp [writeAttrBoolPtr, String.append_assoc]

theorem writeAttrHtmLikeAlign_append (w1 w2 n : String) (v : HtmLikeAlign) :
    writeAttrHtmLikeAlign (w1 ++ w2) n v = w1 ++ writeAttrHtmLikeAlign w2 n v := by
  unfold writeAttrHtmLikeAlign; split <;> simp [String.append_assoc]

theorem writeAttrHtmLikeValign_append (w1 w2 n : String) (v : HtmLikeValign) :
    writeAttrHtmLikeValign (w1 ++ w2) n v = w1 ++ writeAttrHtmLikeValign w2 n v := by
  unfold writeAttrHtmLikeValign; split <;> simp [String.append_assoc]

theorem writeAttrHtmLikeImgScale_append (w1 w2 n : String) (v : HtmLikeImgScale) :
    writeAttrHtmLikeImgScale (w1 ++ w2) n v = w1 ++ writeAttrHtmLikeImgScale w2 n v := by
  unfold writeAttrHtmLikeImgScale; split <;> simp [String.append_assoc]

theorem Table.writeAttrs_table_append (t : Table) (w1 w2 : String) :
    t.writeAttrs (w1 ++ w2) = w1 ++ t.writeAttrs w2 := by
  simp only [Table.writeAttrs, writeAttrString_append, writeAttrIntPtr_append,
    writeAttrUintPtr_append, writeAttrBoolPtr_append, writeAttrHtmLikeAlign_append,
    writeAttrHtmLikeValign_append]

theorem TD.writeAttrs_td_append (td : TD) (w1 w2 : String) :
    td.writeAttrs (w1 ++ w2) = w1 ++ td.writeAttrs w2 := by
  simp only [TD.writeAttrs, writeAttrString_append, writeAttrIntPtr_append,
    writeAttrUintPtr_append, writeAttrBoolPtr_append, writeAttrHtmLikeAlign_append,
    writeAttrHtmLikeValign_append]

theorem FONT.writeAttrs_font_append (f : FONT) (w1 w2 : String) :
    f.writeAttrs (w1 ++ w2) = w1 ++ f.writeAttrs w2 := by
  simp only [FONT.writeAttrs, writeAttrString_append, writeAttrIntPtr_append]

/-- The tail of a container's `WriteDOT` after the children were written. -/
theorem close_append (r1 r2 : String × Option String) (w1 c : String)
    (h1 : r1.1 = w1 ++ r2.1) (h2 : r1.2 = r2.2) :
    (match r1.2 with
      | some err => (r1.1, some err)
      | none => (r1.1 ++ c, (none : Option String))) =
    (w1 ++ (match r2.2 with
      | some err => (r2.1, some err)
      | none => (r2.1 ++ c, (none : Option String))).1,
     (match r2.2 with
      | some err => (r2.1, some err)
      | none => (r2.1 ++ c, (none : Option String))).2) := by
  rw [h2, h1]
  cases r2.2 <;> simp [String.append_assoc]

mutual
/-- Writing an element into a buffer that already holds `w1 ++ w2` gives `w1` followed by what
writing into `w2` gives, with the same error. -/
theorem HtmLikeElement.WriteDOT_append :
    ∀ (e : HtmLikeElement) (w1 w2 : String),
      e.WriteDOT (w1 ++ w2) = (w1 ++ (e.WriteDOT w2).1, (e.WriteDOT w2).2)
  | .text t, w1, w2 => by simp [HtmLikeElement.WriteDOT, String.append_assoc]
  | .table t cs, w1, w2 => by
    simp only [HtmLikeElement.WriteDOT]
    have h := writeChildren_append cs w1 (t.writeAttrs (w2 ++ "\n<TABLE") ++ ">")
    rw [String.append_assoc, Table.writeAttrs_table_append, String.append_assoc]
    exact close_append _ _ w1 _ (by rw [h]) (by rw [h])
  | .tr cs, w1, w2 => by
    simp only [HtmLikeElement.WriteDOT]
    have h := writeChildren_append cs w1 (w2 ++ "\n<TR>")
    rw [String.append_assoc]
    exact close_append _ _ w1 _ (by rw [h]) (by rw [h])
  | .td t cs, w1, w2 => by
    simp only [HtmLikeElement.WriteDOT]
    have h := writeChildren_append cs w1 (t.writeAttrs (w2 ++ "<TD") ++ ">")
    rw [String.append_assoc, TD.writeAttrs_td_append, String.append_assoc]
    exact close_append _ _ w1 _ (by rw [h]) (by rw [h])
  | .font t cs, w1, w2 => by
    simp only [HtmLikeElement.WriteDOT]
    have h := writeChildren_append cs w1 (t.writeAttrs (w2 ++ "<FONT") ++ ">")
    rw [String.append_assoc, FONT.writeAttrs_font_append, String.append_assoc]
    exact close_append _ _ w1 _ (by rw [h]) (by rw [h])
  | .br a, w1, w2 => by
    simp [HtmLikeElement.WriteDOT, String.append_assoc, writeAttrHtmLikeAlign_append]
  | .img sc src, w1, w2 => by
    simp only [HtmLikeElement.WriteDOT]
    split <;> simp [String.append_assoc, writeAttrString_append,
      writeAttrHtmLikeImgScale_append]
  | .style tag cs, w1, w2 => by
    simp only [HtmLikeElement.WriteDOT]
    have h := writeChildren_append cs w1 (w2 ++ ("<" ++ tag ++ ">"))
    rw [String.append_assoc]
    exact close_append _ _ w1 _ (by rw [h]) (by rw [h])
  | .rule tag, w1, w2 => by simp [HtmLikeElement.WriteDOT, String.append_assoc]
/-- The same for the loop over the children. -/
theorem writeChildren_append :
    ∀ (cs : List HtmLikeElement) (w1 w2 : String),
      writeChildren cs (w1 ++ w2) = (w1 ++ (writeChildren cs w2).1, (writeChildren cs w2).2)
  | [], w1, w2 => by simp [writeChildren]
  | c :: cs, w1, w2 => by
    simp only [writeChildren]
    have h := HtmLikeElement.WriteDOT_append c w1 w2
    rw [h]
    cases h2 : (c.WriteDOT w2).2 with
    | some err => simp
    | none =>
      simp only []
      exact writeChildren_append cs w1 _
end

end htmlike


namespace html

/-! ## Escaping -/

theorem escapeChar_cases (c : Char) :
    escapeChar c ∈ entities ∨
      (escapeChar c = [c] ∧ c ≠ '&' ∧ c ≠ '<' ∧ c ≠ '>' ∧ c ≠ dquote) := by
  unfold escapeChar
  split_ifs with h1 h2 h3 h4 h5
  · left; decide
  · left; decide
  · left; decide
  · left; decide
  · left; decide
  · right; exact ⟨rfl, h1, h3, h4, h5⟩

theorem entities_noRaw : ∀ e ∈ entities, NoRawMarkup e := by
  unfold NoRawMarkup; decide

theorem entities_amp : ∀ e ∈ entities, ∀ i : Nat, e[i]? = some '&' → i = 0 := by
  intro e he i hi
  have hlt : i < e.length := by
    by_contra hge
    rw [List.getElem?_eq_none (by omega)] at hi
    cases hi
  have hlen : ∀ e ∈ entities, e.length ≤ 5 := by decide
  have hl := hlen e he
  have hall : ∀ e ∈ entities, ∀ j ∈ [1, 2, 3, 4], e[j]? ≠ some '&' := by decide
  by_contra h0
  have hj : i ∈ [1, 2, 3, 4] := by
    simp only [List.mem_cons, List.mem_singleton, List.not_mem_nil, or_false]
    omega
  exact hall e he i hj hi

theorem flatten_noRaw (cs : List Char) : NoRawMarkup (cs.map escapeChar).flatten := by
  induction cs with
  | nil => simp [NoRawMarkup]
  | cons c cs ih =>
    simp only [List.map_cons, List.flatten_cons, NoRawMarkup, List.mem_append, not_or]
    obtain ⟨i1, i2, i3⟩ := ih
    rcases escapeChar_cases c with h | ⟨h, _, h2, h3, h4⟩
    · obtain ⟨e1, e2, e3⟩ := entities_noRaw _ h
      exact ⟨⟨e1, i1⟩, ⟨e2, i2⟩, ⟨e3, i3⟩⟩
    · rw [h]
      simp only [List.mem_singleton]
      exact ⟨⟨fun x => h2 x.symm, i1⟩, ⟨fun x => h3 x.symm, i2⟩, ⟨fun x => h4 x.symm, i3⟩⟩

theorem flatten_amp (cs : List Char) : AmpersandsStartEntities (cs.map escapeChar).flatten := by
  induction cs with
  | nil => intro i hi; simp at hi
  | cons c cs ih =>
    intro i hi
    simp only [List.map_cons, List.flatten_cons] at hi ⊢
    by_cases hlt : i < (escapeChar c).length
    · rw [List.getElem?_append_left hlt] at hi
      rcases escapeChar_cases c with h | ⟨h, h1, _⟩
      · have h0 := entities_amp _ h i hi
        subst h0
        exact ⟨escapeChar c, h, by simp⟩
      · rw [h] at hi hlt
        simp only [List.length_singleton, Nat.lt_one_iff] at hlt
        subst hlt
        simp only [List.getElem?_cons_zero, Option.some.injEq] at hi
        exact absurd hi h1
    · have hge : (escapeChar c).length ≤ i := by omega
      rw [List.getElem?_append_right hge] at hi
      obtain ⟨e, he, hp⟩ := ih _ hi
      refine ⟨e, he, ?_⟩
      rw [List.drop_append_eq_append_drop, List.drop_of_length_le hge, List.nil_append]
      exact hp

theorem EscapeString_noRaw (s : String) : NoRawMarkup (EscapeString s).data :=
  flatten_noRaw s.data

theorem EscapeString_amp (s : String) : AmpersandsStartEntities (EscapeString s).data :=
  flatten_amp s.data

end html


namespace htmlike

/-! ## HTML-like labels: errors and serialisation -/

/-- The tail of a container's `WriteDOT`: the error is the one of the children. -/
theorem close_err (r : String × Option String) (c : String) :
    (match r.2 with
      | some err => (r.1, some err)
      | none => (r.1 ++ c, (none : Option String))).2 = r.2 := by
  cases h : r.2 <;> simp

mutual
/-- The only error of `WriteDOT` is the one of an `IMG` without source, at any depth. -/
theorem HtmLikeElement.WriteDOT_err :
    ∀ (e : HtmLikeElement) (w : String),
      (e.WriteDOT w).2 =
        if e.hasEmptySrc then some "IMG element requires SRC attribute" else none
  | .text t, w => by simp [HtmLikeElement.WriteDOT, HtmLikeElement.hasEmptySrc]
  | .table t cs, w => by
    simp only [HtmLikeElement.WriteDOT, HtmLikeElement.hasEmptySrc]
    rw [close_err]; exact writeChildren_err cs _
  | .tr cs, w => by
    simp only [HtmLikeElement.WriteDOT, HtmLikeElement.hasEmptySrc]
    rw [close_err]; exact writeChildren_err cs _
  | .td t cs, w => by
    simp only [HtmLikeElement.WriteDOT, HtmLikeElement.hasEmptySrc]
    rw [close_err]; exact writeChildren_err cs _
  | .font t cs, w => by
    simp only [HtmLikeElement.WriteDOT, HtmLikeElement.hasEmptySrc]
    rw [close_err]; exact writeChildren_err cs _
  | .br a, w => by simp [HtmLikeElement.WriteDOT, HtmLikeElement.hasEmptySrc]
  | .img sc src, w => by
    simp only [HtmLikeElement.WriteDOT, HtmLikeElement.hasEmptySrc]
    by_cases h : src = "" <;> simp [h]
  | .style tag cs, w => by
    simp only [HtmLikeElement.WriteDOT, HtmLikeElement.hasEmptySrc]
    rw [close_err]; exact writeChildren_err cs _
  | .rule tag, w => by simp [HtmLikeElement.WriteDOT, HtmLikeElement.hasEmptySrc]
/-- The loop over the children fails exactly when one of them has such an `IMG`. -/
theorem writeChildren_err :
    ∀ (cs : List HtmLikeElement) (w : String),
      (writeChildren cs w).2 =
        if anyEmptySrc cs then some "IMG element requires SRC attribute" else none
  | [], w => by simp [writeChildren, anyEmptySrc]
  | c :: cs, w => by
    simp only [writeChildren, anyEmptySrc]
    have h := HtmLikeElement.WriteDOT_err c w
    by_cases hc : c.hasEmptySrc = true
    · rw [if_pos hc] at h
      simp [h, hc]
    · rw [if_neg hc] at h
      simp only [h]
      rw [writeChildren_err cs _]
      simp [hc]
end

theorem serialiseAll_acc (es : List HtmLikeElement) (acc : String) :
    es.foldl (fun a e => a ++ e.serialise) acc = acc ++ serialiseAll es := by
  induction es generalizing acc with
  | nil => simp [serialiseAll]
  | cons e es ih =>
    simp only [serialiseAll, List.foldl_cons]
    rw [ih, ih ("" ++ e.serialise)]
    simp [String.append_assoc]

theorem serialiseAll_cons (e : HtmLikeElement) (es : List HtmLikeElement) :
    serialiseAll (e :: es) = e.serialise ++ serialiseAll es := by
  simp only [serialiseAll, List.foldl_cons]
  rw [serialiseAll_acc]; simp [serialiseAll]

theorem HtmLikeElement.WriteDOT_buf (e : HtmLikeElement) (w : String) :
    e.WriteDOT w = (w ++ e.serialise, (e.WriteDOT "").2) := by
  have h := HtmLikeElement.WriteDOT_append e w ""
  simpa [HtmLikeElement.serialise] using h

/-- Without an `IMG` without source the loop writes the serialisations of the children in
order and returns no error. -/
theorem writeChildren_ok (cs : List HtmLikeElement) (w : String)
    (h : anyEmptySrc cs = false) : writeChildren cs w = (w ++ serialiseAll cs, none) := by
  induction cs generalizing w with
  | nil => simp [writeChildren, serialiseAll]
  | cons c cs ih =>
    simp only [anyEmptySrc, Bool.or_eq_false_iff] at h
    have he := HtmLikeElement.WriteDOT_err c w
    simp only [h.1, Bool.false_eq_true, if_false] at he
    simp only [writeChildren, he]
    rw [ih _ h.2, HtmLikeElement.WriteDOT_buf, serialiseAll_cons, String.append_assoc]

/-- C28: the enclosing angle brackets are not written.  The label with the single root
`Text("a")` serialises to `a`, which neither begins with `<` nor ends with `>`: it is not
`<` followed by the serialisation of the root followed by `>`.  The label without root
element serialises to `<>`. -/
theorem C28_brackets_not_written :
    (NewHtmLike [.text "a"]).String = "a" ∧
    (NewHtmLike [.text "a"]).String ≠ "<" ++ serialiseAll [.text "a"] ++ ">" ∧
    (NewHtmLike []).String = "<>" := by
  decide

/-- What `String()` returns for a label none of whose elements is or contains an `IMG`
without source: `<>` when the label has no root element and otherwise the concatenated
serialisation of the root elements, in order, without enclosing angle brackets. -/
theorem label_is_root_serialisation (h : HtmLike)
    (hok : anyEmptySrc h.Elements = false) :
    h.String = if h.Elements.length = 0 then "<>" else serialiseAll h.Elements := by
  unfold HtmLike.String
  by_cases hl : h.Elements.length = 0
  · simp [hl]
  · rw [if_neg hl, if_neg hl, writeChildren_ok _ _ hok]
    simp

/-- C29: the serialisation of `Text(s)` is the HTML escaping of `s`, which has no raw `<`, `>`
or double quote and in which every `&` starts an entity; and a non-empty value of a string
attribute is written as ` name="..."` with the escaping of the value between the quotes,
which has no raw double quote, `<` or `>`. -/
theorem C29_text_and_values_escaped (s w name value : String) (hv : value ≠ "") :
    (HtmLikeElement.text s).WriteDOT w = (w ++ html.EscapeString s, none) ∧
    (HtmLikeElement.text s).serialise = html.EscapeString s ∧
    html.NoRawMarkup (html.EscapeString s).data ∧
    html.AmpersandsStartEntities (html.EscapeString s).data ∧
    writeAttrString w name value =
      w ++ (" " ++ name ++ "=" ++ quote ++ html.EscapeString value ++ quote) ∧
    html.NoRawMarkup (html.EscapeString value).data := by
  refine ⟨by simp [HtmLikeElement.WriteDOT], ?_, html.EscapeString_noRaw s,
    html.EscapeString_amp s, by simp [writeAttrString, hv], html.EscapeString_noRaw value⟩
  simp [HtmLikeElement.serialise, HtmLikeElement.WriteDOT]

/-- Witness of C29 on a text and an attribute value that hold all five special characters. -/
theorem C29_text_and_values_escaped_witness :
    (HtmLikeElement.text "a<b>&c").WriteDOT "" = ("" ++ html.EscapeString "a<b>&c", none) ∧
    (HtmLikeElement.text "a<b>&c").serialise = html.EscapeString "a<b>&c" ∧
    html.NoRawMarkup (html.EscapeString "a<b>&c").data ∧
    html.AmpersandsStartEntities (html.EscapeString "a<b>&c").data ∧
    writeAttrString "" "HREF" "x>y&z" =
      "" ++ (" " ++ "HREF" ++ "=" ++ quote ++ html.EscapeString "x>y&z" ++ quote) ∧
    html.NoRawMarkup (html.EscapeString "x>y&z").data :=
  C29_text_and_values_escaped "a<b>&c" "" "HREF" "x>y&z" (by decide)

/-- Counterexample to C30 as stated: the label whose only root is the text `Error writing
element: IMG element requires SRC attribute` has no `IMG` at all, and `String()` returns
exactly that error text. -/
theorem C30_error_text_counterexample :
    anyEmptySrc
      [HtmLikeElement.text "Error writing element: IMG element requires SRC attribute"] =
        false ∧
    (NewHtmLike
      [.text "Error writing element: IMG element requires SRC attribute"]).String =
        "Error writing element: IMG element requires SRC attribute" := by
  decide

/-- C30, amended: `WriteDOT` of an `IMG` returns an error exactly when `Src` is empty; a
label that contains such an `IMG` at any depth serialises to the text `Error writing element:
IMG element requires SRC attribute`; and for a label without one the loop over the root
elements returns no error, so that `String()` returns what the elements wrote, the
concatenated serialisation of the root elements (or `<>` for no element). -/
theorem C30_img_requires_src (h : HtmLike) (Scale Src w : String) :
    (((HtmLikeElement.img Scale Src).WriteDOT w).2 ≠ none ↔ Src = "") ∧
    (anyEmptySrc h.Elements = true →
      h.String = "Error writing element: IMG element requires SRC attribute") ∧
    (anyEmptySrc h.Elements = false →
      (writeChildren h.Elements "").2 = none ∧
      (h.String = if h.Elements.length = 0 then "<>" else (writeChildren h.Elements "").1) ∧
      h.String = if h.Elements.length = 0 then "<>" else serialiseAll h.Elements) := by
  refine ⟨?_, ?_, ?_⟩
  · rw [HtmLikeElement.WriteDOT_err]
    simp [HtmLikeElement.hasEmptySrc]
  · intro hb
    have hne : ¬ h.Elements.length = 0 := by
      intro hl
      rw [List.length_eq_zero.mp hl] at hb
      simp [anyEmptySrc] at hb
    unfold HtmLike.String
    rw [if_neg hne]
    simp only [writeChildren_err, hb, if_true]
    decide
  · intro hok
    have he := writeChildren_err h.Elements ""
    simp only [hok, Bool.false_eq_true, if_false] at he
    refine ⟨he, ?_, label_is_root_serialisation h hok⟩
    unfold HtmLike.String
    by_cases hl : h.Elements.length = 0
    · simp [hl]
    · rw [if_neg hl, if_neg hl]
      simp only [he]

/-- Witness of C30, amended: the label with an `IMG` without source in a table cell gives
the error text, the two-cell table label gives its markup. -/
theorem C30_img_requires_src_witness :
    exBadLabel.String = "Error writing element: IMG element requires SRC attribute" ∧
    (writeChildren exLabel.Elements "").2 = none ∧
    (exLabel.String =
      if exLabel.Elements.length = 0 then "<>" else (writeChildren exLabel.Elements "").1) ∧
    exLabel.String =
      if exLabel.Elements.length = 0 then "<>" else serialiseAll exLabel.Elements :=
  ⟨(C30_img_requires_src exBadLabel "" "" "").2.1 (by decide),
    (C30_img_requires_src exLabel "" "" "").2.2 (by decide)⟩

end htmlike


namespace dottwin

open dot dotx

/-! ## The effect of the twin operations on the graphs -/

theorem mem_idsOf {W : World} {g : GraphRef} {id : String} :
    id ∈ idsOf W g ↔ ∃ m ∈ W.nodesOf g, m.id = id := by
  simp [idsOf]

theorem idsOf_lookup {W W' : World} {g : GraphRef} {id : String} {n : dot.Node}
    (hid : n.id = id)
    (hold : (∃ m ∈ W.nodesOf g, m.id = id) → W'.nodesOf g = W.nodesOf g)
    (hnew : (¬ ∃ m ∈ W.nodesOf g, m.id = id) → W'.nodesOf g = W.nodesOf g ++ [n]) :
    idsOf W' g = addId (idsOf W g) id := by
  unfold addId
  by_cases h : ∃ m ∈ W.nodesOf g, m.id = id
  · rw [if_pos (mem_idsOf.mpr h)]
    unfold idsOf
    rw [hold h]
  · rw [if_neg (fun hm => h (mem_idsOf.mp hm))]
    unfold idsOf
    rw [hnew h, List.map_append, List.map_singleton, hid]

theorem Effect.of_node_lookup {g : GraphRef} {id : String} {W W' : World} {n : dot.Node}
    (P : Graph.NodePost g id W n W') : Effect W W' [(g, id)] [] where
  wf := P.wf
  len := P.graphs_len
  nodes_sub := P.nodes_sub_node
  subs := P.subs
  ids := fun i => by
    by_cases h : g = i
    · subst h
      simp only [List.filter_cons, decide_True, if_true, List.filter_nil, List.map_cons,
        List.map_nil, List.foldl_cons, List.foldl_nil]
      exact idsOf_lookup P.id_eq (fun h => (P.nodes_old h).1) (fun h => (P.nodes_new h).1)
    · simp only [List.filter_cons, h, decide_False, Bool.false_eq_true, if_false,
        List.filter_nil, List.map_nil, List.foldl_nil]
      unfold idsOf
      rw [P.nodes_ne i (fun e => h e.symm)]
  edges := fun i => by simp [P.edges i]

theorem Effect.of_port_call {s : Composite} {p : String} {W W' : World} {g : GraphRef}
    {port : dot.Node} {e : dot.Edge} (P : PortPost s p W g port e W') :
    Effect W W' [(s.Graph, p)] [g] where
  wf := P.wf
  len := P.graphs_len
  nodes_sub := P.nodes_sub_port
  subs := P.subs
  ids := fun i => by
    by_cases h : s.Graph = i
    · subst h
      simp only [List.filter_cons, decide_True, if_true, List.filter_nil, List.map_cons,
        List.map_nil, List.foldl_cons, List.foldl_nil]
      exact idsOf_lookup P.port_id P.nodes_old P.nodes_new
    · simp only [List.filter_cons, h, decide_False, Bool.false_eq_true, if_false,
        List.filter_nil, List.map_nil, List.foldl_nil]
      unfold idsOf
      rw [P.nodes_ne i (fun e => h e.symm)]
  edges := fun i => by
    by_cases h : g = i
    · subst h
      simp [P.edges_g]
    · rw [P.edges_ne i (fun e => h e.symm)]
      simp [List.count_singleton, h]

theorem Effect.of_edge_append {g : GraphRef} {f t : dot.Node} {fp tp : String} {W W' : World}
    {e : dot.Edge} (P : Graph.EdgePost g f t fp tp W e W') : Effect W W' [] [g] where
  wf := P.wf
  len := P.graphs_len
  nodes_sub := fun i n h => by rw [P.nodes i]; exact h
  subs := P.subs
  ids := fun i => by simp [idsOf, P.nodes i]
  edges := fun i => by
    by_cases h : g = i
    · subst h
      simp [P.edges_g]
    · rw [P.edges_ne i (fun e => h e.symm)]
      simp [List.count_singleton, h]

theorem Effect.of_attrs_write {W W' : World} (hW : W'.WF) (h : W'.graphs = W.graphs) :
    Effect W W' [] [] where
  wf := hW
  len := by rw [h]
  nodes_sub := fun i n hn => by rw [World.nodesOf_congr h]; exact hn
  subs := World.subgraphsOf_congr h
  ids := fun i => by simp [idsOf, World.nodesOf_congr h]
  edges := fun i => by simp [World.edgesOf_congr h]

theorem Effect.seq {W W1 W2 : World} {nt1 nt2 : List (GraphRef × String)}
    {et1 et2 : List GraphRef} (E1 : Effect W W1 nt1 et1) (E2 : Effect W1 W2 nt2 et2) :
    Effect W W2 (nt1 ++ nt2) (et1 ++ et2) where
  wf := E2.wf
  len := E2.len.trans E1.len
  nodes_sub := fun i n h => E2.nodes_sub i n (E1.nodes_sub i n h)
  subs := fun i => (E2.subs i).trans (E1.subs i)
  ids := fun i => by
    rw [E2.ids i, E1.ids i, List.filter_append, List.map_append, List.foldl_append]
  edges := fun i => by
    rw [E2.edges i, E1.edges i, List.count_append, Nat.add_assoc]

end dottwin


namespace dottwin

open dot dotx

/-! ## The invariant of the twin operations -/

theorem TwinInv.balanced_ids {S : TwinState} (I : TwinInv S) {a b : GraphRef} (id : String)
    (hp : (a, b) ∈ S.pairs) : ∀ p ∈ S.pairs,
      (([(a, id), (b, id)].filter fun t => t.1 = p.1).map Prod.snd) =
        (([(a, id), (b, id)].filter fun t => t.1 = p.2).map Prod.snd) := by
  rintro ⟨x, y⟩ hp'
  obtain ⟨h1, h2⟩ := I.pair_inj (x, y) hp' (a, b) hp
  obtain ⟨_, h4⟩ := I.pair_inj (a, b) hp (x, y) hp'
  simp only at h1 h2 h4
  have hb : ¬ b = x := fun e => h2 e.symm
  by_cases ha : a = x
  · have hb2 : b = y := (h1.mp ha.symm).symm
    subst ha; subst hb2
    simp [List.filter_cons, hb, h4]
  · have hb2 : ¬ b = y := fun e => ha (h1.mpr e.symm).symm
    simp [List.filter_cons, ha, hb, h4, hb2]

theorem TwinInv.balanced_edges {S : TwinState} (I : TwinInv S) {a b : GraphRef}
    (hp : (a, b) ∈ S.pairs) : ∀ p ∈ S.pairs, [a, b].count p.1 = [a, b].count p.2 := by
  rintro ⟨x, y⟩ hp'
  obtain ⟨h1, h2⟩ := I.pair_inj (x, y) hp' (a, b) hp
  obtain ⟨_, h4⟩ := I.pair_inj (a, b) hp (x, y) hp'
  simp only at h1 h2 h4
  have hb : ¬ b = x := fun e => h2 e.symm
  by_cases ha : a = x
  · have hb2 : b = y := (h1.mp ha.symm).symm
    subst ha; subst hb2
    simp [List.count_cons, hb, h4]
  · have hb2 : ¬ b = y := fun e => ha (h1.mpr e.symm).symm
    simp [List.count_cons, ha, hb, h4, hb2]

/-- An operation with a balanced effect keeps the invariant. -/
theorem TwinInv.of_effect {S : TwinState} (I : TwinInv S) {W' : World}
    {nt : List (GraphRef × String)} {et : List GraphRef} (E : Effect S.W W' nt et)
    (hbn : ∀ p ∈ S.pairs, ((nt.filter fun t => t.1 = p.1).map Prod.snd) =
      ((nt.filter fun t => t.1 = p.2).map Prod.snd))
    (hbe : ∀ p ∈ S.pairs, et.count p.1 = et.count p.2)
    (S' : TwinState) (hW : S'.W = W') (hg : S'.g = S.g) (hc : S'.composites = S.composites)
    (hn : ∀ n ∈ S'.nodes, n ∈ S.nodes ∨
      ∃ p ∈ S.pairs, n.in_ ∈ W'.nodesOf p.1 ∧ n.ex ∈ W'.nodesOf p.2) : TwinInv S' := by
  have hpairs : S'.pairs = S.pairs := by simp [TwinState.pairs, hg, hc]
  refine ⟨?_, ?_, ?_, ?_, ?_, ?_, ?_, ?_, ?_⟩
  · rw [hW]; exact E.wf
  · rw [hW, hg, hc, E.subs]; exact I.subs_root
  · intro c hc'
    rw [hc] at hc'
    rw [hW, E.subs]; exact I.subs_inner c hc'
  · intro c hc'
    rw [hc] at hc'
    obtain ⟨⟨a1, a2, a3⟩, ⟨b1, b2, b3⟩⟩ := I.comp_wf c hc'
    rw [hW]
    exact ⟨⟨E.nodes_sub _ _ a1, by rw [E.len]; exact a2, a3⟩,
      ⟨E.nodes_sub _ _ b1, by rw [E.len]; exact b2, b3⟩⟩
  · intro c hc'
    rw [hc] at hc'
    rw [hg]; exact I.comp_outer c hc'
  · intro p hp
    rw [hpairs] at hp
    rw [hW, E.len]; exact I.pair_lt p hp
  · intro p hp
    rw [hpairs] at hp
    obtain ⟨e1, e2⟩ := I.pair_eq p hp
    rw [hW, E.ids, E.ids, E.edges, E.edges, hbn p hp, hbe p hp, e1, e2]
    exact ⟨rfl, rfl⟩
  · rw [hpairs]; exact I.pair_inj
  · intro n hn'
    rw [hpairs, hW]
    rcases hn n hn' with h | h
    · obtain ⟨p, hp, h1, h2⟩ := I.handles n h
      exact ⟨p, hp, E.nodes_sub _ _ h1, E.nodes_sub _ _ h2⟩
    · exact h

theorem TwinInv.root_mem {S : TwinState} : (S.g.in_, S.g.ex) ∈ S.pairs := by
  simp [TwinState.pairs]

theorem TwinInv.comp_mem {S : TwinState} {c : CompositeTwin} (h : c ∈ S.composites) :
    (c.in_.Graph, c.ex.Graph) ∈ S.pairs := by
  simp only [TwinState.pairs, List.mem_cons, List.mem_map]
  exact Or.inr ⟨c, h, rfl⟩

end dottwin


namespace dottwin

open dot dotx

/-- `Input` with a node of graph `i` returns, and the new edge is appended to `i`, on either
branch. -/
theorem input_any (s : Composite) (p : String) (n : dot.Node) {W : World} {i : GraphRef}
    (hW : W.WF) (hs : s.Graph < W.graphs.length) (hn : n ∈ W.nodesOf i) :
    ∃ port e W', s.Input p (Connectable.node n) W = some (e, W') ∧
      PortPost s p W i port e W' := by
  obtain ⟨hg, hi, _⟩ := hW.node_facts hn
  by_cases h : n ∈ W.nodesOf s.Graph
  · have hsi : s.Graph = i := (hW.node_facts h).1.symm.trans hg
    obtain ⟨port, e, W', h1, P, _⟩ := Composite.Input_internal s p (Connectable.node n) hW hs h
    rw [hsi] at P
    exact ⟨port, e, W', h1, P⟩
  · have hx : (Connectable.node n).resolve.graph < W.graphs.length := by
      show n.graph < _
      rw [hg]; exact hi
    obtain ⟨port, e, W', h1, P, _⟩ :=
      Composite.Input_external s p (Connectable.node n) hW hs hx h
    have hr : (Connectable.node n).resolve.graph = i := hg
    rw [hr] at P
    exact ⟨port, e, W', h1, P⟩

/-- `Output` returns, and the new edge is appended to the inner graph when the node is one
of its nodes and to the outer graph otherwise. -/
theorem output_any (s : Composite) (p : String) (n : dot.Node) {W : World}
    (hW : W.WF) (hs : s.WF W) :
    ∃ port e W', s.Output p (Connectable.node n) W = some (e, W') ∧
      PortPost s p W (if n ∈ W.nodesOf s.Graph then s.Graph else s.outerGraph) port e W' := by
  obtain ⟨f1, f2, _, f4, _⟩ := Composite.WF.facts hW hs
  by_cases h : n ∈ W.nodesOf s.Graph
  · obtain ⟨port, e, W', h1, P, _⟩ :=
      Composite.Output_internal s p (Connectable.node n) hW f4 h
    rw [if_pos h]
    exact ⟨port, e, W', h1, P⟩
  · obtain ⟨port, e, W', h1, P, _⟩ :=
      Composite.Output_external s p (Connectable.node n) hW f4 (by rw [f1]; exact f2) h
    rw [if_neg h]
    rw [f1] at P
    exact ⟨port, e, W', h1, P⟩

/-- A lookup-or-create of `id` in both graphs of a pair keeps the invariant and returns a
handle of that pair. -/
theorem TwinInv.node_pair {S : TwinState} (I : TwinInv S) {a b : GraphRef} (id : String)
    (hp : (a, b) ∈ S.pairs) :
    ∃ n W2, GraphTwin.NodeTwin { in_ := a, ex := b } id S.W = some (n, W2) ∧
      TwinInv { S with W := W2, nodes := S.nodes ++ [n] } := by
  obtain ⟨la, lb⟩ := I.pair_lt _ hp
  obtain ⟨x, W1, h1, P1⟩ := Graph.Node_spec id I.wf la
  obtain ⟨y, W2, h2, P2⟩ := Graph.Node_spec id P1.wf (by rw [P1.graphs_len]; exact lb)
  refine ⟨{ in_ := x, ex := y }, W2, by simp [GraphTwin.NodeTwin, h1, h2], ?_⟩
  refine I.of_effect ((Effect.of_node_lookup P1).seq (Effect.of_node_lookup P2)) (I.balanced_ids id hp)
    (fun p _ => by simp) _ rfl rfl rfl ?_
  intro n hn
  simp only [List.mem_append, List.mem_singleton] at hn
  rcases hn with h | h
  · exact Or.inl h
  · subst h
    exact Or.inr ⟨(a, b), hp, P2.nodes_sub_node _ _ P1.mem, P2.mem⟩

end dottwin


namespace dottwin

open dot dotx

/-! ## The single operations keep the invariant -/

theorem step_graphNodeTwin {S : TwinState} (I : TwinInv S) (id : String) :
    ∃ S', (TwinOp.graphNodeTwin id).step S = some S' ∧ TwinInv S' ∧ S'.g = S.g ∧
      S'.composites = S.composites ∧ S'.nodes.length = S.nodes.length + 1 := by
  obtain ⟨n, W2, h, I2⟩ := I.node_pair id TwinInv.root_mem
  exact ⟨_, by simp only [TwinOp.step, h], I2, rfl, rfl, by simp⟩

theorem step_compositeNodeTwin {S : TwinState} (I : TwinInv S) (k : Nat) (id : String)
    (hk : k < S.composites.length) :
    ∃ S', (TwinOp.compositeNodeTwin k id).step S = some S' ∧ TwinInv S' ∧ S'.g = S.g ∧
      S'.composites = S.composites ∧ S'.nodes.length = S.nodes.length + 1 := by
  have hc : S.composites[k]? = some S.composites[k] := List.getElem?_eq_getElem hk
  obtain ⟨n, W2, h, I2⟩ :=
    I.node_pair id (TwinInv.comp_mem (List.getElem_mem hk))
  have h2 : (S.composites[k]).NodeTwin id S.W = some (n, W2) := h
  exact ⟨_, by simp only [TwinOp.step, hc, h2], I2, rfl, rfl, by simp⟩

theorem step_inputTwin {S : TwinState} (I : TwinInv S) (k : Nat) (id : String) (j : Nat)
    (hk : k < S.composites.length) (hj : j < S.nodes.length) :
    ∃ S', (TwinOp.inputTwin k id j).step S = some S' ∧ TwinInv S' ∧ S'.g = S.g ∧
      S'.composites = S.composites ∧ S'.nodes.length = S.nodes.length + 0 := by
  have hc : S.composites[k]? = some S.composites[k] := List.getElem?_eq_getElem hk
  have hn : S.nodes[j]? = some S.nodes[j] := List.getElem?_eq_getElem hj
  have hcm := TwinInv.comp_mem (List.getElem_mem hk)
  obtain ⟨p, hp, n1, n2⟩ := I.handles _ (List.getElem_mem hj)
  obtain ⟨la, lb⟩ := I.pair_lt _ hcm
  obtain ⟨port1, e1, W1, h1, P1⟩ := input_any (S.composites[k]).in_ id _ I.wf la n1
  obtain ⟨port2, e2, W2, h2, P2⟩ := input_any (S.composites[k]).ex id _ P1.wf
    (by rw [P1.graphs_len]; exact lb) (P1.nodes_sub_port _ _ n2)
  refine ⟨{ S with W := W2 }, by simp [TwinOp.step, hc, hn, CompositeTwin.InputTwin, h1, h2],
    ?_, rfl, rfl, rfl⟩
  exact I.of_effect ((Effect.of_port_call P1).seq (Effect.of_port_call P2)) (I.balanced_ids id hcm)
    (I.balanced_edges hp) _ rfl rfl rfl (fun n h => Or.inl h)

theorem step_outputTwin {S : TwinState} (I : TwinInv S) (k : Nat) (id : String) (j : Nat)
    (hk : k < S.composites.length) (hj : j < S.nodes.length) :
    ∃ S', (TwinOp.outputTwin k id j).step S = some S' ∧ TwinInv S' ∧ S'.g = S.g ∧
      S'.composites = S.composites ∧ S'.nodes.length = S.nodes.length + 0 := by
  have hc : S.composites[k]? = some S.composites[k] := List.getElem?_eq_getElem hk
  have hn : S.nodes[j]? = some S.nodes[j] := List.getElem?_eq_getElem hj
  have hkm := List.getElem_mem hk
  have hcm := TwinInv.comp_mem hkm
  obtain ⟨p, hp, n1, n2⟩ := I.handles _ (List.getElem_mem hj)
  obtain ⟨wa, wb⟩ := I.comp_wf _ hkm
  obtain ⟨oa, ob⟩ := I.comp_outer _ hkm
  obtain ⟨port1, e1, W1, h1, P1⟩ := output_any (S.composites[k]).in_ id (S.nodes[j]).in_ I.wf wa
  obtain ⟨port2, e2, W2, h2, P2⟩ :=
    output_any (S.composites[k]).ex id (S.nodes[j]).ex P1.wf (P1.composite_wf wb)
  refine ⟨{ S with W := W2 }, by simp [TwinOp.step, hc, hn, CompositeTwin.OutputTwin, h1, h2],
    ?_, rfl, rfl, rfl⟩
  have hinj := (I.pair_inj p hp _ hcm).1
  simp only at hinj
  have hiff : (S.nodes[j]).in_ ∈ S.W.nodesOf (S.composites[k]).in_.Graph ↔
      (S.nodes[j]).ex ∈ W1.nodesOf (S.composites[k]).ex.Graph := by
    constructor
    · intro h
      have e1 : p.1 = (S.composites[k]).in_.Graph :=
        (I.wf.node_facts n1).1.symm.trans (I.wf.node_facts h).1
      rw [← hinj.mp e1]
      exact P1.nodes_sub_port _ _ n2
    · intro h
      have e2 : p.2 = (S.composites[k]).ex.Graph :=
        (P1.wf.node_facts (P1.nodes_sub_port _ _ n2)).1.symm.trans (P1.wf.node_facts h).1
      rw [← hinj.mpr e2]
      exact n1
  have hb : ∀ q ∈ S.pairs,
      [if (S.nodes[j]).in_ ∈ S.W.nodesOf (S.composites[k]).in_.Graph
          then (S.composites[k]).in_.Graph else (S.composites[k]).in_.outerGraph,
        if (S.nodes[j]).ex ∈ W1.nodesOf (S.composites[k]).ex.Graph
          then (S.composites[k]).ex.Graph else (S.composites[k]).ex.outerGraph].count q.1 =
      [if (S.nodes[j]).in_ ∈ S.W.nodesOf (S.composites[k]).in_.Graph
          then (S.composites[k]).in_.Graph else (S.composites[k]).in_.outerGraph,
        if (S.nodes[j]).ex ∈ W1.nodesOf (S.composites[k]).ex.Graph
          then (S.composites[k]).ex.Graph else (S.composites[k]).ex.outerGraph].count q.2 := by
    by_cases h : (S.nodes[j]).in_ ∈ S.W.nodesOf (S.composites[k]).in_.Graph
    · rw [if_pos h, if_pos (hiff.mp h)]
      exact I.balanced_edges hcm
    · rw [if_neg h, if_neg (fun h2 => h (hiff.mpr h2)), oa, ob]
      exact I.balanced_edges TwinInv.root_mem
  exact I.of_effect ((Effect.of_port_call P1).seq (Effect.of_port_call P2)) (I.balanced_ids id hcm)
    hb _ rfl rfl rfl (fun n h => Or.inl h)

theorem step_nodeEdge {S : TwinState} (I : TwinInv S) (j m : Nat) (labels : List String)
    (hj : j < S.nodes.length) (hm : m < S.nodes.length) :
    ∃ S', (TwinOp.nodeEdge j m labels).step S = some S' ∧ TwinInv S' ∧ S'.g = S.g ∧
      S'.composites = S.composites ∧ S'.nodes.length = S.nodes.length + 0 := by
  have hn : S.nodes[j]? = some S.nodes[j] := List.getElem?_eq_getElem hj
  have hn2 : S.nodes[m]? = some S.nodes[m] := List.getElem?_eq_getElem hm
  obtain ⟨p, hp, n1, n2⟩ := I.handles _ (List.getElem_mem hj)
  obtain ⟨la, lb⟩ := I.pair_lt _ hp
  have g1 : (S.nodes[j]).in_.graph = p.1 := (I.wf.node_facts n1).1
  have g2 : (S.nodes[j]).ex.graph = p.2 := (I.wf.node_facts n2).1
  obtain ⟨e1, W1, h1, P1⟩ :=
    Graph.EdgeWithPorts_spec (S.nodes[j]).in_ (S.nodes[m]).in_ "" "" labels I.wf la
  obtain ⟨e2, W2, h2, P2⟩ :=
    Graph.EdgeWithPorts_spec (S.nodes[j]).ex (S.nodes[m]).ex "" "" labels P1.wf
      (by rw [P1.graphs_len]; exact lb)
  refine ⟨{ S with W := W2 }, by
    simp [TwinOp.step, hn, hn2, NodeTwin.Edge, Graph.Edge, Node.Graph, g1, g2, h1, h2],
    ?_, rfl, rfl, rfl⟩
  exact I.of_effect ((Effect.of_edge_append P1).seq (Effect.of_edge_append P2)) (fun p _ => by simp)
    (I.balanced_edges hp) _ rfl rfl rfl (fun n h => Or.inl h)

end dottwin


namespace dottwin

open dot dotx

theorem step_nodeSetAttribute {S : TwinState} (I : TwinInv S) (j : Nat) (l : String)
    (v : dot.Value) (hj : j < S.nodes.length) :
    ∃ S', (TwinOp.nodeSetAttribute j l v).step S = some S' ∧ TwinInv S' ∧ S'.g = S.g ∧
      S'.composites = S.composites ∧ S'.nodes.length = S.nodes.length + 1 := by
  have hn : S.nodes[j]? = some S.nodes[j] := List.getElem?_eq_getElem hj
  have hjm := List.getElem_mem hj
  obtain ⟨p, hp, n1, n2⟩ := I.handles _ hjm
  obtain ⟨W1, h1, wf1, g1, al1, _⟩ :=
    AttributesMap.SetAttribute_wf (a := (S.nodes[j]).in_.toAttributesMap) l v I.wf
      (I.wf.node_facts n1).2.2
  obtain ⟨W2, h2, wf2, g2, _⟩ :=
    AttributesMap.SetAttribute_wf (a := (S.nodes[j]).ex.toAttributesMap) l v wf1
      (by rw [al1]; exact (I.wf.node_facts n2).2.2)
  refine ⟨{ S with W := W2, nodes := S.nodes ++ [S.nodes[j]] }, by
    simp [TwinOp.step, hn, NodeTwin.SetAttribute, h1, h2], ?_, rfl, rfl, by simp⟩
  refine I.of_effect (Effect.of_attrs_write wf2 (g2.trans g1)) (fun p _ => by simp)
    (fun p _ => by simp) _ rfl rfl rfl ?_
  intro n h
  simp only [List.mem_append, List.mem_singleton] at h
  rcases h with h | h
  · exact Or.inl h
  · subst h; exact Or.inl hjm

theorem step_compositeSetAttribute {S : TwinState} (I : TwinInv S) (k : Nat) (l : String)
    (v : dot.Value) (hk : k < S.composites.length) :
    ∃ S', (TwinOp.compositeSetAttribute k l v).step S = some S' ∧ TwinInv S' ∧ S'.g = S.g ∧
      S'.composites = S.composites ∧ S'.nodes.length = S.nodes.length + 1 := by
  have hc : S.composites[k]? = some S.composites[k] := List.getElem?_eq_getElem hk
  have hkm := List.getElem_mem hk
  obtain ⟨wa, wb⟩ := I.comp_wf _ hkm
  obtain ⟨oa, ob⟩ := I.comp_outer _ hkm
  obtain ⟨W1, h1, wf1, g1, al1, _⟩ :=
    AttributesMap.SetAttribute_wf (a := (S.composites[k]).in_.outerNode.toAttributesMap) l v
      I.wf (I.wf.node_facts wa.1).2.2
  obtain ⟨W2, h2, wf2, g2, _⟩ :=
    AttributesMap.SetAttribute_wf (a := (S.composites[k]).ex.outerNode.toAttributesMap) l v
      wf1 (by rw [al1]; exact (I.wf.node_facts wb.1).2.2)
  have h1n := Node.SetAttribute_node_eq h1
  have h2n := Node.SetAttribute_node_eq h2
  refine ⟨{ S with W := W2, nodes := S.nodes ++
      [{ in_ := (S.composites[k]).in_.outerNode, ex := (S.composites[k]).ex.outerNode }] }, by
    simp [TwinOp.step, hc, CompositeTwin.SetAttribute, Composite.OuterNode, h1n, h2n],
    ?_, rfl, rfl, by simp⟩
  have E := Effect.of_attrs_write wf2 (g2.trans g1)
  refine I.of_effect E (fun p _ => by simp) (fun p _ => by simp) _ rfl rfl rfl ?_
  intro n h
  simp only [List.mem_append, List.mem_singleton] at h
  rcases h with h | h
  · exact Or.inl h
  · subst h
    refine Or.inr ⟨_, TwinInv.root_mem, ?_, ?_⟩
    · rw [← oa]; exact E.nodes_sub _ _ wa.1
    · rw [← ob]; exact E.nodes_sub _ _ wb.1

end dottwin


namespace dottwin

open dot dotx

/-! ## `NewCompositeTwin` keeps the invariant when the id is new -/

theorem World.nodesOf_of_graph {W : World} {r : GraphRef} {G : Graph}
    (h : W.graphs[r]? = some G) :
    W.nodesOf r = G.nodes ∧ W.edgesOf r = G.edges ∧ W.subgraphsOf r = G.subgraphs := by
  simp [World.nodesOf, World.edgesOf, World.subgraphsOf, h]

/-- What `NewComposite` does to the graphs when it creates the inner graph: the new graph
has no node, edge or subgraph; the parent graph looks up or creates the outer node, and
registers the new graph when the kind is `SameGraph`; nothing else changes. -/
theorem NewComposite_shape (d id : String) {g : GraphRef} (kind : compositeGraphKind)
    {W : World} (hW : W.WF) (hg : g < W.graphs.length)
    (hfresh : kind = SameGraph → (W.subgraphsOf g).lookup id = none)
    {s : Composite} {W' : World} (h : NewComposite d id g kind W = some (s, W')) :
    s.Graph = W.graphs.length ∧
    W'.nodesOf s.Graph = [] ∧ W'.edgesOf s.Graph = [] ∧ W'.subgraphsOf s.Graph = [] ∧
    (∀ i : GraphRef, i < W.graphs.length →
      idsOf W' i = if i = g then addId (idsOf W i) id else idsOf W i) ∧
    (∀ i : GraphRef, i < W.graphs.length →
      W'.subgraphsOf i =
        if i = g ∧ kind = SameGraph then W.subgraphsOf i ++ [(id, s.Graph)]
        else W.subgraphsOf i) ∧
    (∀ (i : GraphRef) (n : dot.Node), n ∈ W.nodesOf i → n ∈ W'.nodesOf i) := by
  have hstep : ∃ r W1 a o,
      (if kind = SameGraph then Graph.Subgraph g id [GraphOption.ClusterOption] W
        else some (NewGraph [GraphOption.Directed] W)) = some (r, W1) ∧
      W1.WF ∧ r = W.graphs.length ∧ W.graphs.length ≤ W1.graphs.length ∧
      W1.graphs[r]? = some { attributes := a, options := o, nodes := [], edges := [],
                             subgraphs := [] } ∧
      (∀ i : GraphRef, i < W.graphs.length → W1.nodesOf i = W.nodesOf i) ∧
      (∀ i : GraphRef, i < W.graphs.length →
        W1.subgraphsOf i =
          if i = g ∧ kind = SameGraph then W.subgraphsOf i ++ [(id, r)]
          else W.subgraphsOf i) := by
    by_cases hk : kind = SameGraph
    · obtain ⟨r, W1, h1, P⟩ := Graph.Subgraph_spec id [GraphOption.ClusterOption] hW hg
      obtain ⟨n1, n2, n3⟩ := P.new (hfresh hk)
      refine ⟨r, W1, _, _, by rw [if_pos hk]; exact h1, P.wf, n1, P.graphs_le, n3, P.nodes,
        fun i hi => ?_⟩
      by_cases hig : i = g
      · rw [if_pos ⟨hig, hk⟩, hig]; exact n2
      · rw [if_neg (fun hh => hig hh.1)]; exact P.subs_ne i hi hig
    · have P := NewGraph_spec [GraphOption.Directed] hW
      refine ⟨_, _, _, _, by rw [if_neg hk], P.wf, P.ref_eq,
        by rw [P.graphs_len]; exact Nat.le_succ _, P.graph_eq, P.nodes, fun i hi => ?_⟩
      rw [if_neg (fun hh => hk hh.2)]; exact P.subs i hi
  obtain ⟨r, W1, a, o, h1, wf1, hr, gl1, gr1, nd1, sb1⟩ := hstep
  obtain ⟨n, W2, h2, P2⟩ := Graph.Node_spec id wf1 (lt_of_lt_of_le hg gl1)
  obtain ⟨W3, h3, wf3, g3, al3, k3, _, _⟩ :=
    AttributesMap.SetAttribute_wf (a := n.toAttributesMap) "shape" (Value.str "box3d")
      P2.wf P2.attr_lt
  obtain ⟨W4, h4, _, g4, al4, _, _, k4⟩ :=
    Composite.ExportName_spec
      { Graph := r, outerNode := n, outerGraph := g, dotFilename := "", kind := kind } d id wf3
      (by rw [al3]; exact P2.attr_lt)
  have he : NewComposite d id g kind W =
      some ({ Graph := r, outerNode := n, outerGraph := g,
              dotFilename := d ++ (replaceSpaces id ++ ".dot"), kind := kind }, W4) := by
    simp only [NewComposite, h1, h2, Node.SetAttribute_node_eq h3]
    exact h4
  rw [he] at h
  simp only [Option.some.injEq, Prod.mk.injEq] at h
  obtain ⟨rfl, rfl⟩ := h
  have hg4 : W4.graphs = W2.graphs := g4.trans g3
  have hrg : r ≠ g := by
    intro e
    rw [e] at hr
    exact absurd hr (Nat.ne_of_lt hg)
  have hr2 := (P2.graphs_ne r hrg).trans gr1
  obtain ⟨e1, e2, e3⟩ := World.nodesOf_of_graph hr2
  refine ⟨hr, ?_, ?_, ?_, fun i hi => ?_, fun i hi => ?_, fun i m hm => ?_⟩
  · rw [World.nodesOf_congr hg4]; exact e1
  · rw [World.edgesOf_congr hg4]; exact e2
  · rw [World.subgraphsOf_congr hg4]; exact e3
  · have h4i : idsOf W4 i = idsOf W2 i := by
      unfold idsOf; rw [World.nodesOf_congr hg4]
    have h1i : idsOf W1 i = idsOf W i := by
      unfold idsOf; rw [nd1 i hi]
    rw [h4i, ← h1i]
    by_cases hig : i = g
    · rw [if_pos hig, hig]
      exact idsOf_lookup P2.id_eq (fun h => (P2.nodes_old h).1) (fun h => (P2.nodes_new h).1)
    · rw [if_neg hig]
      unfold idsOf
      rw [P2.nodes_ne i hig]
  · rw [World.subgraphsOf_congr hg4, P2.subs]; exact sb1 i hi
  · rw [World.nodesOf_congr hg4]
    apply P2.nodes_sub_node
    by_cases hi : i < W.graphs.length
    · rw [nd1 i hi]; exact hm
    · exfalso
      have : W.graphs[i]? = none := List.getElem?_eq_none (Nat.le_of_not_lt hi)
      simp [World.nodesOf, this] at hm

end dottwin


namespace dottwin

open dot dotx

theorem lookup_map_none {α : Type} (f : α → String) (k : α → GraphRef) (id : String) :
    ∀ l : List α, id ∉ l.map f → (l.map fun c => (f c, k c)).lookup id = none
  | [], _ => rfl
  | c :: l, h => by
    simp only [List.map_cons, List.mem_cons, not_or] at h
    have hne : (id == f c) = false := by simpa using h.1
    simp only [List.map_cons, List.lookup_cons, hne]
    exact lookup_map_none f k id l h.2

/-- A pair of two new graphs extends an injective pairing of older graphs. -/
theorem inj_extend (P : List (Nat × Nat)) (L L1 : Nat)
    (hlt : ∀ p ∈ P, p.1 < L ∧ p.2 < L) (hL : L < L1)
    (hinj : ∀ p ∈ P, ∀ q ∈ P, (p.1 = q.1 ↔ p.2 = q.2) ∧ p.1 ≠ q.2) :
    ∀ p ∈ P ++ [(L, L1)], ∀ q ∈ P ++ [(L, L1)], (p.1 = q.1 ↔ p.2 = q.2) ∧ p.1 ≠ q.2 := by
  intro p hp q hq
  simp only [List.mem_append, List.mem_singleton] at hp hq
  rcases hp with hp | rfl <;> rcases hq with hq | rfl
  · exact hinj p hp q hq
  · have := hlt p hp
    exact ⟨⟨fun h => by simp only at h; omega, fun h => by simp only at h; omega⟩,
      by simp only; omega⟩
  · have := hlt q hq
    exact ⟨⟨fun h => by simp only at h; omega, fun h => by simp only at h; omega⟩,
      by simp only; omega⟩
  · exact ⟨⟨fun _ => rfl, fun _ => rfl⟩, Nat.ne_of_lt hL⟩

theorem TwinState.pairs_append (S : TwinState) (W : World) (c : CompositeTwin) :
    ({ S with W := W, composites := S.composites ++ [c] } : TwinState).pairs =
      S.pairs ++ [(c.in_.Graph, c.ex.Graph)] := by
  simp [TwinState.pairs]

theorem step_newCompositeTwin {S : TwinState} (I : TwinInv S) (d id : String)
    (hid : id ∉ S.composites.map fun c => c.in_.outerNode.id) :
    ∃ S', (TwinOp.newCompositeTwin d id).step S = some S' ∧ TwinInv S' ∧ S'.g = S.g ∧
      S'.nodes = S.nodes ∧ S'.composites.length = S.composites.length + 1 ∧
      (S'.composites.map fun c => c.in_.outerNode.id) =
        (S.composites.map fun c => c.in_.outerNode.id) ++ [id] := by
  obtain ⟨ra, rb⟩ := I.pair_lt _ TwinInv.root_mem
  simp only at ra rb
  have hfresh : (S.W.subgraphsOf S.g.in_).lookup id = none := by
    rw [I.subs_root]
    exact lookup_map_none _ _ id _ hid
  obtain ⟨a, W1, h1, Pa⟩ := NewComposite_spec d id SameGraph I.wf ra
  obtain ⟨a1, a2, a3, a4, a5, a6, a7⟩ :=
    NewComposite_shape d id SameGraph I.wf ra (fun _ => hfresh) h1
  have rb1 : S.g.ex < W1.graphs.length := lt_of_lt_of_le rb Pa.graphs_le
  obtain ⟨b, W2, h2, Pb⟩ := NewComposite_spec d id ExternalGraph Pa.wf rb1
  obtain ⟨b1, b2, b3, b4, b5, b6, b7⟩ :=
    NewComposite_shape d id ExternalGraph Pa.wf rb1 (fun h => absurd h (by decide)) h2
  have hne : ¬ (ExternalGraph = SameGraph) := by decide
  have hL : a.Graph < W1.graphs.length := Pa.swf.2.1
  have hL2 : b.Graph < W2.graphs.length := Pb.swf.2.1
  have hab : a.Graph < b.Graph := by rw [b1]; exact hL
  have hold : ∀ p ∈ S.pairs, p.1 < a.Graph ∧ p.2 < a.Graph := by
    intro p hp; rw [a1]; exact I.pair_lt p hp
  have hle : S.W.graphs.length ≤ W2.graphs.length := le_trans Pa.graphs_le Pb.graphs_le
  have hsub : ∀ (i : GraphRef) (n : dot.Node), n ∈ S.W.nodesOf i → n ∈ W2.nodesOf i :=
    fun i n h => b7 i n (a7 i n h)
  have hkeep : ∀ s : Composite, s.WF S.W → s.WF W2 := fun s hs =>
    ⟨hsub _ _ hs.1, lt_of_lt_of_le hs.2.1 hle, hs.2.2⟩
  refine ⟨{ S with W := W2, composites := S.composites ++ [{ in_ := a, ex := b }] },
    by simp [TwinOp.step, NewCompositeTwin, h1, h2], ?_, rfl, rfl, by simp,
    by simp [Pa.outer_id]⟩
  have hpairs := TwinState.pairs_append S W2 { in_ := a, ex := b }
  refine ⟨Pb.wf, ?_, ?_, ?_, ?_, ?_, ?_, ?_, ?_⟩
  · show W2.subgraphsOf S.g.in_ = _
    rw [b6 _ (lt_of_lt_of_le ra Pa.graphs_le), if_neg (fun h => hne h.2), a6 _ ra,
      if_pos ⟨rfl, rfl⟩, I.subs_root]
    simp [Pa.outer_id]
  · intro c hc
    show W2.subgraphsOf c.in_.Graph = []
    simp only [List.mem_append, List.mem_singleton] at hc
    rcases hc with hc | rfl
    · have hlt := (I.pair_lt _ (TwinInv.comp_mem hc)).1
      have hcg : c.in_.Graph ≠ S.g.in_ := by
        rw [← (I.comp_outer c hc).1]; exact (I.comp_wf c hc).1.2.2
      rw [b6 _ (lt_of_lt_of_le hlt Pa.graphs_le), if_neg (fun h => hne h.2), a6 _ hlt,
        if_neg (fun h => hcg h.1)]
      exact I.subs_inner c hc
    · show W2.subgraphsOf a.Graph = []
      rw [b6 _ hL, if_neg (fun h => hne h.2)]
      exact a4
  · intro c hc
    show c.in_.WF W2 ∧ c.ex.WF W2
    simp only [List.mem_append, List.mem_singleton] at hc
    rcases hc with hc | rfl
    · exact ⟨hkeep _ (I.comp_wf c hc).1, hkeep _ (I.comp_wf c hc).2⟩
    · exact ⟨⟨b7 _ _ Pa.swf.1, lt_of_lt_of_le Pa.swf.2.1 Pb.graphs_le, Pa.swf.2.2⟩, Pb.swf⟩
  · intro c hc
    show c.in_.outerGraph = S.g.in_ ∧ c.ex.outerGraph = S.g.ex
    simp only [List.mem_append, List.mem_singleton] at hc
    rcases hc with hc | rfl
    · exact I.comp_outer c hc
    · exact ⟨Pa.outerGraph_eq, Pb.outerGraph_eq⟩
  · intro p hp
    rw [hpairs] at hp
    show p.1 < W2.graphs.length ∧ p.2 < W2.graphs.length
    simp only [List.mem_append, List.mem_singleton] at hp
    rcases hp with hp | rfl
    · exact ⟨lt_of_lt_of_le (I.pair_lt p hp).1 hle, lt_of_lt_of_le (I.pair_lt p hp).2 hle⟩
    · exact ⟨lt_of_lt_of_le hL Pb.graphs_le, hL2⟩
  · intro p hp
    rw [hpairs] at hp
    show idsOf W2 p.1 = idsOf W2 p.2 ∧ (W2.edgesOf p.1).length = (W2.edgesOf p.2).length
    simp only [List.mem_append, List.mem_singleton] at hp
    rcases hp with hp | rfl
    · obtain ⟨l1, l2⟩ := I.pair_lt p hp
      obtain ⟨e1, e2⟩ := I.pair_eq p hp
      obtain ⟨i1, i2⟩ := I.pair_inj p hp _ TwinInv.root_mem
      obtain ⟨_, i4⟩ := I.pair_inj _ TwinInv.root_mem p hp
      simp only at i1 i2 i4
      have l1' := lt_of_lt_of_le l1 Pa.graphs_le
      have l2' := lt_of_lt_of_le l2 Pa.graphs_le
      have hx : idsOf W2 p.1 =
          if p.1 = S.g.in_ then addId (idsOf S.W p.1) id else idsOf S.W p.1 := by
        rw [b5 _ l1', if_neg i2, a5 _ l1]
      have hy : idsOf W2 p.2 =
          if p.2 = S.g.ex then addId (idsOf S.W p.2) id else idsOf S.W p.2 := by
        rw [b5 _ l2', a5 _ l2, if_neg (show ¬ p.2 = S.g.in_ from fun h => i4 h.symm)]
      rw [hx, hy, Pb.edges _ l1', Pb.edges _ l2', Pa.edges _ l1, Pa.edges _ l2, e1, e2]
      refine ⟨?_, rfl⟩
      by_cases hh : p.1 = S.g.in_
      · rw [if_pos hh, if_pos (i1.mp hh)]
      · rw [if_neg hh, if_neg (fun h => hh (i1.mpr h))]
    · show idsOf W2 a.Graph = idsOf W2 b.Graph ∧
        (W2.edgesOf a.Graph).length = (W2.edgesOf b.Graph).length
      have hne2 : a.Graph ≠ S.g.ex := by
        rw [a1]; exact fun h => absurd h.symm (Nat.ne_of_lt rb)
      rw [b5 _ hL, if_neg hne2, Pb.edges _ hL, b3, a3]
      unfold idsOf
      rw [a2, b2]
      exact ⟨rfl, rfl⟩
  · rw [hpairs]
    exact inj_extend S.pairs a.Graph b.Graph hold hab I.pair_inj
  · intro n hn
    rw [hpairs]
    obtain ⟨p, hp, n1, n2⟩ := I.handles n hn
    exact ⟨p, List.mem_append_left _ hp, hsub _ _ n1, hsub _ _ n2⟩

end dottwin


namespace dottwin

open dot dotx

/-! ## Sequences of operations -/

theorem TwinInv.start (options : List GraphOption) : TwinInv (TwinState.start options) := by
  have P1 := NewGraph_spec options World.WF_empty
  have P2 := NewGraph_spec options P1.wf
  refine ⟨P2.wf, rfl, (fun c hc => by cases hc), (fun c hc => by cases hc),
    (fun c hc => by cases hc), ?_, ?_, ?_, (fun n hn => by cases hn)⟩
  · intro p hp
    simp only [TwinState.pairs, TwinState.start, NewGraphTwin, NewGraph, World.empty,
      List.map_nil, List.mem_singleton] at hp
    subst hp
    simp [TwinState.start, NewGraphTwin, NewGraph, World.empty]
  · intro p hp
    simp only [TwinState.pairs, TwinState.start, NewGraphTwin, NewGraph, World.empty,
      List.map_nil, List.mem_singleton] at hp
    subst hp
    exact ⟨rfl, rfl⟩
  · intro p hp q hq
    simp only [TwinState.pairs, TwinState.start, NewGraphTwin, NewGraph, World.empty,
      List.map_nil, List.mem_singleton] at hp hq
    subst hp; subst hq
    simp

/-- Every operation applied to values returned before it, `NewCompositeTwin` with an id not
used before, returns and keeps the invariant. -/
theorem TwinOp.step_spec (op : TwinOp) {S : TwinState} (I : TwinInv S)
    (hcl : op.closed S.nodes.length S.composites.length = true)
    (hid : ∀ id ∈ compositeIds [op], id ∉ S.composites.map fun c => c.in_.outerNode.id) :
    ∃ S', op.step S = some S' ∧ TwinInv S' ∧ S'.g = S.g ∧
      S'.nodes.length = S.nodes.length + op.newNodes ∧
      S'.composites.length = S.composites.length + op.newComposites ∧
      (S'.composites.map fun c => c.in_.outerNode.id) =
        (S.composites.map fun c => c.in_.outerNode.id) ++ compositeIds [op] := by
  cases op with
  | graphNodeTwin id =>
    obtain ⟨S', h, I', e1, e2, e3⟩ := step_graphNodeTwin I id
    exact ⟨S', h, I', e1, e3, by rw [e2]; rfl, by rw [e2]; simp [compositeIds]⟩
  | newCompositeTwin d id =>
    obtain ⟨S', h, I', e1, e2, e3, e4⟩ :=
      step_newCompositeTwin I d id (hid id (by simp [compositeIds]))
    exact ⟨S', h, I', e1, by rw [e2]; rfl, e3, by rw [e4]; simp [compositeIds]⟩
  | compositeNodeTwin k id =>
    simp only [TwinOp.closed, decide_eq_true_eq] at hcl
    obtain ⟨S', h, I', e1, e2, e3⟩ := step_compositeNodeTwin I k id hcl
    exact ⟨S', h, I', e1, e3, by rw [e2]; rfl, by rw [e2]; simp [compositeIds]⟩
  | inputTwin k id j =>
    simp only [TwinOp.closed, Bool.and_eq_true, decide_eq_true_eq] at hcl
    obtain ⟨S', h, I', e1, e2, e3⟩ := step_inputTwin I k id j hcl.1 hcl.2
    exact ⟨S', h, I', e1, e3, by rw [e2]; rfl, by rw [e2]; simp [compositeIds]⟩
  | outputTwin k id j =>
    simp only [TwinOp.closed, Bool.and_eq_true, decide_eq_true_eq] at hcl
    obtain ⟨S', h, I', e1, e2, e3⟩ := step_outputTwin I k id j hcl.1 hcl.2
    exact ⟨S', h, I', e1, e3, by rw [e2]; rfl, by rw [e2]; simp [compositeIds]⟩
  | nodeEdge j m labels =>
    simp only [TwinOp.closed, Bool.and_eq_true, decide_eq_true_eq] at hcl
    obtain ⟨S', h, I', e1, e2, e3⟩ := step_nodeEdge I j m labels hcl.1 hcl.2
    exact ⟨S', h, I', e1, e3, by rw [e2]; rfl, by rw [e2]; simp [compositeIds]⟩
  | nodeSetAttribute j l v =>
    simp only [TwinOp.closed, decide_eq_true_eq] at hcl
    obtain ⟨S', h, I', e1, e2, e3⟩ := step_nodeSetAttribute I j l v hcl
    exact ⟨S', h, I', e1, e3, by rw [e2]; rfl, by rw [e2]; simp [compositeIds]⟩
  | compositeSetAttribute k l v =>
    simp only [TwinOp.closed, decide_eq_true_eq] at hcl
    obtain ⟨S', h, I', e1, e2, e3⟩ := step_compositeSetAttribute I k l v hcl
    exact ⟨S', h, I', e1, e3, by rw [e2]; rfl, by rw [e2]; simp [compositeIds]⟩

theorem compositeIds_cons (op : TwinOp) (ops : List TwinOp) :
    compositeIds (op :: ops) = compositeIds [op] ++ compositeIds ops := by
  cases op <;> simp [compositeIds]

/-- A sequence of operations, each applied to values returned before it and no two
`NewCompositeTwin` with the same id, returns and keeps the invariant. -/
theorem runOps_spec (ops : List TwinOp) : ∀ {S : TwinState}, TwinInv S →
    closedOps S.nodes.length S.composites.length ops = true →
    ((S.composites.map fun c => c.in_.outerNode.id) ++ compositeIds ops).Nodup →
    ∃ S', runOps ops S = some S' ∧ TwinInv S' := by
  induction ops with
  | nil => intro S I _ _; exact ⟨S, rfl, I⟩
  | cons op ops ih =>
    intro S I hcl hnd
    simp only [closedOps, Bool.and_eq_true] at hcl
    rw [compositeIds_cons, ← List.append_assoc] at hnd
    have hnd1 := (List.nodup_append.mp hnd).1
    obtain ⟨S1, h1, I1, _, e2, e3, e4⟩ := op.step_spec I hcl.1 (fun id hid hm =>
      (List.nodup_append.mp hnd1).2.2 hm hid)
    obtain ⟨S2, h2, I2⟩ := ih I1 (by rw [e2, e3]; exact hcl.2) (by rw [e4]; exact hnd)
    exact ⟨S2, by simp only [runOps, h1]; exact h2, I2⟩

theorem hierarchy_flat {S : TwinState} (I : TwinInv S) :
    S.inGraphs = S.pairs.map Prod.fst := by
  obtain ⟨ra, rb⟩ := I.pair_lt _ TwinInv.root_mem
  have hne := (I.pair_inj _ TwinInv.root_mem _ TwinInv.root_mem).2
  simp only at ra rb hne
  have key : ∀ x y n : Nat, x < n → y < n → x ≠ y → ∃ d, n = d + 2 :=
    fun x y n h1 h2 h3 => ⟨n - 2, by omega⟩
  obtain ⟨d, hd⟩ := key _ _ _ ra rb hne
  have hin : ∀ l : List CompositeTwin, (∀ c ∈ l, S.W.subgraphsOf c.in_.Graph = []) →
      ((l.map fun c => (c.in_.outerNode.id, c.in_.Graph)).map
        fun p => hierarchy S.W (d + 1) p.2).flatten = l.map fun c => c.in_.Graph := by
    intro l
    induction l with
    | nil => intro _; rfl
    | cons c l ih =>
      intro h
      have hc := h c (List.mem_cons_self _ _)
      simp only [List.map_cons, List.flatten_cons, hierarchy, hc, List.map_nil,
        List.flatten_nil, List.singleton_append, List.cons.injEq, true_and]
      exact ih (fun c' hc' => h c' (List.mem_cons_of_mem _ hc'))
  unfold TwinState.inGraphs
  rw [hd, hierarchy, I.subs_root, hin _ I.subs_inner]
  simp [TwinState.pairs]

/-- The invariant gives the agreement of the two sides. -/
theorem TwinInv.agree {S : TwinState} (I : TwinInv S) : S.Agree := by
  have hex : S.exGraphs = S.pairs.map Prod.snd := by
    simp [TwinState.exGraphs, TwinState.pairs]
  unfold TwinState.Agree
  rw [hierarchy_flat I, hex]
  constructor
  · unfold edgeTotal
    rw [List.map_map, List.map_map]
    congr 1
    exact List.map_congr_left (fun p hp => (I.pair_eq p hp).2)
  · unfold idTotal
    rw [List.map_map, List.map_map]
    have h : S.pairs.map ((fun i => idsOf S.W i) ∘ Prod.fst) =
        S.pairs.map ((fun i => idsOf S.W i) ∘ Prod.snd) :=
      List.map_congr_left (fun p hp => (I.pair_eq p hp).1)
    rw [h]

end dottwin


namespace dottwin

open dot dotx

/-- C24 fails: two calls of `NewCompositeTwin` with the id `s` followed by `NodeTwin("x")` on
each of the two CompositeTwin values.  The two embedded members share one subgraph, which
gets one node `x`; the two external members have a graph each, and each gets a node `x`: the
in side has the node ids `s, x`, the ex side `s, x, x`. -/
theorem C24_shared_id_counterexample :
    ∃ S, runOps exSharedOps (TwinState.start [GraphOption.Directed]) = some S ∧
      (S.inGraphs.map fun i => idsOf S.W i).flatten = ["s", "x"] ∧
      (S.exGraphs.map fun i => idsOf S.W i).flatten = ["s", "x", "x"] ∧ ¬ S.Agree := by
  have h : (runOps exSharedOps (TwinState.start [GraphOption.Directed])).map
      (fun S => ((S.inGraphs.map fun i => idsOf S.W i).flatten,
        (S.exGraphs.map fun i => idsOf S.W i).flatten)) =
      some (["s", "x"], ["s", "x", "x"]) := by decide
  cases hr : runOps exSharedOps (TwinState.start [GraphOption.Directed]) with
  | none => rw [hr] at h; cases h
  | some S =>
    rw [hr] at h
    simp only [Option.map_some', Option.some.injEq, Prod.mk.injEq] at h
    refine ⟨S, rfl, h.1, h.2, fun hA => ?_⟩
    have hc := congrArg Multiset.card hA.2
    unfold idTotal at hc
    rw [h.1, h.2] at hc
    simp at hc

/-- C24 (amended): starting from `NewGraphTwin`, every finite sequence of the operations
`GraphTwin.NodeTwin`, `NewCompositeTwin`, `CompositeTwin.NodeTwin`, `InputTwin`, `OutputTwin`,
`NodeTwin.Edge`, `NodeTwin.SetAttribute` and `CompositeTwin.SetAttribute` in which each
operation is applied to values returned before it and no two `NewCompositeTwin` calls have
the same id returns, and afterwards the two sides agree: the graphs of the in hierarchy hold
as many edges as the ex parent graph and the inner graphs of the external members together,
and the same multiset of node ids. -/
theorem C24_twin_invariant (options : List GraphOption) (ops : List TwinOp)
    (hcl : closedOps 0 0 ops = true) (hnd : (compositeIds ops).Nodup) :
    ∃ S, runOps ops (TwinState.start options) = some S ∧
      edgeTotal S.W S.inGraphs = edgeTotal S.W S.exGraphs ∧
      idTotal S.W S.inGraphs = idTotal S.W S.exGraphs := by
  obtain ⟨S, h, I⟩ := runOps_spec ops (TwinInv.start options) hcl (by simpa using hnd)
  exact ⟨S, h, I.agree⟩

/-- Witness of C24 (amended) on a sequence that uses every operation, with two
CompositeTwin values of different ids. -/
theorem C24_twin_invariant_witness :
    closedOps 0 0 exAllOps = true ∧ (compositeIds exAllOps).Nodup ∧
    ∃ S, runOps exAllOps (TwinState.start [GraphOption.Directed]) = some S ∧
      edgeTotal S.W S.inGraphs = edgeTotal S.W S.exGraphs ∧
      idTotal S.W S.inGraphs = idTotal S.W S.exGraphs :=
  ⟨by decide, by decide,
    C24_twin_invariant [GraphOption.Directed] exAllOps (by decide) (by decide)⟩

end dottwin


namespace htmlike

/-! ## Attributes of the label elements are written in a fixed order -/

theorem writeAttrString_piece (w n v : String) :
    writeAttrString w n v = w ++ stringPiece n v := by
  unfold writeAttrString stringPiece attrText
  split <;> simp [String.append_assoc]

theorem writeAttrIntPtr_piece (w n : String) (v : Option Int) :
    writeAttrIntPtr w n v = w ++ intPiece n v := by
  cases v <;> simp [writeAttrIntPtr, intPiece, attrText, String.append_assoc]

theorem writeAttrUintPtr_piece (w n : String) (v : Option Nat) :
    writeAttrUintPtr w n v = w ++ uintPiece n v := by
  cases v <;> simp [writeAttrUintPtr, uintPiece, attrText, String.append_assoc]

theorem writeAttrBoolPtr_piece (w n : String) (v : Option Bool) :
    writeAttrBoolPtr w n v = w ++ boolPiece n v := by
  cases v <;> simp [writeAttrBoolPtr, boolPiece, attrText, String.append_assoc]

theorem writeAttrHtmLikeAlign_piece (w n : String) (v : HtmLikeAlign) :
    writeAttrHtmLikeAlign w n v = w ++ enumPiece n v := by
  unfold writeAttrHtmLikeAlign enumPiece attrText
  split <;> simp [String.append_assoc]

theorem writeAttrHtmLikeValign_piece (w n : String) (v : HtmLikeValign) :
    writeAttrHtmLikeValign w n v = w ++ enumPiece n v := by
  unfold writeAttrHtmLikeValign enumPiece attrText
  split <;> simp [String.append_assoc]

theorem writeAttrHtmLikeImgScale_piece (w n : String) (v : HtmLikeImgScale) :
    writeAttrHtmLikeImgScale w n v = w ++ enumPiece n v := by
  unfold writeAttrHtmLikeImgScale enumPiece attrText
  split <;> simp [String.append_assoc]

theorem concat_append (l1 l2 : List String) : concat (l1 ++ l2) = concat l1 ++ concat l2 := by
  induction l1 with
  | nil => simp [concat]
  | cons s l ih => simp [concat, ih, String.append_assoc]

/-- Writing the attributes of a table appends the pieces in order. -/
theorem Table.writeAttrs_table_pieces (t : Table) (w : String) :
    t.writeAttrs w = w ++ concat t.attrPieces := by
  simp only [Table.writeAttrs, Table.attrPieces, concat, String.append_empty,
    writeAttrString_piece, writeAttrIntPtr_piece, writeAttrUintPtr_piece,
    writeAttrBoolPtr_piece, writeAttrHtmLikeAlign_piece, writeAttrHtmLikeValign_piece,
    String.append_assoc]

/-- Writing the attributes of a cell appends the pieces in order. -/
theorem TD.writeAttrs_td_pieces (td : TD) (w : String) :
    td.writeAttrs w = w ++ concat td.attrPieces := by
  simp only [TD.writeAttrs, TD.attrPieces, concat, String.append_empty,
    writeAttrString_piece, writeAttrIntPtr_piece, writeAttrUintPtr_piece,
    writeAttrBoolPtr_piece, writeAttrHtmLikeAlign_piece, writeAttrHtmLikeValign_piece,
    String.append_assoc]

/-- Writing the attributes of a font element appends the pieces in order. -/
theorem FONT.writeAttrs_font_pieces (f : FONT) (w : String) :
    f.writeAttrs w = w ++ concat f.attrPieces := by
  simp only [FONT.writeAttrs, FONT.attrPieces, concat, String.append_empty,
    writeAttrString_piece, writeAttrIntPtr_piece, String.append_assoc]

theorem Emits.of_mem {l : List String} {p : String} (h : p ∈ l) (pre post : String) :
    Emits (pre ++ concat l ++ post) p := by
  obtain ⟨l1, l2, rfl⟩ := List.append_of_mem h
  refine ⟨pre ++ concat l1, concat l2 ++ post, ?_⟩
  simp only [concat_append, concat, String.append_assoc]

/-- What a container has written when its `WriteDOT` returns: the text before the children,
then something. -/
theorem close_starts (r : String × Option String) (w c : String) (h : ∃ x, r.1 = w ++ x) :
    ∃ rest, (match r.2 with
      | some err => (r.1, some err)
      | none => (r.1 ++ c, (none : Option String))).1 = w ++ rest := by
  obtain ⟨x, hx⟩ := h
  cases r.2 with
  | some err => exact ⟨x, hx⟩
  | none => exact ⟨x ++ c, by simp [hx, String.append_assoc]⟩

theorem writeChildren_starts (cs : List HtmLikeElement) (w : String) :
    ∃ x, (writeChildren cs w).1 = w ++ x := by
  have h := writeChildren_append cs w ""
  rw [String.append_empty] at h
  exact ⟨_, by rw [h]⟩

/-- A table writes its opening tag with the attribute pieces in order, whatever its
children do. -/
theorem table_opening (t : Table) (cs : List HtmLikeElement) (w : String) :
    ∃ rest, ((HtmLikeElement.table t cs).WriteDOT w).1 =
      w ++ "\n<TABLE" ++ concat t.attrPieces ++ ">" ++ rest := by
  simp only [HtmLikeElement.WriteDOT, Table.writeAttrs_table_pieces]
  exact close_starts _ _ _ (writeChildren_starts cs _)

theorem td_opening (t : TD) (cs : List HtmLikeElement) (w : String) :
    ∃ rest, ((HtmLikeElement.td t cs).WriteDOT w).1 =
      w ++ "<TD" ++ concat t.attrPieces ++ ">" ++ rest := by
  simp only [HtmLikeElement.WriteDOT, TD.writeAttrs_td_pieces]
  exact close_starts _ _ _ (writeChildren_starts cs _)

theorem font_opening (t : FONT) (cs : List HtmLikeElement) (w : String) :
    ∃ rest, ((HtmLikeElement.font t cs).WriteDOT w).1 =
      w ++ "<FONT" ++ concat t.attrPieces ++ ">" ++ rest := by
  simp only [HtmLikeElement.WriteDOT, FONT.writeAttrs_font_pieces]
  exact close_starts _ _ _ (writeChildren_starts cs _)

/-- A piece of the attribute text of a table is part of what the table writes. -/
theorem table_emits {t : Table} {p : String} (h : p ∈ t.attrPieces)
    (cs : List HtmLikeElement) (w : String) :
    Emits ((HtmLikeElement.table t cs).WriteDOT w).1 p := by
  obtain ⟨rest, hr⟩ := table_opening t cs w
  rw [hr]
  have := Emits.of_mem h (w ++ "\n<TABLE") (">" ++ rest)
  simpa [String.append_assoc] using this

theorem td_emits {t : TD} {p : String} (h : p ∈ t.attrPieces)
    (cs : List HtmLikeElement) (w : String) :
    Emits ((HtmLikeElement.td t cs).WriteDOT w).1 p := by
  obtain ⟨rest, hr⟩ := td_opening t cs w
  rw [hr]
  have := Emits.of_mem h (w ++ "<TD") (">" ++ rest)
  simpa [String.append_assoc] using this

theorem font_emits {t : FONT} {p : String} (h : p ∈ t.attrPieces)
    (cs : List HtmLikeElement) (w : String) :
    Emits ((HtmLikeElement.font t cs).WriteDOT w).1 p := by
  obtain ⟨rest, hr⟩ := font_opening t cs w
  rw [hr]
  have := Emits.of_mem h (w ++ "<FONT") (">" ++ rest)
  simpa [String.append_assoc] using this

end htmlike

namespace htmlike

/-- Counterexample to C31 as stated: after `NewTable().SetTitle("t").SetTooltip("p")` the
serialisation has `TOOLTIP="p"` and nothing for the title set to `t`; and after
`NewTable().SetTitle("t")` the attribute `Tooltip` is the empty string, yet `TOOLTIP="t"` is
written. -/
theorem C31_title_alias_counterexample :
    (HtmLikeElement.table ((({} : Table).SetTitle "t").SetTooltip "p") []).serialise =
      "\n<TABLE TOOLTIP=" ++ quote ++ "p" ++ quote ++ ">\n</TABLE>" ∧
    (({} : Table).SetTitle "t").Tooltip = "" ∧
    (HtmLikeElement.table (({} : Table).SetTitle "t") []).serialise =
      "\n<TABLE TOOLTIP=" ++ quote ++ "t" ++ quote ++ ">\n</TABLE>" := by
  decide

/-- C31, amended: optional attributes are written exactly when set, `Title` excepted.  A
`*uint`, `*int` or `*bool` attribute that is nil and a string or enum attribute that is
empty write nothing; a number or a boolean that was set, zero and false included, and a
non-empty string or enum value are written as ` NAME="value"`, a string value escaped.  An
element built without a setter call writes no attribute, and the attribute text of a table,
a cell or a font element is the concatenation of the pieces of its attributes in the order of
declaration.  After a call of a setter of `Table`, `TD` or `FONT` other than `SetTitle`, with
any number or boolean or with a non-empty string or enum value, what the element writes
contains the attribute with that value; so `SetBorder(v)` gives `BORDER="v"`,
`SetCellSpacing(0)` gives `CELLSPACING="0"` and `SetFixedSize(false)` gives
`FIXEDSIZE="FALSE"`.  `Title` has no attribute of its own: after `SetTitle(s)` the value is
written as `TOOLTIP` when `Tooltip` is empty, and the attribute text is what it was before
the call when `Tooltip` is not empty.  `BR` writes `ALIGN` and `IMG` writes `SCALE` exactly
when the value is not empty. -/
theorem C31_attributes_written_when_set (t : Table) (d : TD) (f : FONT)
    (cs : List HtmLikeElement) (w name s : String) (v : Nat) (i : Int) (b : Bool)
    (hs : s ≠ "") :
    (writeAttrUintPtr w name none = w ∧ writeAttrIntPtr w name none = w ∧
      writeAttrBoolPtr w name none = w ∧ writeAttrString w name "" = w ∧
      writeAttrHtmLikeAlign w name "" = w ∧ writeAttrHtmLikeValign w name "" = w ∧
      writeAttrHtmLikeImgScale w name "" = w) ∧
    (writeAttrUintPtr w name (some v) = w ++ attrText name (toString v) ∧
      writeAttrIntPtr w name (some i) = w ++ attrText name (toString i) ∧
      writeAttrBoolPtr w name (some b) = w ++ attrText name (if b then "TRUE" else "FALSE") ∧
      writeAttrString w name s = w ++ attrText name (html.EscapeString s) ∧
      writeAttrHtmLikeAlign w name s = w ++ attrText name s ∧
      writeAttrHtmLikeValign w name s = w ++ attrText name s ∧
      writeAttrHtmLikeImgScale w name s = w ++ attrText name s) ∧
    (({} : Table).writeAttrs w = w ∧ ({} : TD).writeAttrs w = w ∧
      ({} : FONT).writeAttrs w = w ∧ t.writeAttrs w = w ++ concat t.attrPieces ∧
      d.writeAttrs w = w ++ concat d.attrPieces ∧ f.writeAttrs w = w ++ concat f.attrPieces) ∧
    (Emits ((HtmLikeElement.table (t.SetAlign s) cs).WriteDOT w).1
        (attrText "ALIGN" s) ∧
      Emits ((HtmLikeElement.table (t.SetBGColor s) cs).WriteDOT w).1
        (attrText "BGCOLOR" (html.EscapeString s)) ∧
      Emits ((HtmLikeElement.table (t.SetBorder v) cs).WriteDOT w).1
        (attrText "BORDER" (toString v)) ∧
      Emits ((HtmLikeElement.table (t.SetCellBorder v) cs).WriteDOT w).1
        (attrText "CELLBORDER" (toString v)) ∧
      Emits ((HtmLikeElement.table (t.SetCellPadding v) cs).WriteDOT w).1
        (attrText "CELLPADDING" (toString v)) ∧
      Emits ((HtmLikeElement.table (t.SetCellSpacing v) cs).WriteDOT w).1
        (attrText "CELLSPACING" (toString v)) ∧
      Emits ((HtmLikeElement.table (t.SetColor s) cs).WriteDOT w).1
        (attrText "COLOR" (html.EscapeString s)) ∧
      Emits ((HtmLikeElement.table (t.SetColumns s) cs).WriteDOT w).1
        (attrText "COLUMNS" (html.EscapeString s)) ∧
      Emits ((HtmLikeElement.table (t.SetFixedSize b) cs).WriteDOT w).1
        (attrText "FIXEDSIZE" (if b then "TRUE" else "FALSE")) ∧
      Emits ((HtmLikeElement.table (t.SetGradientAngle i) cs).WriteDOT w).1
        (attrText "GRADIENTANGLE" (toString i)) ∧
      Emits ((HtmLikeElement.table (t.SetHeight v) cs).WriteDOT w).1
        (attrText "HEIGHT" (toString v)) ∧
      Emits ((HtmLikeElement.table (t.SetHREF s) cs).WriteDOT w).1
        (attrText "HREF" (html.EscapeString s)) ∧
      Emits ((HtmLikeElement.table (t.SetID s) cs).WriteDOT w).1
        (attrText "ID" (html.EscapeString s)) ∧
      Emits ((HtmLikeElement.table (t.SetPort s) cs).WriteDOT w).1
        (attrText "PORT" (html.EscapeString s)) ∧
      Emits ((HtmLikeElement.table (t.SetRows s) cs).WriteDOT w).1
        (attrText "ROWS" (html.EscapeString s)) ∧
      Emits ((HtmLikeElement.table (t.SetSides s) cs).WriteDOT w).1
        (attrText "SIDES" (html.EscapeString s)) ∧
      Emits ((HtmLikeElement.table (t.SetStyle s) cs).WriteDOT w).1
        (attrText "STYLE" (html.EscapeString s)) ∧
      Emits ((HtmLikeElement.table (t.SetTarget s) cs).WriteDOT w).1
        (attrText "TARGET" (html.EscapeString s)) ∧
      Emits ((HtmLikeElement.table (t.SetTooltip s) cs).WriteDOT w).1
        (attrText "TOOLTIP" (html.EscapeString s)) ∧
      Emits ((HtmLikeElement.table (t.SetValign s) cs).WriteDOT w).1
        (attrText "VALIGN" s) ∧
      Emits ((HtmLikeElement.table (t.SetWidth v) cs).WriteDOT w).1
        (attrText "WIDTH" (toString v))) ∧
    (Emits ((HtmLikeElement.td (d.SetAlign s) cs).WriteDOT w).1
        (attrText "ALIGN" s) ∧
      Emits ((HtmLikeElement.td (d.SetBAlign s) cs).WriteDOT w).1
        (attrText "BALIGN" s) ∧
      Emits ((HtmLikeElement.td (d.SetBGColor s) cs).WriteDOT w).1
        (attrText "BGCOLOR" (html.EscapeString s)) ∧
      Emits ((HtmLikeElement.td (d.SetBorder v) cs).WriteDOT w).1
        (attrText "BORDER" (toString v)) ∧
      Emits ((HtmLikeElement.td (d.SetCellPadding v) cs).WriteDOT w).1
        (attrText "CELLPADDING" (toString v)) ∧
      Emits ((HtmLikeElement.td (d.SetColor s) cs).WriteDOT w).1
        (attrText "COLOR" (html.EscapeString s)) ∧
      Emits ((HtmLikeElement.td (d.SetColspan v) cs).WriteDOT w).1
        (attrText "COLSPAN" (toString v)) ∧
      Emits ((HtmLikeElement.td (d.SetFixedSize b) cs).WriteDOT w).1
        (attrText "FIXEDSIZE" (if b then "TRUE" else "FALSE")) ∧
      Emits ((HtmLikeElement.td (d.SetGradientAngle i) cs).WriteDOT w).1
        (attrText "GRADIENTANGLE" (toString i)) ∧
      Emits ((HtmLikeElement.td (d.SetHeight v) cs).WriteDOT w).1
        (attrText "HEIGHT" (toString v)) ∧
      Emits ((HtmLikeElement.td (d.SetHREF s) cs).WriteDOT w).1
        (attrText "HREF" (html.EscapeString s)) ∧
      Emits ((HtmLikeElement.td (d.SetID s) cs).WriteDOT w).1
        (attrText "ID" (html.EscapeString s)) ∧
      Emits ((HtmLikeElement.td (d.SetPort s) cs).WriteDOT w).1
        (attrText "PORT" (html.EscapeString s)) ∧
      Emits ((HtmLikeElement.td (d.SetRowspan v) cs).WriteDOT w).1
        (attrText "ROWSPAN" (toString v)) ∧
      Emits ((HtmLikeElement.td (d.SetSides s) cs).WriteDOT w).1
        (attrText "SIDES" (html.EscapeString s)) ∧
      Emits ((HtmLikeElement.td (d.SetStyle s) cs).WriteDOT w).1
        (attrText "STYLE" (html.EscapeString s)) ∧
      Emits ((HtmLikeElement.td (d.SetTarget s) cs).WriteDOT w).1
        (attrText "TARGET" (html.EscapeString s)) ∧
      Emits ((HtmLikeElement.td (d.SetTooltip s) cs).WriteDOT w).1
        (attrText "TOOLTIP" (html.EscapeString s)) ∧
      Emits ((HtmLikeElement.td (d.SetValign s) cs).WriteDOT w).1
        (attrText "VALIGN" s) ∧
      Emits ((HtmLikeElement.td (d.SetWidth v) cs).WriteDOT w).1
        (attrText "WIDTH" (toString v))) ∧
    (Emits ((HtmLikeElement.font (f.SetColor s) cs).WriteDOT w).1
        (attrText "COLOR" (html.EscapeString s)) ∧
      Emits ((HtmLikeElement.font (f.SetFace s) cs).WriteDOT w).1
        (attrText "FACE" (html.EscapeString s)) ∧
      Emits ((HtmLikeElement.font (f.SetPointSize i) cs).WriteDOT w).1
        (attrText "POINT-SIZE" (toString i))) ∧
    ((t.Tooltip = "" →
        Emits ((HtmLikeElement.table (t.SetTitle s) cs).WriteDOT w).1
          (attrText "TOOLTIP" (html.EscapeString s))) ∧
      (t.Tooltip ≠ "" → (t.SetTitle s).writeAttrs w = t.writeAttrs w) ∧
      (d.Tooltip = "" →
        Emits ((HtmLikeElement.td (d.SetTitle s) cs).WriteDOT w).1
          (attrText "TOOLTIP" (html.EscapeString s))) ∧
      (d.Tooltip ≠ "" → (d.SetTitle s).writeAttrs w = d.writeAttrs w)) ∧
    ((HtmLikeElement.br "").serialise = "<BR/>" ∧
      (HtmLikeElement.br s).serialise = "<BR" ++ attrText "ALIGN" s ++ "/>" ∧
      (HtmLikeElement.img "" s).serialise =
        "<IMG" ++ attrText "SRC" (html.EscapeString s) ++ "/>" ∧
      (HtmLikeElement.img s s).serialise =
        "<IMG" ++ attrText "SRC" (html.EscapeString s) ++ attrText "SCALE" s ++ "/>") ∧
    Emits ((HtmLikeElement.table (t.SetCellSpacing 0) cs).WriteDOT w).1
      (" CELLSPACING=" ++ quote ++ "0" ++ quote) ∧
    Emits ((HtmLikeElement.table (t.SetFixedSize false) cs).WriteDOT w).1
      (" FIXEDSIZE=" ++ quote ++ "FALSE" ++ quote) := by
  refine ⟨⟨rfl, rfl, rfl, ?_, ?_, ?_, ?_⟩, ⟨?_, ?_, ?_, ?_, ?_, ?_, ?_⟩,
    ⟨?_, ?_, ?_, Table.writeAttrs_table_pieces t w, TD.writeAttrs_td_pieces d w,
      FONT.writeAttrs_font_pieces f w⟩,
    ⟨?_, ?_, ?_, ?_, ?_, ?_, ?_, ?_, ?_, ?_, ?_, ?_, ?_, ?_, ?_, ?_, ?_, ?_, ?_, ?_, ?_⟩,
    ⟨?_, ?_, ?_, ?_, ?_, ?_, ?_, ?_, ?_, ?_, ?_, ?_, ?_, ?_, ?_, ?_, ?_, ?_, ?_, ?_⟩,
    ⟨?_, ?_, ?_⟩,
    ⟨?_, ?_, ?_, ?_⟩, ⟨?_, ?_, ?_, ?_⟩, ?_, ?_⟩
  · simp [writeAttrString]
  · simp [writeAttrHtmLikeAlign]
  · simp [writeAttrHtmLikeValign]
  · simp [writeAttrHtmLikeImgScale]
  · rw [writeAttrUintPtr_piece]; rfl
  · rw [writeAttrIntPtr_piece]; rfl
  · rw [writeAttrBoolPtr_piece]; rfl
  · rw [writeAttrString_piece, stringPiece, if_neg hs]
  · rw [writeAttrHtmLikeAlign_piece, enumPiece, if_neg hs]
  · rw [writeAttrHtmLikeValign_piece, enumPiece, if_neg hs]
  · rw [writeAttrHtmLikeImgScale_piece, enumPiece, if_neg hs]
  · rw [Table.writeAttrs_table_pieces]; simp [Table.attrPieces, concat, stringPiece, enumPiece,
      uintPiece, intPiece, boolPiece]
  · rw [TD.writeAttrs_td_pieces]; simp [TD.attrPieces, concat, stringPiece, enumPiece,
      uintPiece, intPiece, boolPiece]
  · rw [FONT.writeAttrs_font_pieces]; simp [FONT.attrPieces, concat, stringPiece, intPiece]
  · exact table_emits (by simp [Table.attrPieces, Table.SetAlign, enumPiece, hs]) cs w
  · exact table_emits (by simp [Table.attrPieces, Table.SetBGColor, stringPiece, hs]) cs w
  · exact table_emits (by simp [Table.attrPieces, Table.SetBorder, uintPiece, hs]) cs w
  · exact table_emits (by simp [Table.attrPieces, Table.SetCellBorder, uintPiece, hs]) cs w
  · exact table_emits (by simp [Table.attrPieces, Table.SetCellPadding, uintPiece, hs]) cs w
  · exact table_emits (by simp [Table.attrPieces, Table.SetCellSpacing, uintPiece, hs]) cs w
  · exact table_emits (by simp [Table.attrPieces, Table.SetColor, stringPiece, hs]) cs w
  · exact table_emits (by simp [Table.attrPieces, Table.SetColumns, stringPiece, hs]) cs w
  · exact table_emits (by simp [Table.attrPieces, Table.SetFixedSize, boolPiece, hs]) cs w
  · exact table_emits (by simp [Table.attrPieces, Table.SetGradientAngle, intPiece, hs]) cs w
  · exact table_emits (by simp [Table.attrPieces, Table.SetHeight, uintPiece, hs]) cs w
  · exact table_emits (by simp [Table.attrPieces, Table.SetHREF, stringPiece, hs]) cs w
  · exact table_emits (by simp [Table.attrPieces, Table.SetID, stringPiece, hs]) cs w
  · exact table_emits (by simp [Table.attrPieces, Table.SetPort, stringPiece, hs]) cs w
  · exact table_emits (by simp [Table.attrPieces, Table.SetRows, stringPiece, hs]) cs w
  · exact table_emits (by simp [Table.attrPieces, Table.SetSides, stringPiece, hs]) cs w
  · exact table_emits (by simp [Table.attrPieces, Table.SetStyle, stringPiece, hs]) cs w
  · exact table_emits (by simp [Table.attrPieces, Table.SetTarget, stringPiece, hs]) cs w
  · exact table_emits (by simp [Table.attrPieces, Table.SetTooltip, stringPiece, hs]) cs w
  · exact table_emits (by simp [Table.attrPieces, Table.SetValign, enumPiece, hs]) cs w
  · exact table_emits (by simp [Table.attrPieces, Table.SetWidth, uintPiece, hs]) cs w
  · exact td_emits (by simp [TD.attrPieces, TD.SetAlign, enumPiece, hs]) cs w
  · exact td_emits (by simp [TD.attrPieces, TD.SetBAlign, enumPiece, hs]) cs w
  · exact td_emits (by simp [TD.attrPieces, TD.SetBGColor, stringPiece, hs]) cs w
  · exact td_emits (by simp [TD.attrPieces, TD.SetBorder, uintPiece, hs]) cs w
  · exact td_emits (by simp [TD.attrPieces, TD.SetCellPadding, uintPiece, hs]) cs w
  · exact td_emits (by simp [TD.attrPieces, TD.SetColor, stringPiece, hs]) cs w
  · exact td_emits (by simp [TD.attrPieces, TD.SetColspan, uintPiece, hs]) cs w
  · exact td_emits (by simp [TD.attrPieces, TD.SetFixedSize, boolPiece, hs]) cs w
  · exact td_emits (by simp [TD.attrPieces, TD.SetGradientAngle, intPiece, hs]) cs w
  · exact td_emits (by simp [TD.attrPieces, TD.SetHeight, uintPiece, hs]) cs w
  · exact td_emits (by simp [TD.attrPieces, TD.SetHREF, stringPiece, hs]) cs w
  · exact td_emits (by simp [TD.attrPieces, TD.SetID, stringPiece, hs]) cs w
  · exact td_emits (by simp [TD.attrPieces, TD.SetPort, stringPiece, hs]) cs w
  · exact td_emits (by simp [TD.attrPieces, TD.SetRowspan, uintPiece, hs]) cs w
  · exact td_emits (by simp [TD.attrPieces, TD.SetSides, stringPiece, hs]) cs w
  · exact td_emits (by simp [TD.attrPieces, TD.SetStyle, stringPiece, hs]) cs w
  · exact td_emits (by simp [TD.attrPieces, TD.SetTarget, stringPiece, hs]) cs w
  · exact td_emits (by simp [TD.attrPieces, TD.SetTooltip, stringPiece, hs]) cs w
  · exact td_emits (by simp [TD.attrPieces, TD.SetValign, enumPiece, hs]) cs w
  · exact td_emits (by simp [TD.attrPieces, TD.SetWidth, uintPiece, hs]) cs w
  · exact font_emits (by simp [FONT.attrPieces, FONT.SetColor, stringPiece, hs]) cs w
  · exact font_emits (by simp [FONT.attrPieces, FONT.SetFace, stringPiece, hs]) cs w
  · exact font_emits (by simp [FONT.attrPieces, FONT.SetPointSize, intPiece, hs]) cs w
  · intro hT
    exact table_emits (by simp [Table.attrPieces, Table.SetTitle, stringPiece, hs, hT]) cs w
  · intro hT
    simp [Table.writeAttrs, Table.SetTitle, hT]
  · intro hT
    exact td_emits (by simp [TD.attrPieces, TD.SetTitle, stringPiece, hs, hT]) cs w
  · intro hT
    simp [TD.writeAttrs, TD.SetTitle, hT]
  · simp [HtmLikeElement.serialise, HtmLikeElement.WriteDOT, writeAttrHtmLikeAlign]
  · simp [HtmLikeElement.serialise, HtmLikeElement.WriteDOT, writeAttrHtmLikeAlign_piece,
      enumPiece, hs, String.append_assoc]
  · simp [HtmLikeElement.serialise, HtmLikeElement.WriteDOT, writeAttrString_piece,
      writeAttrHtmLikeImgScale_piece, stringPiece, enumPiece, hs, String.append_assoc]
  · simp [HtmLikeElement.serialise, HtmLikeElement.WriteDOT, writeAttrString_piece,
      writeAttrHtmLikeImgScale_piece, stringPiece, enumPiece, hs, String.append_assoc]
  · have h : attrText "CELLSPACING" (toString 0) = " CELLSPACING=" ++ quote ++ "0" ++ quote :=
      rfl
    rw [← h]
    exact table_emits (by simp [Table.attrPieces, Table.SetCellSpacing, uintPiece]) cs w
  · have h : attrText "FIXEDSIZE" (if false then "TRUE" else "FALSE") =
        " FIXEDSIZE=" ++ quote ++ "FALSE" ++ quote := rfl
    rw [← h]
    exact table_emits (by simp [Table.attrPieces, Table.SetFixedSize, boolPiece]) cs w

/-- Witness of C31, amended: a table record with a border, a cell record with a port and an
empty font record, the non-empty value `red`, the numbers 0 and -3 and the boolean false. -/
theorem C31_attributes_written_when_set_witness :
    (writeAttrUintPtr "" "BORDER" none = "" ∧ writeAttrIntPtr "" "BORDER" none = "" ∧
      writeAttrBoolPtr "" "BORDER" none = "" ∧ writeAttrString "" "BORDER" "" = "" ∧
      writeAttrHtmLikeAlign "" "BORDER" "" = "" ∧ writeAttrHtmLikeValign "" "BORDER" "" = "" ∧
      writeAttrHtmLikeImgScale "" "BORDER" "" = "") ∧
    (writeAttrUintPtr "" "BORDER" (some 0) = "" ++ attrText "BORDER" (toString 0) ∧
      writeAttrIntPtr "" "BORDER" (some (-3 : Int)) = "" ++ attrText "BORDER" (toString (-3 : Int)) ∧
      writeAttrBoolPtr "" "BORDER" (some false) = "" ++ attrText "BORDER" (if false then "TRUE" else "FALSE") ∧
      writeAttrString "" "BORDER" "red" = "" ++ attrText "BORDER" (html.EscapeString "red") ∧
      writeAttrHtmLikeAlign "" "BORDER" "red" = "" ++ attrText "BORDER" "red" ∧
      writeAttrHtmLikeValign "" "BORDER" "red" = "" ++ attrText "BORDER" "red" ∧
      writeAttrHtmLikeImgScale "" "BORDER" "red" = "" ++ attrText "BORDER" "red") ∧
    (({} : Table).writeAttrs "" = "" ∧ ({} : TD).writeAttrs "" = "" ∧
      ({} : FONT).writeAttrs "" = "" ∧ exBorder.writeAttrs "" = "" ++ concat exBorder.attrPieces ∧
      exPort.writeAttrs "" = "" ++ concat exPort.attrPieces ∧ ({} : FONT).writeAttrs "" = "" ++ concat ({} : FONT).attrPieces) ∧
    (Emits ((HtmLikeElement.table (exBorder.SetAlign "red") exCells).WriteDOT "").1
        (attrText "ALIGN" "red") ∧
      Emits ((HtmLikeElement.table (exBorder.SetBGColor "red") exCells).WriteDOT "").1
        (attrText "BGCOLOR" (html.EscapeString "red")) ∧
      Emits ((HtmLikeElement.table (exBorder.SetBorder 0) exCells).WriteDOT "").1
        (attrText "BORDER" (toString 0)) ∧
      Emits ((HtmLikeElement.table (exBorder.SetCellBorder 0) exCells).WriteDOT "").1
        (attrText "CELLBORDER" (toString 0)) ∧
      Emits ((HtmLikeElement.table (exBorder.SetCellPadding 0) exCells).WriteDOT "").1
        (attrText "CELLPADDING" (toString 0)) ∧
      Emits ((HtmLikeElement.table (exBorder.SetCellSpacing 0) exCells).WriteDOT "").1
        (attrText "CELLSPACING" (toString 0)) ∧
      Emits ((HtmLikeElement.table (exBorder.SetColor "red") exCells).WriteDOT "").1
        (attrText "COLOR" (html.EscapeString "red")) ∧
      Emits ((HtmLikeElement.table (exBorder.SetColumns "red") exCells).WriteDOT "").1
        (attrText "COLUMNS" (html.EscapeString "red")) ∧
      Emits ((HtmLikeElement.table (exBorder.SetFixedSize false) exCells).WriteDOT "").1
        (attrText "FIXEDSIZE" (if false then "TRUE" else "FALSE")) ∧
      Emits ((HtmLikeElement.table (exBorder.SetGradientAngle (-3 : Int)) exCells).WriteDOT "").1
        (attrText "GRADIENTANGLE" (toString (-3 : Int))) ∧
      Emits ((HtmLikeElement.table (exBorder.SetHeight 0) exCells).WriteDOT "").1
        (attrText "HEIGHT" (toString 0)) ∧
      Emits ((HtmLikeElement.table (exBorder.SetHREF "red") exCells).WriteDOT "").1
        (attrText "HREF" (html.EscapeString "red")) ∧
      Emits ((HtmLikeElement.table (exBorder.SetID "red") exCells).WriteDOT "").1
        (attrText "ID" (html.EscapeString "red")) ∧
      Emits ((HtmLikeElement.table (exBorder.SetPort "red") exCells).WriteDOT "").1
        (attrText "PORT" (html.EscapeString "red")) ∧
      Emits ((HtmLikeElement.table (exBorder.SetRows "red") exCells).WriteDOT "").1
        (attrText "ROWS" (html.EscapeString "red")) ∧
      Emits ((HtmLikeElement.table (exBorder.SetSides "red") exCells).WriteDOT "").1
        (attrText "SIDES" (html.EscapeString "red")) ∧
      Emits ((HtmLikeElement.table (exBorder.SetStyle "red") exCells).WriteDOT "").1
        (attrText "STYLE" (html.EscapeString "red")) ∧
      Emits ((HtmLikeElement.table (exBorder.SetTarget "red") exCells).WriteDOT "").1
        (attrText "TARGET" (html.EscapeString "red")) ∧
      Emits ((HtmLikeElement.table (exBorder.SetTooltip "red") exCells).WriteDOT "").1
        (attrText "TOOLTIP" (html.EscapeString "red")) ∧
      Emits ((HtmLikeElement.table (exBorder.SetValign "red") exCells).WriteDOT "").1
        (attrText "VALIGN" "red") ∧
      Emits ((HtmLikeElement.table (exBorder.SetWidth 0) exCells).WriteDOT "").1
        (attrText "WIDTH" (toString 0))) ∧
    (Emits ((HtmLikeElement.td (exPort.SetAlign "red") exCells).WriteDOT "").1
        (attrText "ALIGN" "red") ∧
      Emits ((HtmLikeElement.td (exPort.SetBAlign "red") exCells).WriteDOT "").1
        (attrText "BALIGN" "red") ∧
      Emits ((HtmLikeElement.td (exPort.SetBGColor "red") exCells).WriteDOT "").1
        (attrText "BGCOLOR" (html.EscapeString "red")) ∧
      Emits ((HtmLikeElement.td (exPort.SetBorder 0) exCells).WriteDOT "").1
        (attrText "BORDER" (toString 0)) ∧
      Emits ((HtmLikeElement.td (exPort.SetCellPadding 0) exCells).WriteDOT "").1
        (attrText "CELLPADDING" (toString 0)) ∧
      Emits ((HtmLikeElement.td (exPort.SetColor "red") exCells).WriteDOT "").1
        (attrText "COLOR" (html.EscapeString "red")) ∧
      Emits ((HtmLikeElement.td (exPort.SetColspan 0) exCells).WriteDOT "").1
        (attrText "COLSPAN" (toString 0)) ∧
      Emits ((HtmLikeElement.td (exPort.SetFixedSize false) exCells).WriteDOT "").1
        (attrText "FIXEDSIZE" (if false then "TRUE" else "FALSE")) ∧
      Emits ((HtmLikeElement.td (exPort.SetGradientAngle (-3 : Int)) exCells).WriteDOT "").1
        (attrText "GRADIENTANGLE" (toString (-3 : Int))) ∧
      Emits ((HtmLikeElement.td (exPort.SetHeight 0) exCells).WriteDOT "").1
        (attrText "HEIGHT" (toString 0)) ∧
      Emits ((HtmLikeElement.td (exPort.SetHREF "red") exCells).WriteDOT "").1
        (attrText "HREF" (html.EscapeString "red")) ∧
      Emits ((HtmLikeElement.td (exPort.SetID "red") exCells).WriteDOT "").1
        (attrText "ID" (html.EscapeString "red")) ∧
      Emits ((HtmLikeElement.td (exPort.SetPort "red") exCells).WriteDOT "").1
        (attrText "PORT" (html.EscapeString "red")) ∧
      Emits ((HtmLikeElement.td (exPort.SetRowspan 0) exCells).WriteDOT "").1
        (attrText "ROWSPAN" (toString 0)) ∧
      Emits ((HtmLikeElement.td (exPort.SetSides "red") exCells).WriteDOT "").1
        (attrText "SIDES" (html.EscapeString "red")) ∧
      Emits ((HtmLikeElement.td (exPort.SetStyle "red") exCells).WriteDOT "").1
        (attrText "STYLE" (html.EscapeString "red")) ∧
      Emits ((HtmLikeElement.td (exPort.SetTarget "red") exCells).WriteDOT "").1
        (attrText "TARGET" (html.EscapeString "red")) ∧
      Emits ((HtmLikeElement.td (exPort.SetTooltip "red") exCells).WriteDOT "").1
        (attrText "TOOLTIP" (html.EscapeString "red")) ∧
      Emits ((HtmLikeElement.td (exPort.SetValign "red") exCells).WriteDOT "").1
        (attrText "VALIGN" "red") ∧
      Emits ((HtmLikeElement.td (exPort.SetWidth 0) exCells).WriteDOT "").1
        (attrText "WIDTH" (toString 0))) ∧
    (Emits ((HtmLikeElement.font (({} : FONT).SetColor "red") exCells).WriteDOT "").1
        (attrText "COLOR" (html.EscapeString "red")) ∧
      Emits ((HtmLikeElement.font (({} : FONT).SetFace "red") exCells).WriteDOT "").1
        (attrText "FACE" (html.EscapeString "red")) ∧
      Emits ((HtmLikeElement.font (({} : FONT).SetPointSize (-3 : Int)) exCells).WriteDOT "").1
        (attrText "POINT-SIZE" (toString (-3 : Int)))) ∧
    ((exBorder.Tooltip = "" →
        Emits ((HtmLikeElement.table (exBorder.SetTitle "red") exCells).WriteDOT "").1
          (attrText "TOOLTIP" (html.EscapeString "red"))) ∧
      (exBorder.Tooltip ≠ "" → (exBorder.SetTitle "red").writeAttrs "" = exBorder.writeAttrs "") ∧
      (exPort.Tooltip = "" →
        Emits ((HtmLikeElement.td (exPort.SetTitle "red") exCells).WriteDOT "").1
          (attrText "TOOLTIP" (html.EscapeString "red"))) ∧
      (exPort.Tooltip ≠ "" → (exPort.SetTitle "red").writeAttrs "" = exPort.writeAttrs "")) ∧
    ((HtmLikeElement.br "").serialise = "<BR/>" ∧
      (HtmLikeElement.br "red").serialise = "<BR" ++ attrText "ALIGN" "red" ++ "/>" ∧
      (HtmLikeElement.img "" "red").serialise =
        "<IMG" ++ attrText "SRC" (html.EscapeString "red") ++ "/>" ∧
      (HtmLikeElement.img "red" "red").serialise =
        "<IMG" ++ attrText "SRC" (html.EscapeString "red") ++ attrText "SCALE" "red" ++ "/>") ∧
    Emits ((HtmLikeElement.table (exBorder.SetCellSpacing 0) exCells).WriteDOT "").1
      (" CELLSPACING=" ++ quote ++ "0" ++ quote) ∧
    Emits ((HtmLikeElement.table (exBorder.SetFixedSize false) exCells).WriteDOT "").1
      (" FIXEDSIZE=" ++ quote ++ "FALSE" ++ quote) :=
  C31_attributes_written_when_set exBorder exPort {} exCells "" "BORDER" "red" 0 (-3) false
    (by decide)

end htmlike

namespace htmlike

/-! ## Serialisation is compositional -/

theorem serialiseAll_append (l1 l2 : List HtmLikeElement) :
    serialiseAll (l1 ++ l2) = serialiseAll l1 ++ serialiseAll l2 := by
  induction l1 with
  | nil => simp [serialiseAll]
  | cons e l ih =>
    rw [List.cons_append, serialiseAll_cons, serialiseAll_cons, ih, String.append_assoc]

theorem anyEmptySrc_append (l1 l2 : List HtmLikeElement) :
    anyEmptySrc (l1 ++ l2) = (anyEmptySrc l1 || anyEmptySrc l2) := by
  induction l1 with
  | nil => simp [anyEmptySrc]
  | cons e l ih => simp [anyEmptySrc, ih, Bool.or_assoc]

theorem table_serialise (a : Table) (cs : List HtmLikeElement)
    (h : anyEmptySrc cs = false) :
    (HtmLikeElement.table a cs).serialise =
      "\n<TABLE" ++ concat a.attrPieces ++ ">" ++ serialiseAll cs ++ "\n</TABLE>" := by
  simp only [HtmLikeElement.serialise, HtmLikeElement.WriteDOT, Table.writeAttrs_table_pieces,
    writeChildren_ok _ _ h, String.empty_append]

theorem tr_serialise (cs : List HtmLikeElement) (h : anyEmptySrc cs = false) :
    (HtmLikeElement.tr cs).serialise = "\n<TR>" ++ serialiseAll cs ++ "</TR>" := by
  simp only [HtmLikeElement.serialise, HtmLikeElement.WriteDOT,
    writeChildren_ok _ _ h, String.empty_append]

theorem td_serialise (a : TD) (cs : List HtmLikeElement) (h : anyEmptySrc cs = false) :
    (HtmLikeElement.td a cs).serialise =
      "<TD" ++ concat a.attrPieces ++ ">" ++ serialiseAll cs ++ "</TD>" := by
  simp only [HtmLikeElement.serialise, HtmLikeElement.WriteDOT, TD.writeAttrs_td_pieces,
    writeChildren_ok _ _ h, String.empty_append]

theorem font_serialise (a : FONT) (cs : List HtmLikeElement) (h : anyEmptySrc cs = false) :
    (HtmLikeElement.font a cs).serialise =
      "<FONT" ++ concat a.attrPieces ++ ">" ++ serialiseAll cs ++ "</FONT>" := by
  simp only [HtmLikeElement.serialise, HtmLikeElement.WriteDOT, FONT.writeAttrs_font_pieces,
    writeChildren_ok _ _ h, String.empty_append]

theorem style_serialise (tag : String) (cs : List HtmLikeElement)
    (h : anyEmptySrc cs = false) :
    (HtmLikeElement.style tag cs).serialise =
      "<" ++ tag ++ ">" ++ serialiseAll cs ++ ("</" ++ tag ++ ">") := by
  simp only [HtmLikeElement.serialise, HtmLikeElement.WriteDOT,
    writeChildren_ok _ _ h, String.empty_append]

end htmlike

namespace htmlike

/-! ## Every opening tag of a serialised label has its closing tag -/

theorem scanTags_text (s rest : List Char) (h : '<' ∉ s) :
    scanTags none (s ++ rest) = scanTags none rest := by
  induction s with
  | nil => rfl
  | cons c s ih =>
    have hc : c ≠ '<' := fun e => h (e ▸ List.mem_cons_self _ _)
    have hs : '<' ∉ s := fun e => h (List.mem_cons_of_mem _ e)
    simp only [List.cons_append, scanTags, if_neg hc]
    exact ih hs

theorem scanTags_body (b rest acc : List Char) (h : '>' ∉ b) :
    scanTags (some acc) (b ++ '>' :: rest) = (acc ++ b) :: scanTags none rest := by
  induction b generalizing acc with
  | nil => simp [scanTags]
  | cons c b ih =>
    have hc : c ≠ '>' := fun e => h (e ▸ List.mem_cons_self _ _)
    have hb : '>' ∉ b := fun e => h (List.mem_cons_of_mem _ e)
    simp only [List.cons_append, scanTags, if_neg hc]
    show scanTags (some (acc ++ [c])) (b ++ '>' :: rest) = _
    rw [ih _ hb]
    simp

/-- Reading one tag: text without `<`, then `<`, the body without `>`, and `>`. -/
theorem scanTags_tag (pre b rest : List Char) (hp : '<' ∉ pre) (hb : '>' ∉ b) :
    scanTags none (pre ++ '<' :: (b ++ '>' :: rest)) = b :: scanTags none rest := by
  rw [scanTags_text _ _ hp]
  simp only [scanTags, if_true]
  rw [scanTags_body _ _ _ hb]
  simp

theorem balanced_opening {body name : List Char} (h : classify body = .opening name)
    (rest stack : List (List Char)) :
    balanced (body :: rest) stack = balanced rest (name :: stack) := by
  simp only [balanced, h]

theorem balanced_closing {body name : List Char} (h : classify body = .closing name)
    (rest stack : List (List Char)) :
    balanced (body :: rest) (name :: stack) = balanced rest stack := by
  simp only [balanced, h, decide_True, Bool.true_and]

theorem balanced_void {body : List Char} (h : classify body = .void)
    (rest stack : List (List Char)) :
    balanced (body :: rest) stack = balanced rest stack := by
  simp only [balanced, h]

theorem AttrOK.nil : AttrOK [] := ⟨by simp, Or.inl rfl⟩

theorem AttrOK.append {a b : List Char} (ha : AttrOK a) (hb : AttrOK b) : AttrOK (a ++ b) := by
  refine ⟨fun h => ?_, ?_⟩
  · rcases List.mem_append.mp h with h | h
    · exact ha.1 h
    · exact hb.1 h
  · rcases ha.2 with ha0 | ⟨hah, hal⟩
    · rw [ha0, List.nil_append]; exact hb.2
    · rcases hb.2 with hb0 | ⟨hbh, hbl⟩
      · rw [hb0, List.append_nil]; exact Or.inr ⟨hah, hal⟩
      · refine Or.inr ⟨?_, ?_⟩
        · cases a with
          | nil => simp at hah
          | cons x a => simpa using hah
        · rw [List.getLast?_append, hbl]; rfl

theorem AttrOK.concat {l : List String} (h : ∀ p ∈ l, AttrOK p.data) :
    AttrOK (concat l).data := by
  induction l with
  | nil => exact AttrOK.nil
  | cons p l ih =>
    simp only [htmlike.concat, String.data_append]
    exact AttrOK.append (h p (List.mem_cons_self _ _))
      (ih fun q hq => h q (List.mem_cons_of_mem _ hq))

theorem attrText_ok (name v : String) (hn : '>' ∉ name.data) (hv : '>' ∉ v.data) :
    AttrOK (attrText name v).data := by
  have hd : (attrText name v).data =
      ' ' :: (name.data ++ '=' :: html.dquote :: (v.data ++ [html.dquote])) := by
    simp [attrText, quote, String.data_append, String.singleton]
  rw [hd]
  refine ⟨?_, Or.inr ⟨rfl, ?_⟩⟩
  · simp only [List.mem_cons, List.mem_append, List.mem_singleton, not_or]
    exact ⟨by decide, hn, by decide, by decide, hv, by decide⟩
  · have hl : ' ' :: (name.data ++ '=' :: html.dquote :: (v.data ++ [html.dquote])) =
        (' ' :: (name.data ++ '=' :: html.dquote :: v.data)) ++ [html.dquote] := by simp
    rw [hl, List.getLast?_append]
    rfl

end htmlike

namespace htmlike

theorem digitChar_ne_gt (m : Nat) (h : m < 10) : Nat.digitChar m ≠ '>' := by
  interval_cases m <;> decide

theorem toDigitsCore_no_gt (fuel : Nat) :
    ∀ (n : Nat) (acc : List Char), '>' ∉ acc → '>' ∉ Nat.toDigitsCore 10 fuel n acc := by
  induction fuel with
  | zero => intro n acc h; simpa [Nat.toDigitsCore] using h
  | succ fuel ih =>
    intro n acc h
    have hacc : '>' ∉ Nat.digitChar (n % 10) :: acc := by
      simp only [List.mem_cons, not_or]
      exact ⟨fun e => digitChar_ne_gt _ (Nat.mod_lt _ (by decide)) e.symm, h⟩
    simp only [Nat.toDigitsCore]
    split
    · exact hacc
    · exact ih _ _ hacc

theorem toString_nat_no_gt (n : Nat) : '>' ∉ (toString n).data := by
  show '>' ∉ (Nat.repr n).data
  simp only [Nat.repr, Nat.toDigits, List.asString]
  exact toDigitsCore_no_gt _ _ _ (by simp)

theorem toString_int_no_gt (i : Int) : '>' ∉ (toString i).data := by
  cases i with
  | ofNat n => exact toString_nat_no_gt n
  | negSucc n =>
    show '>' ∉ ("-" ++ toString (n + 1)).data
    rw [String.data_append]
    simp only [List.mem_append, not_or]
    exact ⟨by decide, toString_nat_no_gt _⟩

theorem plainValue_no_gt {s : String} (h : plainValue s = true) : '>' ∉ s.data := by
  intro hm
  have := List.all_eq_true.mp h _ hm
  exact absurd this (by decide)

theorem stringPiece_ok (name v : String) (hn : '>' ∉ name.data) :
    AttrOK (stringPiece name v).data := by
  unfold stringPiece
  split
  · exact AttrOK.nil
  · exact attrText_ok _ _ hn (html.EscapeString_noRaw v).2.1

theorem enumPiece_ok (name v : String) (hn : '>' ∉ name.data) (hv : plainValue v = true) :
    AttrOK (enumPiece name v).data := by
  unfold enumPiece
  split
  · exact AttrOK.nil
  · exact attrText_ok _ _ hn (plainValue_no_gt hv)

theorem uintPiece_ok (name : String) (v : Option Nat) (hn : '>' ∉ name.data) :
    AttrOK (uintPiece name v).data := by
  cases v with
  | none => exact AttrOK.nil
  | some n => exact attrText_ok _ _ hn (toString_nat_no_gt n)

theorem intPiece_ok (name : String) (v : Option Int) (hn : '>' ∉ name.data) :
    AttrOK (intPiece name v).data := by
  cases v with
  | none => exact AttrOK.nil
  | some n => exact attrText_ok _ _ hn (toString_int_no_gt n)

theorem boolPiece_ok (name : String) (v : Option Bool) (hn : '>' ∉ name.data) :
    AttrOK (boolPiece name v).data := by
  cases v with
  | none => exact AttrOK.nil
  | some b => exact attrText_ok _ _ hn (by cases b <;> decide)

theorem Table.attrPieces_table_ok (t : Table) (ha : plainValue t.Align = true)
    (hv : plainValue t.Valign = true) : AttrOK (htmlike.concat t.attrPieces).data := by
  apply AttrOK.concat
  intro p hp
  simp only [Table.attrPieces, List.mem_cons, List.mem_singleton, List.not_mem_nil,
    or_false] at hp
  rcases hp with h | h | h | h | h | h | h | h | h | h | h | h | h | h | h | h | h | h | h |
    h | h <;> subst h <;>
    first
    | exact stringPiece_ok _ _ (by decide)
    | exact uintPiece_ok _ _ (by decide)
    | exact intPiece_ok _ _ (by decide)
    | exact boolPiece_ok _ _ (by decide)
    | exact enumPiece_ok _ _ (by decide) ha
    | exact enumPiece_ok _ _ (by decide) hv

theorem TD.attrPieces_td_ok (t : TD) (ha : plainValue t.Align = true)
    (hb : plainValue t.BAlign = true) (hv : plainValue t.Valign = true) :
    AttrOK (htmlike.concat t.attrPieces).data := by
  apply AttrOK.concat
  intro p hp
  simp only [TD.attrPieces, List.mem_cons, List.mem_singleton, List.not_mem_nil,
    or_false] at hp
  rcases hp with h | h | h | h | h | h | h | h | h | h | h | h | h | h | h | h | h | h | h |
    h <;> subst h <;>
    first
    | exact stringPiece_ok _ _ (by decide)
    | exact uintPiece_ok _ _ (by decide)
    | exact intPiece_ok _ _ (by decide)
    | exact boolPiece_ok _ _ (by decide)
    | exact enumPiece_ok _ _ (by decide) ha
    | exact enumPiece_ok _ _ (by decide) hb
    | exact enumPiece_ok _ _ (by decide) hv

theorem FONT.attrPieces_font_ok (t : FONT) : AttrOK (htmlike.concat t.attrPieces).data := by
  apply AttrOK.concat
  intro p hp
  simp only [FONT.attrPieces, List.mem_cons, List.mem_singleton, List.not_mem_nil,
    or_false] at hp
  rcases hp with h | h | h <;> subst h <;>
    first
    | exact stringPiece_ok _ _ (by decide)
    | exact intPiece_ok _ _ (by decide)

end htmlike

namespace htmlike

theorem alnum_no_gt {l : List Char} (h : ∀ c ∈ l, c.isAlphanum = true) : '>' ∉ l :=
  fun hm => absurd (h _ hm) (by decide)

theorem classify_opening (nm A : List Char) (hne : nm ≠ [])
    (hnm : ∀ c ∈ nm, c.isAlphanum = true) (hA : AttrOK A) :
    classify (nm ++ A) = .opening nm := by
  cases nm with
  | nil => exact absurd rfl hne
  | cons c nm =>
    have hc : c ≠ '/' := fun e => absurd (hnm c (List.mem_cons_self _ _)) (by rw [e]; decide)
    have hlast : (c :: nm ++ A).getLast? ≠ some '/' := by
      rw [List.getLast?_append]
      rcases hA.2 with h0 | ⟨_, hl⟩
      · rw [h0]
        simp only [List.getLast?_nil, Option.or]
        rw [List.getLast?_eq_getLast _ (List.cons_ne_nil _ _)]
        intro e
        have hm := hnm _ (List.getLast_mem (List.cons_ne_nil c nm))
        rw [Option.some.inj e] at hm
        exact absurd hm (by decide)
      · rw [hl]
        simp only [Option.or]
        decide
    have htake : (c :: nm ++ A).takeWhile (fun c => c != ' ') = c :: nm := by
      have hall : ∀ x ∈ c :: nm, (fun c => c != ' ') x = true := by
        intro x hx
        have hm := hnm x hx
        simp only [bne_iff_ne, ne_eq]
        intro e
        rw [e] at hm
        exact absurd hm (by decide)
      rw [List.takeWhile_append_of_pos hall]
      rcases hA.2 with h0 | ⟨hh, _⟩
      · rw [h0]; simp
      · cases A with
        | nil => simp at hh
        | cons x A =>
          simp only [List.head?_cons, Option.some.injEq] at hh
          rw [hh]
          simp [List.takeWhile]
    unfold classify
    rw [if_neg (by simpa using hc), if_neg hlast, htake]

theorem classify_closing (nm : List Char) : classify ('/' :: nm) = .closing nm := by
  simp [classify]

theorem classify_void (nm A : List Char) (hne : nm ≠ [])
    (hnm : ∀ c ∈ nm, c.isAlphanum = true) : classify (nm ++ (A ++ ['/'])) = .void := by
  cases nm with
  | nil => exact absurd rfl hne
  | cons c nm =>
    have hc : c ≠ '/' := fun e => absurd (hnm c (List.mem_cons_self _ _)) (by rw [e]; decide)
    have hlast : (c :: nm ++ (A ++ ['/'])).getLast? = some '/' := by
      rw [← List.append_assoc, List.getLast?_append]
      rfl
    unfold classify
    rw [if_neg (by simpa using hc), if_pos hlast]

/-- The tags of a container: its opening tag, the tags of what it holds, and its closing
tag. -/
theorem container_tags (pre nm A S post : List Char) (hpre : '<' ∉ pre) (hpost : '<' ∉ post)
    (hne : nm ≠ []) (hnm : ∀ c ∈ nm, c.isAlphanum = true) (hA : AttrOK A)
    (hS : ∀ (R : List Char) (st : List (List Char)),
      balanced (scanTags none (S ++ R)) st = balanced (scanTags none R) st)
    (rest : List Char) (stack : List (List Char)) :
    balanced (scanTags none
      (pre ++ '<' :: ((nm ++ A) ++ '>' :: (S ++ (post ++ '<' :: (('/' :: nm) ++ '>' :: rest))))))
      stack = balanced (scanTags none rest) stack := by
  have hgt : '>' ∉ nm ++ A := by
    intro h
    rcases List.mem_append.mp h with h | h
    · exact alnum_no_gt hnm h
    · exact hA.1 h
  have hgt2 : '>' ∉ '/' :: nm := by
    simp only [List.mem_cons, not_or]
    exact ⟨by decide, alnum_no_gt hnm⟩
  rw [scanTags_tag pre _ _ hpre hgt, balanced_opening (classify_opening nm A hne hnm hA), hS,
    scanTags_tag post _ _ hpost hgt2, balanced_closing (classify_closing nm)]

/-- The tag of an element without content: a self-closing tag. -/
theorem void_tags (nm A : List Char) (hne : nm ≠ []) (hnm : ∀ c ∈ nm, c.isAlphanum = true)
    (hA : '>' ∉ A) (rest : List Char) (stack : List (List Char)) :
    balanced (scanTags none ('<' :: ((nm ++ (A ++ ['/'])) ++ '>' :: rest))) stack =
      balanced (scanTags none rest) stack := by
  have hgt : '>' ∉ nm ++ (A ++ ['/']) := by
    simp only [List.mem_append, List.mem_singleton, not_or]
    exact ⟨alnum_no_gt hnm, hA, by decide⟩
  have h := scanTags_tag [] _ rest (by simp) hgt
  rw [List.nil_append] at h
  rw [h, balanced_void (classify_void nm A hne hnm)]

end htmlike

namespace htmlike

theorem plainTag_facts {s : String} (h : plainTag s = true) :
    s.data ≠ [] ∧ ∀ c ∈ s.data, c.isAlphanum = true := by
  simp only [plainTag, Bool.and_eq_true, Bool.not_eq_true', List.isEmpty_eq_false,
    List.all_eq_true] at h
  exact ⟨h.1, h.2⟩

theorem enumPiece_no_gt (name v : String) (hn : '>' ∉ name.data) (hv : plainValue v = true) :
    '>' ∉ (enumPiece name v).data := (enumPiece_ok name v hn hv).1

mutual
/-- The tags that a well-tagged element without an `IMG` without source writes are properly
nested: reading them changes nothing at the check of what follows. -/
theorem HtmLikeElement.tags_balanced :
    ∀ e : HtmLikeElement, e.plainTags = true → e.hasEmptySrc = false →
      ∀ (rest : List Char) (stack : List (List Char)),
        balanced (scanTags none (e.serialise.data ++ rest)) stack =
          balanced (scanTags none rest) stack
  | .text t, _, _ => by
    intro rest stack
    have hs : (HtmLikeElement.text t).serialise = html.EscapeString t := by
      simp [HtmLikeElement.serialise, HtmLikeElement.WriteDOT]
    rw [hs, scanTags_text _ _ (html.EscapeString_noRaw t).1]
  | .table a cs, hp, h => by
    intro rest stack
    have hc : anyEmptySrc cs = false := by simpa [HtmLikeElement.hasEmptySrc] using h
    simp only [HtmLikeElement.plainTags, Bool.and_eq_true] at hp
    have hd : (HtmLikeElement.table a cs).serialise.data ++ rest =
        ['\n'] ++ '<' :: (("TABLE".data ++ (htmlike.concat a.attrPieces).data) ++
          '>' :: ((serialiseAll cs).data ++
            (['\n'] ++ '<' :: (('/' :: "TABLE".data) ++ '>' :: rest)))) := by
      rw [table_serialise a cs hc]
      simp [String.data_append]
    rw [hd]
    exact container_tags _ _ _ _ _ (by decide) (by decide) (by decide) (by decide)
      (Table.attrPieces_table_ok a hp.1.1 hp.1.2) (allTags_balanced cs hp.2 hc) rest stack
  | .tr cs, hp, h => by
    intro rest stack
    have hc : anyEmptySrc cs = false := by simpa [HtmLikeElement.hasEmptySrc] using h
    simp only [HtmLikeElement.plainTags] at hp
    have hd : (HtmLikeElement.tr cs).serialise.data ++ rest =
        ['\n'] ++ '<' :: (("TR".data ++ []) ++
          '>' :: ((serialiseAll cs).data ++ ([] ++ '<' :: (('/' :: "TR".data) ++ '>' :: rest)))) := by
      rw [tr_serialise cs hc]
      simp [String.data_append]
    rw [hd]
    exact container_tags _ _ _ _ _ (by decide) (by decide) (by decide) (by decide)
      AttrOK.nil (allTags_balanced cs hp hc) rest stack
  | .td a cs, hp, h => by
    intro rest stack
    have hc : anyEmptySrc cs = false := by simpa [HtmLikeElement.hasEmptySrc] using h
    simp only [HtmLikeElement.plainTags, Bool.and_eq_true] at hp
    have hd : (HtmLikeElement.td a cs).serialise.data ++ rest =
        [] ++ '<' :: (("TD".data ++ (htmlike.concat a.attrPieces).data) ++
          '>' :: ((serialiseAll cs).data ++ ([] ++ '<' :: (('/' :: "TD".data) ++ '>' :: rest)))) := by
      rw [td_serialise a cs hc]
      simp [String.data_append]
    rw [hd]
    exact container_tags _ _ _ _ _ (by decide) (by decide) (by decide) (by decide)
      (TD.attrPieces_td_ok a hp.1.1.1 hp.1.1.2 hp.1.2) (allTags_balanced cs hp.2 hc) rest stack
  | .font a cs, hp, h => by
    intro rest stack
    have hc : anyEmptySrc cs = false := by simpa [HtmLikeElement.hasEmptySrc] using h
    simp only [HtmLikeElement.plainTags] at hp
    have hd : (HtmLikeElement.font a cs).serialise.data ++ rest =
        [] ++ '<' :: (("FONT".data ++ (htmlike.concat a.attrPieces).data) ++
          '>' :: ((serialiseAll cs).data ++
            ([] ++ '<' :: (('/' :: "FONT".data) ++ '>' :: rest)))) := by
      rw [font_serialise a cs hc]
      simp [String.data_append]
    rw [hd]
    exact container_tags _ _ _ _ _ (by decide) (by decide) (by decide) (by decide)
      (FONT.attrPieces_font_ok a) (allTags_balanced cs hp hc) rest stack
  | .br al, hp, _ => by
    intro rest stack
    simp only [HtmLikeElement.plainTags] at hp
    have hd : (HtmLikeElement.br al).serialise.data ++ rest =
        '<' :: (("BR".data ++ ((enumPiece "ALIGN" al).data ++ ['/'])) ++ '>' :: rest) := by
      simp [HtmLikeElement.serialise, HtmLikeElement.WriteDOT, writeAttrHtmLikeAlign_piece,
        String.data_append]
    rw [hd]
    exact void_tags _ _ (by decide) (by decide) (enumPiece_no_gt _ _ (by decide) hp) rest stack
  | .img sc src, hp, h => by
    intro rest stack
    simp only [HtmLikeElement.plainTags] at hp
    have hs : ¬ src = "" := by simpa [HtmLikeElement.hasEmptySrc] using h
    have hd : (HtmLikeElement.img sc src).serialise.data ++ rest =
        '<' :: (("IMG".data ++ (((stringPiece "SRC" src).data ++
          (enumPiece "SCALE" sc).data) ++ ['/'])) ++ '>' :: rest) := by
      simp [HtmLikeElement.serialise, HtmLikeElement.WriteDOT, hs, writeAttrString_piece,
        writeAttrHtmLikeImgScale_piece, String.data_append]
    rw [hd]
    refine void_tags _ _ (by decide) (by decide) ?_ rest stack
    intro hm
    rcases List.mem_append.mp hm with hm | hm
    · exact (stringPiece_ok "SRC" src (by decide)).1 hm
    · exact enumPiece_no_gt _ _ (by decide) hp hm
  | .style tag cs, hp, h => by
    intro rest stack
    have hc : anyEmptySrc cs = false := by simpa [HtmLikeElement.hasEmptySrc] using h
    simp only [HtmLikeElement.plainTags, Bool.and_eq_true] at hp
    obtain ⟨hne, hal⟩ := plainTag_facts hp.1
    have hd : (HtmLikeElement.style tag cs).serialise.data ++ rest =
        [] ++ '<' :: ((tag.data ++ []) ++
          '>' :: ((serialiseAll cs).data ++ ([] ++ '<' :: (('/' :: tag.data) ++ '>' :: rest)))) := by
      rw [style_serialise tag cs hc]
      simp [String.data_append]
    rw [hd]
    exact container_tags _ _ _ _ _ (by decide) (by decide) hne hal AttrOK.nil
      (allTags_balanced cs hp.2 hc) rest stack
  | .rule tag, hp, _ => by
    intro rest stack
    simp only [HtmLikeElement.plainTags] at hp
    obtain ⟨hne, hal⟩ := plainTag_facts hp
    have hd : (HtmLikeElement.rule tag).serialise.data ++ rest =
        '<' :: ((tag.data ++ ([] ++ ['/'])) ++ '>' :: rest) := by
      simp [HtmLikeElement.serialise, HtmLikeElement.WriteDOT, String.data_append]
    rw [hd]
    exact void_tags _ _ hne hal (by simp) rest stack
/-- The same for a list of elements. -/
theorem allTags_balanced :
    ∀ cs : List HtmLikeElement, allPlainTags cs = true → anyEmptySrc cs = false →
      ∀ (rest : List Char) (stack : List (List Char)),
        balanced (scanTags none ((serialiseAll cs).data ++ rest)) stack =
          balanced (scanTags none rest) stack
  | [], _, _ => by
    intro rest stack
    simp [serialiseAll]
  | c :: cs, hp, h => by
    intro rest stack
    simp only [anyEmptySrc, Bool.or_eq_false_iff] at h
    simp only [allPlainTags, Bool.and_eq_true] at hp
    rw [serialiseAll_cons, String.data_append, List.append_assoc,
      HtmLikeElement.tags_balanced c hp.1 h.1, allTags_balanced cs hp.2 h.2]
end

end htmlike

namespace htmlike

/-- Counterexample to C35 as stated: the style element with the tag `B><I` around the text
`y` holds no `IMG`; it serialises to `<B><I>y</B><I>`, whose tags are `B`, `I`, `/B` and
`I`: the closing tag does not match the tag opened last, and two tags stay open. -/
theorem C35_unmatched_tags_counterexample :
    exOddStyle.hasEmptySrc = false ∧
    exOddStyle.serialise = "<B><I>y</B><I>" ∧
    scanTags none exOddStyle.serialise.data = ["B".data, "I".data, "/B".data, "I".data] ∧
    tagsMatch exOddStyle.serialise = false := by
  decide

/-- C35, amended: serialisation of a label is compositional and keeps the order, and its tags
match when the tags and enum values are plain.  For children none of which is or contains an
`IMG` without source, each of the five containers serialises to its opening tag, with the
attribute pieces in the order of declaration, followed by the serialisations of the children
in list order, followed by its closing tag; after `AppendChildren(more)` the serialisations
of `more` follow, in order, those of the children held before.  And in the text that an
element without such an `IMG` writes, every opening tag has its matching closing tag,
provided that in the element and in what it contains the tags of the style and rule elements
are not empty and made of letters and digits, and the values of the attributes of type
`HtmLikeAlign`, `HtmLikeValign` and `HtmLikeImgScale` are made of letters and digits. -/
theorem C35_compositional (a : Table) (d : TD) (f : FONT) (tag : String)
    (c e : HtmLikeElement) (cs more : List HtmLikeElement)
    (h : anyEmptySrc cs = false) (hm : anyEmptySrc more = false)
    (he : e.hasEmptySrc = false) (ht : e.plainTags = true) :
    ((HtmLikeElement.table a cs).serialise =
        "\n<TABLE" ++ concat a.attrPieces ++ ">" ++ serialiseAll cs ++ "\n</TABLE>" ∧
      (HtmLikeElement.tr cs).serialise = "\n<TR>" ++ serialiseAll cs ++ "</TR>" ∧
      (HtmLikeElement.td d cs).serialise =
        "<TD" ++ concat d.attrPieces ++ ">" ++ serialiseAll cs ++ "</TD>" ∧
      (HtmLikeElement.font f cs).serialise =
        "<FONT" ++ concat f.attrPieces ++ ">" ++ serialiseAll cs ++ "</FONT>" ∧
      (HtmLikeElement.style tag cs).serialise =
        "<" ++ tag ++ ">" ++ serialiseAll cs ++ ("</" ++ tag ++ ">")) ∧
    (serialiseAll [] = "" ∧ serialiseAll (c :: cs) = c.serialise ++ serialiseAll cs ∧
      serialiseAll (cs ++ more) = serialiseAll cs ++ serialiseAll more) ∧
    (((HtmLikeElement.table a cs).AppendChildren more).serialise =
        "\n<TABLE" ++ concat a.attrPieces ++ ">" ++ (serialiseAll cs ++ serialiseAll more) ++
          "\n</TABLE>" ∧
      ((HtmLikeElement.tr cs).AppendChildren more).serialise =
        "\n<TR>" ++ (serialiseAll cs ++ serialiseAll more) ++ "</TR>" ∧
      ((HtmLikeElement.td d cs).AppendChildren more).serialise =
        "<TD" ++ concat d.attrPieces ++ ">" ++ (serialiseAll cs ++ serialiseAll more) ++
          "</TD>" ∧
      ((HtmLikeElement.font f cs).AppendChildren more).serialise =
        "<FONT" ++ concat f.attrPieces ++ ">" ++ (serialiseAll cs ++ serialiseAll more) ++
          "</FONT>" ∧
      ((HtmLikeElement.style tag cs).AppendChildren more).serialise =
        "<" ++ tag ++ ">" ++ (serialiseAll cs ++ serialiseAll more) ++
          ("</" ++ tag ++ ">")) ∧
    tagsMatch e.serialise = true := by
  have hb : anyEmptySrc (cs ++ more) = false := by rw [anyEmptySrc_append, h, hm]; rfl
  refine ⟨⟨table_serialise a cs h, tr_serialise cs h, td_serialise d cs h,
    font_serialise f cs h, style_serialise tag cs h⟩,
    ⟨rfl, serialiseAll_cons c cs, serialiseAll_append cs more⟩,
    ⟨?_, ?_, ?_, ?_, ?_⟩, ?_⟩
  · rw [HtmLikeElement.AppendChildren, table_serialise a _ hb, serialiseAll_append]
  · rw [HtmLikeElement.AppendChildren, tr_serialise _ hb, serialiseAll_append]
  · rw [HtmLikeElement.AppendChildren, td_serialise d _ hb, serialiseAll_append]
  · rw [HtmLikeElement.AppendChildren, font_serialise f _ hb, serialiseAll_append]
  · rw [HtmLikeElement.AppendChildren, style_serialise tag _ hb, serialiseAll_append]
  · have hx := HtmLikeElement.tags_balanced e ht he [] []
    rw [List.append_nil] at hx
    unfold tagsMatch
    rw [hx]
    rfl

/-- Witness of C35, amended: the table of the example label, and a text and a line break as
children, a rule being appended. -/
theorem C35_compositional_witness :
    ((HtmLikeElement.table exBorder exCells).serialise =
        "\n<TABLE" ++ concat exBorder.attrPieces ++ ">" ++ serialiseAll exCells ++ "\n</TABLE>" ∧
      (HtmLikeElement.tr exCells).serialise = "\n<TR>" ++ serialiseAll exCells ++ "</TR>" ∧
      (HtmLikeElement.td exPort exCells).serialise =
        "<TD" ++ concat exPort.attrPieces ++ ">" ++ serialiseAll exCells ++ "</TD>" ∧
      (HtmLikeElement.font ({} : FONT) exCells).serialise =
        "<FONT" ++ concat ({} : FONT).attrPieces ++ ">" ++ serialiseAll exCells ++ "</FONT>" ∧
      (HtmLikeElement.style "B" exCells).serialise =
        "<" ++ "B" ++ ">" ++ serialiseAll exCells ++ ("</" ++ "B" ++ ">")) ∧
    (serialiseAll [] = "" ∧
      serialiseAll ((HtmLikeElement.text "x") :: exCells) =
        (HtmLikeElement.text "x").serialise ++ serialiseAll exCells ∧
      serialiseAll (exCells ++ exMore) = serialiseAll exCells ++ serialiseAll exMore) ∧
    (((HtmLikeElement.table exBorder exCells).AppendChildren exMore).serialise =
        "\n<TABLE" ++ concat exBorder.attrPieces ++ ">" ++ (serialiseAll exCells ++ serialiseAll exMore) ++
          "\n</TABLE>" ∧
      ((HtmLikeElement.tr exCells).AppendChildren exMore).serialise =
        "\n<TR>" ++ (serialiseAll exCells ++ serialiseAll exMore) ++ "</TR>" ∧
      ((HtmLikeElement.td exPort exCells).AppendChildren exMore).serialise =
        "<TD" ++ concat exPort.attrPieces ++ ">" ++ (serialiseAll exCells ++ serialiseAll exMore) ++
          "</TD>" ∧
      ((HtmLikeElement.font ({} : FONT) exCells).AppendChildren exMore).serialise =
        "<FONT" ++ concat ({} : FONT).attrPieces ++ ">" ++ (serialiseAll exCells ++ serialiseAll exMore) ++
          "</FONT>" ∧
      ((HtmLikeElement.style "B" exCells).AppendChildren exMore).serialise =
        "<" ++ "B" ++ ">" ++ (serialiseAll exCells ++ serialiseAll exMore) ++
          ("</" ++ "B" ++ ">")) ∧
    tagsMatch exTable.serialise = true :=
  C35_compositional exBorder exPort {} "B" (HtmLikeElement.text "x") exTable exCells exMore
    (by decide) (by decide) (by decide) (by decide)

end htmlike


namespace dotx

open dot

/-- What `Input` and `Output` leave alone: the attributes of every node that existed, the
inner node named by the port id apart, of which only `shape` changes. -/
theorem PortPost.node_frame {s : Composite} {p : String} {W W' : World} {g : GraphRef}
    {port : dot.Node} {e : dot.Edge} (P : PortPost s p W g port e W') (hW : W.WF) :
    (∀ (i : GraphRef) (m : dot.Node), m ∈ W.nodesOf i → ¬ (i = s.Graph ∧ m.id = p) →
      ∀ k, m.Attribute k W' = m.Attribute k W) ∧
    (∀ m ∈ W.nodesOf s.Graph, m.id = p →
      port = m ∧ ∀ k, k ≠ "shape" → m.Attribute k W' = m.Attribute k W) := by
  constructor
  · intro i m hm hne k
    have hm' := P.nodes_sub_port i m hm
    have hdiff : m.attributes ≠ port.attributes := by
      by_cases hi : i = s.Graph
      · subst hi
        exact P.wf.node_attr_ne hm' P.port_mem
          (fun h => hne ⟨rfl, h.trans P.port_id⟩)
      · exact P.wf.node_attr_cross hm' P.port_mem hi
    show (W'.attrsOf m.toAttributesMap).get k = (W.attrsOf m.toAttributesMap).get k
    rw [P.attrs_keep m.toAttributesMap (hW.node_facts hm).2.2 hdiff]
  · intro m hm hid
    have hold := P.nodes_old ⟨m, hm, hid⟩
    have hpm : port ∈ W.nodesOf s.Graph := by rw [← hold]; exact P.port_mem
    have hpe : port = m := hW.node_unique hpm hm (P.port_id.trans hid.symm)
    refine ⟨hpe, fun k hk => ?_⟩
    subst hpe
    exact P.port_keep k hk (hW.node_facts hm).2.2

end dotx

namespace dotx

open dot

/-- C32: the only node attribute that `Input` and `Output` write is `shape = "point"` on the
inner node named by the port id.  For a composite `s` of a well-formed heap, a port id `p`
and a node or composite `x` of the heap, `s.Input(p, x)` and `s.Output(p, x)` return, the
inner graph then has the node `port` with id `p` and `shape = "point"`, and every node that
existed before, other than an inner node with id `p`, reads the same value as before under
every attribute name, the outer node included.  An inner node with id `p` that existed
before is the port node, and reads the same under every name other than `shape`.  On the
internal branch the new edge goes from the port node to the resolved node (Input) or from
the resolved node to the port node (Output), a self-loop when the resolved node has id
`p`. -/
theorem C32_ports_write_shape_only (s : Composite) (p : String) (x : Connectable) (W : World)
    (hW : W.WF) (hs : s.WF W) (hx : x.WF W) :
    (∃ e W' port, s.Input p x W = some (e, W') ∧
      port ∈ W'.nodesOf s.Graph ∧ port.id = p ∧
      port.Attribute "shape" W' = Value.str "point" ∧
      (∀ (i : GraphRef) (m : dot.Node), m ∈ W.nodesOf i → ¬ (i = s.Graph ∧ m.id = p) →
        ∀ k, m.Attribute k W' = m.Attribute k W) ∧
      (∀ k, s.outerNode.Attribute k W' = s.outerNode.Attribute k W) ∧
      (∀ m ∈ W.nodesOf s.Graph, m.id = p →
        port = m ∧ ∀ k, k ≠ "shape" → m.Attribute k W' = m.Attribute k W) ∧
      (x.resolve ∈ W.nodesOf s.Graph →
        e.fromNode = port ∧ e.toNode = x.resolve ∧
        (x.resolve.id = p → e.fromNode = x.resolve ∧ e.toNode = x.resolve))) ∧
    (∃ e W' port, s.Output p x W = some (e, W') ∧
      port ∈ W'.nodesOf s.Graph ∧ port.id = p ∧
      port.Attribute "shape" W' = Value.str "point" ∧
      (∀ (i : GraphRef) (m : dot.Node), m ∈ W.nodesOf i → ¬ (i = s.Graph ∧ m.id = p) →
        ∀ k, m.Attribute k W' = m.Attribute k W) ∧
      (∀ k, s.outerNode.Attribute k W' = s.outerNode.Attribute k W) ∧
      (∀ m ∈ W.nodesOf s.Graph, m.id = p →
        port = m ∧ ∀ k, k ≠ "shape" → m.Attribute k W' = m.Attribute k W) ∧
      (x.resolve ∈ W.nodesOf s.Graph →
        e.fromNode = x.resolve ∧ e.toNode = port ∧
        (x.resolve.id = p → e.fromNode = x.resolve ∧ e.toNode = x.resolve))) := by
  obtain ⟨f1, f2, _, f4, _⟩ := Composite.WF.facts hW hs
  have hxin := Connectable.WF.nodeIn hW hx
  have hxg : x.resolve.graph < W.graphs.length := (hW.node_facts hxin).2.1
  have houter : ∀ {W' : World} {g : GraphRef} {port : dot.Node} {e : dot.Edge},
      PortPost s p W g port e W' → ∀ k, s.outerNode.Attribute k W' = s.outerNode.Attribute k W :=
    fun P k => (P.node_frame hW).1 _ _ hs.1 (fun h => hs.2.2 h.1.symm) k
  constructor
  · by_cases hin : x.resolve ∈ W.nodesOf s.Graph
    · obtain ⟨port, e, W', h, P, e1, e2, _⟩ := Composite.Input_internal s p x hW f4 hin
      refine ⟨e, W', port, h, P.port_mem, P.port_id, P.port_shape, (P.node_frame hW).1,
        houter P, (P.node_frame hW).2, fun _ => ⟨e1, e2, fun hid => ?_⟩⟩
      have hp := ((P.node_frame hW).2 _ hin hid).1
      exact ⟨e1.trans hp, e2⟩
    · obtain ⟨port, e, W', h, P, _⟩ := Composite.Input_external s p x hW f4 hxg hin
      exact ⟨e, W', port, h, P.port_mem, P.port_id, P.port_shape, (P.node_frame hW).1,
        houter P, (P.node_frame hW).2, fun h => absurd h hin⟩
  · by_cases hin : x.resolve ∈ W.nodesOf s.Graph
    · obtain ⟨port, e, W', h, P, e1, e2, _⟩ := Composite.Output_internal s p x hW f4 hin
      refine ⟨e, W', port, h, P.port_mem, P.port_id, P.port_shape, (P.node_frame hW).1,
        houter P, (P.node_frame hW).2, fun _ => ⟨e1, e2, fun hid => ?_⟩⟩
      have hp := ((P.node_frame hW).2 _ hin hid).1
      exact ⟨e1, e2.trans hp⟩
    · obtain ⟨port, e, W', h, P, _⟩ :=
        Composite.Output_external s p x hW f4 (by rw [f1]; exact f2) hin
      exact ⟨e, W', port, h, P.port_mem, P.port_id, P.port_shape, (P.node_frame hW).1,
        houter P, (P.node_frame hW).2, fun h => absurd h hin⟩

end dotx


namespace dotx

open dot

/-- Witness of C32 on the heap of `TestCompositeWithUnusedIOSameGraph`: the port id is the id
of the inner node `subcomponent 1`, which is also the node given (the internal branch, a
self-loop). -/
theorem C32_ports_write_shape_only_witness :
    (∃ e W' port, exSub.Input "subcomponent 1" (Connectable.node exInner) exWorld =
        some (e, W') ∧
      port ∈ W'.nodesOf exSub.Graph ∧ port.id = "subcomponent 1" ∧
      port.Attribute "shape" W' = Value.str "point" ∧
      (∀ (i : GraphRef) (m : dot.Node), m ∈ exWorld.nodesOf i →
        ¬ (i = exSub.Graph ∧ m.id = "subcomponent 1") →
        ∀ k, m.Attribute k W' = m.Attribute k exWorld) ∧
      (∀ k, exSub.outerNode.Attribute k W' = exSub.outerNode.Attribute k exWorld) ∧
      (∀ m ∈ exWorld.nodesOf exSub.Graph, m.id = "subcomponent 1" →
        port = m ∧ ∀ k, k ≠ "shape" → m.Attribute k W' = m.Attribute k exWorld) ∧
      ((Connectable.node exInner).resolve ∈ exWorld.nodesOf exSub.Graph →
        e.fromNode = port ∧ e.toNode = (Connectable.node exInner).resolve ∧
        ((Connectable.node exInner).resolve.id = "subcomponent 1" →
          e.fromNode = (Connectable.node exInner).resolve ∧
          e.toNode = (Connectable.node exInner).resolve))) ∧
    (∃ e W' port, exSub.Output "subcomponent 1" (Connectable.node exInner) exWorld =
        some (e, W') ∧
      port ∈ W'.nodesOf exSub.Graph ∧ port.id = "subcomponent 1" ∧
      port.Attribute "shape" W' = Value.str "point" ∧
      (∀ (i : GraphRef) (m : dot.Node), m ∈ exWorld.nodesOf i →
        ¬ (i = exSub.Graph ∧ m.id = "subcomponent 1") →
        ∀ k, m.Attribute k W' = m.Attribute k exWorld) ∧
      (∀ k, exSub.outerNode.Attribute k W' = exSub.outerNode.Attribute k exWorld) ∧
      (∀ m ∈ exWorld.nodesOf exSub.Graph, m.id = "subcomponent 1" →
        port = m ∧ ∀ k, k ≠ "shape" → m.Attribute k W' = m.Attribute k exWorld) ∧
      ((Connectable.node exInner).resolve ∈ exWorld.nodesOf exSub.Graph →
        e.fromNode = (Connectable.node exInner).resolve ∧ e.toNode = port ∧
        ((Connectable.node exInner).resolve.id = "subcomponent 1" →
          e.fromNode = (Connectable.node exInner).resolve ∧
          e.toNode = (Connectable.node exInner).resolve))) :=
  C32_ports_write_shape_only exSub "subcomponent 1" (Connectable.node exInner) exWorld
    exWorld_wf (by decide) (by decide)

end dotx


namespace dotx

open dot

/-- C34: the conversion terminates, and its recursion is well founded.  On a well-formed
heap, with a fuel above the number of graphs, `ConvertExternalToSameGraph` returns.  If the
inner graph of the root has no subgraph before the call, the result graph has the one
cluster of the root, and the clusters nested in that one have no subgraph: the clusters of
the result are nested at most two levels deep.  And for every composite of the heap,
`findChildComposites` returns, and the inner graph of each child it discovers is the
subgraph of the inner graph of that composite registered under the id of the child: it has
a larger index than its parent, and it is either a graph created by the call, which has no
node, no edge and no subgraph, or the subgraph that was registered under the id before the call. -/
theorem C34_conversion_terminates (fuel : Nat) (root comp : Composite) (W : World)
    (hW : W.WF) (hs : root.WF W) (hc : comp.Graph < W.graphs.length)
    (hfuel : W.graphs.length < fuel) :
    (∃ T W', ConvertExternalToSameGraph fuel root W = some (T, W') ∧
      (W.subgraphsOf root.Graph = [] →
        ∃ C, W'.subgraphsOf T = [(root.OuterNode.ID, C)] ∧
          ∀ q ∈ W'.subgraphsOf C, W'.subgraphsOf q.2 = [])) ∧
    (∃ children W1, findChildComposites comp W = some (children, W1) ∧
      ∀ x ∈ children,
        (W1.subgraphsOf comp.Graph).lookup x.OuterNode.ID = some x.Graph ∧
        comp.Graph < x.Graph ∧
        ((W.subgraphsOf comp.Graph).lookup x.OuterNode.ID = none →
          W.graphs.length ≤ x.Graph ∧ W1.nodesOf x.Graph = [] ∧ W1.edgesOf x.Graph = [] ∧
            W1.subgraphsOf x.Graph = []) ∧
        (∀ K, (W.subgraphsOf comp.Graph).lookup x.OuterNode.ID = some K →
          x.Graph = K ∧ K < W.graphs.length)) := by
  obtain ⟨hog, hig⟩ := Composite.WF.bounds hW hs
  refine ⟨?_, ?_⟩
  · obtain ⟨W', e, cp⟩ := ConvertExternalToSameGraph_spec fuel root hW hog hig hfuel
    refine ⟨W.graphs.length, W', e, fun hnil => ⟨W.graphs.length + 1, cp.t_subs, ?_⟩⟩
    intro q hq
    exact cp.c_leaf q hq (by rw [hnil]; rfl)
  · obtain ⟨cs, W1, e, f, _, hpost, _⟩ :=
      findChildComposites_spec W.graphs.length 0 comp hW hc (le_refl _) (Or.inl hc)
    refine ⟨cs, W1, e, fun x hx => ?_⟩
    have px := (hpost x hx).1
    have hmem := lookup_mem px.registered
    refine ⟨px.registered, (f.wf.sub_facts hmem).1, fun hnone => ?_, fun K hK => ?_⟩
    · have hge := px.fresh hnone
      exact ⟨hge, px.empty hnone⟩
    · exact ⟨px.found K hK, (hW.sub_facts (lookup_mem hK)).2⟩

end dotx


namespace dot

/-- A graph of the heap is determined by its attribute handle and options, its nodes, its
edges and its subgraphs. -/
theorem World.graph_ext {W W' : World} {g : GraphRef} (hg : g < W.graphs.length)
    (hh : W'.headOf g = W.headOf g) (hn : W'.nodesOf g = W.nodesOf g)
    (he : W'.edgesOf g = W.edgesOf g) (hs : W'.subgraphsOf g = W.subgraphsOf g) :
    W'.graphs[g]? = W.graphs[g]? := by
  obtain ⟨G, hG⟩ := World.graph_of_lt hg
  have h0 : W.headOf g = some (G.toAttributesMap, G.options) := by
    simp only [World.headOf, hG]
  rw [h0] at hh
  obtain ⟨G', hG', ha, ho⟩ := World.graph_of_headOf hh
  rw [World.nodesOf_eq hG', World.nodesOf_eq hG] at hn
  rw [World.edgesOf_eq hG', World.edgesOf_eq hG] at he
  rw [World.subgraphsOf_eq hG', World.subgraphsOf_eq hG] at hs
  rw [hG, hG']
  obtain ⟨a, o, n, e, s⟩ := G
  obtain ⟨a', o', n', e', s'⟩ := G'
  simp only at ha ho hn he hs
  subst ha; subst ho; subst hn; subst he; subst hs
  rfl

end dot

namespace dotx

open dot

theorem exPlainWorld_wf : exPlainWorld.WF := World.WF_of_check (by decide)

/-- Counterexample to C33 as stated: in the heap of `exPlainBuild` the inner graph of the
root `subsystem` has the node `part` with the `href` `part.svg`, and the plain subgraph
`part` (graph 2, no cluster option).  The conversion returns graph 4; after it the inner
graph of the root still has the one subgraph registered under `part`, graph 2, which is
not a cluster. -/
theorem C33_plain_subgraph_counterexample :
    exPlainBuild = some (exPlainRoot, exPlainChild, 2, exPlainWorld) ∧
    exPlainChild.OuterNode ∈ exPlainWorld.nodesOf exPlainRoot.Graph ∧
    exPlainChild.OuterNode.Attribute "href" exPlainWorld = Value.str "part.svg" ∧
    exPlainWorld.subgraphsOf exPlainRoot.Graph = [("part", 2)] ∧
    (exPlainWorld.graphs[2]?).map Graph.isCluster = some false ∧
    (ConvertExternalToSameGraph 4 exPlainRoot exPlainWorld).map
        (fun r => (r.1, r.2.subgraphsOf exPlainRoot.Graph,
          (r.2.graphs[2]?).map Graph.isCluster)) =
      some (4, [("part", 2)], some false) := by
  refine ⟨by decide, by decide, rfl, rfl, rfl, ?_⟩
  rfl

/-- C33, amended: the subgraph under the id of a child is a cluster when the conversion
creates it.  For a root composite of a well-formed heap, with a fuel above the number of
graphs, `ConvertExternalToSameGraph` returns, and for every node `n` of the root's inner
graph whose `href` is a non-empty string: after the call the inner graph has a subgraph
registered under the id of `n`, which is the subgraph that was registered under that id
before the call, with its options as they were, if there was one, and a newly created
cluster otherwise; and `n` has `shape` = `box3d` and `href` = its id with underscores for
spaces plus `.svg`.  When no node of the inner graph has a non-empty string `href`, every
graph of the heap before the call, so the root's outer and inner graphs, and every
attribute map are as before. -/
theorem C33_conversion_marks_children (fuel : Nat) (root : Composite) (W : World)
    (hW : W.WF) (hs : root.WF W) (hfuel : W.graphs.length < fuel) :
    ∃ T W', ConvertExternalToSameGraph fuel root W = some (T, W') ∧
      (∀ n ∈ W.nodesOf root.Graph, ∀ h : String, n.Attribute "href" W = Value.str h → h ≠ "" →
        (∃ r G, (W'.subgraphsOf root.Graph).lookup n.ID = some r ∧ W'.graphs[r]? = some G ∧
          (∀ K, (W.subgraphsOf root.Graph).lookup n.ID = some K →
            r = K ∧ ∃ G0, W.graphs[K]? = some G0 ∧ G.options = G0.options) ∧
          ((W.subgraphsOf root.Graph).lookup n.ID = none →
            W.graphs.length ≤ r ∧ G.isCluster = true)) ∧
        n.Attribute "shape" W' = Value.str "box3d" ∧
        n.Attribute "href" W' = Value.str (replaceSpaces n.ID ++ ".svg")) ∧
      ((∀ n ∈ W.nodesOf root.Graph, ∀ h : String, n.Attribute "href" W = Value.str h → h = "") →
        (∀ g : GraphRef, g < W.graphs.length → W'.graphs[g]? = W.graphs[g]?) ∧
        ∀ b : AttributesMap, b.attributes < W.attrs.length → W'.attrsOf b = W.attrsOf b) := by
  obtain ⟨hog, hig⟩ := Composite.WF.bounds hW hs
  obtain ⟨W', e, cp⟩ := ConvertExternalToSameGraph_spec fuel root hW hog hig hfuel
  refine ⟨W.graphs.length, W', e, ?_, ?_⟩
  · intro n hn h hh hne
    have hhas : hasHref W n = true := (hasHref_iff W n).mpr ⟨h, hh, hne⟩
    refine ⟨?_, cp.in_marks n hn hhas⟩
    obtain ⟨r, hr, hold, hnew⟩ := cp.in_reg n hn hhas
    cases hl : (W.subgraphsOf root.Graph).lookup n.id with
    | some K =>
      have hrK := hold K hl
      subst hrK
      have hlt := (hW.sub_facts (lookup_mem hl)).2
      obtain ⟨G0, hG0⟩ := World.graph_of_lt hlt
      have h0 : W'.headOf r = some (G0.toAttributesMap, G0.options) := by
        rw [cp.old_head r hlt]
        simp only [World.headOf, hG0]
      obtain ⟨G, hG, _, hGo⟩ := World.graph_of_headOf h0
      refine ⟨r, G, hr, hG, fun K hK => ?_, fun hnone => ?_⟩
      · have hKr : r = K := by
          have h2 : (W.subgraphsOf root.Graph).lookup n.id = some K := hK
          rw [hl] at h2
          exact Option.some.inj h2
        subst hKr
        exact ⟨rfl, G0, hG0, hGo⟩
      · have h2 : (W.subgraphsOf root.Graph).lookup n.id = none := hnone
        rw [hl] at h2
        cases h2
    | none =>
      obtain ⟨hge, a, hh⟩ := hnew hl
      obtain ⟨G, hG, _, hGo⟩ := World.graph_of_headOf hh
      refine ⟨r, G, hr, hG, fun K hK => ?_, fun _ => ⟨hge, by simp [Graph.isCluster, hGo]⟩⟩
      have h2 : (W.subgraphsOf root.Graph).lookup n.id = some K := hK
      rw [hl] at h2
      cases h2
  · intro hall
    have hno : ∀ n ∈ W.nodesOf root.Graph, hasHref W n = false := by
      intro n hn
      cases hb : hasHref W n with
      | false => rfl
      | true =>
        obtain ⟨h, hh, hne⟩ := (hasHref_iff W n).mp hb
        exact absurd (hall n hn h hh) hne
    obtain ⟨hattrs, hsubs⟩ := cp.in_same hno
    exact ⟨fun g hg => World.graph_ext hg (cp.old_head g hg) (cp.old_nodes g hg)
      (cp.old_edges g hg) (hsubs g hg), hattrs⟩

/-- Witness of C33, amended: the composite `subsystem` of `exPlainBuild`, whose inner graph
has the node `part` with an `href` and a plain subgraph registered under `part`. -/
theorem C33_conversion_marks_children_witness :
    ∃ T W', ConvertExternalToSameGraph 5 exPlainRoot exPlainWorld = some (T, W') ∧
      (∀ n ∈ exPlainWorld.nodesOf exPlainRoot.Graph, ∀ h : String,
        n.Attribute "href" exPlainWorld = Value.str h → h ≠ "" →
        (∃ r G, (W'.subgraphsOf exPlainRoot.Graph).lookup n.ID = some r ∧
          W'.graphs[r]? = some G ∧
          (∀ K, (exPlainWorld.subgraphsOf exPlainRoot.Graph).lookup n.ID = some K →
            r = K ∧ ∃ G0, exPlainWorld.graphs[K]? = some G0 ∧ G.options = G0.options) ∧
          ((exPlainWorld.subgraphsOf exPlainRoot.Graph).lookup n.ID = none →
            exPlainWorld.graphs.length ≤ r ∧ G.isCluster = true)) ∧
        n.Attribute "shape" W' = Value.str "box3d" ∧
        n.Attribute "href" W' = Value.str (replaceSpaces n.ID ++ ".svg")) ∧
      ((∀ n ∈ exPlainWorld.nodesOf exPlainRoot.Graph, ∀ h : String,
          n.Attribute "href" exPlainWorld = Value.str h → h = "") →
        (∀ g : GraphRef, g < exPlainWorld.graphs.length →
          W'.graphs[g]? = exPlainWorld.graphs[g]?) ∧
        ∀ b : AttributesMap, b.attributes < exPlainWorld.attrs.length →
          W'.attrsOf b = exPlainWorld.attrsOf b) :=
  C33_conversion_marks_children 5 exPlainRoot exPlainWorld exPlainWorld_wf (by decide)
    (by decide)

end dotx

namespace dotx

open dot

/-- Witness of C34: the composite `subsystem` of `exConvBuild`, whose inner graph has
no subgraph and one node with an `href`. -/
theorem C34_conversion_terminates_witness :
    (∃ T W', ConvertExternalToSameGraph 4 exConvRoot exConvWorld = some (T, W') ∧
      (exConvWorld.subgraphsOf exConvRoot.Graph = [] →
        ∃ C, W'.subgraphsOf T = [(exConvRoot.OuterNode.ID, C)] ∧
          ∀ q ∈ W'.subgraphsOf C, W'.subgraphsOf q.2 = [])) ∧
    (∃ children W1, findChildComposites exConvRoot exConvWorld = some (children, W1) ∧
      ∀ x ∈ children,
        (W1.subgraphsOf exConvRoot.Graph).lookup x.OuterNode.ID = some x.Graph ∧
        exConvRoot.Graph < x.Graph ∧
        ((exConvWorld.subgraphsOf exConvRoot.Graph).lookup x.OuterNode.ID = none →
          exConvWorld.graphs.length ≤ x.Graph ∧ W1.nodesOf x.Graph = [] ∧
            W1.edgesOf x.Graph = [] ∧ W1.subgraphsOf x.Graph = []) ∧
        (∀ K, (exConvWorld.subgraphsOf exConvRoot.Graph).lookup x.OuterNode.ID = some K →
          x.Graph = K ∧ K < exConvWorld.graphs.length)) :=
  C34_conversion_terminates 4 exConvRoot exConvRoot exConvWorld exConvWorld_wf (by decide)
    (by decide) (by decide)

end dotx


namespace dotx

open dot

/-- `NewComposite` of kind `SameGraph` on a graph that has a subgraph registered under the
id: the inner graph is that subgraph, and no graph changes its options or its subgraphs. -/
theorem NewComposite_found (d id : String) {g K : GraphRef} {W : World}
    (hW : W.WF) (hg : g < W.graphs.length) (hK : (W.subgraphsOf g).lookup id = some K) :
    ∃ s W', NewComposite d id g SameGraph W = some (s, W') ∧ s.Graph = K ∧
      (∀ i : GraphRef, W'.headOf i = W.headOf i) ∧
      (∀ i : GraphRef, W'.subgraphsOf i = W.subgraphsOf i) := by
  have h1 := Graph.Subgraph_of_lookup [GraphOption.ClusterOption] hK
  obtain ⟨n, W2, h2, P2⟩ := Graph.Node_spec id hW hg
  obtain ⟨W3, h3, wf3, g3, al3, _⟩ :=
    AttributesMap.SetAttribute_wf (a := n.toAttributesMap) "shape" (Value.str "box3d")
      P2.wf P2.attr_lt
  obtain ⟨W4, h4, _, g4, _⟩ :=
    Composite.ExportName_spec
      { Graph := K, outerNode := n, outerGraph := g, dotFilename := "", kind := SameGraph }
      d id wf3 (by rw [al3]; exact P2.attr_lt)
  have hgraphs : W4.graphs = W2.graphs := g4.trans g3
  refine ⟨{ Graph := K, outerNode := n, outerGraph := g,
            dotFilename := d ++ (replaceSpaces id ++ ".dot"), kind := SameGraph }, W4, ?_, rfl,
    fun i => ?_, fun i => ?_⟩
  · simp only [NewComposite, if_true, h1, h2, Node.SetAttribute_node_eq h3]
    exact h4
  · exact (World.headOf_of_graphs (by rw [hgraphs])).trans (Graph.Node_head h2 i)
  · rw [World.subgraphsOf_congr hgraphs, P2.subs]

theorem exPartWorld_wf : exPartWorld.WF := World.WF_of_check (by decide)

/-- Counterexample to C8 as stated: the graph 0 of `exPartBuild` has the plain subgraph
`part` (graph 1, no cluster option).  `NewComposite("testing/", "part", g, SameGraph)`
returns a composite whose inner graph is that subgraph, which is registered under `part`
and is not a cluster. -/
theorem C8_plain_subgraph_counterexample :
    exPartBuild = some (1, exPartWorld) ∧
    exPartWorld.subgraphsOf 0 = [("part", 1)] ∧
    (exPartWorld.graphs[1]?).map Graph.isCluster = some false ∧
    (NewComposite "testing/" "part" 0 SameGraph exPartWorld).map
        (fun r => (r.1.Graph, r.1.kind, r.2.subgraphsOf 0,
          (r.2.graphs[r.1.Graph]?).map Graph.isCluster)) =
      some (1, SameGraph, [("part", 1)], some false) := by
  refine ⟨by decide, rfl, rfl, ?_⟩
  decide

/-- C8, amended: the kind decides the inner graph, which for `SameGraph` is a cluster when
the call creates it.  On a well-formed heap with an existing graph `g`:
`NewComposite(d, id, g, SameGraph)` returns a composite whose inner graph is the subgraph
registered in `g` under `id`, the graph that `g.Subgraph(id, cluster)` yields; when no
subgraph was registered under `id` before, it is a new cluster without nodes and edges, and
otherwise it is the subgraph registered before, with its options as they were.
`NewComposite(d, id, g, ExternalGraph)` returns a composite whose inner graph is a new
directed graph with no nodes, no edges and no subgraphs, registered as a subgraph of no
graph, and adding a node or an edge to it leaves the nodes, edges and subgraphs of `g`
unchanged in every well-formed heap. -/
theorem C8_kind_decides_inner_graph (d id : String) (g : GraphRef) (W : World)
    (hW : W.WF) (hg : g < W.graphs.length) :
    (∃ s W', NewComposite d id g SameGraph W = some (s, W') ∧
      (W'.subgraphsOf g).lookup id = some s.Graph ∧
      Graph.Subgraph g id [GraphOption.ClusterOption] W' = some (s.Graph, W') ∧
      ((W.subgraphsOf g).lookup id = none →
        s.Graph = W.graphs.length ∧
        ∃ G : Graph, W'.graphs[s.Graph]? = some G ∧ G.isCluster = true ∧ G.nodes = [] ∧
          G.edges = []) ∧
      (∀ K, (W.subgraphsOf g).lookup id = some K →
        s.Graph = K ∧ W'.subgraphsOf g = W.subgraphsOf g ∧
        ∃ G0 G : Graph, W.graphs[K]? = some G0 ∧ W'.graphs[K]? = some G ∧
          G.options = G0.options)) ∧
    (∃ s W', NewComposite d id g ExternalGraph W = some (s, W') ∧
      s.Graph = W.graphs.length ∧
      (∃ G : Graph, W'.graphs[s.Graph]? = some G ∧ G.isDirected = true ∧ G.nodes = [] ∧
        G.edges = [] ∧ G.subgraphs = []) ∧
      (∀ (i : GraphRef) (q : String × GraphRef), q ∈ W'.subgraphsOf i → q.2 ≠ s.Graph) ∧
      (∀ W1 : World, W1.WF → s.Graph < W1.graphs.length →
        (∀ nid : String, ∃ n W2, Graph.Node s.Graph nid W1 = some (n, W2) ∧
          W2.nodesOf g = W1.nodesOf g ∧ W2.edgesOf g = W1.edgesOf g ∧
          W2.subgraphsOf g = W1.subgraphsOf g) ∧
        (∀ (a b : dot.Node) (fp tp : String) (labels : List String),
          ∃ e W2, Graph.EdgeWithPorts s.Graph a b fp tp labels W1 = some (e, W2) ∧
            W2.nodesOf g = W1.nodesOf g ∧ W2.edgesOf g = W1.edgesOf g ∧
            W2.subgraphsOf g = W1.subgraphsOf g))) := by
  refine ⟨?_, ?_⟩
  · obtain ⟨s, W', h, P⟩ := NewComposite_spec d id SameGraph hW hg
    obtain ⟨a, b, c⟩ := P.same rfl
    refine ⟨s, W', h, a, b, fun hn => ?_, fun K hK => ?_⟩
    · have hs : s.Graph = W.graphs.length :=
        (dottwin.NewComposite_shape d id SameGraph hW hg (fun _ => hn) h).1
      exact ⟨hs, _, c hn, by simp [Graph.isCluster], rfl, rfl⟩
    · obtain ⟨s1, W1, h1, hsK, hhead, hsubs⟩ := NewComposite_found d id hW hg hK
      rw [h] at h1
      simp only [Option.some.injEq, Prod.mk.injEq] at h1
      obtain ⟨e1, e2⟩ := h1
      subst e1; subst e2
      have hlt := (hW.sub_facts (lookup_mem hK)).2
      obtain ⟨G0, hG0⟩ := World.graph_of_lt hlt
      have h0 : W'.headOf K = some (G0.toAttributesMap, G0.options) := by
        rw [hhead K]
        simp only [World.headOf, hG0]
      obtain ⟨G, hG, _, hGo⟩ := World.graph_of_headOf h0
      exact ⟨hsK, hsubs g, G0, G, hG0, hG, hGo⟩
  · obtain ⟨s, W', h, P⟩ := NewComposite_spec d id ExternalGraph hW hg
    have hne : g ≠ s.Graph := by
      have := P.swf.2.2
      rw [P.outerGraph_eq] at this
      exact fun h => this h.symm
    have hk' : ExternalGraph ≠ SameGraph := by decide
    obtain ⟨a, b, c⟩ := P.ext hk'
    refine ⟨s, W', h, a, ⟨_, b, by simp [Graph.isDirected], rfl, rfl, rfl⟩, c,
      fun W1 hW1 hs1 => ⟨fun nid => ?_, ?_⟩⟩
    · obtain ⟨n, W2, h2, P2⟩ := Graph.Node_spec nid hW1 hs1
      exact ⟨n, W2, h2, P2.nodes_ne g hne, P2.edges g, P2.subs g⟩
    · intro x y fp tp labels
      obtain ⟨e, W2, h2, P2⟩ := Graph.EdgeWithPorts_spec x y fp tp labels hW1 hs1
      exact ⟨e, W2, h2, P2.nodes g, P2.edges_ne g hne, P2.subs g⟩

/-- Witness of C8, amended: the two kinds of composite `subsystem` on a new directed graph. -/
theorem C8_kind_decides_inner_graph_witness :
    (∃ s W', NewComposite "testing/" "subsystem" 0 SameGraph exRoot = some (s, W') ∧
      (W'.subgraphsOf 0).lookup "subsystem" = some s.Graph ∧
      Graph.Subgraph 0 "subsystem" [GraphOption.ClusterOption] W' = some (s.Graph, W') ∧
      ((exRoot.subgraphsOf 0).lookup "subsystem" = none →
        s.Graph = exRoot.graphs.length ∧
        ∃ G : Graph, W'.graphs[s.Graph]? = some G ∧ G.isCluster = true ∧ G.nodes = [] ∧
          G.edges = []) ∧
      (∀ K, (exRoot.subgraphsOf 0).lookup "subsystem" = some K →
        s.Graph = K ∧ W'.subgraphsOf 0 = exRoot.subgraphsOf 0 ∧
        ∃ G0 G : Graph, exRoot.graphs[K]? = some G0 ∧ W'.graphs[K]? = some G ∧
          G.options = G0.options)) ∧
    (∃ s W', NewComposite "testing/" "subsystem" 0 ExternalGraph exRoot = some (s, W') ∧
      s.Graph = exRoot.graphs.length ∧
      (∃ G : Graph, W'.graphs[s.Graph]? = some G ∧ G.isDirected = true ∧ G.nodes = [] ∧
        G.edges = [] ∧ G.subgraphs = []) ∧
      (∀ (i : GraphRef) (q : String × GraphRef), q ∈ W'.subgraphsOf i → q.2 ≠ s.Graph) ∧
      (∀ W1 : World, W1.WF → s.Graph < W1.graphs.length →
        (∀ nid : String, ∃ n W2, Graph.Node s.Graph nid W1 = some (n, W2) ∧
          W2.nodesOf 0 = W1.nodesOf 0 ∧ W2.edgesOf 0 = W1.edgesOf 0 ∧
          W2.subgraphsOf 0 = W1.subgraphsOf 0) ∧
        (∀ (a b : dot.Node) (fp tp : String) (labels : List String),
          ∃ e W2, Graph.EdgeWithPorts s.Graph a b fp tp labels W1 = some (e, W2) ∧
            W2.nodesOf 0 = W1.nodesOf 0 ∧ W2.edgesOf 0 = W1.edgesOf 0 ∧
            W2.subgraphsOf 0 = W1.subgraphsOf 0))) :=
  C8_kind_decides_inner_graph "testing/" "subsystem" 0 exRoot exRoot_wf (by decide)

end dotx


namespace dot

/-- Counterexample to C27 as stated: on a new graph, two calls `g.Node("a")` give two
handles of one node; `SetAttribute("", "skip")` through the first handle returns it and
stores nothing, and `Attribute("")` through the second handle is nil, not `skip`. -/
theorem C27_empty_name_counterexample :
    ((Graph.Node 0 "a" dotx.exRoot).bind fun r1 =>
      (Graph.Node 0 "a" r1.2).bind fun r2 =>
        (r1.1.SetAttribute "" (Value.str "skip") r2.2).map fun r3 =>
          (decide (r3.1 = r1.1), decide (r2.1 = r1.1), r2.1.Attribute "" r3.2)) =
      some (true, true, Value.nil) := by
  decide

end dot
